import Mathlib

/-!
# ICU collation rule parser (`collationruleparser.cpp`): a shallow embedding

The parser object of the source is a record of mutable fields (`rules`, `ruleIndex`,
the scratch strings `raw`, `prefix`, `str`, `extension`, the error out-parameters, the
settings and the sink).  Here every member function is a function on that record.

Conventions.
* A `UnicodeString` is the list of its UTF-16 code units (natural numbers below `0x10000`).
* `int32_t` indices never leave the range `0 .. length + 7`, far from overflow, and are `Nat`;
  quantities the source lets go negative (`prev`, strengths, `NO_RELATION`) are `Int`.
  The one index that can run away from its string is the `j` of `parseUnicodeSet`; there the
  increment at `INT32_MAX` is modelled as having no result.
* Collaborators that the parser only calls (white space classification, the two normalizers,
  the sink, the importer, ...) are the fields of `Services`.
* Loops are structural recursions on a fuel argument; each wrapper passes a fuel that bounds
  the number of iterations of the loop it runs.

The syllable scanner of `IndicReordering.cpp` (`stateTable`, `findSyllable`) is embedded in
the namespace `IndicReordering`.
-/

namespace CollationRuleParser

/-! ## UTF-16 helpers (`utf16.h`, `unistr.h`) -/

/-- The value `UnicodeString::charAt` returns for an index out of range. -/
def kInvalidUChar : Nat := 0xffff

/-- `UnicodeString::charAt`: the code unit at `i`, or `kInvalidUChar` out of range. -/
def charAt (s : List Nat) (i : Nat) : Nat := s.getD i kInvalidUChar

/-- `U16_IS_LEAD`: lead (high) surrogate code unit. -/
def U16_IS_LEAD (c : Nat) : Bool := decide (0xd800 ≤ c ∧ c ≤ 0xdbff)

/-- `U16_IS_TRAIL`: trail (low) surrogate code unit. -/
def U16_IS_TRAIL (c : Nat) : Bool := decide (0xdc00 ≤ c ∧ c ≤ 0xdfff)

/-- `U_IS_SURROGATE`: surrogate code point. -/
def U_IS_SURROGATE (c : Nat) : Bool := decide (0xd800 ≤ c ∧ c ≤ 0xdfff)

/-- `U16_GET_SUPPLEMENTARY`: the code point of a surrogate pair,
`(lead << 10) + trail - ((0xd800 << 10) + 0xdc00 - 0x10000)`. -/
def U16_GET_SUPPLEMENTARY (lead trail : Nat) : Nat := lead * 0x400 + trail - 0x35fdc00

/-- `U16_LENGTH`: number of code units of a code point. -/
def U16_LENGTH (c : Nat) : Nat := if c ≤ 0xffff then 1 else 2

/-- `U16_LEAD`: lead surrogate of a supplementary code point, `(c >> 10) + 0xd7c0`. -/
def U16_LEAD (c : Nat) : Nat := c / 0x400 + 0xd7c0

/-- `U16_TRAIL`: trail surrogate of a supplementary code point, `(c & 0x3ff) | 0xdc00`. -/
def U16_TRAIL (c : Nat) : Nat := c % 0x400 + 0xdc00

/-- `UnicodeString::char32At`, which is `U16_GET` inside the string: the code point that
contains the code unit at `i` (looking one unit ahead from a lead surrogate and one unit back
from a trail surrogate), or `kInvalidUChar` out of range. -/
def char32At (s : List Nat) (i : Nat) : Nat :=
  if i < s.length then
    let c := charAt s i
    if U_IS_SURROGATE c then
      if U16_IS_LEAD c then
        if i + 1 ≠ s.length && U16_IS_TRAIL (charAt s (i + 1)) then
          U16_GET_SUPPLEMENTARY c (charAt s (i + 1))
        else c
      else
        if 0 < i && U16_IS_LEAD (charAt s (i - 1)) then
          U16_GET_SUPPLEMENTARY (charAt s (i - 1)) c
        else c
    else c
  else kInvalidUChar

/-- `U16_APPEND` as used by `UnicodeString::append(UChar32)` and `setTo(UChar32)`:
the code units of one code point (nothing for a value above `0x10ffff`). -/
def U16_APPEND (c : Nat) : List Nat :=
  if c ≤ 0xffff then [c]
  else if c ≤ 0x10ffff then [U16_LEAD c, U16_TRAIL c]
  else []

/-! ## Constants of `collationruleparser.h` -/

/-- Modelled from the spec: the header `collationruleparser.h` with the strength enum is not
among the sources.  The spec gives the order PRIMARY < SECONDARY < TERTIARY < IDENTICAL and
the source computes `PRIMARY + (c - 0x31)` for `[before 1..3]`, so the first three are
consecutive. -/
def PRIMARY : Int := 0

/-- Modelled from the spec: see `PRIMARY`. -/
def SECONDARY : Int := 1

/-- Modelled from the spec: see `PRIMARY`. -/
def TERTIARY : Int := 2

/-- Modelled from the spec: see `PRIMARY`; the strongest value, above `TERTIARY` and inside
`STRENGTH_MASK`. -/
def IDENTICAL : Int := 3

/-- Modelled from the spec: the out-of-band value for "no relation operator here",
different from every strength and from every encoded operator result. -/
def NO_RELATION : Int := -1

/-- Modelled from the spec: the mask that separates the strength from the starred bit `0x10`
and the operator length above bit 8. -/
def STRENGTH_MASK : Int := 0xf

/-- Modelled from the spec: first unit of the two-unit string of a special reset position. -/
def POS_LEAD : Nat := 0xfffe

/-- Modelled from the spec: base of the second unit of a special reset position. -/
def POS_BASE : Nat := 0x2800

/-- Index of "last variable" in `positions`. -/
def LAST_VARIABLE : Nat := 7

/-- Index of "last regular" in `positions`. -/
def LAST_REGULAR : Nat := 11

/-- `U_PARSE_CONTEXT_LEN` of `parseerr.h`. -/
def U_PARSE_CONTEXT_LEN : Nat := 16

/-! ## State -/

/-- The error codes of `utypes.h` that the parser sets or tests. -/
inductive UErrorCode where
  | U_ZERO_ERROR
  | U_PARSE_ERROR
  | U_MEMORY_ALLOCATION_ERROR
  | U_ILLEGAL_ARGUMENT_ERROR
  | U_UNSUPPORTED_ERROR
  | U_INVARIANT_CONVERSION_ERROR
  deriving DecidableEq, Repr

/-- `U_FAILURE`. -/
def U_FAILURE (e : UErrorCode) : Bool := decide (e ≠ UErrorCode.U_ZERO_ERROR)

/-- `UParseError`; the two context buffers without their terminating zero. -/
structure UParseError where
  line : Int
  offset : Int
  preContext : List Nat
  postContext : List Nat
  deriving DecidableEq, Repr

/-- One invocation of a `Sink` method, with its arguments. -/
inductive SinkCall where
  | addReset (strength : Int) (str : List Nat)
  | addRelation (strength : Int) (pfx str extension : List Nat)
  | suppressContractions (set : List Nat)
  deriving DecidableEq, Repr

/-- The fields of `CollationSettings` the parser writes. -/
structure CollationSettings where
  strength : Int
  alternateHandling : Int
  caseFirst : Int
  backwardSecondary : Bool
  caseLevel : Bool
  checkFCD : Bool
  numeric : Bool
  reorderCodes : Option (List Int)
  reorderCodesLength : Nat
  reorderTable : Option (List Nat)
  deriving DecidableEq, Repr

/-- The mutable fields of a `CollationRuleParser`, the `UErrorCode` and `UParseError`
out-parameters, and the trace of the calls made to the sink. -/
structure Parser where
  rules : List Nat
  ruleIndex : Nat
  raw : List Nat
  pfx : List Nat
  str : List Nat
  extension : List Nat
  errorCode : UErrorCode
  errorReason : Option String
  parseError : Option UParseError
  settings : CollationSettings
  optimizeSet : List Nat
  sinkCalls : List SinkCall
  deriving DecidableEq, Repr

/-- The collaborators of the parser, none of which is among the sources. -/
structure Services where
  /-- `PatternProps::isWhiteSpace` on a code unit. -/
  isWhiteSpace : Nat → Bool
  /-- `nfd.isInert` on a code point. -/
  nfdIsInert : Nat → Bool
  /-- `nfd.normalize` on a string. -/
  nfdNormalize : List Nat → List Nat
  /-- `fcc.normalize` on a string. -/
  fccNormalize : List Nat → List Nat
  /-- The sink: given the calls made so far and a new call, `none` when the sink accepts it,
  otherwise the error code and reason it sets. -/
  sink : List SinkCall → SinkCall → Option (UErrorCode × String)
  /-- Whether `CharString::appendInvariantChars` accepts the string (all its characters are
  invariant characters). -/
  isInvariantString : List Nat → Bool
  /-- `uloc_forLanguageTag`: the locale ID when the whole tag is parsed and fits the buffer. -/
  forLanguageTag : List Nat → Option (List Nat)
  /-- The importer, if there is one: `getRules` gives the rules of a locale ID, or the error
  code and reason it sets. -/
  importer : Option (List Nat → Except (UErrorCode × String) (List Nat))
  /-- `u_getPropertyValueEnum(UCHAR_SCRIPT, word)`. -/
  getPropertyValueEnum : List Nat → Int
  /-- `baseData->makeReorderTable`: the table it writes and the error code it sets, if any. -/
  makeReorderTable : List Int → List Nat × Option UErrorCode
  /-- `UnicodeSet::applyPattern`: the set of a pattern, or `none` when it sets a failure. -/
  applyPattern : List Nat → Option (List Nat)

/-! ## Scanner primitives -/

/-- `CollationRuleParser::isSyntaxChar`. -/
def isSyntaxChar (c : Nat) : Bool :=
  decide (0x21 ≤ c) && decide (c ≤ 0x7e) &&
    (decide (c ≤ 0x2f) || (decide (0x3a ≤ c) && decide (c ≤ 0x40)) ||
      (decide (0x5b ≤ c) && decide (c ≤ 0x60)) || decide (0x7b ≤ c))

/-- The loop of `skipWhiteSpace`. -/
def skipWhiteSpaceLoop (sv : Services) (rules : List Nat) : Nat → Nat → Nat
  | 0, i => i
  | fuel + 1, i =>
    if i < rules.length && sv.isWhiteSpace (charAt rules i) then
      skipWhiteSpaceLoop sv rules fuel (i + 1)
    else i

/-- `CollationRuleParser::skipWhiteSpace`. -/
def skipWhiteSpace (sv : Services) (rules : List Nat) (i : Nat) : Nat :=
  skipWhiteSpaceLoop sv rules (rules.length - i) i

/-- `UnicodeString::extract(start, length, dst)`: the units copied, with `start` and
`length` pinned to the string. -/
def extract (s : List Nat) (start : Nat) (length : Int) : List Nat :=
  (s.drop start).take length.toNat

/-- `CollationRuleParser::setParseError`. -/
def setParseError (reason : String) (p : Parser) : Parser :=
  if U_FAILURE p.errorCode then p
  else
    let p1 := { p with errorCode := UErrorCode.U_PARSE_ERROR, errorReason := some reason }
    match p.parseError with
    | none => p1
    | some _ =>
      let start0 : Int := (p.ruleIndex : Int) - ((U_PARSE_CONTEXT_LEN : Int) - 1)
      let start : Nat :=
        if start0 < 0 then 0
        else if 0 < start0 && U16_IS_TRAIL (charAt p.rules start0.toNat) then start0.toNat + 1
        else start0.toNat
      let length : Int := (p.ruleIndex : Int) - start
      let pre := extract p.rules start length
      let length1 : Int := (p.rules.length : Int) - p.ruleIndex
      let length2 : Int :=
        if length1 ≥ U_PARSE_CONTEXT_LEN then
          if U16_IS_LEAD (charAt p.rules (p.ruleIndex + (U_PARSE_CONTEXT_LEN - 1) - 1)) then
            (U_PARSE_CONTEXT_LEN : Int) - 1 - 1
          else (U_PARSE_CONTEXT_LEN : Int) - 1
        else length1
      let post := extract p.rules p.ruleIndex length2
      { p1 with parseError := some { line := 0, offset := p.ruleIndex,
                                     preContext := pre, postContext := post } }

/-- A call of a sink method: the call is made whatever the error code is; a sink follows
the ICU convention of doing nothing when the error code already is a failure. -/
def callSink (sv : Services) (call : SinkCall) (p : Parser) : Parser :=
  let p1 := { p with sinkCalls := p.sinkCalls ++ [call] }
  if U_FAILURE p.errorCode then p1
  else
    match sv.sink p.sinkCalls call with
    | none => p1
    | some (e, r) => { p1 with errorCode := e, errorReason := some r }

/-- `CollationRuleParser::parseRelationOperator`; `x << 8` is `x * 256`, and `|` is
`Int.lor`. -/
def parseRelationOperator (p : Parser) : Int :=
  if U_FAILURE p.errorCode || decide (p.ruleIndex ≥ p.rules.length) then NO_RELATION
  else
    let len := p.rules.length
    let i := p.ruleIndex
    let c := charAt p.rules i
    let i := i + 1
    if c = 0x3c then
      let (i, strength) :=
        if i < len && charAt p.rules i = 0x3c then
          if i + 1 < len && charAt p.rules (i + 1) = 0x3c then (i + 2, TERTIARY)
          else (i + 1, SECONDARY)
        else (i, PRIMARY)
      let (i, strength) :=
        if i < len && charAt p.rules i = 0x2a then (i + 1, Int.lor strength 0x10)
        else (i, strength)
      Int.lor (((i - p.ruleIndex : Nat) : Int) * 256) strength
    else if c = 0x3b then
      Int.lor (((i - p.ruleIndex : Nat) : Int) * 256) SECONDARY
    else if c = 0x2c then
      Int.lor (((i - p.ruleIndex : Nat) : Int) * 256) TERTIARY
    else if c = 0x3d then
      let (i, strength) :=
        if i < len && charAt p.rules i = 0x2a then (i + 1, Int.lor IDENTICAL 0x10)
        else (i, IDENTICAL)
      Int.lor (((i - p.ruleIndex : Nat) : Int) * 256) strength
    else NO_RELATION

/-! ## String literals -/

/-- The inner `for(;;)` of `parseString` that reads quoted literal text.  The flag is `false`
when the text ends before the closing apostrophe; the fuel is the number of code units left,
which runs out only where the text ends. -/
def parseQuotedLoop (rules : List Nat) : Nat → Nat → List Nat → Bool × Nat × List Nat
  | 0, i, raw => (false, i, raw)
  | fuel + 1, i, raw =>
    if i = rules.length then (false, i, raw)
    else
      let c := charAt rules i
      let i := i + 1
      if c = 0x27 then
        if i < rules.length && charAt rules i = 0x27 then
          parseQuotedLoop rules fuel (i + 1) (raw ++ [c])
        else (true, i, raw)
      else parseQuotedLoop rules fuel i (raw ++ [c])

/-- The scanning loop of `parseString`.  The flag is `true` when the loop was left by a
`return i` after an error, `false` when it ended or was left by `break`. -/
def parseStringLoop (sv : Services) (allowDash : Bool) : Nat → Nat → Parser → Bool × Nat × Parser
  | 0, i, p => (false, i, p)
  | fuel + 1, i, p =>
    if i < p.rules.length then
      let c := charAt p.rules i
      let i := i + 1
      if isSyntaxChar c then
        if c = 0x27 then
          if i < p.rules.length && charAt p.rules i = 0x27 then
            parseStringLoop sv allowDash fuel (i + 1) { p with raw := p.raw ++ [0x27] }
          else
            match parseQuotedLoop p.rules (p.rules.length - i) i p.raw with
            | (false, i, raw) =>
              (true, i, setParseError "quoted literal text missing terminating apostrophe"
                          { p with raw := raw })
            | (true, i, raw) => parseStringLoop sv allowDash fuel i { p with raw := raw }
        else if c = 0x5c then
          if i = p.rules.length then
            (true, i, setParseError "backslash escape at the end of the rule string" p)
          else
            let c := char32At p.rules i
            parseStringLoop sv allowDash fuel (i + U16_LENGTH c)
              { p with raw := p.raw ++ U16_APPEND c }
        else if c = 0x2d && allowDash then
          parseStringLoop sv allowDash fuel i { p with raw := p.raw ++ [c] }
        else (false, i, p)
      else if sv.isWhiteSpace c then (false, skipWhiteSpace sv p.rules i, p)
      else parseStringLoop sv allowDash fuel i { p with raw := p.raw ++ [c] }
    else (false, i, p)

/-- The loop of `parseString` that checks the decoded string code point by code point. -/
def checkStringLoop : Nat → Nat → Parser → Parser
  | 0, _, p => p
  | fuel + 1, j, p =>
    if j < p.raw.length then
      let c := char32At p.raw j
      if U_IS_SURROGATE c then setParseError "string contains an unpaired surrogate" p
      else if c = 0xfffe || c = 0xffff then setParseError "string contains U+FFFE or U+FFFF" p
      else checkStringLoop fuel (j + U16_LENGTH c) p
    else p

/-- `CollationRuleParser::parseString`: the offset returned and the state left. -/
def parseString (sv : Services) (i : Nat) (allowDash : Bool) (p : Parser) : Nat × Parser :=
  if U_FAILURE p.errorCode then (i, p)
  else
    let p := { p with raw := [] }
    let i := skipWhiteSpace sv p.rules i
    match parseStringLoop sv allowDash (p.rules.length - i) i p with
    | (true, i, p) => (i, p)
    | (false, i, p) =>
      if p.raw.isEmpty then (i, setParseError "missing string" p)
      else (i, checkStringLoop p.raw.length 0 p)

/-- `Normalizer2::normalize(src, dest, errorCode)`: when the error code already is a failure
the destination is set to bogus, which reads as the empty string. -/
def normalize (f : List Nat → List Nat) (src : List Nat) (e : UErrorCode) : List Nat :=
  if U_FAILURE e then [] else f src

/-- `CollationRuleParser::parseTailoringString`. -/
def parseTailoringString (sv : Services) (i : Nat) (p : Parser) : Nat × Parser :=
  let r := parseString sv i false p
  let nfdLength := (normalize sv.nfdNormalize r.2.raw r.2.errorCode).length
  if nfdLength > 31 then (r.1, setParseError "tailoring string too long" r.2)
  else r

/-- `CollationRuleParser::resetTailoringStrings`. -/
def resetTailoringStrings (p : Parser) : Parser :=
  { p with pfx := [], str := [], extension := [] }

/-! ## Relations -/

/-- The tail of `parseRelationStrings` from `fcc.normalize(raw, str, errorCode)` on. -/
def parseRelationTail (sv : Services) (strength : Int) (i : Nat) (next : Nat) (p : Parser) :
    Parser :=
  let p := { p with str := normalize sv.fccNormalize p.raw p.errorCode }
  let r : Nat × Parser :=
    if next = 0x2f then
      let r := parseTailoringString sv (i + 1) p
      (r.1, { r.2 with extension := normalize sv.fccNormalize r.2.raw r.2.errorCode })
    else (i, p)
  let p := callSink sv (SinkCall.addRelation strength r.2.pfx r.2.str r.2.extension) r.2
  { p with ruleIndex := r.1 }

/-- `CollationRuleParser::parseRelationStrings`. -/
def parseRelationStrings (sv : Services) (strength : Int) (i : Nat) (p : Parser) : Parser :=
  let p := resetTailoringStrings p
  let r := parseTailoringString sv i p
  if U_FAILURE r.2.errorCode then r.2
  else
    let i := r.1
    let p := r.2
    let next := if i < p.rules.length then charAt p.rules i else 0
    if next = 0x7c then
      let p := { p with pfx := normalize sv.fccNormalize p.raw p.errorCode }
      let r := parseTailoringString sv (i + 1) p
      if U_FAILURE r.2.errorCode then r.2
      else
        let i := r.1
        let p := r.2
        let next := if i < p.rules.length then charAt p.rules i else 0
        parseRelationTail sv strength i next p
    else parseRelationTail sv strength i next p

/-- The loop `while(++prev <= c)` of `parseStarredCharacters`. -/
def parseStarredRange (sv : Services) (strength : Int) : Nat → Int → Nat → Parser → Parser
  | 0, _, _, p => p
  | fuel + 1, prev, c, p =>
    let prev := prev + 1
    if prev ≤ (c : Int) then
      let p := { p with str := U16_APPEND prev.toNat }
      let p := callSink sv (SinkCall.addRelation strength p.pfx p.str p.extension) p
      parseStarredRange sv strength fuel prev c p
    else p

/-- The loop of `parseStarredCharacters` over the decoded string.  The flag is `true` when
the loop was left by `return` after an error. -/
def parseStarredLoop (sv : Services) (strength : Int) : Nat → Nat → Int → Parser → Bool × Parser
  | 0, _, _, p => (false, p)
  | fuel + 1, j, prev, p =>
    if j < p.raw.length && !U_FAILURE p.errorCode then
      let c := char32At p.raw j
      if c ≠ 0x2d then
        if !sv.nfdIsInert c then
          (true, setParseError "starred-relation string is not all NFD-inert" p)
        else
          let p := { p with str := U16_APPEND c }
          let p := callSink sv (SinkCall.addRelation strength p.pfx p.str p.extension) p
          parseStarredLoop sv strength fuel (j + U16_LENGTH c) c p
      else
        if prev < 0 then
          (true, setParseError "range without start in starred-relation string" p)
        else
          let j := j + 1
          if j = p.raw.length then
            (true, setParseError "range without end in starred-relation string" p)
          else
            let c := char32At p.raw j
            if !sv.nfdIsInert c then
              (true, setParseError "starred-relation string is not all NFD-inert" p)
            else if (c : Int) < prev then
              (true, setParseError "range start greater than end in starred-relation string" p)
            else
              let j := j + U16_LENGTH c
              let p := parseStarredRange sv strength (c + 1 - prev.toNat) prev c p
              parseStarredLoop sv strength fuel j (-1) p
    else (false, p)

/-- `CollationRuleParser::parseStarredCharacters`. -/
def parseStarredCharacters (sv : Services) (strength : Int) (i : Nat) (p : Parser) : Parser :=
  let p := resetTailoringStrings p
  let r := parseString sv i true p
  if U_FAILURE r.2.errorCode then r.2
  else
    match parseStarredLoop sv strength r.2.raw.length 0 (-1) r.2 with
    | (true, p) => p
    | (false, p) => { p with ruleIndex := r.1 }

/-! ## Resets -/

/-- `UNICODE_STRING_SIMPLE`, `UnicodeString(chars, -1, US_INV)`: the code units of an ASCII
literal. -/
def ustr (s : String) : List Nat := s.toList.map Char.toNat

/-- The loop of `readWords`; the fuel is one more than the number of code units left. -/
def readWordsLoop (sv : Services) : Nat → Nat → Parser → Nat × Parser
  | 0, _, p => (0, p)
  | fuel + 1, i, p =>
    if i ≥ p.rules.length then (0, p)
    else
      let c := charAt p.rules i
      if isSyntaxChar c && c ≠ 0x2d && c ≠ 0x5f then
        if p.raw.isEmpty then (i, p)
        else if p.raw.getLast? = some 0x20 then (i, { p with raw := p.raw.dropLast })
        else (i, p)
      else if sv.isWhiteSpace c then
        readWordsLoop sv fuel (skipWhiteSpace sv p.rules (i + 1)) { p with raw := p.raw ++ [0x20] }
      else readWordsLoop sv fuel (i + 1) { p with raw := p.raw ++ [c] }

/-- `CollationRuleParser::readWords`. -/
def readWords (sv : Services) (i : Nat) (p : Parser) : Nat × Parser :=
  let p := { p with raw := [] }
  let i := skipWhiteSpace sv p.rules i
  readWordsLoop sv (p.rules.length - i + 1) i p

/-- The table `positions`. -/
def positions : List String :=
  ["first tertiary ignorable", "last tertiary ignorable",
   "first secondary ignorable", "last secondary ignorable",
   "first primary ignorable", "last primary ignorable",
   "first variable", "last variable",
   "first implicit", "last implicit",
   "first regular", "last regular",
   "first trailing", "last trailing"]

/-- `CollationRuleParser::parseSpecialPosition`. -/
def parseSpecialPosition (sv : Services) (i : Nat) (p : Parser) : Nat × Parser :=
  if U_FAILURE p.errorCode then (0, p)
  else
    let r := readWords sv i p
    let j := r.1
    let p := r.2
    if j > i && charAt p.rules j = 0x5d && !p.raw.isEmpty then
      match (positions.map ustr).indexOf? p.raw with
      | some pos => (j + 1, { p with str := [POS_LEAD, POS_BASE + pos] })
      | none =>
        if p.raw = ustr "top" then
          (j + 1, { p with str := [POS_LEAD, POS_BASE + LAST_REGULAR] })
        else if p.raw = ustr "variable top" then
          (j + 1, { p with str := [POS_LEAD, POS_BASE + LAST_VARIABLE] })
        else (i, setParseError "not a valid special reset position" p)
    else (i, setParseError "not a valid special reset position" p)

/-- The constant `BEFORE`, "[before", without its terminating zero. -/
def BEFORE : List Nat := [0x5b, 0x62, 0x65, 0x66, 0x6f, 0x72, 0x65]

/-- `BEFORE_LENGTH`. -/
def BEFORE_LENGTH : Nat := 7

/-- The `[before n]` test at the head of `parseResetAndPosition`: the offset to continue
at and the reset strength. -/
def parseBefore (sv : Services) (rules : List Nat) (i : Nat) : Nat × Int :=
  if (rules.drop i).take BEFORE_LENGTH = BEFORE then
    let j := i + BEFORE_LENGTH
    if j < rules.length && sv.isWhiteSpace (charAt rules j) then
      let j := skipWhiteSpace sv rules (j + 1)
      let c := charAt rules j
      if j + 1 < rules.length && 0x31 ≤ c && c ≤ 0x33 && charAt rules (j + 1) = 0x5d then
        (skipWhiteSpace sv rules (j + 2), PRIMARY + ((c : Int) - 0x31))
      else (i, IDENTICAL)
    else (i, IDENTICAL)
  else (i, IDENTICAL)

/-- `CollationRuleParser::parseResetAndPosition`: the reset strength returned and the state
left. -/
def parseResetAndPosition (sv : Services) (p : Parser) : Int × Parser :=
  if U_FAILURE p.errorCode then (NO_RELATION, p)
  else
    let b := parseBefore sv p.rules (skipWhiteSpace sv p.rules (p.ruleIndex + 1))
    let i := b.1
    let resetStrength := b.2
    if i ≥ p.rules.length then (NO_RELATION, setParseError "reset without position" p)
    else
      let p := resetTailoringStrings p
      let r : Nat × Parser :=
        if charAt p.rules i = 0x5b then parseSpecialPosition sv i p
        else
          let r := parseTailoringString sv i p
          (r.1, { r.2 with str := normalize sv.fccNormalize r.2.raw r.2.errorCode })
      let p := callSink sv (SinkCall.addReset resetStrength r.2.str) r.2
      (resetStrength, { p with ruleIndex := r.1 })

/-- The loop of `skipComment`. -/
def skipCommentLoop (rules : List Nat) : Nat → Nat → Nat
  | 0, i => i
  | fuel + 1, i =>
    if i < rules.length then
      let c := charAt rules i
      if c = 0xa || c = 0xc || c = 0xd || c = 0x85 || c = 0x2028 || c = 0x2029 then i + 1
      else skipCommentLoop rules fuel (i + 1)
    else i

/-- `CollationRuleParser::skipComment`. -/
def skipComment (rules : List Nat) (i : Nat) : Nat :=
  skipCommentLoop rules (rules.length - i) i

/-- The `for(;;)` of `parseRuleChain`. -/
def parseRuleChainLoop (sv : Services) (resetStrength : Int) : Nat → Bool → Parser → Parser
  | 0, _, p => p
  | fuel + 1, isFirstRelation, p =>
    let result := parseRelationOperator p
    if U_FAILURE p.errorCode then p
    else if result = NO_RELATION then
      if p.ruleIndex < p.rules.length && charAt p.rules p.ruleIndex = 0x23 then
        parseRuleChainLoop sv resetStrength fuel isFirstRelation
          { p with ruleIndex := skipWhiteSpace sv p.rules (skipComment p.rules (p.ruleIndex + 1)) }
      else if isFirstRelation then setParseError "reset not followed by a relation" p
      else p
    else
      let strength := Int.land result STRENGTH_MASK
      let violation : Option String :=
        if resetStrength < IDENTICAL then
          if isFirstRelation then
            if strength ≠ resetStrength then
              some "reset-before strength differs from its first relation"
            else none
          else
            if strength < resetStrength then
              some "reset-before strength followed by a stronger relation"
            else none
        else none
      match violation with
      | some reason => setParseError reason p
      | none =>
        let i := p.ruleIndex + (result >>> 8).toNat
        let p :=
          if Int.land result 0x10 = 0 then parseRelationStrings sv strength i p
          else parseStarredCharacters sv strength i p
        if U_FAILURE p.errorCode then p
        else parseRuleChainLoop sv resetStrength fuel false p

/-- `CollationRuleParser::parseRuleChain`.  Every iteration of its loop that does not return
moves `ruleIndex` forward, so the number of code units left, plus one, bounds the
iterations. -/
def parseRuleChain (sv : Services) (p : Parser) : Parser :=
  let r := parseResetAndPosition sv p
  parseRuleChainLoop sv r.1 (r.2.rules.length - r.2.ruleIndex + 1) true r.2

/-! ## Settings -/

/-- Modelled from the spec: the attribute values of `ucol.h` are not among the sources.  All
that the parser needs of them is that they are different values, with `UCOL_DEFAULT`
standing for "no value". -/
def UCOL_DEFAULT : Int := -1

/-- Modelled from the spec: see `UCOL_DEFAULT`; the first value of the strength enum. -/
def UCOL_PRIMARY : Int := 0

/-- Modelled from the spec: `ucol.h` is not among the sources; the value is the one of ICU's
`ucol.h`, as for the other attribute values here.  In that header the strength enum has a
fourth level, `UCOL_QUATERNARY`, at `UCOL_PRIMARY + 3`, and `UCOL_IDENTICAL` is 15, so it is
not the fourth value of the list PRIMARY, SECONDARY, TERTIARY, IDENTICAL. -/
def UCOL_IDENTICAL : Int := 15

/-- Modelled from the spec: see `UCOL_DEFAULT`. -/
def UCOL_OFF : Int := 16

/-- Modelled from the spec: see `UCOL_DEFAULT`. -/
def UCOL_ON : Int := 17

/-- Modelled from the spec: see `UCOL_DEFAULT`. -/
def UCOL_SHIFTED : Int := 20

/-- Modelled from the spec: see `UCOL_DEFAULT`. -/
def UCOL_NON_IGNORABLE : Int := 21

/-- Modelled from the spec: see `UCOL_DEFAULT`. -/
def UCOL_LOWER_FIRST : Int := 24

/-- Modelled from the spec: see `UCOL_DEFAULT`. -/
def UCOL_UPPER_FIRST : Int := 25

/-- Modelled from the spec: the sentinel reorder code "default" of `ucol.h`. -/
def UCOL_REORDER_CODE_DEFAULT : Int := -1

/-- Modelled from the spec: the first of the five special reorder codes of `ucol.h`. -/
def UCOL_REORDER_CODE_FIRST : Int := 0x1000

/-- The flags of `CollationSettings` that the parser sets. -/
inductive Flag where
  | BACKWARD_SECONDARY
  | CASE_LEVEL
  | CHECK_FCD
  | NUMERIC
  deriving DecidableEq, Repr

/-- Modelled from the spec: `CollationSettings::setFlag` is not among the sources; it turns
the named boolean flag on for `UCOL_ON` and off for `UCOL_OFF`, and does nothing when the
error code already is a failure. -/
def setFlag (bit : Flag) (value : Int) (p : Parser) : Parser :=
  if U_FAILURE p.errorCode then p
  else if value = UCOL_ON ∨ value = UCOL_OFF then
    let isOn := decide (value = UCOL_ON)
    match bit with
    | Flag.BACKWARD_SECONDARY => { p with settings := { p.settings with backwardSecondary := isOn } }
    | Flag.CASE_LEVEL => { p with settings := { p.settings with caseLevel := isOn } }
    | Flag.CHECK_FCD => { p with settings := { p.settings with checkFCD := isOn } }
    | Flag.NUMERIC => { p with settings := { p.settings with numeric := isOn } }
  else p

/-- Modelled from the spec: `CollationSettings::setStrength` is not among the sources; it
stores the strength, and does nothing when the error code already is a failure. -/
def setStrength (value : Int) (p : Parser) : Parser :=
  if U_FAILURE p.errorCode then p
  else { p with settings := { p.settings with strength := value } }

/-- Modelled from the spec: `CollationSettings::setAlternateHandling` is not among the
sources; it stores the alternate-handling mode. -/
def setAlternateHandling (value : Int) (p : Parser) : Parser :=
  if U_FAILURE p.errorCode then p
  else { p with settings := { p.settings with alternateHandling := value } }

/-- Modelled from the spec: `CollationSettings::setCaseFirst` is not among the sources; it
stores the case-first mode. -/
def setCaseFirst (value : Int) (p : Parser) : Parser :=
  if U_FAILURE p.errorCode then p
  else { p with settings := { p.settings with caseFirst := value } }

/-- `CollationRuleParser::getOnOffValue`. -/
def getOnOffValue (s : List Nat) : Int :=
  if s = ustr "on" then UCOL_ON
  else if s = ustr "off" then UCOL_OFF
  else UCOL_DEFAULT

/-- The table `gSpecialReorderCodes`. -/
def gSpecialReorderCodes : List String := ["space", "punct", "symbol", "currency", "digit"]

/-- ASCII lower-casing of one character, as `uprv_stricmp` compares. -/
def asciiToLower (c : Nat) : Nat := if 0x41 ≤ c ∧ c ≤ 0x5a then c + 0x20 else c

/-- `CollationRuleParser::getReorderCode`. -/
def getReorderCode (sv : Services) (word : List Nat) : Int :=
  match (gSpecialReorderCodes.map ustr).indexOf? (word.map asciiToLower) with
  | some i => UCOL_REORDER_CODE_FIRST + (i : Int)
  | none => sv.getPropertyValueEnum word

/-- `UnicodeString::indexOf(c, start)`: the first index at or after `start`, if any. -/
def indexOfFrom (s : List Nat) (c : Nat) (start : Nat) : Option Nat :=
  ((s.drop start).indexOf? c).map (fun k => start + k)

/-- The word loop of `parseReordering`: the codes stored so far, and the state.  The flag is
`true` when the loop was left by `return`. -/
def parseReorderingLoop (sv : Services) : Nat → Nat → List Int → Parser → Bool × List Int × Parser
  | 0, _, codes, p => (false, codes, p)
  | fuel + 1, i, codes, p =>
    if i < p.raw.length then
      let i := i + 1
      let limit := (indexOfFrom p.raw 0x20 i).getD p.raw.length
      let word := (p.raw.drop i).take (limit - i)
      if !sv.isInvariantString word then
        (true, codes, { p with errorCode := UErrorCode.U_INVARIANT_CONVERSION_ERROR })
      else
        let code := getReorderCode sv word
        if code < 0 then (true, codes, setParseError "unknown script or reorder code" p)
        else parseReorderingLoop sv fuel limit (codes ++ [code]) p
    else (false, codes, p)

/-- `CollationRuleParser::parseReordering`; allocation never fails. -/
def parseReordering (sv : Services) (p : Parser) : Parser :=
  if U_FAILURE p.errorCode then p
  else
    let p := { p with settings := { p.settings with reorderCodes := none, reorderCodesLength := 0 } }
    if 7 = p.raw.length then { p with settings := { p.settings with reorderTable := none } }
    else
      let length := ((p.raw.drop 7).filter (fun c => c = 0x20)).length
      match parseReorderingLoop sv p.raw.length 7 [] p with
      | (true, codes, p) => { p with settings := { p.settings with reorderCodes := some codes } }
      | (false, codes, p) =>
        if length = 1 ∧ codes.head? = some UCOL_REORDER_CODE_DEFAULT then
          { p with settings := { p.settings with reorderCodes := none, reorderCodesLength := 0,
                                                 reorderTable := none } }
        else
          let made := sv.makeReorderTable codes
          let p := { p with settings := { p.settings with reorderCodes := some codes,
                                                          reorderTable := some made.1 } }
          let p := match made.2 with
            | none => p
            | some e => { p with errorCode := e }
          { p with settings := { p.settings with reorderCodesLength := length } }

/-- The largest `int32_t`. -/
def INT32_MAX : Nat := 0x7fffffff

/-- The bracket-counting loop of `parseUnicodeSet` over `raw`: `none` when the fuel runs out
or when `j++` would overflow the `int32_t` index, which C++ leaves undefined; otherwise
whether the loop was left by `break` (`true`) or by the error `return` (`false`), and the
index reached. -/
def parseUnicodeSetLoop (raw : List Nat) : Nat → Nat → Int → Option (Bool × Nat)
  | 0, _, _ => none
  | fuel + 1, j, level =>
    if j = raw.length then some (false, j)
    else if j = INT32_MAX then none
    else
      let c := charAt raw j
      let j := j + 1
      if c = 0x5b then parseUnicodeSetLoop raw fuel j (level + 1)
      else if c = 0x5c then
        if level - 1 = 0 then some (true, j) else parseUnicodeSetLoop raw fuel j (level - 1)
      else parseUnicodeSetLoop raw fuel j level

/-- `CollationRuleParser::parseUnicodeSet`: the offset returned, the set, and the state;
`none` when the bracket-counting loop has no result. -/
def parseUnicodeSet (sv : Services) (fuel : Nat) (i : Nat) (p : Parser) :
    Option (Nat × List Nat × Parser) :=
  match parseUnicodeSetLoop p.raw fuel i 0 with
  | none => none
  | some (false, j) => some (j, [], setParseError "unbalanced UnicodeSet pattern brackets" p)
  | some (true, j) =>
    match (if U_FAILURE p.errorCode then none
           else sv.applyPattern ((p.raw.drop i).take (j - i))) with
    | none =>
      some (j, [], setParseError "not a valid UnicodeSet pattern"
                     { p with errorCode := UErrorCode.U_ZERO_ERROR })
    | some set =>
      let j := skipWhiteSpace sv p.rules j
      if j = p.raw.length || charAt p.raw j ≠ 0x5d then
        some (j, set,
          setParseError "missing option-terminating ']' after UnicodeSet pattern" p)
      else some (j + 1, set, p)

/-- `UnicodeString::lastIndexOf(c)`: the last index of `c`, if any. -/
def lastIndexOf (s : List Nat) (c : Nat) : Option Nat :=
  (s.reverse.indexOf? c).map (fun k => s.length - 1 - k)

/-- The `import` branch of `parseSetting`; `parseRec` is the recursive `parse` of the imported
rules. -/
def parseImport (sv : Services) (parseRec : List Nat → Parser → Option Parser)
    (j : Nat) (v : List Nat) (p : Parser) : Option Parser :=
  match (if U_FAILURE p.errorCode then none
         else if sv.isInvariantString v then sv.forLanguageTag v else none) with
  | none =>
    some (setParseError "expected language tag in [import langTag]"
            { p with errorCode := UErrorCode.U_ZERO_ERROR })
  | some localeID =>
    match sv.importer with
    | none => some (setParseError "[import langTag] is not supported" p)
    | some getRules =>
      match getRules localeID with
      | Except.error (e, r) =>
        some { p with errorCode := e, errorReason := some r, ruleIndex := j }
      | Except.ok importedRules =>
        (parseRec importedRules p).map (fun q => { q with ruleIndex := j })

/-- The name/value settings of `parseSetting`, from `UnicodeString v` on; `none` in the first
component when no branch returned, so that the final `setParseError` is reached. -/
def parseNameValue (sv : Services) (parseRec : List Nat → Parser → Option Parser)
    (j : Nat) (p : Parser) : Option (Option Parser) :=
  let valueIndex := lastIndexOf p.raw 0x20
  let v := match valueIndex with
    | some k => p.raw.drop (k + 1)
    | none => []
  let p := match valueIndex with
    | some k => { p with raw := p.raw.take k }
    | none => p
  if p.raw = ustr "strength" ∧ v.length = 1 then
    let c := charAt v 0
    let value : Int :=
      if 0x31 ≤ c ∧ c ≤ 0x34 then UCOL_PRIMARY + ((c : Int) - 0x31)
      else if c = 0x49 then UCOL_IDENTICAL
      else UCOL_DEFAULT
    if value ≠ UCOL_DEFAULT then some (some { setStrength value p with ruleIndex := j })
    else some none
  else if p.raw = ustr "alternate" then
    let value : Int :=
      if v = ustr "non-ignorable" then UCOL_NON_IGNORABLE
      else if v = ustr "shifted" then UCOL_SHIFTED
      else UCOL_DEFAULT
    if value ≠ UCOL_DEFAULT then some (some { setAlternateHandling value p with ruleIndex := j })
    else some none
  else if p.raw = ustr "caseFirst" then
    let value : Int :=
      if v = ustr "off" then UCOL_OFF
      else if v = ustr "lower" then UCOL_LOWER_FIRST
      else if v = ustr "upper" then UCOL_UPPER_FIRST
      else UCOL_DEFAULT
    if value ≠ UCOL_DEFAULT then some (some { setCaseFirst value p with ruleIndex := j })
    else some none
  else if p.raw = ustr "caseLevel" then
    let value := getOnOffValue v
    if value ≠ UCOL_DEFAULT then
      some (some { setFlag Flag.CASE_LEVEL value p with ruleIndex := j })
    else some none
  else if p.raw = ustr "normalization" then
    let value := getOnOffValue v
    if value ≠ UCOL_DEFAULT then
      some (some { setFlag Flag.CHECK_FCD value p with ruleIndex := j })
    else some none
  else if p.raw = ustr "numericOrdering" then
    let value := getOnOffValue v
    if value ≠ UCOL_DEFAULT then
      some (some { setFlag Flag.NUMERIC value p with ruleIndex := j })
    else some none
  else if p.raw = ustr "hiraganaQ" then
    let value := getOnOffValue v
    if value ≠ UCOL_DEFAULT then
      let p := if value = UCOL_ON then setParseError "[hiraganaQ on] is not supported" p else p
      some (some { p with ruleIndex := j })
    else some none
  else if p.raw = ustr "import" then (parseImport sv parseRec j v p).map some
  else some none

/-- `CollationRuleParser::parseSetting`; `none` when a loop inside has no result within the
fuel.  The state with `raw` as the name/value split left it reaches the final
`setParseError`. -/
def parseSetting (sv : Services) (fuel : Nat) (parseRec : List Nat → Parser → Option Parser)
    (p : Parser) : Option Parser :=
  if U_FAILURE p.errorCode then some p
  else
    let i := p.ruleIndex + 1
    let r := readWords sv i p
    let j := r.1
    let p := r.2
    let p := if j ≤ i ∨ p.raw.isEmpty then setParseError "expected a setting/option at '['" p
             else p
    if charAt p.rules j = 0x5d then
      let j := j + 1
      if (ustr "reorder").isPrefixOf p.raw ∧ (p.raw.length = 7 ∨ charAt p.raw 7 = 0x20) then
        some { parseReordering sv p with ruleIndex := j }
      else if p.raw = ustr "backwards 2" then
        some { setFlag Flag.BACKWARD_SECONDARY UCOL_ON p with ruleIndex := j }
      else
        match parseNameValue sv parseRec j p with
        | none => none
        | some (some q) => some q
        | some none =>
          let p := match lastIndexOf p.raw 0x20 with
            | some k => { p with raw := p.raw.take k }
            | none => p
          some (setParseError "not a valid setting/option" p)
    else if charAt p.rules j = 0x5b then
      match parseUnicodeSet sv fuel j p with
      | none => none
      | some (j, set, p) =>
        if p.raw = ustr "optimize" then
          some { p with optimizeSet := p.optimizeSet ++ set, ruleIndex := j }
        else if p.raw = ustr "suppressContractions" then
          some { callSink sv (SinkCall.suppressContractions set) p with ruleIndex := j }
        else some (setParseError "not a valid setting/option" p)
    else some (setParseError "not a valid setting/option" p)

/-! ## The top-level driver -/

/-- The loop of `CollationRuleParser::parse(ruleString, errorCode)`; `none` when the fuel runs
out, which bounds the iterations of this loop and the depth of imports together. -/
def parseLoop (sv : Services) : Nat → Parser → Option Parser
  | 0, _ => none
  | fuel + 1, p =>
    if p.ruleIndex < p.rules.length then
      let c := charAt p.rules p.ruleIndex
      if sv.isWhiteSpace c then parseLoop sv fuel { p with ruleIndex := p.ruleIndex + 1 }
      else
        let r : Option Parser :=
          if c = 0x26 then some (parseRuleChain sv p)
          else if c = 0x5b then
            parseSetting sv fuel
              (fun ruleString q =>
                if U_FAILURE q.errorCode then some q
                else parseLoop sv fuel { q with rules := ruleString, ruleIndex := 0 }) p
          else if c = 0x23 then
            some { p with ruleIndex := skipComment p.rules (p.ruleIndex + 1) }
          else if c = 0x40 then
            some { setFlag Flag.BACKWARD_SECONDARY UCOL_ON p with ruleIndex := p.ruleIndex + 1 }
          else if c = 0x21 then some { p with ruleIndex := p.ruleIndex + 1 }
          else some (setParseError "expected a reset or setting or comment" p)
        match r with
        | none => none
        | some q => if U_FAILURE q.errorCode then some q else parseLoop sv fuel q
    else some p

/-- `CollationRuleParser::parse(ruleString, errorCode)`. -/
def parseRules (sv : Services) (fuel : Nat) (ruleString : List Nat) (p : Parser) :
    Option Parser :=
  if U_FAILURE p.errorCode then some p
  else parseLoop sv fuel { p with rules := ruleString, ruleIndex := 0 }

/-- The state of a parser object after its constructor, about to parse into `outSettings`. -/
def newParser (outSettings : CollationSettings) : Parser :=
  { rules := [], ruleIndex := 0, raw := [], pfx := [], str := [], extension := [],
    errorCode := UErrorCode.U_ZERO_ERROR, errorReason := none, parseError := none,
    settings := outSettings, optimizeSet := [], sinkCalls := [] }

/-- `CollationRuleParser::parse(ruleString, base, outSettings, outParseError, errorCode)` on
a fresh parser; `outParseError` tells whether the caller passes a `UParseError`. -/
def parse (sv : Services) (fuel : Nat) (ruleString : List Nat) (outSettings : CollationSettings)
    (outParseError : Bool) (errorCode : UErrorCode) : Option Parser :=
  let p := { newParser outSettings with errorCode := errorCode }
  if U_FAILURE errorCode then some p
  else
    let p := { p with
      parseError := if outParseError then
          some { line := 0, offset := 0, preContext := [], postContext := [] }
        else none,
      errorReason := none }
    parseRules sv fuel ruleString p

/-! ## Concrete collaborators for examples -/

/-- The eleven code points with the Unicode property Pattern_White_Space. -/
def patternWhiteSpace (c : Nat) : Bool :=
  decide ((0x9 ≤ c ∧ c ≤ 0xd) ∨ c = 0x20 ∨ c = 0x85 ∨ c = 0x200e ∨ c = 0x200f ∨
    c = 0x2028 ∨ c = 0x2029)

/-- Collaborators for evaluating examples on Latin-1 text: Pattern_White_Space, normalizers
that leave a string as it is (as NFD and FCC do on ASCII), NFD-inertness as it is up to
U+00C6 (the letters U+00C0..U+00C5 decompose, everything else there is inert), a sink that
accepts every call, no importer and no known script. -/
def sampleServices : Services :=
  { isWhiteSpace := patternWhiteSpace,
    nfdIsInert := fun c => decide (c < 0xc0 ∨ c = 0xc6),
    nfdNormalize := fun s => s,
    fccNormalize := fun s => s,
    sink := fun _ _ => none,
    isInvariantString := fun s => s.all (fun c => decide (c < 0x80)),
    forLanguageTag := fun s => some s,
    importer := none,
    getPropertyValueEnum := fun _ => -1,
    makeReorderTable := fun _ => ([], none),
    applyPattern := fun s => some s }

/-- Settings to start examples from. -/
def sampleSettings : CollationSettings :=
  { strength := 2, alternateHandling := UCOL_NON_IGNORABLE, caseFirst := UCOL_OFF,
    backwardSecondary := false, caseLevel := false, checkFCD := false, numeric := false,
    reorderCodes := none, reorderCodesLength := 0, reorderTable := none }

/-- Collaborators as `sampleServices`, but with an NFD that decomposes U+00E9 into U+0065
U+0301 (and leaves every other code unit alone), so that the NFD form of a string is longer
than the string and than its FCC form. -/
def decomposingServices : Services :=
  { sampleServices with
    nfdNormalize := fun s => s.flatMap (fun c => if c = 0xe9 then [0x65, 0x301] else [c]) }

/-- Collaborators as `sampleServices`, with an importer that returns `importedRules` for
every locale. -/
def importingServices (importedRules : List Nat) : Services :=
  { sampleServices with importer := some (fun _ => Except.ok importedRules) }

/-! ## Specification-side definitions -/

/-- The operator table of the specification, read off the text that starts at the cursor:
the longest of `<<<`, `<<`, `<`, or `=`, each with an optional `*` right after it, or `;`,
or `,`.  The result is the strength, whether the operator is starred, and the number of
code units of the lexeme. -/
def relationLexeme (t : List Nat) : Option (Int × Bool × Nat) :=
  let angle : Option (Int × Nat) :=
    if t.take 3 = [0x3c, 0x3c, 0x3c] then some (TERTIARY, 3)
    else if t.take 2 = [0x3c, 0x3c] then some (SECONDARY, 2)
    else if t.take 1 = [0x3c] then some (PRIMARY, 1)
    else if t.take 1 = [0x3d] then some (IDENTICAL, 1)
    else none
  match angle with
  | some (s, n) =>
    if (t.drop n).head? = some 0x2a then some (s, true, n + 1) else some (s, false, n)
  | none =>
    if t.head? = some 0x3b then some (SECONDARY, false, 1)
    else if t.head? = some 0x2c then some (TERTIARY, false, 1)
    else none

/-- A string of UTF-16 code units is well-formed for the parser when it has no unpaired
surrogate and neither U+FFFE nor U+FFFF: a lead surrogate is followed by a trail surrogate,
and a trail surrogate only stands after a lead surrogate. -/
def wellFormed16 : List Nat → Bool
  | [] => true
  | [u] => !U_IS_SURROGATE u && u != 0xfffe && u != 0xffff
  | u :: t :: rest =>
    if U16_IS_LEAD u then U16_IS_TRAIL t && wellFormed16 rest
    else !U_IS_SURROGATE u && u != 0xfffe && u != 0xffff && wellFormed16 (t :: rest)

/-- The fields that the literal scanners leave alone: they write only `raw` and the error
fields. -/
def scanFrame (p : Parser) :
    List Nat × Nat × List Nat × List Nat × List Nat × CollationSettings × List Nat ×
      List SinkCall :=
  (p.rules, p.ruleIndex, p.pfx, p.str, p.extension, p.settings, p.optimizeSet, p.sinkCalls)

/-- The text of one item of a starred string: a code point, or a range `a-b`. -/
def itemText : Nat × Option Nat → List Nat
  | (a, none) => U16_APPEND a
  | (a, some b) => U16_APPEND a ++ 0x2d :: U16_APPEND b

/-- The code points an item stands for: the code point, or all of `a, a+1, ..., b`. -/
def itemExpansion : Nat × Option Nat → List Nat
  | (a, none) => [a]
  | (a, some b) => List.range' a (b + 1 - a)

/-- A code point that can stand in a starred string: a Unicode scalar value other than
the hyphen-minus that is NFD-inert. -/
def starredChar (sv : Services) (a : Nat) : Prop :=
  a ≤ 0x10ffff ∧ U_IS_SURROGATE a = false ∧ a ≠ 0x2d ∧ sv.nfdIsInert a = true

/-- An item whose code points can stand in a starred string, with an ascending range. -/
def starredItem (sv : Services) : Nat × Option Nat → Prop
  | (a, none) => starredChar sv a
  | (a, some b) => starredChar sv a ∧ starredChar sv b ∧ a ≤ b

/-- The state after the relations for the code points `cs` have been emitted at
`strength`: `str` holds the last one, and the sink has one more call for each. -/
def emitted (strength : Int) (p : Parser) (cs : List Nat) : Parser :=
  { p with
    str := (cs.getLast?.map U16_APPEND).getD p.str,
    sinkCalls := p.sinkCalls ++
      cs.map (fun k => SinkCall.addRelation strength p.pfx (U16_APPEND k) p.extension) }

instance starredCharDecidable (sv : Services) (a : Nat) : Decidable (starredChar sv a) :=
  inferInstanceAs (Decidable (a ≤ 0x10ffff ∧ U_IS_SURROGATE a = false ∧ a ≠ 0x2d ∧
    sv.nfdIsInert a = true))

instance starredItemDecidable (sv : Services) :
    (it : Nat × Option Nat) → Decidable (starredItem sv it)
  | (a, none) => inferInstanceAs (Decidable (starredChar sv a))
  | (a, some b) => inferInstanceAs (Decidable (starredChar sv a ∧ starredChar sv b ∧ a ≤ b))

/-- The strength of an `addRelation` call; `none` for the other sink calls. -/
def relationStrength : SinkCall → Option Int
  | SinkCall.addRelation s _ _ _ => some s
  | _ => none

/-- The six characters that end a line, and with it a `#` comment. -/
def lineTerminator (c : Nat) : Bool :=
  c == 0xa || c == 0xc || c == 0xd || c == 0x85 || c == 0x2028 || c == 0x2029

/-- What the parser needs of `PatternProps::isWhiteSpace` on ASCII text: the space and the
line feed are white space, and no printable ASCII character is. -/
def asciiWhiteSpace (sv : Services) : Prop :=
  sv.isWhiteSpace 0x20 = true ∧ sv.isWhiteSpace 0xa = true ∧
    ∀ c, 0x21 ≤ c → c ≤ 0x7e → sv.isWhiteSpace c = false

/-- A character of a plain literal: neither a syntax character nor white space. -/
def plainChar (sv : Services) (c : Nat) : Prop :=
  isSyntaxChar c = false ∧ sv.isWhiteSpace c = false

/-- A character of a word of a setting: not white space, and no syntax character other than
`-` and `_`. -/
def wordChar (sv : Services) (c : Nat) : Prop :=
  (isSyntaxChar c = false ∨ c = 0x2d ∨ c = 0x5f) ∧ sv.isWhiteSpace c = false

instance plainCharDecidable (sv : Services) (c : Nat) : Decidable (plainChar sv c) :=
  inferInstanceAs (Decidable (isSyntaxChar c = false ∧ sv.isWhiteSpace c = false))

instance wordCharDecidable (sv : Services) (c : Nat) : Decidable (wordChar sv c) :=
  inferInstanceAs (Decidable ((isSyntaxChar c = false ∨ c = 0x2d ∨ c = 0x5f) ∧
    sv.isWhiteSpace c = false))

/-- The items of a rule string that has no rule chain and no bracketed setting: a white space
character, the legacy `!`, the `@` shorthand, or a `#` comment with its text and the line
terminator that ends it. -/
inductive TopLevelItem where
  | whiteSpace (c : Nat)
  | reversal
  | backwards
  | comment (text : List Nat) (terminator : Nat)
  deriving DecidableEq, Repr

/-- The text of an item. -/
def TopLevelItem.text : TopLevelItem → List Nat
  | TopLevelItem.whiteSpace c => [c]
  | TopLevelItem.reversal => [0x21]
  | TopLevelItem.backwards => [0x40]
  | TopLevelItem.comment text terminator => 0x23 :: text ++ [terminator]

/-- An item is well-formed when its white space character is white space, and its comment
text has no line terminator and is ended by one. -/
def TopLevelItem.valid (sv : Services) : TopLevelItem → Prop
  | TopLevelItem.whiteSpace c => sv.isWhiteSpace c = true
  | TopLevelItem.reversal => True
  | TopLevelItem.backwards => True
  | TopLevelItem.comment text terminator =>
    (∀ u ∈ text, lineTerminator u = false) ∧ lineTerminator terminator = true

instance topLevelItemValidDecidable (sv : Services) :
    (it : TopLevelItem) → Decidable (it.valid sv)
  | TopLevelItem.whiteSpace c => inferInstanceAs (Decidable (sv.isWhiteSpace c = true))
  | TopLevelItem.reversal => inferInstanceAs (Decidable True)
  | TopLevelItem.backwards => inferInstanceAs (Decidable True)
  | TopLevelItem.comment text terminator =>
    inferInstanceAs (Decidable ((∀ u ∈ text, lineTerminator u = false) ∧
      lineTerminator terminator = true))

/-- The effect the specification gives to a list of such items: the backward-secondary flag
is turned on when an `@` is among them, and nothing else changes. -/
def topLevelEffect (items : List TopLevelItem) (settings : CollationSettings) :
    CollationSettings :=
  if TopLevelItem.backwards ∈ items then { settings with backwardSecondary := true }
  else settings


/-- Well-formed UTF-16, by index: every lead surrogate is directly followed by a trail
surrogate, and every trail surrogate directly follows a lead surrogate. -/
def pairedSurrogates (s : List Nat) : Prop :=
  ∀ k, k < s.length →
    (U16_IS_LEAD (charAt s k) = true →
      k + 1 < s.length ∧ U16_IS_TRAIL (charAt s (k + 1)) = true) ∧
    (U16_IS_TRAIL (charAt s k) = true → 0 < k ∧ U16_IS_LEAD (charAt s (k - 1)) = true)

instance pairedSurrogatesDecidable (s : List Nat) : Decidable (pairedSurrogates s) :=
  inferInstanceAs (Decidable (∀ k, k < s.length → _))


/-- The split of an option head at its last space into name and value; a head without a
space is a name with an empty value. -/
def splitSetting (raw : List Nat) : List Nat × List Nat :=
  match lastIndexOf raw 0x20 with
  | some k => (raw.take k, raw.drop (k + 1))
  | none => (raw, [])

/-- The name/value pairs of the specification's table of settings, without `import`:
strength 1-4/I, alternate non-ignorable/shifted, caseFirst off/lower/upper, and
caseLevel, normalization, numericOrdering, hiraganaQ on/off. -/
def recognisedSetting (name v : List Nat) : Bool :=
  (name == ustr "strength" && (["1", "2", "3", "4", "I"].map ustr).contains v) ||
  (name == ustr "alternate" && (["non-ignorable", "shifted"].map ustr).contains v) ||
  (name == ustr "caseFirst" && (["off", "lower", "upper"].map ustr).contains v) ||
  ((["caseLevel", "normalization", "numericOrdering", "hiraganaQ"].map ustr).contains name &&
    (["on", "off"].map ustr).contains v)


/-- Whether a sink call is an `addRelation`. -/
def isRelation (c : SinkCall) : Bool := (relationStrength c).isSome

/-- No `addRelation` stands before the first `addReset` of a trace. -/
def noRelationBeforeReset : List SinkCall → Bool
  | [] => true
  | SinkCall.addReset _ _ :: _ => true
  | SinkCall.addRelation _ _ _ _ :: _ => false
  | SinkCall.suppressContractions _ :: t => noRelationBeforeReset t

/-- An `addRelation` comes before the next `addReset` and before the end of the trace. -/
def followedByRelation : List SinkCall → Bool
  | [] => false
  | SinkCall.addRelation _ _ _ _ :: _ => true
  | SinkCall.addReset _ _ :: _ => false
  | SinkCall.suppressContractions _ :: t => followedByRelation t

/-- Every `addReset` of a trace is followed by at least one `addRelation` before the next
`addReset` or the end of the trace. -/
def resetsFollowed : List SinkCall → Bool
  | [] => true
  | SinkCall.addReset _ _ :: t => followedByRelation t && resetsFollowed t
  | _ :: t => resetsFollowed t

/-- The sink calls of one rule chain: one `addReset`, then `addRelation` calls only; at least
one of them when `complete`. -/
def chainCalls (complete : Bool) : List SinkCall → Bool
  | SinkCall.addReset _ _ :: rels => rels.all isRelation && (!complete || !rels.isEmpty)
  | _ => false

/-- One block of a trace: the calls of one rule chain, or one `suppressContractions`. -/
def protocolBlock (complete : Bool) : List SinkCall → Bool
  | [SinkCall.suppressContractions _] => true
  | b => chainCalls complete b


/-- A property of the parser state that the scanners of a rule chain keep: it is kept when
one of the four string buffers is written, by `setParseError`, and by a call of the sink. -/
structure ScanStable (sv : Services) (P : Parser → Prop) : Prop where
  raw : ∀ (x : Parser) (v : List Nat), P x → P { x with raw := v }
  pfx : ∀ (x : Parser) (v : List Nat), P x → P { x with pfx := v }
  str : ∀ (x : Parser) (v : List Nat), P x → P { x with str := v }
  extension : ∀ (x : Parser) (v : List Nat), P x → P { x with extension := v }
  err : ∀ (x : Parser) (r : String), P x → P (setParseError r x)
  sink : ∀ (x : Parser) (c : SinkCall), P x → P (callSink sv c x)

/-- A property that the parser of a setting keeps as well: it is also kept when the settings
or the optimize set are written, and when the error code is set to a code other than
`U_PARSE_ERROR`, as a collaborator does. -/
structure SettingStable (sv : Services) (P : Parser → Prop) : Prop where
  scan : ScanStable sv P
  settings : ∀ (x : Parser) (s : CollationSettings), P x → P { x with settings := s }
  optimizeSet : ∀ (x : Parser) (s : List Nat), P x → P { x with optimizeSet := s }
  code : ∀ (x : Parser) (e : UErrorCode), e ≠ UErrorCode.U_PARSE_ERROR →
    P x → P { x with errorCode := e }

/-- The `UParseError` of the state `q` is consistent with a token that starts at offset `k`
of the rule text `R`: there is a `UParseError`, its offset is `k` when the error code is
`U_PARSE_ERROR`, and (when `bounded` holds) its offset is between 0 and the length of the
text. -/
def recordedAt (bounded : Prop) (R : List Nat) (k : Nat) (q : Parser) : Prop :=
  q.rules = R ∧ ∃ e, q.parseError = some e ∧
    (bounded → 0 ≤ e.offset ∧ e.offset ≤ (R.length : Int)) ∧
    (q.errorCode = UErrorCode.U_PARSE_ERROR → e.offset = (k : Int))

/-- As `recordedAt`, with the cursor still at the start of the token. -/
def scanningAt (bounded : Prop) (R : List Nat) (k : Nat) (q : Parser) : Prop :=
  recordedAt bounded R k q ∧ q.ruleIndex = k

/-- The state `q` is inside the rule text `R`: it reads `R`, the offset of its `UParseError`
is between 0 and the length of `R`, and unless the error code is a failure so is the
cursor. -/
def errorWithin (R : List Nat) (q : Parser) : Prop :=
  q.rules = R ∧
    (∃ e, q.parseError = some e ∧ 0 ≤ e.offset ∧ e.offset ≤ (R.length : Int)) ∧
    (U_FAILURE q.errorCode = false → q.ruleIndex ≤ R.length)



/-! ## Heads of settings, the stores of `parseReordering`, and dashes in starred strings -/


/-- A unit at which `readWords` stops: a syntax character other than `-` and `_`. -/
def headStop (c : Nat) : Prop := isSyntaxChar c = true ∧ c ≠ 0x2d ∧ c ≠ 0x5f

instance headStopDecidable (c : Nat) : Decidable (headStop c) :=
  inferInstanceAs (Decidable (isSyntaxChar c = true ∧ c ≠ 0x2d ∧ c ≠ 0x5f))

/-- A head that is space-collapsed and trimmed: it does not start with a space, does not end
with one, has no two spaces in a row, and has no syntax character other than `-` and `_`. -/
def collapsed (head : List Nat) : Prop :=
  head.head? ≠ some 0x20 ∧ head.getLast? ≠ some 0x20 ∧ ¬ [0x20, 0x20] <:+: head ∧
    ∀ c ∈ head, ¬ headStop c

/-- A white space unit of a setting: white space that is no syntax character. -/
def spaceChar (sv : Services) (c : Nat) : Prop :=
  isSyntaxChar c = false ∧ sv.isWhiteSpace c = true

instance spaceCharDecidable (sv : Services) (c : Nat) : Decidable (spaceChar sv c) :=
  inferInstanceAs (Decidable (isSyntaxChar c = false ∧ sv.isWhiteSpace c = true))

/-- What the loop of `readWords` keeps of the head collected so far, at the index `i`: the
head is as a collapsed one except that it may end with one space, and after such a space,
and at the start, the unit at `i` is not white space. -/
def openHead (sv : Services) (rules : List Nat) (i : Nat) (raw : List Nat) : Prop :=
  raw.head? ≠ some 0x20 ∧ ¬ [0x20, 0x20] <:+: raw ∧ (∀ c ∈ raw, ¬ headStop c) ∧
    ((raw = [] ∨ raw.getLast? = some 0x20) → i < rules.length →
      sv.isWhiteSpace (charAt rules i) = false)


/-- The word loop of `parseReordering` with the array `newReorderCodes` made explicit: it has
room for `length` codes, `codes` holds the `codeIndex` codes stored so far, and `words` the
words handed to `getReorderCode` so far.  The result is `none` when a store
`newReorderCodes[codeIndex++]` falls outside the array, when `U_ASSERT(codeIndex == length)`
fails, and when the fuel runs out. -/
def parseReorderingStores (sv : Services) (length : Nat) :
    Nat → Nat → List Int → List (List Nat) → Parser →
      Option (Bool × List Int × List (List Nat) × Parser)
  | 0, _, _, _, _ => none
  | fuel + 1, i, codes, words, p =>
    if i < p.raw.length then
      let i := i + 1
      let limit := (indexOfFrom p.raw 0x20 i).getD p.raw.length
      let word := (p.raw.drop i).take (limit - i)
      if !sv.isInvariantString word then
        some (true, codes, words,
          { p with errorCode := UErrorCode.U_INVARIANT_CONVERSION_ERROR })
      else
        let code := getReorderCode sv word
        if code < 0 then
          some (true, codes, words ++ [word],
            setParseError "unknown script or reorder code" p)
        else if codes.length < length then
          parseReorderingStores sv length fuel limit (codes ++ [code]) (words ++ [word]) p
        else none
    else if codes.length = length then some (false, codes, words, p)
    else none


/-- The dash at `k` of a decoded starred string separates a range that covers the
hyphen-minus: the unit before it is below U+002D, and the code point after it is U+002D or
above. -/
def rangeOverDash (raw : List Nat) (k : Nat) : Prop :=
  1 ≤ k ∧ charAt raw k = 0x2d ∧ charAt raw (k - 1) < 0x2d ∧ 0x2d ≤ char32At raw (k + 1)



end CollationRuleParser

namespace IndicReordering

/-! ## Indic syllables (`IndicReordering.cpp`) -/

/-- The number of entries of each row of `stateTable`, one for each character class that the
comment above the table names (`xx vm sm iv i2 i3 ct cn nu dv s1 s2 s3 vr zw al`). -/
def CC_COUNT : Nat := 16

/-- The table `stateTable`: the row is the state, the column the character class, the entry
the next state, negative where the syllable ends. -/
def stateTable : List (List Int) :=
  [[ 1,  6,  1,  5,  8, 11,  3,  2,  1,  5,  9,  5,  5,  1,  1,  1],
   [-1, -1, -1, -1, -1, -1, -1, -1, -1, -1, -1, -1, -1, -1, -1, -1],
   [-1,  6,  1, -1, -1, -1, -1, -1, -1,  5,  9,  5,  5,  4, 12, -1],
   [-1,  6,  1, -1, -1, -1, -1, -1,  2,  5,  9,  5,  5,  4, 12, 13],
   [-1, -1, -1, -1, -1, -1,  3,  2, -1, -1, -1, -1, -1, -1,  7, -1],
   [-1,  6,  1, -1, -1, -1, -1, -1, -1, -1, -1, -1, -1, -1, -1, -1],
   [-1, -1,  1, -1, -1, -1, -1, -1, -1, -1, -1, -1, -1, -1, -1, -1],
   [-1, -1, -1, -1, -1, -1,  3,  2, -1, -1, -1, -1, -1, -1, -1, -1],
   [-1,  6,  1, -1, -1, -1, -1, -1, -1, -1, -1, -1, -1,  4, -1, -1],
   [-1,  6,  1, -1, -1, -1, -1, -1, -1, -1, -1, 10,  5, -1, -1, -1],
   [-1,  6,  1, -1, -1, -1, -1, -1, -1, -1, -1, -1,  5, -1, -1, -1],
   [-1,  6,  1, -1, -1, -1, -1, -1, -1,  5,  9,  5,  5,  4, -1, -1],
   [-1, -1,  1, -1, -1, -1, -1, -1, -1, -1, -1, -1, -1,  7, -1,  7],
   [-1, -1, -1, -1, -1, -1, -1, -1, -1, -1, -1, -1, -1, -1,  7, -1]]

/-- The read `stateTable[state][column]`; `none` outside the table. -/
def stateTableAt (state : Int) (column : Nat) : Option Int :=
  if state < 0 then none
  else
    match stateTable.get? state.toNat with
    | none => none
    | some row => row.get? column

/-- The read `chars[cursor]` of an array of the code units `chars`; `none` outside it. -/
def charsAt (chars : List Nat) (cursor : Int) : Option Nat :=
  if cursor < 0 then none else chars.get? cursor.toNat

/-- The loop of `IndicReordering::findSyllable`, from `cursor` in `state`.  The class table
is its method `getCharClass`; the mask `CF_CLASS_MASK` is a parameter, its definition being
in a header.  The result is `none` when a read falls outside `chars` or outside `stateTable`,
and when the fuel runs out. -/
def findSyllableLoop (getCharClass : Nat → Nat) (CF_CLASS_MASK : Nat) (chars : List Nat)
    (charCount : Int) : Nat → Int → Int → Option Int
  | 0, _, _ => none
  | fuel + 1, cursor, state =>
    if cursor < charCount then
      match charsAt chars cursor with
      | none => none
      | some ch =>
        let charClass := getCharClass ch
        match stateTableAt state (charClass &&& CF_CLASS_MASK) with
        | none => none
        | some state =>
          if state < 0 then some cursor
          else findSyllableLoop getCharClass CF_CLASS_MASK chars charCount fuel (cursor + 1) state
    else some cursor

/-- `IndicReordering::findSyllable`. -/
def findSyllable (getCharClass : Nat → Nat) (CF_CLASS_MASK : Nat) (chars : List Nat)
    (prev charCount : Int) (fuel : Nat) : Option Int :=
  findSyllableLoop getCharClass CF_CLASS_MASK chars charCount fuel prev 0

end IndicReordering

namespace CollationRuleParser

/-! ## Lemmas on strings -/

@[simp] theorem charAt_nil (k : Nat) : charAt [] k = kInvalidUChar := by simp [charAt]

@[simp] theorem charAt_cons_zero (a : Nat) (t : List Nat) : charAt (a :: t) 0 = a := by
  simp [charAt]

@[simp] theorem charAt_cons_succ (a : Nat) (t : List Nat) (k : Nat) :
    charAt (a :: t) (k + 1) = charAt t k := by
  simp [charAt]

theorem charAt_add_drop (rules : List Nat) (i k : Nat) :
    charAt rules (i + k) = charAt (rules.drop i) k := by
  simp [charAt, List.getD_eq_getElem?_getD, List.getElem?_drop]

theorem drop_cons_facts {rules : List Nat} {i c : Nat} {rest : List Nat}
    (h : rules.drop i = c :: rest) :
    i < rules.length ∧ charAt rules i = c ∧ rules.drop (i + 1) = rest := by
  have h1 : i < rules.length := by
    by_contra hc
    rw [List.drop_eq_nil_of_le (by omega)] at h
    cases h
  refine ⟨h1, ?_, ?_⟩
  · have := charAt_add_drop rules i 0
    simpa [h] using this
  · have : rules.drop (i + 1) = (rules.drop i).drop 1 := by
      rw [List.drop_drop]
    rw [this, h]; rfl

theorem drop_nil_facts {rules : List Nat} {i : Nat} (h : rules.drop i = []) :
    rules.length ≤ i := by
  simpa using h

theorem setParseError_of_failure (reason : String) (p : Parser)
    (h : U_FAILURE p.errorCode = true) : setParseError reason p = p := by
  simp [setParseError, h]

theorem checkStringLoop_wellFormed (p : Parser) :
    ∀ (fuel : Nat) (q : List Nat) (j : Nat),
      p.raw.drop j = q → wellFormed16 q = true → (∀ u ∈ q, u < 0x10000) →
      q.length ≤ fuel →
      checkStringLoop fuel j p = p := by
  intro fuel
  induction fuel using Nat.strong_induction_on with
  | _ fuel ih =>
    intro q j hd hw hu hfuel
    cases fuel with
    | zero => rfl
    | succ n =>
      match q, hd, hw, hu, hfuel with
      | [], hd, _, _, _ =>
        have := drop_nil_facts hd
        have hj : ¬ j < p.raw.length := by omega
        simp [checkStringLoop, hj]
      | [u], hd, hw, hu, hfuel =>
        obtain ⟨hj, hc, hrest⟩ := drop_cons_facts hd
        have hlen : j + 1 = p.raw.length := by
          have := drop_nil_facts hrest
          omega
        have hu1 : u < 0x10000 := hu u (by simp)
        simp [wellFormed16] at hw
        obtain ⟨⟨hs, h1⟩, h2⟩ := hw
        have h32 : char32At p.raw j = u := by
          simp [char32At, hj, hc, hs]
        have hnext := ih n (by omega) [] (j + 1) hrest rfl (by simp) (by simp)
        have hl : U16_LENGTH u = 1 := by simp [U16_LENGTH]; omega
        simp [checkStringLoop, hj, h32, hs, h1, h2, hl, hnext]
      | u :: t :: rest, hd, hw, hu, hfuel =>
        obtain ⟨hj, hc, hrest⟩ := drop_cons_facts hd
        obtain ⟨hj1, hc1, hrest1⟩ := drop_cons_facts hrest
        have hu1 : u < 0x10000 := hu u (by simp)
        have ht1 : t < 0x10000 := hu t (by simp)
        by_cases hlead : U16_IS_LEAD u = true
        · simp [wellFormed16, hlead] at hw
          obtain ⟨htrail, hw'⟩ := hw
          have hsur : U_IS_SURROGATE u = true := by
            simp [U16_IS_LEAD] at hlead; simp [U_IS_SURROGATE]; omega
          have hne : ¬ j + 1 = p.raw.length := by omega
          have h32 : char32At p.raw j = U16_GET_SUPPLEMENTARY u t := by
            simp [char32At, hj, hc, hsur, hlead, hne, hc1, htrail]
          have hbig : 0x10000 ≤ U16_GET_SUPPLEMENTARY u t := by
            simp [U16_IS_LEAD] at hlead; simp [U16_IS_TRAIL] at htrail
            simp [U16_GET_SUPPLEMENTARY]; omega
          have hs : U_IS_SURROGATE (U16_GET_SUPPLEMENTARY u t) = false := by
            simp [U_IS_SURROGATE]; omega
          have hl : U16_LENGTH (U16_GET_SUPPLEMENTARY u t) = 2 := by
            simp [U16_LENGTH]; omega
          have hnext := ih n (by omega) rest (j + 2) hrest1 hw'
            (fun v hv => hu v (by simp [hv])) (by simp at hfuel; omega)
          have hn1 : ¬ U16_GET_SUPPLEMENTARY u t = 0xfffe := by omega
          have hn2 : ¬ U16_GET_SUPPLEMENTARY u t = 0xffff := by omega
          simp [checkStringLoop, hj, h32, hs, hn1, hn2, hl, hnext]
        · simp [wellFormed16, hlead] at hw
          obtain ⟨⟨⟨hs, h1⟩, h2⟩, hw'⟩ := hw
          have h32 : char32At p.raw j = u := by
            simp [char32At, hj, hc, hs]
          have hl : U16_LENGTH u = 1 := by simp [U16_LENGTH]; omega
          have hnext := ih n (by omega) (t :: rest) (j + 1) hrest hw'
            (fun v hv => hu v (by simp [hv])) (by simp at hfuel ⊢; omega)
          simp [checkStringLoop, hj, h32, hs, h1, h2, hl, hnext]

theorem skipWhiteSpaceLoop_stop (sv : Services) (rules : List Nat) (fuel i : Nat)
    (h : i < rules.length → sv.isWhiteSpace (charAt rules i) = false) :
    skipWhiteSpaceLoop sv rules fuel i = i := by
  cases fuel with
  | zero => rfl
  | succ n =>
    by_cases hi : i < rules.length
    · simp [skipWhiteSpaceLoop, h hi]
    · simp [skipWhiteSpaceLoop, hi]

theorem skipWhiteSpace_stop (sv : Services) (rules : List Nat) (i : Nat)
    (h : i < rules.length → sv.isWhiteSpace (charAt rules i) = false) :
    skipWhiteSpace sv rules i = i :=
  skipWhiteSpaceLoop_stop sv rules _ i h

theorem parseQuotedLoop_run (rules : List Nat) :
    ∀ (q : List Nat) (post : List Nat) (fuel i : Nat) (raw : List Nat),
      (∀ u ∈ q, u ≠ 0x27) → rules.drop i = q ++ 0x27 :: post →
      (∀ u, post.head? = some u → u ≠ 0x27) →
      q.length < fuel →
      parseQuotedLoop rules fuel i raw = (true, i + q.length + 1, raw ++ q) := by
  intro q
  induction q with
  | nil =>
    intro post fuel i raw _ hd hpost hfuel
    obtain ⟨hi, hc, hrest⟩ := drop_cons_facts (by simpa using hd)
    cases fuel with
    | zero => simp at hfuel
    | succ n =>
      have hne : ¬ i = rules.length := by omega
      have hnext : ¬ (i + 1 < rules.length ∧ charAt rules (i + 1) = 0x27) := by
        rintro ⟨h1, h2⟩
        cases post with
        | nil => have := drop_nil_facts hrest; omega
        | cons u post' =>
          obtain ⟨_, hu, _⟩ := drop_cons_facts hrest
          exact hpost u rfl (by rw [← hu]; exact h2)
      simp [parseQuotedLoop, hne, hc, hnext]
  | cons u q ih =>
    intro post fuel i raw hq hd hpost hfuel
    obtain ⟨hi, hc, hrest⟩ := drop_cons_facts (by simpa using hd)
    cases fuel with
    | zero => simp at hfuel
    | succ n =>
      have hne : ¬ i = rules.length := by omega
      have hu : u ≠ 0x27 := hq u (by simp)
      have := ih post n (i + 1) (raw ++ [u]) (fun v hv => hq v (by simp [hv])) hrest hpost
        (by simpa using hfuel)
      simp [parseQuotedLoop, hne, hc, hu, this, Nat.add_assoc, Nat.add_comm 1]

theorem parseStringLoop_end (sv : Services) (allowDash : Bool) (fuel i : Nat) (p : Parser)
    (h : p.rules.length ≤ i) :
    parseStringLoop sv allowDash fuel i p = (false, i, p) := by
  cases fuel with
  | zero => rfl
  | succ n =>
    have : ¬ i < p.rules.length := by omega
    rw [parseStringLoop]; simp [this]

theorem parseStringLoop_quote (sv : Services) (allowDash : Bool) (fuel i : Nat) (p : Parser)
    (j : Nat) (raw : List Nat)
    (hi : i < p.rules.length) (hc : charAt p.rules i = 0x27)
    (hn : ¬ (i + 1 < p.rules.length ∧ charAt p.rules (i + 1) = 0x27))
    (hq : parseQuotedLoop p.rules (p.rules.length - (i + 1)) (i + 1) p.raw = (true, j, raw)) :
    parseStringLoop sv allowDash (fuel + 1) i p =
      parseStringLoop sv allowDash fuel j { p with raw := raw } := by
  rw [parseStringLoop]
  simp [hi, hc, isSyntaxChar, hn, hq]

theorem parseStringLoop_plain_step (sv : Services) (allowDash : Bool) (fuel i : Nat)
    (p : Parser) (c : Nat) (hi : i < p.rules.length) (hc : charAt p.rules i = c)
    (hs : isSyntaxChar c = false) (hw : sv.isWhiteSpace c = false) :
    parseStringLoop sv allowDash (fuel + 1) i p =
      parseStringLoop sv allowDash fuel (i + 1) { p with raw := p.raw ++ [c] } := by
  rw [parseStringLoop]
  simp [hi, hc, hs, hw]

theorem parseStringLoop_plain (sv : Services) (allowDash : Bool) :
    ∀ (x post : List Nat) (fuel i : Nat) (p : Parser),
      (∀ u ∈ x, isSyntaxChar u = false ∧ sv.isWhiteSpace u = false) →
      p.rules.drop i = x ++ post →
      parseStringLoop sv allowDash (fuel + x.length) i p =
        parseStringLoop sv allowDash fuel (i + x.length) { p with raw := p.raw ++ x } := by
  intro x
  induction x with
  | nil => intro post fuel i p _ _; simp
  | cons u x ih =>
    intro post fuel i p hx hd
    obtain ⟨hi, hc, hrest⟩ := drop_cons_facts (by simpa using hd)
    have hu := hx u (by simp)
    have e : fuel + (u :: x).length = (fuel + x.length) + 1 := by
      simp only [List.length_cons]; omega
    rw [e, parseStringLoop_plain_step sv allowDash _ i p u hi hc hu.1 hu.2]
    have := ih post fuel (i + 1) { p with raw := p.raw ++ [u] }
      (fun v hv => hx v (by simp [hv])) (by simpa using hrest)
    rw [this]
    simp [Nat.add_assoc, Nat.add_comm 1]

theorem parseStringLoop_doubled (sv : Services) (allowDash : Bool) (fuel i : Nat)
    (p : Parser) (hi : i + 1 < p.rules.length) (h0 : charAt p.rules i = 0x27)
    (h1 : charAt p.rules (i + 1) = 0x27) :
    parseStringLoop sv allowDash (fuel + 1) i p =
      parseStringLoop sv allowDash fuel (i + 2) { p with raw := p.raw ++ [0x27] } := by
  have hi0 : i < p.rules.length := by omega
  rw [parseStringLoop]
  simp [hi, hi0, h0, h1, isSyntaxChar]

theorem parseQuotedLoop_doubled (rules : List Nat) (fuel i : Nat) (raw : List Nat)
    (hi : i + 1 < rules.length) (h0 : charAt rules i = 0x27)
    (h1 : charAt rules (i + 1) = 0x27) :
    parseQuotedLoop rules (fuel + 1) i raw =
      parseQuotedLoop rules fuel (i + 2) (raw ++ [0x27]) := by
  have hne : ¬ i = rules.length := by omega
  rw [parseQuotedLoop]
  simp [hne, hi, h0, h1]

theorem parseQuotedLoop_partial (rules : List Nat) :
    ∀ (q post : List Nat) (fuel i : Nat) (raw : List Nat),
      (∀ u ∈ q, u ≠ 0x27) → rules.drop i = q ++ post →
      parseQuotedLoop rules (fuel + q.length) i raw =
        parseQuotedLoop rules fuel (i + q.length) (raw ++ q) := by
  intro q
  induction q with
  | nil => intro post fuel i raw _ _; simp
  | cons u q ih =>
    intro post fuel i raw hq hd
    obtain ⟨hi, hc, hrest⟩ := drop_cons_facts (by simpa using hd)
    have hu : u ≠ 0x27 := hq u (by simp)
    have hne : ¬ i = rules.length := by omega
    have e : fuel + (u :: q).length = (fuel + q.length) + 1 := by
      simp only [List.length_cons]; omega
    rw [e, parseQuotedLoop]
    simp only [hne, hc, hu, if_false]
    rw [ih post fuel (i + 1) (raw ++ [u]) (fun v hv => hq v (by simp [hv])) hrest]
    simp [Nat.add_assoc, Nat.add_comm 1]

theorem U16_APPEND_supplementary (l t : Nat) (hl : U16_IS_LEAD l = true)
    (ht : U16_IS_TRAIL t = true) :
    U16_APPEND (U16_GET_SUPPLEMENTARY l t) = [l, t] ∧
      U16_LENGTH (U16_GET_SUPPLEMENTARY l t) = 2 := by
  simp [U16_IS_LEAD] at hl
  simp [U16_IS_TRAIL] at ht
  have h1 : ¬ (l * 1024 + t - 56613888 ≤ 65535) := by omega
  have h2 : l * 1024 + t - 56613888 ≤ 1114111 := by omega
  have h3 : (l * 1024 + t - 56613888) / 1024 + 55232 = l := by omega
  have h4 : (l * 1024 + t - 56613888) % 1024 + 56320 = t := by omega
  simp [U16_APPEND, U16_GET_SUPPLEMENTARY, U16_LENGTH, U16_LEAD, U16_TRAIL, h1, h2, h3, h4]

theorem U16_APPEND_bmp (u : Nat) (h : u < 0x10000) :
    U16_APPEND u = [u] ∧ U16_LENGTH u = 1 := by
  have : u ≤ 65535 := by omega
  simp [U16_APPEND, U16_LENGTH, this]

theorem parseStringLoop_backslash (sv : Services) (allowDash : Bool) (fuel i : Nat)
    (p : Parser) (hi : i + 1 < p.rules.length) (h0 : charAt p.rules i = 0x5c) :
    parseStringLoop sv allowDash (fuel + 1) i p =
      parseStringLoop sv allowDash fuel (i + 1 + U16_LENGTH (char32At p.rules (i + 1)))
        { p with raw := p.raw ++ U16_APPEND (char32At p.rules (i + 1)) } := by
  have hi0 : i < p.rules.length := by omega
  have hne : ¬ i + 1 = p.rules.length := by omega
  rw [parseStringLoop]
  simp [hi0, hne, h0, isSyntaxChar]

/-- the code point after a backslash: a surrogate pair is read as one code point,
any other unit as itself -/
theorem char32At_after_backslash (rules : List Nat) (i : Nat) (hi : i + 1 < rules.length)
    (h0 : charAt rules i = 0x5c) :
    char32At rules (i + 1) =
      if U16_IS_LEAD (charAt rules (i + 1)) ∧ i + 2 < rules.length ∧
          U16_IS_TRAIL (charAt rules (i + 2)) then
        U16_GET_SUPPLEMENTARY (charAt rules (i + 1)) (charAt rules (i + 2))
      else charAt rules (i + 1) := by
  have hne : ¬ U16_IS_LEAD 0x5c = true := by decide
  by_cases hl : U16_IS_LEAD (charAt rules (i + 1)) = true
  · have hs : U_IS_SURROGATE (charAt rules (i + 1)) = true := by
      simp [U16_IS_LEAD] at hl; simp [U_IS_SURROGATE]; omega
    by_cases h2 : i + 2 < rules.length
    · have : ¬ i + 1 + 1 = rules.length := by omega
      simp [char32At, hi, hs, hl, h2, this, Nat.add_assoc]
    · have : i + 1 + 1 = rules.length := by omega
      simp [char32At, hi, hs, hl, h2, this]
  · simp [char32At, hi, hl, h0, hne]

theorem drop_add_of_drop_append {rules : List Nat} {i : Nat} {x post : List Nat}
    (h : rules.drop i = x ++ post) : rules.drop (i + x.length) = post := by
  have : rules.drop (i + x.length) = (rules.drop i).drop x.length := by
    rw [List.drop_drop, Nat.add_comm]
  rw [this, h, List.drop_left]

theorem charAt_mem {rules : List Nat} {i : Nat} (h : i < rules.length) :
    charAt rules i ∈ rules := by
  simp [charAt, List.getD_eq_getElem?_getD, List.getElem?_eq_getElem h]

/-! ## Relation operators -/

/-- C1: at the cursor `parseRelationOperator` recognises exactly the lexemes of the operator
table (`relationLexeme`: longest match of `<`, `<<`, `<<<`, or `=`, with an optional `*`,
or `;`, or `,`).  For a lexeme its result is not `NO_RELATION`, the masked strength is the
table's strength, bit `0x10` is set exactly for a starred lexeme, and `result >> 8` is the
length of the lexeme in code units; with no lexeme at the cursor (any other character, or
the end of the text), and when an error is already set, the result is `NO_RELATION`. -/
theorem parseRelationOperator_lexeme (p : Parser) :
    if U_FAILURE p.errorCode then parseRelationOperator p = NO_RELATION
    else
      match relationLexeme (p.rules.drop p.ruleIndex) with
      | none => parseRelationOperator p = NO_RELATION
      | some (s, starred, n) =>
        parseRelationOperator p ≠ NO_RELATION ∧
        Int.land (parseRelationOperator p) STRENGTH_MASK = s ∧
        (Int.land (parseRelationOperator p) 0x10 ≠ 0 ↔ starred = true) ∧
        parseRelationOperator p >>> 8 = (n : Int) := by
  have c0 : charAt p.rules p.ruleIndex = charAt (p.rules.drop p.ruleIndex) 0 := by
    simpa using charAt_add_drop p.rules p.ruleIndex 0
  have c1 := charAt_add_drop p.rules p.ruleIndex 1
  have c2 := charAt_add_drop p.rules p.ruleIndex 2
  have c3 := charAt_add_drop p.rules p.ruleIndex 3
  have hlen : (p.rules.drop p.ruleIndex).length = p.rules.length - p.ruleIndex :=
    List.length_drop _ _
  cases hf : U_FAILURE p.errorCode
  · simp only [Bool.false_eq_true, if_false]
    generalize ht : p.rules.drop p.ruleIndex = t at *
    rcases t with _ | ⟨a, _ | ⟨b, _ | ⟨c, _ | ⟨d, t⟩⟩⟩⟩
    · have hl : p.rules.length ≤ p.ruleIndex := by simp at hlen; omega
      simp [relationLexeme, parseRelationOperator, hf, hl]
    · simp at c0 c1 hlen
      have hl : p.rules.length = p.ruleIndex + 1 := by omega
      clear ht hlen
      have ha : a = 0x3c ∨ a = 0x3b ∨ a = 0x2c ∨ a = 0x3d ∨
          (a ≠ 0x3c ∧ a ≠ 0x3b ∧ a ≠ 0x2c ∧ a ≠ 0x3d) := by omega
      rcases ha with h | h | h | h | ⟨h1, h2, h3, h4⟩ <;>
        simp [relationLexeme, parseRelationOperator, hf, c0, hl, Nat.add_assoc, *] <;> decide
    · simp at c0 c1 c2 hlen
      have hl : p.rules.length = p.ruleIndex + 2 := by omega
      clear ht hlen
      have ha : a = 0x3c ∨ a = 0x3b ∨ a = 0x2c ∨ a = 0x3d ∨
          (a ≠ 0x3c ∧ a ≠ 0x3b ∧ a ≠ 0x2c ∧ a ≠ 0x3d) := by omega
      have hb : b = 0x3c ∨ b = 0x2a ∨ (b ≠ 0x3c ∧ b ≠ 0x2a) := by omega
      rcases ha with h | h | h | h | ⟨h1, h2, h3, h4⟩ <;>
        rcases hb with h' | h' | ⟨h5, h6⟩ <;>
        simp [relationLexeme, parseRelationOperator, hf, c0, c1, hl, Nat.add_assoc, *] <;>
        decide
    · simp at c0 c1 c2 c3 hlen
      have hl : p.rules.length = p.ruleIndex + 3 := by omega
      clear ht hlen
      have ha : a = 0x3c ∨ a = 0x3b ∨ a = 0x2c ∨ a = 0x3d ∨
          (a ≠ 0x3c ∧ a ≠ 0x3b ∧ a ≠ 0x2c ∧ a ≠ 0x3d) := by omega
      have hb : b = 0x3c ∨ b = 0x2a ∨ (b ≠ 0x3c ∧ b ≠ 0x2a) := by omega
      have hc : c = 0x3c ∨ c = 0x2a ∨ (c ≠ 0x3c ∧ c ≠ 0x2a) := by omega
      rcases ha with h | h | h | h | ⟨h1, h2, h3, h4⟩ <;>
        rcases hb with h' | h' | ⟨h5, h6⟩ <;>
        rcases hc with h'' | h'' | ⟨h7, h8⟩ <;>
        simp [relationLexeme, parseRelationOperator, hf, c0, c1, c2, hl, Nat.add_assoc, *] <;>
        decide
    · simp at c0 c1 c2 c3 hlen
      have hl : p.rules.length = p.ruleIndex + (t.length + 4) := by omega
      clear ht hlen
      have ha : a = 0x3c ∨ a = 0x3b ∨ a = 0x2c ∨ a = 0x3d ∨
          (a ≠ 0x3c ∧ a ≠ 0x3b ∧ a ≠ 0x2c ∧ a ≠ 0x3d) := by omega
      have hb : b = 0x3c ∨ b = 0x2a ∨ (b ≠ 0x3c ∧ b ≠ 0x2a) := by omega
      have hc : c = 0x3c ∨ c = 0x2a ∨ (c ≠ 0x3c ∧ c ≠ 0x2a) := by omega
      have hd : d = 0x2a ∨ d ≠ 0x2a := by omega
      rcases ha with h | h | h | h | ⟨h1, h2, h3, h4⟩ <;>
        rcases hb with h' | h' | ⟨h5, h6⟩ <;>
        rcases hc with h'' | h'' | ⟨h7, h8⟩ <;>
        rcases hd with h9 | h9 <;>
        simp [relationLexeme, parseRelationOperator, hf, c0, c1, c2, c3, hl, Nat.add_assoc, *] <;>
        decide
  · simp [parseRelationOperator, hf]

/-! ## String literals -/

/-- C9: for every non-empty text `q` of code units without an apostrophe, without an unpaired
surrogate and without U+FFFE and U+FFFF, `parseString` applied to the quoted literal `'q'` (the
rule text ends after the closing apostrophe) decodes exactly `q`: the returned offset is the
end of the text, `raw` is `q`, and nothing else in the state changes, so no error is set.
Nothing is assumed about syntax characters, white space, backslashes or dashes in `q`. -/
theorem parseString_quoted (sv : Services) (allowDash : Bool) (p : Parser)
    (pre q : List Nat)
    (hrules : p.rules = pre ++ 0x27 :: q ++ [0x27])
    (hok : p.errorCode = UErrorCode.U_ZERO_ERROR)
    (hws : sv.isWhiteSpace 0x27 = false)
    (hne : q ≠ [])
    (hq : ∀ u ∈ q, u ≠ 0x27)
    (hu : ∀ u ∈ q, u < 0x10000)
    (hw : wellFormed16 q = true) :
    parseString sv pre.length allowDash p = (p.rules.length, { p with raw := q }) := by
  have hd : p.rules.drop pre.length = 0x27 :: (q ++ [0x27]) := by
    rw [hrules]; simp
  obtain ⟨hi, hc, hrest⟩ := drop_cons_facts hd
  have hlen : p.rules.length = pre.length + (q.length + 2) := by
    rw [hrules]; simp only [List.length_append, List.length_cons, List.length_nil]; omega
  have hskip : skipWhiteSpace sv p.rules pre.length = pre.length :=
    skipWhiteSpace_stop sv p.rules _ (fun _ => by rw [hc]; exact hws)
  obtain ⟨u, q', rfl⟩ : ∃ u q', q = u :: q' := by
    cases q with
    | nil => exact absurd rfl hne
    | cons u q' => exact ⟨u, q', rfl⟩
  simp only [List.length_cons] at hlen
  have hu27 : u ≠ 0x27 := hq u (by simp)
  obtain ⟨hi1, hc1, _⟩ := @drop_cons_facts p.rules (pre.length + 1) u (q' ++ [0x27])
    (by simpa using hrest)
  have hquoted := parseQuotedLoop_run p.rules (u :: q') [] (p.rules.length - (pre.length + 1))
    (pre.length + 1) [] hq (by simpa using hrest) (by simp)
    (by simp only [List.length_cons]; omega)
  have hfuel : p.rules.length - pre.length = (q'.length + 2) + 1 := by omega
  have hend : pre.length + 1 + (u :: q').length + 1 = p.rules.length := by
    simp only [List.length_cons]; omega
  have hcheck := checkStringLoop_wellFormed { p with raw := u :: q' } (u :: q').length
    (u :: q') 0 (by simp) hw hu (le_refl _)
  have hF : U_FAILURE p.errorCode = false := by rw [hok]; rfl
  rw [hend] at hquoted
  have hstep := parseStringLoop_quote sv allowDash (q'.length + 2) pre.length
    { p with raw := [] } p.rules.length (u :: q') hi hc (by rw [hc1]; simp [hu27])
    (by simpa using hquoted)
  simp only [parseString, hF, hskip, hfuel]
  rw [hstep, parseStringLoop_end _ _ _ _ _ (by simp)]
  simpa using hcheck

/-- One step of the scanning loop of `parseString` at a backslash that is not the last code
unit: a surrogate pair after it is consumed as two code units and appended as that pair, with
scanning continuing three units on; any other code unit is appended as it is, with scanning
continuing two units on. -/
theorem parseStringLoop_escape_step (sv : Services) (allowDash : Bool) (fuel i : Nat) (p : Parser)
    (hu : ∀ u ∈ p.rules, u < 0x10000)
    (hi : i + 1 < p.rules.length) (h0 : charAt p.rules i = 0x5c) :
    if U16_IS_LEAD (charAt p.rules (i + 1)) ∧ i + 2 < p.rules.length ∧
        U16_IS_TRAIL (charAt p.rules (i + 2)) then
      parseStringLoop sv allowDash (fuel + 1) i p =
        parseStringLoop sv allowDash fuel (i + 3)
          { p with raw := p.raw ++ [charAt p.rules (i + 1), charAt p.rules (i + 2)] }
    else
      parseStringLoop sv allowDash (fuel + 1) i p =
        parseStringLoop sv allowDash fuel (i + 2)
          { p with raw := p.raw ++ [charAt p.rules (i + 1)] } := by
  have hstep := parseStringLoop_backslash sv allowDash fuel i p hi h0
  have h32 := char32At_after_backslash p.rules i hi h0
  split
  · next hc =>
    rw [if_pos hc] at h32
    obtain ⟨ha, hl⟩ := U16_APPEND_supplementary _ _ hc.1 hc.2.2
    rw [hstep, h32, ha, hl]
  · next hc =>
    rw [if_neg hc] at h32
    obtain ⟨ha, hl⟩ := U16_APPEND_bmp _ (hu _ (charAt_mem hi))
    rw [hstep, h32, ha, hl]

/-- C8: a doubled apostrophe decodes to one apostrophe.  Outside quoted text: for plain
texts `x` and `y` (no syntax character, no white space) the literal `x''y` decodes to
`x'y`, so the pair does not open a quote.  Inside quoted text: for apostrophe-free `x ≠ []`
and `y` the literal `'x''y'` decodes to `x'y`, so the pair does not close the quote. -/
theorem parseString_doubled_apostrophe (sv : Services) (allowDash : Bool) (p : Parser)
    (pre x y : List Nat)
    (hok : p.errorCode = UErrorCode.U_ZERO_ERROR)
    (hws : sv.isWhiteSpace 0x27 = false)
    (hu : ∀ u ∈ x ++ 0x27 :: y, u < 0x10000)
    (hw : wellFormed16 (x ++ 0x27 :: y) = true) :
    ((∀ u ∈ x ++ y, isSyntaxChar u = false ∧ sv.isWhiteSpace u = false) →
      p.rules = pre ++ x ++ [0x27, 0x27] ++ y →
      parseString sv pre.length allowDash p = (p.rules.length, { p with raw := x ++ 0x27 :: y })) ∧
    (x ≠ [] → (∀ u ∈ x ++ y, u ≠ 0x27) →
      p.rules = pre ++ 0x27 :: x ++ [0x27, 0x27] ++ y ++ [0x27] →
      parseString sv pre.length allowDash p = (p.rules.length, { p with raw := x ++ 0x27 :: y })) := by
  have hF : U_FAILURE p.errorCode = false := by rw [hok]; rfl
  have hcheck := checkStringLoop_wellFormed { p with raw := x ++ 0x27 :: y }
    (x ++ 0x27 :: y).length (x ++ 0x27 :: y) 0 (by simp) hw hu (le_refl _)
  constructor
  · intro hplain hrules
    have hd : p.rules.drop pre.length = x ++ ([0x27, 0x27] ++ y) := by
      rw [hrules]; simp
    have hlen : p.rules.length = pre.length + (x.length + (y.length + 2)) := by
      rw [hrules]; simp only [List.length_append, List.length_cons, List.length_nil]; omega
    have hd2 : p.rules.drop (pre.length + x.length) = 0x27 :: 0x27 :: y := by
      simpa using drop_add_of_drop_append hd
    obtain ⟨hi0, hc0, hrest0⟩ := drop_cons_facts hd2
    obtain ⟨hi1, hc1, hrest1⟩ := drop_cons_facts hrest0
    have hskip : skipWhiteSpace sv p.rules pre.length = pre.length := by
      apply skipWhiteSpace_stop
      intro _
      cases x with
      | nil => simp at hc0; rw [hc0]; exact hws
      | cons u x' =>
        obtain ⟨_, hc, _⟩ := drop_cons_facts (by simpa using hd)
        rw [hc]; exact (hplain u (by simp)).2
    have hfuel : p.rules.length - pre.length = ((1 + y.length) + 1) + x.length := by omega
    simp only [parseString, hF, hskip, hfuel]
    rw [parseStringLoop_plain sv allowDash x ([0x27, 0x27] ++ y) ((1 + y.length) + 1) pre.length
      { p with raw := [] } (fun u hu => hplain u (by simp [hu])) hd]
    rw [parseStringLoop_doubled sv allowDash (1 + y.length) (pre.length + x.length)
      { p with raw := [] ++ x } hi1 hc0 hc1]
    rw [parseStringLoop_plain sv allowDash y [] 1 (pre.length + x.length + 2)
      { p with raw := [] ++ x ++ [0x27] } (fun u hu => hplain u (by simp [hu]))
      (by simpa [Nat.add_assoc] using hrest1)]
    rw [parseStringLoop_end _ _ _ _ _ (by simp only [hlen]; omega)]
    have e : pre.length + x.length + 2 + y.length = p.rules.length := by omega
    simp [e]
    simpa using hcheck
  · intro hne hq hrules
    have hd : p.rules.drop pre.length = 0x27 :: (x ++ ([0x27, 0x27] ++ (y ++ [0x27]))) := by
      rw [hrules]; simp
    obtain ⟨hi, hc, hrest⟩ := drop_cons_facts hd
    have hlen : p.rules.length = pre.length + (x.length + (y.length + 4)) := by
      rw [hrules]; simp only [List.length_append, List.length_cons, List.length_nil]; omega
    have hskip : skipWhiteSpace sv p.rules pre.length = pre.length :=
      skipWhiteSpace_stop sv p.rules _ (fun _ => by rw [hc]; exact hws)
    have hd2 : p.rules.drop (pre.length + 1 + x.length) = 0x27 :: 0x27 :: (y ++ [0x27]) := by
      simpa using drop_add_of_drop_append hrest
    obtain ⟨hi0, hc0, hrest0⟩ := drop_cons_facts hd2
    obtain ⟨hi1, hc1, hrest1⟩ := drop_cons_facts hrest0
    have hnext : ¬ (pre.length + 1 < p.rules.length ∧ charAt p.rules (pre.length + 1) = 0x27) := by
      rintro ⟨_, h⟩
      cases x with
      | nil => exact hne rfl
      | cons u x' =>
        obtain ⟨_, hcu, _⟩ := drop_cons_facts (by simpa using hrest)
        exact hq u (by simp) (by rw [← hcu]; exact h)
    have hfq : p.rules.length - (pre.length + 1) = ((y.length + 2) + 1) + x.length := by omega
    have hquoted : parseQuotedLoop p.rules (p.rules.length - (pre.length + 1)) (pre.length + 1) []
        = (true, p.rules.length, x ++ 0x27 :: y) := by
      rw [hfq, parseQuotedLoop_partial p.rules x _ _ _ _ (fun u hu => hq u (by simp [hu])) hrest]
      rw [parseQuotedLoop_doubled p.rules _ _ _ hi1 hc0 hc1]
      rw [parseQuotedLoop_run p.rules y [] (y.length + 2) (pre.length + 1 + x.length + 2)
        ([] ++ x ++ [0x27]) (fun u hu => hq u (by simp [hu]))
        (by simpa [Nat.add_assoc] using hrest1) (by simp) (by omega)]
      have e : pre.length + 1 + x.length + 2 + y.length + 1 = p.rules.length := by omega
      simp [e]
    have hfuel : p.rules.length - pre.length = (x.length + y.length + 3) + 1 := by omega
    have hstep := parseStringLoop_quote sv allowDash (x.length + y.length + 3) pre.length
      { p with raw := [] } p.rules.length (x ++ 0x27 :: y) hi hc hnext hquoted
    simp only [parseString, hF, hskip, hfuel]
    rw [hstep, parseStringLoop_end _ _ _ _ _ (by simp)]
    simpa using hcheck

/-- An instance of `parseString_quoted`: the literal `'<<'` decodes to `<<`. -/
theorem parseString_quoted_witness :
    parseString sampleServices 0 false
        { newParser sampleSettings with rules := [0x27, 0x3c, 0x3c, 0x27] } =
      (4, { newParser sampleSettings with rules := [0x27, 0x3c, 0x3c, 0x27],
                                          raw := [0x3c, 0x3c] }) :=
  parseString_quoted sampleServices false
    { newParser sampleSettings with rules := [0x27, 0x3c, 0x3c, 0x27] } [] [0x3c, 0x3c]
    rfl rfl rfl (by decide) (by decide) (by decide) rfl

/-- Instances of `parseString_doubled_apostrophe`: `r''t` and `'r''t'` both decode to
`r't`. -/
theorem parseString_doubled_apostrophe_witness :
    parseString sampleServices 0 false
        { newParser sampleSettings with rules := [0x72, 0x27, 0x27, 0x74] } =
      (4, { newParser sampleSettings with rules := [0x72, 0x27, 0x27, 0x74],
                                          raw := [0x72, 0x27, 0x74] }) ∧
    parseString sampleServices 0 false
        { newParser sampleSettings with rules := [0x27, 0x72, 0x27, 0x27, 0x74, 0x27] } =
      (6, { newParser sampleSettings with rules := [0x27, 0x72, 0x27, 0x27, 0x74, 0x27],
                                          raw := [0x72, 0x27, 0x74] }) :=
  ⟨(parseString_doubled_apostrophe sampleServices false
      { newParser sampleSettings with rules := [0x72, 0x27, 0x27, 0x74] } [] [0x72] [0x74]
      rfl rfl (by decide) rfl).1 (by decide) rfl,
   (parseString_doubled_apostrophe sampleServices false
      { newParser sampleSettings with rules := [0x27, 0x72, 0x27, 0x27, 0x74, 0x27] }
      [] [0x72] [0x74] rfl rfl (by decide) rfl).2 (by decide) (by decide) rfl⟩

/-! ## Frames and starred relations -/

theorem scanFrame_setParseError (reason : String) (p : Parser) :
    scanFrame (setParseError reason p) = scanFrame p := by
  unfold setParseError
  split
  · rfl
  · split <;> rfl

theorem scanFrame_raw (p : Parser) (raw : List Nat) :
    scanFrame { p with raw := raw } = scanFrame p := rfl

theorem scanFrame_parseStringLoop (sv : Services) (allowDash : Bool) :
    ∀ (fuel i : Nat) (p : Parser),
      scanFrame (parseStringLoop sv allowDash fuel i p).2.2 = scanFrame p := by
  intro fuel
  induction fuel with
  | zero => intro i p; rfl
  | succ n ih =>
    intro i p
    rw [parseStringLoop]
    split
    · simp only []
      split
      · split
        · split
          · rw [ih]; rfl
          · split
            · simp [scanFrame_setParseError, scanFrame_raw]
            · rw [ih]; rfl
        · split
          · split
            · simp [scanFrame_setParseError]
            · rw [ih]; rfl
          · split
            · rw [ih]; rfl
            · rfl
      · split
        · rfl
        · rw [ih]; rfl
    · rfl

theorem scanFrame_checkStringLoop :
    ∀ (fuel j : Nat) (p : Parser), scanFrame (checkStringLoop fuel j p) = scanFrame p := by
  intro fuel
  induction fuel with
  | zero => intro j p; rfl
  | succ n ih =>
    intro j p
    rw [checkStringLoop]
    split
    · simp only []
      split
      · exact scanFrame_setParseError _ _
      · split
        · exact scanFrame_setParseError _ _
        · exact ih _ _
    · rfl

theorem scanFrame_parseString (sv : Services) (i : Nat) (allowDash : Bool) (p : Parser) :
    scanFrame (parseString sv i allowDash p).2 = scanFrame p := by
  unfold parseString
  split
  · rfl
  · simp only []
    have h := scanFrame_parseStringLoop sv allowDash
      (p.rules.length - skipWhiteSpace sv p.rules i) (skipWhiteSpace sv p.rules i)
      { p with raw := [] }
    split
    · next b j q heq => rw [heq] at h; exact h
    · next b j q heq =>
      rw [heq] at h
      split
      · rw [scanFrame_setParseError]; exact h
      · rw [scanFrame_checkStringLoop]; exact h

theorem emitted_nil (s : Int) (p : Parser) : emitted s p [] = p := by
  simp [emitted]

theorem emitted_append (s : Int) (p : Parser) (cs ds : List Nat) :
    emitted s (emitted s p cs) ds = emitted s p (cs ++ ds) := by
  cases ds with
  | nil => simp [emitted]
  | cons d ds =>
    rcases h : (d :: ds).getLast? with _ | z
    · simp at h
    · simp [emitted, List.getLast?_append, h]

theorem callSink_accept (sv : Services) (hacc : ∀ h c, sv.sink h c = none) (s : Int)
    (k : Nat) (p : Parser) (hok : U_FAILURE p.errorCode = false) :
    callSink sv (SinkCall.addRelation s p.pfx (U16_APPEND k) p.extension)
        { p with str := U16_APPEND k } = emitted s p [k] := by
  simp [callSink, hok, hacc, emitted]

theorem char32At_of_drop {raw : List Nat} {j a : Nat} {rest : List Nat}
    (h : raw.drop j = U16_APPEND a ++ rest) (ha : a ≤ 0x10ffff)
    (hs : U_IS_SURROGATE a = false) :
    j < raw.length ∧ char32At raw j = a ∧ raw.drop (j + U16_LENGTH a) = rest := by
  by_cases hb : a ≤ 0xffff
  · have happ : U16_APPEND a = [a] := by simp [U16_APPEND, hb]
    rw [happ] at h
    obtain ⟨hj, hc, hrest⟩ := drop_cons_facts (by simpa using h)
    refine ⟨hj, ?_, ?_⟩
    · simp [char32At, hj, hc, hs]
    · simpa [U16_LENGTH, hb] using hrest
  · have happ : U16_APPEND a = [U16_LEAD a, U16_TRAIL a] := by simp [U16_APPEND, hb, ha]
    rw [happ] at h
    obtain ⟨hj, hc, hrest⟩ := drop_cons_facts (by simpa using h)
    obtain ⟨hj1, hc1, hrest1⟩ := drop_cons_facts hrest
    have hne : ¬ j + 1 = raw.length := by omega
    have hl : U16_IS_LEAD (U16_LEAD a) = true := by
      simp [U16_IS_LEAD, U16_LEAD]; omega
    have ht : U16_IS_TRAIL (U16_TRAIL a) = true := by
      simp [U16_IS_TRAIL, U16_TRAIL]; omega
    have hsur : U_IS_SURROGATE (U16_LEAD a) = true := by
      simp [U_IS_SURROGATE, U16_LEAD]; omega
    have hval : U16_GET_SUPPLEMENTARY (U16_LEAD a) (U16_TRAIL a) = a := by
      simp [U16_GET_SUPPLEMENTARY, U16_LEAD, U16_TRAIL]; omega
    refine ⟨hj, ?_, ?_⟩
    · simp [char32At, hj, hc, hc1, hsur, hl, ht, hne, hval]
    · simpa [U16_LENGTH, hb, Nat.add_assoc] using hrest1

theorem parseStarredRange_emitted (sv : Services) (hacc : ∀ h c, sv.sink h c = none)
    (s : Int) :
    ∀ (d a c : Nat) (p : Parser), c = a + d → U_FAILURE p.errorCode = false →
      parseStarredRange sv s (d + 1) (a : Int) c p = emitted s p (List.range' (a + 1) d) := by
  intro d
  induction d with
  | zero =>
    intro a c p hc hok
    rw [parseStarredRange]
    have : ¬ ((a : Int) + 1 ≤ (c : Int)) := by omega
    simp [this, emitted_nil]
  | succ d ih =>
    intro a c p hc hok
    rw [parseStarredRange]
    have h1 : (a : Int) + 1 ≤ (c : Int) := by omega
    have h2 : ((a : Int) + 1).toNat = a + 1 := by omega
    simp only [h1, if_true, h2]
    rw [callSink_accept sv hacc s (a + 1) p hok]
    have h3 : ((a : Int) + 1) = ((a + 1 : Nat) : Int) := by omega
    rw [h3, ih (a + 1) c (emitted s p [a + 1]) (by omega) hok, emitted_append]
    simp [List.range'_succ]

theorem parseStarredLoop_single (sv : Services) (hacc : ∀ h c, sv.sink h c = none) (s : Int)
    (fuel j : Nat) (prev : Int) (p : Parser) (a : Nat) (rest : List Nat)
    (hd : p.raw.drop j = U16_APPEND a ++ rest) (ha : starredChar sv a)
    (hok : U_FAILURE p.errorCode = false) :
    parseStarredLoop sv s (fuel + 1) j prev p =
      parseStarredLoop sv s fuel (j + U16_LENGTH a) (a : Int) (emitted s p [a]) := by
  obtain ⟨h1, h2, h3, h4⟩ := ha
  obtain ⟨hj, hc, _⟩ := char32At_of_drop hd h1 h2
  rw [parseStarredLoop]
  simp only [hj, hok, hc, h4]
  simp [callSink_accept sv hacc s a p hok, h3]

theorem parseStarredLoop_range (sv : Services) (hacc : ∀ h c, sv.sink h c = none) (s : Int)
    (fuel j : Nat) (p : Parser) (a b : Nat) (rest : List Nat)
    (hd : p.raw.drop j = 0x2d :: (U16_APPEND b ++ rest)) (hb : starredChar sv b)
    (hab : a ≤ b) (hok : U_FAILURE p.errorCode = false) :
    parseStarredLoop sv s (fuel + 1) j (a : Int) p =
      parseStarredLoop sv s fuel (j + 1 + U16_LENGTH b) (-1)
        (emitted s p (List.range' (a + 1) (b - a))) := by
  obtain ⟨h1, h2, h3, h4⟩ := hb
  obtain ⟨hj, hc, hrest⟩ := drop_cons_facts hd
  obtain ⟨hj1, hc1, _⟩ := char32At_of_drop hrest h1 h2
  have hdash : char32At p.raw j = 0x2d := by
    simp [char32At, hj, hc, U_IS_SURROGATE]
  have hne : ¬ j + 1 = p.raw.length := by omega
  have hprev : ¬ ((a : Int) < 0) := by omega
  have hlt : ¬ ((b : Int) < (a : Int)) := by omega
  have hfuel : b + 1 - (a : Int).toNat = (b - a) + 1 := by
    have : (a : Int).toNat = a := by omega
    omega
  rw [parseStarredLoop]
  simp only [hj, hok, hdash, hprev, hne, hc1, h4, hlt, hfuel]
  simp [parseStarredRange_emitted sv hacc s (b - a) a b p (by omega) hok]

theorem parseStarredLoop_end (sv : Services) (s : Int) (fuel j : Nat) (prev : Int)
    (p : Parser) (h : p.raw.length ≤ j) :
    parseStarredLoop sv s fuel j prev p = (false, p) := by
  cases fuel with
  | zero => rfl
  | succ n =>
    have : ¬ j < p.raw.length := by omega
    rw [parseStarredLoop]; simp [this]

theorem U16_LENGTH_eq_length (a : Nat) (h : a ≤ 0x10ffff) :
    (U16_APPEND a).length = U16_LENGTH a ∧ 1 ≤ U16_LENGTH a := by
  by_cases hb : a ≤ 0xffff <;> simp [U16_APPEND, U16_LENGTH, hb, h]

theorem parseStarredLoop_items (sv : Services) (hacc : ∀ h c, sv.sink h c = none) (s : Int) :
    ∀ (items : List (Nat × Option Nat)) (fuel j : Nat) (prev : Int) (p : Parser),
      p.raw.drop j = items.flatMap itemText → (∀ it ∈ items, starredItem sv it) →
      U_FAILURE p.errorCode = false → (items.flatMap itemText).length ≤ fuel →
      parseStarredLoop sv s fuel j prev p = (false, emitted s p (items.flatMap itemExpansion)) := by
  intro items
  induction items with
  | nil =>
    intro fuel j prev p hd _ _ _
    have := drop_nil_facts (by simpa using hd)
    simp [parseStarredLoop_end sv s fuel j prev p this, emitted_nil]
  | cons it items ih =>
    intro fuel j prev p hd hv hok hfuel
    have hit := hv it (by simp)
    have hrestv : ∀ it' ∈ items, starredItem sv it' := fun it' h => hv it' (by simp [h])
    rcases it with ⟨a, _ | b⟩
    · have ha : starredChar sv a := hit
      obtain ⟨hl, hl1⟩ := U16_LENGTH_eq_length a ha.1
      simp only [List.flatMap_cons, itemText, List.length_append] at hd hfuel
      obtain ⟨n, rfl⟩ : ∃ n, fuel = n + 1 := ⟨fuel - 1, by omega⟩
      rw [parseStarredLoop_single sv hacc s n j prev p a _ hd ha hok]
      obtain ⟨_, _, hd'⟩ := char32At_of_drop hd ha.1 ha.2.1
      rw [ih n _ _ (emitted s p [a]) hd' hrestv hok (by omega), emitted_append]
      simp [itemExpansion]
    · obtain ⟨ha, hb, hab⟩ : starredChar sv a ∧ starredChar sv b ∧ a ≤ b := hit
      obtain ⟨hl, hl1⟩ := U16_LENGTH_eq_length a ha.1
      obtain ⟨hlb, hlb1⟩ := U16_LENGTH_eq_length b hb.1
      simp only [List.flatMap_cons, itemText, List.length_append, List.length_cons,
        List.append_assoc, List.cons_append] at hd hfuel
      obtain ⟨n, rfl⟩ : ∃ n, fuel = n + 2 := ⟨fuel - 2, by omega⟩
      rw [parseStarredLoop_single sv hacc s (n + 1) j prev p a _ hd ha hok]
      obtain ⟨_, _, hd'⟩ := char32At_of_drop hd ha.1 ha.2.1
      rw [parseStarredLoop_range sv hacc s n _ (emitted s p [a]) a b _ hd' hb hab hok]
      obtain ⟨_, _, hd''⟩ := drop_cons_facts hd'
      obtain ⟨_, _, hd3⟩ := char32At_of_drop hd'' hb.1 hb.2.1
      rw [ih n _ _ (emitted s (emitted s p [a]) (List.range' (a + 1) (b - a))) hd3 hrestv hok
        (by omega), emitted_append, emitted_append]
      have : [a] ++ List.range' (a + 1) (b - a) = List.range' a (b + 1 - a) := by
        have e : b + 1 - a = (b - a) + 1 := by omega
        rw [e, List.range'_succ]; rfl
      simp [itemExpansion, ← this]

theorem setParseError_fields (reason : String) (p : Parser)
    (h : U_FAILURE p.errorCode = false) :
    (setParseError reason p).errorCode = UErrorCode.U_PARSE_ERROR ∧
      (setParseError reason p).errorReason = some reason ∧
      (setParseError reason p).sinkCalls = p.sinkCalls := by
  unfold setParseError
  simp only [h, Bool.false_eq_true, if_false]
  cases p.parseError <;> simp

theorem parseStarredLoop_no_start (sv : Services) (s : Int) (fuel j : Nat) (prev : Int)
    (p : Parser) (rest : List Nat) (hd : p.raw.drop j = 0x2d :: rest) (hprev : prev < 0)
    (hok : U_FAILURE p.errorCode = false) :
    parseStarredLoop sv s (fuel + 1) j prev p =
      (true, setParseError "range without start in starred-relation string" p) := by
  obtain ⟨hj, hc, _⟩ := drop_cons_facts hd
  have hdash : char32At p.raw j = 0x2d := by
    simp [char32At, hj, hc, U_IS_SURROGATE]
  rw [parseStarredLoop]
  simp [hj, hok, hdash, hprev]

theorem parseStarredLoop_no_end (sv : Services) (s : Int) (fuel j : Nat) (a : Nat)
    (p : Parser) (hd : p.raw.drop j = [0x2d]) (hok : U_FAILURE p.errorCode = false) :
    parseStarredLoop sv s (fuel + 1) j (a : Int) p =
      (true, setParseError "range without end in starred-relation string" p) := by
  obtain ⟨hj, hc, hrest⟩ := drop_cons_facts hd
  have hlen : j + 1 = p.raw.length := by
    have := drop_nil_facts hrest
    omega
  have hdash : char32At p.raw j = 0x2d := by
    simp [char32At, hj, hc, U_IS_SURROGATE]
  have hprev : ¬ ((a : Int) < 0) := by omega
  rw [parseStarredLoop]
  simp [hj, hok, hdash, hprev, hlen]

theorem parseStarredLoop_inverted (sv : Services) (s : Int) (fuel j : Nat) (a b : Nat)
    (p : Parser) (rest : List Nat) (hd : p.raw.drop j = 0x2d :: (U16_APPEND b ++ rest))
    (hb : starredChar sv b) (hba : b < a) (hok : U_FAILURE p.errorCode = false) :
    parseStarredLoop sv s (fuel + 1) j (a : Int) p =
      (true, setParseError "range start greater than end in starred-relation string" p) := by
  obtain ⟨h1, h2, h3, h4⟩ := hb
  obtain ⟨hj, hc, hrest⟩ := drop_cons_facts hd
  obtain ⟨hj1, hc1, _⟩ := char32At_of_drop hrest h1 h2
  have hdash : char32At p.raw j = 0x2d := by
    simp [char32At, hj, hc, U_IS_SURROGATE]
  have hne : ¬ j + 1 = p.raw.length := by omega
  have hprev : ¬ ((a : Int) < 0) := by omega
  have hlt : (b : Int) < (a : Int) := by omega
  rw [parseStarredLoop]
  simp [hj, hok, hdash, hprev, hne, hc1, h4, hlt]

/-- C5: a starred relation expands its literal item by item.  When the sink accepts every
call and the starred literal decodes, without error, to a sequence of items, each a single
code point `a` or a range `a-b` with `a ≤ b` (the written code points NFD-inert scalar values
other than `-`), `parseStarredCharacters` ends without error at the offset the literal parser
returned, and the calls it adds to the sink are exactly one `addRelation` per code point of
the expansion, in order: `a` for a single code point and `a, a+1, ..., b` for a range, each
with the given strength, empty prefix, empty extension and the one code point as target.
So `a-f` gives six relations, `a-a` one, and a literal without `-` one per code point. -/
theorem parseStarredCharacters_expands (sv : Services) (strength : Int) (i : Nat) (p : Parser)
    (items : List (Nat × Option Nat))
    (hacc : ∀ h c, sv.sink h c = none)
    (hok : (parseString sv i true (resetTailoringStrings p)).2.errorCode =
      UErrorCode.U_ZERO_ERROR)
    (hraw : (parseString sv i true (resetTailoringStrings p)).2.raw = items.flatMap itemText)
    (hitems : ∀ it ∈ items, starredItem sv it) :
    (parseStarredCharacters sv strength i p).errorCode = UErrorCode.U_ZERO_ERROR ∧
    (parseStarredCharacters sv strength i p).ruleIndex =
      (parseString sv i true (resetTailoringStrings p)).1 ∧
    (parseStarredCharacters sv strength i p).sinkCalls =
      p.sinkCalls ++ (items.flatMap itemExpansion).map
        (fun c => SinkCall.addRelation strength [] (U16_APPEND c) []) := by
  have hfr := scanFrame_parseString sv i true (resetTailoringStrings p)
  simp only [scanFrame, Prod.mk.injEq] at hfr
  obtain ⟨-, -, hpfx, -, hext, -, -, hcalls⟩ := hfr
  simp only [parseStarredCharacters]
  generalize parseString sv i true (resetTailoringStrings p) = r at *
  have hF : U_FAILURE r.2.errorCode = false := by rw [hok]; rfl
  have hloop := parseStarredLoop_items sv hacc strength items r.2.raw.length 0 (-1) r.2
    (by simpa using hraw) hitems hF (by rw [hraw])
  simp only [hF, hloop]
  simp [emitted, hok, hpfx, hext, hcalls, resetTailoringStrings]

/-- C6: the three range errors of a starred relation.  With the literal decoded without
error and a sink that accepts every call, for NFD-inert scalar values `a`, `b` other than
`-`: a decoded literal that starts with `-`, or that has a second `-` right after the range
`a-b`, fails with "range without start in starred-relation string"; the literal `a-` fails
with "range without end in starred-relation string"; a literal starting `a-b` with `b < a`
fails with "range start greater than end in starred-relation string"; and the three reasons
are different. -/
theorem parseStarredCharacters_range_errors (sv : Services) (strength : Int) (i : Nat)
    (p : Parser) (a b : Nat) (rest : List Nat)
    (hacc : ∀ h c, sv.sink h c = none)
    (hok : (parseString sv i true (resetTailoringStrings p)).2.errorCode =
      UErrorCode.U_ZERO_ERROR)
    (ha : starredChar sv a) (hb : starredChar sv b) :
    ((parseString sv i true (resetTailoringStrings p)).2.raw = 0x2d :: rest →
      (parseStarredCharacters sv strength i p).errorCode = UErrorCode.U_PARSE_ERROR ∧
      (parseStarredCharacters sv strength i p).errorReason =
        some "range without start in starred-relation string") ∧
    ((parseString sv i true (resetTailoringStrings p)).2.raw =
        U16_APPEND a ++ 0x2d :: (U16_APPEND b ++ 0x2d :: rest) → a ≤ b →
      (parseStarredCharacters sv strength i p).errorCode = UErrorCode.U_PARSE_ERROR ∧
      (parseStarredCharacters sv strength i p).errorReason =
        some "range without start in starred-relation string") ∧
    ((parseString sv i true (resetTailoringStrings p)).2.raw = U16_APPEND a ++ [0x2d] →
      (parseStarredCharacters sv strength i p).errorCode = UErrorCode.U_PARSE_ERROR ∧
      (parseStarredCharacters sv strength i p).errorReason =
        some "range without end in starred-relation string") ∧
    ((parseString sv i true (resetTailoringStrings p)).2.raw =
        U16_APPEND a ++ 0x2d :: (U16_APPEND b ++ rest) → b < a →
      (parseStarredCharacters sv strength i p).errorCode = UErrorCode.U_PARSE_ERROR ∧
      (parseStarredCharacters sv strength i p).errorReason =
        some "range start greater than end in starred-relation string") ∧
    "range without start in starred-relation string" ≠
      "range without end in starred-relation string" ∧
    "range without start in starred-relation string" ≠
      "range start greater than end in starred-relation string" ∧
    "range without end in starred-relation string" ≠
      "range start greater than end in starred-relation string" := by
  simp only [parseStarredCharacters]
  generalize parseString sv i true (resetTailoringStrings p) = r at *
  have hF : U_FAILURE r.2.errorCode = false := by rw [hok]; rfl
  obtain ⟨hla, hla1⟩ := U16_LENGTH_eq_length a ha.1
  obtain ⟨hlb, hlb1⟩ := U16_LENGTH_eq_length b hb.1
  refine ⟨?_, ?_, ?_, ?_, by decide, by decide, by decide⟩
  · intro hraw
    have hlen : r.2.raw.length = rest.length + 1 := by rw [hraw]; rfl
    have hloop := parseStarredLoop_no_start sv strength rest.length 0 (-1) r.2 rest
      (by simpa using hraw) (by omega) hF
    simp only [hF, hlen, hloop]
    have := setParseError_fields "range without start in starred-relation string" r.2 hF
    exact ⟨this.1, this.2.1⟩
  · intro hraw hab
    have hlen : r.2.raw.length = (U16_LENGTH a + U16_LENGTH b + rest.length) + 2 := by
      rw [hraw]
      simp only [List.length_append, List.length_cons, hla, hlb]; omega
    have hd : r.2.raw.drop 0 = U16_APPEND a ++ (0x2d :: (U16_APPEND b ++ 0x2d :: rest)) := by
      simpa using hraw
    obtain ⟨_, _, hd1⟩ := char32At_of_drop hd ha.1 ha.2.1
    obtain ⟨_, _, hd2⟩ := drop_cons_facts hd1
    obtain ⟨_, _, hd3⟩ := char32At_of_drop hd2 hb.1 hb.2.1
    have s1 := parseStarredLoop_single sv hacc strength
      (U16_LENGTH a + U16_LENGTH b + rest.length + 1) 0 (-1) r.2 a _ hd ha hF
    have s2 := parseStarredLoop_range sv hacc strength
      (U16_LENGTH a + U16_LENGTH b + rest.length) (0 + U16_LENGTH a) (emitted strength r.2 [a])
      a b _ hd1 hb hab hF
    have hpos : U16_LENGTH a + U16_LENGTH b + rest.length =
        (U16_LENGTH a + U16_LENGTH b + rest.length - 1) + 1 := by omega
    have s3 := parseStarredLoop_no_start sv strength
      (U16_LENGTH a + U16_LENGTH b + rest.length - 1) (0 + U16_LENGTH a + 1 + U16_LENGTH b) (-1)
      (emitted strength (emitted strength r.2 [a]) (List.range' (a + 1) (b - a))) rest
      hd3 (by omega) hF
    rw [← hpos] at s3
    simp only [hF, hlen, s1, s2, s3]
    have := setParseError_fields "range without start in starred-relation string"
      (emitted strength (emitted strength r.2 [a]) (List.range' (a + 1) (b - a))) hF
    exact ⟨this.1, this.2.1⟩
  · intro hraw
    have hlen : r.2.raw.length = U16_LENGTH a + 1 := by
      rw [hraw]
      simp only [List.length_append, List.length_cons, List.length_nil, hla]
    have hd : r.2.raw.drop 0 = U16_APPEND a ++ [0x2d] := by simpa using hraw
    obtain ⟨_, _, hd1⟩ := char32At_of_drop hd ha.1 ha.2.1
    have s1 := parseStarredLoop_single sv hacc strength (U16_LENGTH a) 0 (-1) r.2 a _ hd ha hF
    have hpos : U16_LENGTH a = (U16_LENGTH a - 1) + 1 := by omega
    have s2 := parseStarredLoop_no_end sv strength (U16_LENGTH a - 1) (0 + U16_LENGTH a) a
      (emitted strength r.2 [a]) hd1 hF
    rw [← hpos] at s2
    simp only [hF, hlen, s1, s2]
    have := setParseError_fields "range without end in starred-relation string"
      (emitted strength r.2 [a]) hF
    exact ⟨this.1, this.2.1⟩
  · intro hraw hba
    have hlen : r.2.raw.length = (U16_LENGTH a + U16_LENGTH b + rest.length) + 1 := by
      rw [hraw]
      simp only [List.length_append, List.length_cons, hla, hlb]; omega
    have hd : r.2.raw.drop 0 = U16_APPEND a ++ (0x2d :: (U16_APPEND b ++ rest)) := by
      simpa using hraw
    obtain ⟨_, _, hd1⟩ := char32At_of_drop hd ha.1 ha.2.1
    have s1 := parseStarredLoop_single sv hacc strength
      (U16_LENGTH a + U16_LENGTH b + rest.length) 0 (-1) r.2 a _ hd ha hF
    have hpos : U16_LENGTH a + U16_LENGTH b + rest.length =
        (U16_LENGTH a + U16_LENGTH b + rest.length - 1) + 1 := by omega
    have s2 := parseStarredLoop_inverted sv strength
      (U16_LENGTH a + U16_LENGTH b + rest.length - 1) (0 + U16_LENGTH a) a b
      (emitted strength r.2 [a]) rest hd1 hb hba hF
    rw [← hpos] at s2
    simp only [hF, hlen, s1, s2]
    have := setParseError_fields "range start greater than end in starred-relation string"
      (emitted strength r.2 [a]) hF
    exact ⟨this.1, this.2.1⟩

/-- Instances of `parseStarredCharacters_expands`: the starred literals `a-f`, `a-a` and
`xyz` at strength `<<`. -/
theorem parseStarredCharacters_expands_witness :
    (parseStarredCharacters sampleServices SECONDARY 0
        { newParser sampleSettings with rules := [0x61, 0x2d, 0x66] }).sinkCalls =
      [SinkCall.addRelation SECONDARY [] [0x61] [], SinkCall.addRelation SECONDARY [] [0x62] [],
       SinkCall.addRelation SECONDARY [] [0x63] [], SinkCall.addRelation SECONDARY [] [0x64] [],
       SinkCall.addRelation SECONDARY [] [0x65] [], SinkCall.addRelation SECONDARY [] [0x66] []] ∧
    (parseStarredCharacters sampleServices SECONDARY 0
        { newParser sampleSettings with rules := [0x61, 0x2d, 0x61] }).sinkCalls =
      [SinkCall.addRelation SECONDARY [] [0x61] []] ∧
    (parseStarredCharacters sampleServices SECONDARY 0
        { newParser sampleSettings with rules := [0x78, 0x79, 0x7a] }).sinkCalls =
      [SinkCall.addRelation SECONDARY [] [0x78] [], SinkCall.addRelation SECONDARY [] [0x79] [],
       SinkCall.addRelation SECONDARY [] [0x7a] []] :=
  ⟨(parseStarredCharacters_expands sampleServices SECONDARY 0
      { newParser sampleSettings with rules := [0x61, 0x2d, 0x66] } [(0x61, some 0x66)]
      (fun _ _ => rfl) rfl rfl (by decide)).2.2,
   (parseStarredCharacters_expands sampleServices SECONDARY 0
      { newParser sampleSettings with rules := [0x61, 0x2d, 0x61] } [(0x61, some 0x61)]
      (fun _ _ => rfl) rfl rfl (by decide)).2.2,
   (parseStarredCharacters_expands sampleServices SECONDARY 0
      { newParser sampleSettings with rules := [0x78, 0x79, 0x7a] }
      [(0x78, none), (0x79, none), (0x7a, none)]
      (fun _ _ => rfl) rfl rfl (by decide)).2.2⟩

/-- Instances of `parseStarredCharacters_range_errors`: the starred literals `f-a`, `f-`
and `-a`. -/
theorem parseStarredCharacters_range_errors_witness :
    (parseStarredCharacters sampleServices SECONDARY 0
        { newParser sampleSettings with rules := [0x66, 0x2d, 0x61] }).errorReason =
      some "range start greater than end in starred-relation string" ∧
    (parseStarredCharacters sampleServices SECONDARY 0
        { newParser sampleSettings with rules := [0x66, 0x2d] }).errorReason =
      some "range without end in starred-relation string" ∧
    (parseStarredCharacters sampleServices SECONDARY 0
        { newParser sampleSettings with rules := [0x2d, 0x61] }).errorReason =
      some "range without start in starred-relation string" :=
  ⟨((parseStarredCharacters_range_errors sampleServices SECONDARY 0
      { newParser sampleSettings with rules := [0x66, 0x2d, 0x61] } 0x66 0x61 []
      (fun _ _ => rfl) rfl (by decide) (by decide)).2.2.2.1 rfl (by decide)).2,
   ((parseStarredCharacters_range_errors sampleServices SECONDARY 0
      { newParser sampleSettings with rules := [0x66, 0x2d] } 0x66 0x61 []
      (fun _ _ => rfl) rfl (by decide) (by decide)).2.2.1 rfl).2,
   ((parseStarredCharacters_range_errors sampleServices SECONDARY 0
      { newParser sampleSettings with rules := [0x2d, 0x61] } 0x66 0x61 [0x61]
      (fun _ _ => rfl) rfl (by decide) (by decide)).1 rfl).2⟩

/-- C7: the code at a failing input.  With NFD-inertness as it is on Latin-1, the rule
`&a <<* ¿-Æ` (U+00BF to U+00C6, both inert) parses without error and passes the letters
U+00C0..U+00C5 to `addRelation`, although they are not NFD-inert: the code points expanded
from the interior of a range are never checked. -/
theorem parseStarredCharacters_interior_unchecked :
    sampleServices.nfdIsInert 0xc0 = false ∧
    Option.map Parser.errorCode
        (parse sampleServices 30 [0x26, 0x61, 0x20, 0x3c, 0x3c, 0x2a, 0x20, 0xbf, 0x2d, 0xc6]
          sampleSettings true UErrorCode.U_ZERO_ERROR) = some UErrorCode.U_ZERO_ERROR ∧
    Option.map Parser.sinkCalls
        (parse sampleServices 30 [0x26, 0x61, 0x20, 0x3c, 0x3c, 0x2a, 0x20, 0xbf, 0x2d, 0xc6]
          sampleSettings true UErrorCode.U_ZERO_ERROR) =
      some [SinkCall.addReset IDENTICAL [0x61],
        SinkCall.addRelation SECONDARY [] [0xbf] [], SinkCall.addRelation SECONDARY [] [0xc0] [],
        SinkCall.addRelation SECONDARY [] [0xc1] [], SinkCall.addRelation SECONDARY [] [0xc2] [],
        SinkCall.addRelation SECONDARY [] [0xc3] [], SinkCall.addRelation SECONDARY [] [0xc4] [],
        SinkCall.addRelation SECONDARY [] [0xc5] [], SinkCall.addRelation SECONDARY [] [0xc6] []] := by
  refine ⟨by decide, by decide, by decide⟩

/-! ## Rule chains -/

theorem U_FAILURE_setParseError (reason : String) (p : Parser) :
    U_FAILURE (setParseError reason p).errorCode = true := by
  cases h : U_FAILURE p.errorCode
  · rw [(setParseError_fields reason p h).1]; rfl
  · rw [setParseError_of_failure reason p h]; exact h

theorem sinkCalls_setParseError (reason : String) (p : Parser) :
    (setParseError reason p).sinkCalls = p.sinkCalls := by
  have := scanFrame_setParseError reason p
  simp only [scanFrame, Prod.mk.injEq] at this
  exact this.2.2.2.2.2.2.2

theorem sinkCalls_callSink (sv : Services) (c : SinkCall) (p : Parser) :
    (callSink sv c p).sinkCalls = p.sinkCalls ++ [c] := by
  unfold callSink
  simp only []
  split
  · rfl
  · split <;> rfl

theorem raw_callSink (sv : Services) (c : SinkCall) (p : Parser) :
    (callSink sv c p).raw = p.raw := by
  unfold callSink
  simp only []
  split
  · rfl
  · split <;> rfl

theorem sinkCalls_parseString (sv : Services) (i : Nat) (allowDash : Bool) (p : Parser) :
    (parseString sv i allowDash p).2.sinkCalls = p.sinkCalls := by
  have := scanFrame_parseString sv i allowDash p
  simp only [scanFrame, Prod.mk.injEq] at this
  exact this.2.2.2.2.2.2.2

theorem sinkCalls_parseTailoringString (sv : Services) (i : Nat) (p : Parser) :
    (parseTailoringString sv i p).2.sinkCalls = p.sinkCalls := by
  unfold parseTailoringString
  simp only []
  split
  · simp [sinkCalls_setParseError, sinkCalls_parseString]
  · exact sinkCalls_parseString sv i false p

theorem sinkCalls_readWordsLoop (sv : Services) :
    ∀ (fuel i : Nat) (p : Parser), (readWordsLoop sv fuel i p).2.sinkCalls = p.sinkCalls := by
  intro fuel
  induction fuel with
  | zero => intro i p; rfl
  | succ n ih =>
    intro i p
    rw [readWordsLoop]
    split
    · rfl
    · simp only []
      split
      · split
        · rfl
        · split <;> rfl
      · split
        · rw [ih]
        · rw [ih]

theorem sinkCalls_parseSpecialPosition (sv : Services) (i : Nat) (p : Parser) :
    (parseSpecialPosition sv i p).2.sinkCalls = p.sinkCalls := by
  have hr : (readWords sv i p).2.sinkCalls = p.sinkCalls := by
    unfold readWords
    simp only []
    rw [sinkCalls_readWordsLoop]
  unfold parseSpecialPosition
  split
  · rfl
  · simp only []
    split
    · split
      · exact hr
      · split
        · exact hr
        · split
          · exact hr
          · rw [sinkCalls_setParseError]; exact hr
    · rw [sinkCalls_setParseError]; exact hr

theorem sinkCalls_callSink_relation (sv : Services) (s : Int) (x y z : List Nat)
    (q : Parser) (j : Nat) (base : List SinkCall) (hq : q.sinkCalls = base) :
    ∃ l, ({ callSink sv (SinkCall.addRelation s x y z) q with ruleIndex := j }).sinkCalls =
        base ++ l ∧ (∀ c ∈ l, relationStrength c = some s) ∧ l ≠ [] :=
  ⟨[SinkCall.addRelation s x y z], by simp [sinkCalls_callSink, hq],
    by intro c hc; simp at hc; subst hc; rfl, by simp⟩

/-- parseRelationStrings adds at most one call, a relation of the given strength, and exactly
one when it ends without a failure -/
theorem sinkCalls_parseRelationStrings (sv : Services) (s : Int) (i : Nat) (p : Parser) :
    ∃ l, (parseRelationStrings sv s i p).sinkCalls = p.sinkCalls ++ l ∧
      (∀ c ∈ l, relationStrength c = some s) ∧
      (U_FAILURE (parseRelationStrings sv s i p).errorCode = false → l ≠ []) := by
  have htail : ∀ (j next : Nat) (q : Parser), q.sinkCalls = p.sinkCalls →
      ∃ l, (parseRelationTail sv s j next q).sinkCalls = p.sinkCalls ++ l ∧
        (∀ c ∈ l, relationStrength c = some s) ∧ l ≠ [] := by
    intro j next q hq
    unfold parseRelationTail
    simp only []
    apply sinkCalls_callSink_relation
    split
    · simp [sinkCalls_parseTailoringString, hq]
    · simp [hq]
  have h1 : (parseTailoringString sv i (resetTailoringStrings p)).2.sinkCalls = p.sinkCalls := by
    rw [sinkCalls_parseTailoringString]; rfl
  unfold parseRelationStrings
  simp only []
  generalize parseTailoringString sv i (resetTailoringStrings p) = r1 at h1 ⊢
  by_cases hf1 : U_FAILURE r1.2.errorCode = true
  · rw [if_pos hf1]
    exact ⟨[], by simpa using h1, by simp, by intro h; rw [hf1] at h; cases h⟩
  · rw [if_neg hf1]
    generalize (if r1.1 < r1.2.rules.length then charAt r1.2.rules r1.1 else 0) = next
    by_cases hbar : next = 0x7c
    · rw [if_pos hbar]
      have h2 : ∀ q : Parser, q.sinkCalls = p.sinkCalls →
          (parseTailoringString sv (r1.1 + 1) q).2.sinkCalls = p.sinkCalls := by
        intro q hq; rw [sinkCalls_parseTailoringString]; exact hq
      generalize hq2 : parseTailoringString sv (r1.1 + 1)
        { r1.2 with pfx := normalize sv.fccNormalize r1.2.raw r1.2.errorCode } = r2
      have h2' : r2.2.sinkCalls = p.sinkCalls := by
        rw [← hq2]; exact h2 _ h1
      by_cases hf2 : U_FAILURE r2.2.errorCode = true
      · rw [if_pos hf2]
        exact ⟨[], by simpa using h2', by simp, by intro h; rw [hf2] at h; cases h⟩
      · rw [if_neg hf2]
        obtain ⟨l, h, hl, hne⟩ := htail r2.1
          (if r2.1 < r2.2.rules.length then charAt r2.2.rules r2.1 else 0) r2.2 h2'
        exact ⟨l, h, hl, fun _ => hne⟩
    · rw [if_neg hbar]
      obtain ⟨l, h, hl, hne⟩ := htail r1.1 next r1.2 h1
      exact ⟨l, h, hl, fun _ => hne⟩

theorem sinkCalls_parseStarredRange (sv : Services) (s : Int) :
    ∀ (fuel : Nat) (prev : Int) (c : Nat) (p : Parser),
      ∃ l, (parseStarredRange sv s fuel prev c p).sinkCalls = p.sinkCalls ++ l ∧
        (∀ x ∈ l, relationStrength x = some s) ∧
        (parseStarredRange sv s fuel prev c p).raw = p.raw := by
  intro fuel
  induction fuel with
  | zero => intro prev c p; exact ⟨[], by simp [parseStarredRange], by simp, rfl⟩
  | succ n ih =>
    intro prev c p
    rw [parseStarredRange]
    simp only []
    split
    · obtain ⟨l, h, hl, hraw⟩ := ih (prev + 1) c
        (callSink sv (SinkCall.addRelation s p.pfx (U16_APPEND (prev + 1).toNat) p.extension)
          { p with str := U16_APPEND (prev + 1).toNat })
      refine ⟨SinkCall.addRelation s p.pfx (U16_APPEND (prev + 1).toNat) p.extension :: l,
        ?_, ?_, ?_⟩
      · rw [h, sinkCalls_callSink]; simp
      · intro x hx
        simp at hx
        rcases hx with rfl | hx
        · rfl
        · exact hl x hx
      · rw [hraw, raw_callSink]
    · exact ⟨[], by simp, by simp, rfl⟩

theorem sinkCalls_parseStarredLoop (sv : Services) (s : Int) :
    ∀ (fuel j : Nat) (prev : Int) (p : Parser),
      ∃ l, (parseStarredLoop sv s fuel j prev p).2.sinkCalls = p.sinkCalls ++ l ∧
        (∀ x ∈ l, relationStrength x = some s) ∧
        ((parseStarredLoop sv s fuel j prev p).1 = true →
          U_FAILURE (parseStarredLoop sv s fuel j prev p).2.errorCode = true) ∧
        (0 < fuel → j < p.raw.length → prev < 0 → U_FAILURE p.errorCode = false →
          U_FAILURE (parseStarredLoop sv s fuel j prev p).2.errorCode = false → l ≠ []) := by
  intro fuel
  induction fuel with
  | zero =>
    intro j prev p
    exact ⟨[], by simp [parseStarredLoop], by simp, by simp [parseStarredLoop], by simp⟩
  | succ n ih =>
    intro j prev p
    have herr : ∀ reason, ∃ l, (true, setParseError reason p).2.sinkCalls = p.sinkCalls ++ l ∧
        (∀ x ∈ l, relationStrength x = some s) ∧
        ((true, setParseError reason p).1 = true →
          U_FAILURE (true, setParseError reason p).2.errorCode = true) ∧
        (0 < n + 1 → j < p.raw.length → prev < 0 → U_FAILURE p.errorCode = false →
          U_FAILURE (true, setParseError reason p).2.errorCode = false → l ≠ []) := by
      intro reason
      refine ⟨[], by simp [sinkCalls_setParseError], by simp,
        fun _ => U_FAILURE_setParseError reason p, ?_⟩
      intro _ _ _ _ h
      rw [U_FAILURE_setParseError] at h; cases h
    rw [parseStarredLoop]
    by_cases hcond : (decide (j < p.raw.length) && !U_FAILURE p.errorCode) = true
    · rw [if_pos hcond]
      simp only []
      by_cases hdash : char32At p.raw j ≠ 0x2d
      · rw [if_pos hdash]
        by_cases hin : (!sv.nfdIsInert (char32At p.raw j)) = true
        · rw [if_pos hin]; exact herr _
        · rw [if_neg hin]
          obtain ⟨l, h, hl, hflag, _⟩ := ih (j + U16_LENGTH (char32At p.raw j))
            (char32At p.raw j)
            (callSink sv (SinkCall.addRelation s p.pfx (U16_APPEND (char32At p.raw j)) p.extension)
              { p with str := U16_APPEND (char32At p.raw j) })
          refine ⟨SinkCall.addRelation s p.pfx (U16_APPEND (char32At p.raw j)) p.extension :: l,
            ?_, ?_, hflag, by simp⟩
          · rw [h, sinkCalls_callSink]; simp
          · intro x hx
            simp at hx
            rcases hx with rfl | hx
            · rfl
            · exact hl x hx
      · rw [if_neg hdash]
        by_cases hprev : prev < 0
        · rw [if_pos hprev]; exact herr _
        · rw [if_neg hprev]
          by_cases hend : j + 1 = p.raw.length
          · rw [if_pos hend]; exact herr _
          · rw [if_neg hend]
            by_cases hin : (!sv.nfdIsInert (char32At p.raw (j + 1))) = true
            · rw [if_pos hin]; exact herr _
            · rw [if_neg hin]
              by_cases hlt : ((char32At p.raw (j + 1) : Nat) : Int) < prev
              · rw [if_pos hlt]; exact herr _
              · rw [if_neg hlt]
                obtain ⟨l1, h1, hl1, hraw1⟩ := sinkCalls_parseStarredRange sv s
                  (char32At p.raw (j + 1) + 1 - prev.toNat) prev (char32At p.raw (j + 1)) p
                obtain ⟨l, h, hl, hflag, _⟩ := ih (j + 1 + U16_LENGTH (char32At p.raw (j + 1)))
                  (-1) (parseStarredRange sv s (char32At p.raw (j + 1) + 1 - prev.toNat) prev
                    (char32At p.raw (j + 1)) p)
                refine ⟨l1 ++ l, ?_, ?_, hflag, ?_⟩
                · rw [h, h1]; simp
                · intro x hx
                  simp at hx
                  rcases hx with hx | hx
                  · exact hl1 x hx
                  · exact hl x hx
                · intro _ _ hp; exact absurd hp hprev
    · rw [if_neg hcond]
      refine ⟨[], by simp, by simp, by simp, ?_⟩
      intro _ hj _ hok _
      simp [hj, hok] at hcond

theorem parseStringLoop_flag (sv : Services) (allowDash : Bool) :
    ∀ (fuel i : Nat) (p : Parser),
      (parseStringLoop sv allowDash fuel i p).1 = true →
      U_FAILURE (parseStringLoop sv allowDash fuel i p).2.2.errorCode = true := by
  intro fuel
  induction fuel with
  | zero => intro i p h; simp [parseStringLoop] at h
  | succ n ih =>
    intro i p
    rw [parseStringLoop]
    split
    · simp only []
      split
      · split
        · split
          · exact ih _ _
          · split
            · intro _; exact U_FAILURE_setParseError _ _
            · exact ih _ _
        · split
          · split
            · intro _; exact U_FAILURE_setParseError _ _
            · exact ih _ _
          · split
            · exact ih _ _
            · intro h; cases h
      · split
        · intro h; cases h
        · exact ih _ _
    · intro h; cases h

/-- a literal that parses without a failure is not empty -/
theorem parseString_nonempty (sv : Services) (i : Nat) (allowDash : Bool) (p : Parser)
    (h : U_FAILURE (parseString sv i allowDash p).2.errorCode = false) :
    (parseString sv i allowDash p).2.raw ≠ [] := by
  unfold parseString at h ⊢
  by_cases hf : U_FAILURE p.errorCode = true
  · rw [if_pos hf] at h; rw [hf] at h; cases h
  · rw [if_neg hf] at h ⊢
    simp only [] at h ⊢
    have hflag := parseStringLoop_flag sv allowDash
      (p.rules.length - skipWhiteSpace sv p.rules i) (skipWhiteSpace sv p.rules i)
      { p with raw := [] }
    generalize parseStringLoop sv allowDash (p.rules.length - skipWhiteSpace sv p.rules i)
      (skipWhiteSpace sv p.rules i) { p with raw := [] } = r at h hflag ⊢
    rcases r with ⟨b, j, q⟩
    cases b
    · simp only [] at h ⊢
      by_cases he : q.raw.isEmpty = true
      · rw [if_pos he] at h
        rw [U_FAILURE_setParseError] at h; cases h
      · rw [if_neg he]
        have hraw : ∀ fuel k (x : Parser), (checkStringLoop fuel k x).raw = x.raw := by
          intro fuel
          induction fuel with
          | zero => intro k x; rfl
          | succ n ih =>
            intro k x
            rw [checkStringLoop]
            have hs : ∀ reason, (setParseError reason x).raw = x.raw := by
              intro reason
              unfold setParseError
              split
              · rfl
              · split <;> rfl
            split
            · simp only []
              split
              · exact hs _
              · split
                · exact hs _
                · exact ih _ _
            · rfl
        simp only [hraw]
        intro hc; rw [hc] at he; exact he rfl
    · simp only [] at h
      rw [hflag rfl] at h; cases h

theorem sinkCalls_parseStarredCharacters (sv : Services) (s : Int) (i : Nat) (p : Parser) :
    ∃ l, (parseStarredCharacters sv s i p).sinkCalls = p.sinkCalls ++ l ∧
      (∀ c ∈ l, relationStrength c = some s) ∧
      (U_FAILURE (parseStarredCharacters sv s i p).errorCode = false → l ≠ []) := by
  have h1 : (parseString sv i true (resetTailoringStrings p)).2.sinkCalls = p.sinkCalls := by
    rw [sinkCalls_parseString]; rfl
  have hne := parseString_nonempty sv i true (resetTailoringStrings p)
  unfold parseStarredCharacters
  simp only []
  generalize parseString sv i true (resetTailoringStrings p) = r at h1 hne ⊢
  by_cases hf : U_FAILURE r.2.errorCode = true
  · rw [if_pos hf]
    exact ⟨[], by simpa using h1, by simp, by intro h; rw [hf] at h; cases h⟩
  · rw [if_neg hf]
    have hf' : U_FAILURE r.2.errorCode = false := by simpa using hf
    have hlen : 0 < r.2.raw.length := List.length_pos.mpr (hne hf')
    obtain ⟨l, h, hl, hflag, hnonempty⟩ :=
      sinkCalls_parseStarredLoop sv s r.2.raw.length 0 (-1) r.2
    generalize parseStarredLoop sv s r.2.raw.length 0 (-1) r.2 = res at h hflag hnonempty ⊢
    rcases res with ⟨b, q⟩
    cases b
    · refine ⟨l, by simpa [h1] using h, hl, ?_⟩
      intro hq
      exact hnonempty hlen hlen (by omega) hf' hq
    · refine ⟨l, by simpa [h1] using h, hl, ?_⟩
      intro hq
      have := hflag rfl
      simp only [] at hq this
      rw [this] at hq; cases hq

theorem parseResetAndPosition_calls (sv : Services) (p : Parser)
    (h : U_FAILURE (parseResetAndPosition sv p).2.errorCode = false) :
    (parseResetAndPosition sv p).1 =
        (parseBefore sv p.rules (skipWhiteSpace sv p.rules (p.ruleIndex + 1))).2 ∧
    ∃ str, (parseResetAndPosition sv p).2.sinkCalls =
      p.sinkCalls ++ [SinkCall.addReset (parseResetAndPosition sv p).1 str] := by
  unfold parseResetAndPosition at h ⊢
  by_cases hf : U_FAILURE p.errorCode = true
  · rw [if_pos hf] at h; rw [hf] at h; cases h
  · rw [if_neg hf] at h ⊢
    simp only [] at h ⊢
    generalize parseBefore sv p.rules (skipWhiteSpace sv p.rules (p.ruleIndex + 1)) = b at h ⊢
    by_cases hi : b.1 ≥ p.rules.length
    · rw [if_pos hi] at h
      rw [U_FAILURE_setParseError] at h; cases h
    · rw [if_neg hi]
      refine ⟨rfl, ?_⟩
      have hrs : (if charAt (resetTailoringStrings p).rules b.1 = 0x5b then
            parseSpecialPosition sv b.1 (resetTailoringStrings p)
          else
            ((parseTailoringString sv b.1 (resetTailoringStrings p)).1,
              { (parseTailoringString sv b.1 (resetTailoringStrings p)).2 with
                str := normalize sv.fccNormalize
                  (parseTailoringString sv b.1 (resetTailoringStrings p)).2.raw
                  (parseTailoringString sv b.1 (resetTailoringStrings p)).2.errorCode })
          ).2.sinkCalls = p.sinkCalls := by
        split
        · rw [sinkCalls_parseSpecialPosition]; rfl
        · simp only [sinkCalls_parseTailoringString]; rfl
      generalize (if charAt (resetTailoringStrings p).rules b.1 = 0x5b then
            parseSpecialPosition sv b.1 (resetTailoringStrings p)
          else
            ((parseTailoringString sv b.1 (resetTailoringStrings p)).1,
              { (parseTailoringString sv b.1 (resetTailoringStrings p)).2 with
                str := normalize sv.fccNormalize
                  (parseTailoringString sv b.1 (resetTailoringStrings p)).2.raw
                  (parseTailoringString sv b.1 (resetTailoringStrings p)).2.errorCode })) = r
        at hrs ⊢
      exact ⟨r.2.str, by simp [sinkCalls_callSink, hrs]⟩

theorem parseRuleChainLoop_calls (sv : Services) (B : Int) :
    ∀ (fuel : Nat) (isFirst : Bool) (p : Parser),
      ∃ rels, (parseRuleChainLoop sv B fuel isFirst p).sinkCalls = p.sinkCalls ++ rels ∧
        (U_FAILURE (parseRuleChainLoop sv B fuel isFirst p).errorCode = false → B < IDENTICAL →
          (∀ c ∈ rels, ∃ s, relationStrength c = some s ∧ B ≤ s) ∧
          (isFirst = true → ∀ c, rels.head? = some c → relationStrength c = some B)) := by
  intro fuel
  induction fuel with
  | zero =>
    intro isFirst p
    exact ⟨[], by simp [parseRuleChainLoop], fun _ _ => ⟨by simp, by simp⟩⟩
  | succ n ih =>
    intro isFirst p
    have herr : ∀ reason, ∃ rels, (setParseError reason p).sinkCalls = p.sinkCalls ++ rels ∧
        (U_FAILURE (setParseError reason p).errorCode = false → B < IDENTICAL →
          (∀ c ∈ rels, ∃ s, relationStrength c = some s ∧ B ≤ s) ∧
          (isFirst = true → ∀ c, rels.head? = some c → relationStrength c = some B)) := by
      intro reason
      exact ⟨[], by simp [sinkCalls_setParseError], fun _ _ => ⟨by simp, by simp⟩⟩
    have hsame : ∃ rels, p.sinkCalls = p.sinkCalls ++ rels ∧
        (U_FAILURE p.errorCode = false → B < IDENTICAL →
          (∀ c ∈ rels, ∃ s, relationStrength c = some s ∧ B ≤ s) ∧
          (isFirst = true → ∀ c, rels.head? = some c → relationStrength c = some B)) :=
      ⟨[], by simp, fun _ _ => ⟨by simp, by simp⟩⟩
    rw [parseRuleChainLoop]
    simp only []
    by_cases hf : U_FAILURE p.errorCode = true
    · rw [if_pos hf]; exact hsame
    · rw [if_neg hf]
      by_cases hno : parseRelationOperator p = NO_RELATION
      · rw [if_pos hno]
        split
        · exact ih isFirst _
        · split
          · exact herr _
          · exact hsame
      · rw [if_neg hno]
        generalize hstr : Int.land (parseRelationOperator p) STRENGTH_MASK = strength
        split
        · exact herr _
        · next hviol =>
          generalize hq : (if Int.land (parseRelationOperator p) 0x10 = 0 then
              parseRelationStrings sv strength
                (p.ruleIndex + (parseRelationOperator p >>> 8).toNat) p
            else parseStarredCharacters sv strength
                (p.ruleIndex + (parseRelationOperator p >>> 8).toNat) p) = q
          have hcalls : ∃ l, q.sinkCalls = p.sinkCalls ++ l ∧
              (∀ c ∈ l, relationStrength c = some strength) ∧
              (U_FAILURE q.errorCode = false → l ≠ []) := by
            rw [← hq]
            split
            · exact sinkCalls_parseRelationStrings sv strength _ p
            · exact sinkCalls_parseStarredCharacters sv strength _ p
          obtain ⟨l, hl, hls, hlne⟩ := hcalls
          by_cases hqf : U_FAILURE q.errorCode = true
          · rw [if_pos hqf]
            exact ⟨l, hl, fun h => by rw [hqf] at h; cases h⟩
          · rw [if_neg hqf]
            obtain ⟨rels, hr, hprop⟩ := ih false q
            refine ⟨l ++ rels, by rw [hr, hl]; simp, ?_⟩
            intro hfin hB
            obtain ⟨hall, _⟩ := hprop hfin hB
            have hge : B ≤ strength ∧ (isFirst = true → strength = B) := by
              simp only [hB, if_true] at hviol
              cases isFirst with
              | true =>
                simp only [if_true] at hviol
                by_cases he : strength = B
                · exact ⟨by omega, fun _ => he⟩
                · simp [he] at hviol
              | false =>
                simp only [Bool.false_eq_true, if_false] at hviol
                by_cases hlt : strength < B
                · simp [hlt] at hviol
                · exact ⟨by omega, fun h => by cases h⟩
            refine ⟨?_, ?_⟩
            · intro c hc
              simp at hc
              rcases hc with hc | hc
              · exact ⟨strength, hls c hc, hge.1⟩
              · exact hall c hc
            · intro hfirst c hc
              have hlne' := hlne (by simpa using hqf)
              cases l with
              | nil => exact absurd rfl hlne'
              | cons x l' =>
                simp at hc
                subst hc
                rw [hls x (by simp), hge.2 hfirst]

theorem parseBefore_match (sv : Services) (rules : List Nat) (i d : Nat) (rest : List Nat)
    (hd : rules.drop i = BEFORE ++ 0x20 :: d :: 0x5d :: rest)
    (hsp : sv.isWhiteSpace 0x20 = true) (hdw : sv.isWhiteSpace d = false)
    (h1 : 0x31 ≤ d) (h3 : d ≤ 0x33) :
    parseBefore sv rules i =
      (skipWhiteSpace sv rules (i + 10), PRIMARY + ((d : Int) - 0x31)) := by
  have htake : (rules.drop i).take 7 = BEFORE := by
    rw [hd]; rfl
  have hd7 : rules.drop (i + 7) = 0x20 :: d :: 0x5d :: rest := by
    have := @drop_add_of_drop_append rules i BEFORE (0x20 :: d :: 0x5d :: rest) hd
    simpa [BEFORE] using this
  obtain ⟨hi7, hc7, hd8⟩ := drop_cons_facts hd7
  obtain ⟨hi8, hc8, hd9⟩ := drop_cons_facts hd8
  obtain ⟨hi9, hc9, _⟩ := drop_cons_facts hd9
  have hskip : skipWhiteSpace sv rules (i + 7 + 1) = i + 7 + 1 :=
    skipWhiteSpace_stop sv rules _ (fun _ => by rw [hc8]; exact hdw)
  unfold parseBefore
  simp only [BEFORE_LENGTH, htake, if_true]
  simp [hi7, hc7, hsp, hskip, hc8, hi9, hc9, h1, h3, Nat.add_assoc]

theorem parseBefore_no_match (sv : Services) (rules : List Nat) (i : Nat)
    (h : (rules.drop i).take BEFORE_LENGTH ≠ BEFORE) :
    parseBefore sv rules i = (i, IDENTICAL) := by
  unfold parseBefore
  rw [if_neg h]

/-- C2: the reset-before constraint of a rule chain.  From a state without error:
(1) the strength `parseResetAndPosition` returns without error is the one `parseBefore`
reads: `PRIMARY + (n - 1)`, below `IDENTICAL`, for `[before n]` with `n` in 1..3, and
`IDENTICAL` when the text does not start with `[before`;
(2) with a reset strength `B < IDENTICAL`, at a relation operator, the loop of
`parseRuleChain` ends in `setParseError` with "reset-before strength differs from its first
relation" when this is the first relation and its strength is not `B`, and with
"reset-before strength followed by a stronger relation" when it is a later relation and its
strength is below `B`; `setParseError` records that reason and adds no sink call, so no
relation is emitted for the violating operator;
(3) a chain with `B < IDENTICAL` that ends without error has called the sink with the reset
and then only relations of strength at least `B`, the first of them of strength exactly `B`;
(4) with `B` not below `IDENTICAL` (no `[before n]`) an operator always goes on to its
relation strings or starred characters, whatever its strength. -/
theorem parseRuleChain_resetBefore (sv : Services) (p : Parser) (fuel : Nat)
    (isFirstRelation : Bool) (B : Int)
    (hok : U_FAILURE p.errorCode = false) :
    (U_FAILURE (parseResetAndPosition sv p).2.errorCode = false →
      (parseResetAndPosition sv p).1 =
        (parseBefore sv p.rules (skipWhiteSpace sv p.rules (p.ruleIndex + 1))).2) ∧
    (∀ (rules : List Nat) (i d : Nat) (rest : List Nat),
      rules.drop i = BEFORE ++ 0x20 :: d :: 0x5d :: rest →
      sv.isWhiteSpace 0x20 = true → sv.isWhiteSpace d = false → 0x31 ≤ d → d ≤ 0x33 →
      (parseBefore sv rules i).2 = PRIMARY + ((d : Int) - 0x31) ∧
      (parseBefore sv rules i).2 < IDENTICAL) ∧
    (∀ (rules : List Nat) (i : Nat), (rules.drop i).take BEFORE_LENGTH ≠ BEFORE →
      parseBefore sv rules i = (i, IDENTICAL)) ∧
    (B < IDENTICAL → parseRelationOperator p ≠ NO_RELATION →
      (Int.land (parseRelationOperator p) STRENGTH_MASK ≠ B →
        parseRuleChainLoop sv B (fuel + 1) true p =
          setParseError "reset-before strength differs from its first relation" p) ∧
      (Int.land (parseRelationOperator p) STRENGTH_MASK < B →
        parseRuleChainLoop sv B (fuel + 1) false p =
          setParseError "reset-before strength followed by a stronger relation" p)) ∧
    (∀ reason : String,
      (setParseError reason p).errorCode = UErrorCode.U_PARSE_ERROR ∧
      (setParseError reason p).errorReason = some reason ∧
      (setParseError reason p).sinkCalls = p.sinkCalls) ∧
    (U_FAILURE (parseRuleChain sv p).errorCode = false →
      (parseResetAndPosition sv p).1 < IDENTICAL →
      ∃ str rels,
        (parseRuleChain sv p).sinkCalls =
          p.sinkCalls ++ SinkCall.addReset (parseResetAndPosition sv p).1 str :: rels ∧
        (∀ c ∈ rels, ∃ s, relationStrength c = some s ∧ (parseResetAndPosition sv p).1 ≤ s) ∧
        (∀ c, rels.head? = some c →
          relationStrength c = some (parseResetAndPosition sv p).1)) ∧
    (IDENTICAL ≤ B → parseRelationOperator p ≠ NO_RELATION →
      parseRuleChainLoop sv B (fuel + 1) isFirstRelation p =
        if U_FAILURE
            (if Int.land (parseRelationOperator p) 0x10 = 0 then
              parseRelationStrings sv (Int.land (parseRelationOperator p) STRENGTH_MASK)
                (p.ruleIndex + (parseRelationOperator p >>> 8).toNat) p
            else
              parseStarredCharacters sv (Int.land (parseRelationOperator p) STRENGTH_MASK)
                (p.ruleIndex + (parseRelationOperator p >>> 8).toNat) p).errorCode
        then
          (if Int.land (parseRelationOperator p) 0x10 = 0 then
            parseRelationStrings sv (Int.land (parseRelationOperator p) STRENGTH_MASK)
              (p.ruleIndex + (parseRelationOperator p >>> 8).toNat) p
          else
            parseStarredCharacters sv (Int.land (parseRelationOperator p) STRENGTH_MASK)
              (p.ruleIndex + (parseRelationOperator p >>> 8).toNat) p)
        else
          parseRuleChainLoop sv B fuel false
            (if Int.land (parseRelationOperator p) 0x10 = 0 then
              parseRelationStrings sv (Int.land (parseRelationOperator p) STRENGTH_MASK)
                (p.ruleIndex + (parseRelationOperator p >>> 8).toNat) p
            else
              parseStarredCharacters sv (Int.land (parseRelationOperator p) STRENGTH_MASK)
                (p.ruleIndex + (parseRelationOperator p >>> 8).toNat) p)) := by
  have hf : ¬ U_FAILURE p.errorCode = true := by simp [hok]
  refine ⟨fun h => (parseResetAndPosition_calls sv p h).1, ?_, parseBefore_no_match sv, ?_,
    fun reason => setParseError_fields reason p hok, ?_, ?_⟩
  · intro rules i d rest hd hsp hdw h1 h3
    rw [parseBefore_match sv rules i d rest hd hsp hdw h1 h3]
    refine ⟨rfl, ?_⟩
    simp only [PRIMARY, IDENTICAL]; omega
  · intro hB hop
    constructor
    · intro hne
      rw [parseRuleChainLoop]
      simp [hok, hop, hB, hne]
    · intro hlt
      rw [parseRuleChainLoop]
      simp [hok, hop, hB, hlt]
  · intro hfin hB
    unfold parseRuleChain at hfin ⊢
    simp only [] at hfin ⊢
    have hreset : U_FAILURE (parseResetAndPosition sv p).2.errorCode = false := by
      cases hr : U_FAILURE (parseResetAndPosition sv p).2.errorCode
      · rfl
      · exfalso
        have : ∀ n (q : Parser), U_FAILURE q.errorCode = true →
            parseRuleChainLoop sv (parseResetAndPosition sv p).1 n true q = q := by
          intro n q hq
          cases n with
          | zero => rfl
          | succ n => rw [parseRuleChainLoop]; simp [hq]
        rw [this _ _ hr, hr] at hfin
        cases hfin
    obtain ⟨_, str, hcalls⟩ := parseResetAndPosition_calls sv p hreset
    obtain ⟨rels, hr, hprop⟩ := parseRuleChainLoop_calls sv (parseResetAndPosition sv p).1
      ((parseResetAndPosition sv p).2.rules.length - (parseResetAndPosition sv p).2.ruleIndex + 1)
      true (parseResetAndPosition sv p).2
    obtain ⟨hall, hhead⟩ := hprop hfin hB
    exact ⟨str, rels, by rw [hr, hcalls]; simp, hall, hhead rfl⟩
  · intro hB hop
    have hnB : ¬ B < IDENTICAL := by omega
    rw [parseRuleChainLoop]
    simp only [hok, hop, hnB, if_false, Bool.false_eq_true]

/-- An instance of `parseRuleChain_resetBefore`: after `[before 2]` and a first relation,
the operator `<` is refused. -/
theorem parseRuleChain_resetBefore_witness :
    parseRuleChainLoop sampleServices SECONDARY 1 false
        { newParser sampleSettings with rules := [0x3c, 0x20, 0x62] } =
      setParseError "reset-before strength followed by a stronger relation"
        { newParser sampleSettings with rules := [0x3c, 0x20, 0x62] } :=
  ((parseRuleChain_resetBefore sampleServices
      { newParser sampleSettings with rules := [0x3c, 0x20, 0x62] } 0 false SECONDARY
      rfl).2.2.2.1 (by decide) (by decide)).2 (by decide)

/-! ## The driver on reset-before examples -/

theorem parseStringLoop_break (sv : Services) (allowDash : Bool) (fuel i : Nat) (p : Parser)
    (c : Nat) (hi : i < p.rules.length) (hc : charAt p.rules i = c)
    (hs : isSyntaxChar c = true) (h1 : c ≠ 0x27) (h2 : c ≠ 0x5c) (h3 : c ≠ 0x2d) :
    parseStringLoop sv allowDash (fuel + 1) i p = (false, i + 1, p) := by
  rw [parseStringLoop]
  simp [hi, hc, hs, h1, h2, h3]

theorem skipWhiteSpace_step (sv : Services) (rules : List Nat) (i : Nat)
    (hi : i < rules.length) (h : sv.isWhiteSpace (charAt rules i) = true) :
    skipWhiteSpace sv rules i = skipWhiteSpace sv rules (i + 1) := by
  unfold skipWhiteSpace
  have : rules.length - i = (rules.length - (i + 1)) + 1 := by omega
  rw [this]
  simp [skipWhiteSpaceLoop, hi, h]

/-- A reset `&[before n]` that is followed by ` <` instead of an anchor fails in the literal
parser with "missing string". -/
theorem parseRuleChain_missing_anchor (sv : Services) (p : Parser) (d : Nat) (rest : List Nat)
    (hok : U_FAILURE p.errorCode = false)
    (hrules : p.rules.drop p.ruleIndex =
      0x26 :: (BEFORE ++ 0x20 :: d :: 0x5d :: 0x20 :: 0x3c :: rest))
    (hsp : sv.isWhiteSpace 0x20 = true)
    (hns : ∀ c, 0x21 ≤ c → c ≤ 0x7e → sv.isWhiteSpace c = false)
    (h1 : 0x31 ≤ d) (h3 : d ≤ 0x33) :
    (parseRuleChain sv p).errorCode = UErrorCode.U_PARSE_ERROR ∧
      (parseRuleChain sv p).errorReason = some "missing string" := by
  obtain ⟨hi0, hc0, hd1⟩ := drop_cons_facts hrules
  have hd1' : p.rules.drop (p.ruleIndex + 1) =
      BEFORE ++ 0x20 :: d :: 0x5d :: (0x20 :: 0x3c :: rest) := hd1
  have hd8 := drop_add_of_drop_append hd1'
  simp only [BEFORE, List.length_cons, List.length_nil] at hd8
  obtain ⟨hi8, hc8, hd9⟩ := drop_cons_facts hd8
  obtain ⟨hi9, hc9, hd10⟩ := drop_cons_facts hd9
  obtain ⟨hi10, hc10, hd11⟩ := drop_cons_facts hd10
  obtain ⟨hi11, hc11, hd12⟩ := drop_cons_facts hd11
  obtain ⟨hi12, hc12, _⟩ := drop_cons_facts hd12
  have hc1 : charAt p.rules (p.ruleIndex + 1) = 0x5b := by
    obtain ⟨_, h, _⟩ := @drop_cons_facts p.rules (p.ruleIndex + 1) 0x5b
      ([0x62, 0x65, 0x66, 0x6f, 0x72, 0x65] ++ 0x20 :: d :: 0x5d :: 0x20 :: 0x3c :: rest)
      (by rw [hd1']; rfl)
    exact h
  have hskip1 : skipWhiteSpace sv p.rules (p.ruleIndex + 1) = p.ruleIndex + 1 :=
    skipWhiteSpace_stop sv p.rules _ (fun _ => by rw [hc1]; exact hns _ (by omega) (by omega))
  have hbefore := parseBefore_match sv p.rules (p.ruleIndex + 1) d (0x20 :: 0x3c :: rest) hd1'
    hsp (hns d (by omega) (by omega)) h1 h3
  have hskip12 : skipWhiteSpace sv p.rules (p.ruleIndex + 1 + 0 + 1 + 1 + 1 + 1 + 1 + 1 + 1 + 1 + 1 + 1 + 1) =
      p.ruleIndex + 1 + 0 + 1 + 1 + 1 + 1 + 1 + 1 + 1 + 1 + 1 + 1 + 1 :=
    skipWhiteSpace_stop sv p.rules _ (fun _ => by
      rw [hc12]; exact hns _ (by omega) (by omega))
  have hskip11 : skipWhiteSpace sv p.rules (p.ruleIndex + 1 + 10) = p.ruleIndex + 12 := by
    have e1 : p.ruleIndex + 1 + 10 = p.ruleIndex + 1 + 0 + 1 + 1 + 1 + 1 + 1 + 1 + 1 + 1 + 1 + 1 := by
      omega
    rw [e1, skipWhiteSpace_step sv p.rules _ hi11 (by rw [hc11]; exact hsp), hskip12]
  have hi12' : p.ruleIndex + 12 < p.rules.length := by omega
  have hc12' : charAt p.rules (p.ruleIndex + 12) = 0x3c := by
    have e : p.ruleIndex + 12 = p.ruleIndex + 1 + 0 + 1 + 1 + 1 + 1 + 1 + 1 + 1 + 1 + 1 + 1 + 1 := by
      omega
    rw [e]; exact hc12
  have hskip12' : skipWhiteSpace sv p.rules (p.ruleIndex + 12) = p.ruleIndex + 12 :=
    skipWhiteSpace_stop sv p.rules _ (fun _ => by
      rw [hc12']; exact hns _ (by omega) (by omega))
  -- the literal parser at the operator
  have hstring : parseString sv (p.ruleIndex + 12) false (resetTailoringStrings p) =
      (p.ruleIndex + 13,
        setParseError "missing string" { resetTailoringStrings p with raw := [] }) := by
    have hfuel : p.rules.length - (p.ruleIndex + 12) =
        (p.rules.length - (p.ruleIndex + 12) - 1) + 1 := by omega
    unfold parseString
    have hF : U_FAILURE (resetTailoringStrings p).errorCode = false := hok
    simp only [hF, Bool.false_eq_true, if_false]
    have hsk : skipWhiteSpace sv (resetTailoringStrings p).rules (p.ruleIndex + 12) =
        p.ruleIndex + 12 := hskip12'
    have hlenr : (resetTailoringStrings p).rules.length = p.rules.length := rfl
    rw [hsk, hlenr, hfuel]
    rw [parseStringLoop_break sv false _ (p.ruleIndex + 12)
      { resetTailoringStrings p with raw := [] } 0x3c hi12' hc12' (by decide) (by decide)
      (by decide) (by decide)]
    simp
  have hF2 : U_FAILURE (setParseError "missing string"
      { resetTailoringStrings p with raw := [] }).errorCode = true :=
    U_FAILURE_setParseError _ _
  have hfields := setParseError_fields "missing string"
    { resetTailoringStrings p with raw := [] } hok
  have htail : parseTailoringString sv (p.ruleIndex + 12) (resetTailoringStrings p) =
      (p.ruleIndex + 13,
        setParseError "missing string" { resetTailoringStrings p with raw := [] }) := by
    unfold parseTailoringString
    simp only [hstring, normalize, hF2, if_true, List.length_nil]
    simp
  have hreset : (parseResetAndPosition sv p).2.errorCode = UErrorCode.U_PARSE_ERROR ∧
      (parseResetAndPosition sv p).2.errorReason = some "missing string" := by
    unfold parseResetAndPosition
    have hnot : ¬ (p.ruleIndex + 12 ≥ p.rules.length) := by omega
    have hne : ¬ charAt (resetTailoringStrings p).rules (p.ruleIndex + 12) = 0x5b := by
      show ¬ charAt p.rules (p.ruleIndex + 12) = 0x5b
      rw [hc12']; decide
    simp only [hok, Bool.false_eq_true, if_false, hskip1, hbefore, hskip11, hnot, hne, htail]
    simp only [callSink, hF2, if_true]
    exact ⟨hfields.1, hfields.2.1⟩
  unfold parseRuleChain
  simp only []
  have hfail : U_FAILURE (parseResetAndPosition sv p).2.errorCode = true := by
    rw [hreset.1]; rfl
  have hloop : ∀ n B (q : Parser), U_FAILURE q.errorCode = true →
      parseRuleChainLoop sv B (n + 1) true q = q := by
    intro n B q hq
    rw [parseRuleChainLoop]; simp [hq]
  rw [hloop _ _ _ hfail]
  exact hreset

theorem sampleServices_printable (c : Nat) (h1 : 0x21 ≤ c) (h2 : c ≤ 0x7e) :
    sampleServices.isWhiteSpace c = false := by
  simp only [sampleServices, patternWhiteSpace, decide_eq_false_iff_not]
  omega

/-- The driver on a rule text that starts with `&[before n] <`: with any fuel of at least
one it returns, with the error "missing string". -/
theorem parse_missing_anchor (sv : Services) (fuel : Nat) (d : Nat) (rest : List Nat)
    (outSettings : CollationSettings) (outParseError : Bool)
    (hsp : sv.isWhiteSpace 0x20 = true)
    (hns : ∀ c, 0x21 ≤ c → c ≤ 0x7e → sv.isWhiteSpace c = false)
    (h1 : 0x31 ≤ d) (h3 : d ≤ 0x33) :
    ∃ q, parse sv (fuel + 1) (0x26 :: (BEFORE ++ 0x20 :: d :: 0x5d :: 0x20 :: 0x3c :: rest))
        outSettings outParseError UErrorCode.U_ZERO_ERROR = some q ∧
      q.errorCode = UErrorCode.U_PARSE_ERROR ∧ q.errorReason = some "missing string" := by
  unfold parse parseRules
  simp only [U_FAILURE, ne_eq, not_true_eq_false, decide_False, Bool.false_eq_true, if_false]
  generalize hp : ({ newParser outSettings with
      errorCode := UErrorCode.U_ZERO_ERROR,
      parseError := if outParseError = true then
          some { line := 0, offset := 0, preContext := [], postContext := [] }
        else none,
      errorReason := none,
      rules := 0x26 :: (BEFORE ++ 0x20 :: d :: 0x5d :: 0x20 :: 0x3c :: rest),
      ruleIndex := 0 } : Parser) = p
  have hrules : p.rules = 0x26 :: (BEFORE ++ 0x20 :: d :: 0x5d :: 0x20 :: 0x3c :: rest) := by
    rw [← hp]
  have hidx : p.ruleIndex = 0 := by rw [← hp]
  have hok : U_FAILURE p.errorCode = false := by rw [← hp]; rfl
  have hchain := parseRuleChain_missing_anchor sv p d rest hok (by rw [hidx, hrules]; rfl)
    hsp hns h1 h3
  have hfail : U_FAILURE (parseRuleChain sv p).errorCode = true := by rw [hchain.1]; rfl
  refine ⟨parseRuleChain sv p, ?_, hchain⟩
  rw [parseLoop]
  have hlt : p.ruleIndex < p.rules.length := by rw [hidx, hrules]; simp
  have hc : charAt p.rules p.ruleIndex = 0x26 := by rw [hidx, hrules]; rfl
  simp [hlt, hc, hns 0x26 (by omega) (by omega), hfail]

/-- C3: parsing the rule string `&[before 1] < a < b` fails.  For every white space
classification that has the space as white space and no printable ASCII character, every
sink and every fuel of at least one, `parse` returns with `U_PARSE_ERROR`; the reason is
"missing string", because `[before 1]` is followed by the operator `<` where the reset
anchor should be. -/
theorem parse_before1_fails (sv : Services) (fuel : Nat) (outSettings : CollationSettings)
    (outParseError : Bool)
    (hsp : sv.isWhiteSpace 0x20 = true)
    (hns : ∀ c, 0x21 ≤ c → c ≤ 0x7e → sv.isWhiteSpace c = false) :
    ∃ q, parse sv (fuel + 1) (ustr "&[before 1] < a < b") outSettings outParseError
        UErrorCode.U_ZERO_ERROR = some q ∧
      q.errorCode = UErrorCode.U_PARSE_ERROR ∧ q.errorReason = some "missing string" :=
  parse_missing_anchor sv fuel 0x31 (ustr " a < b") outSettings outParseError hsp hns
    (by decide) (by decide)

/-- An instance of `parse_before1_fails`, with the sample collaborators. -/
theorem parse_before1_fails_witness :
    ∃ q, parse sampleServices 1 (ustr "&[before 1] < a < b") sampleSettings true
        UErrorCode.U_ZERO_ERROR = some q ∧
      q.errorCode = UErrorCode.U_PARSE_ERROR ∧ q.errorReason = some "missing string" :=
  parse_before1_fails sampleServices 0 sampleSettings true rfl sampleServices_printable

/-- C4, as stated, does not hold: with the sample collaborators, whose sink accepts every
call, parsing `&[before 2] << a < b` ends with `U_PARSE_ERROR`. -/
theorem parse_before2_not_accepted :
    Option.map Parser.errorCode
        (parse sampleServices 30 (ustr "&[before 2] << a < b") sampleSettings true
          UErrorCode.U_ZERO_ERROR) = some UErrorCode.U_PARSE_ERROR := by
  decide

/-- C4, amended: parsing the rule string `&[before 2] << a < b` fails with the parse error
"missing string", for every sink, because `[before 2]` is followed by the operator `<<`
where the reset anchor should be. -/
theorem parse_before2_fails (sv : Services) (fuel : Nat) (outSettings : CollationSettings)
    (outParseError : Bool)
    (hsp : sv.isWhiteSpace 0x20 = true)
    (hns : ∀ c, 0x21 ≤ c → c ≤ 0x7e → sv.isWhiteSpace c = false) :
    ∃ q, parse sv (fuel + 1) (ustr "&[before 2] << a < b") outSettings outParseError
        UErrorCode.U_ZERO_ERROR = some q ∧
      q.errorCode = UErrorCode.U_PARSE_ERROR ∧ q.errorReason = some "missing string" :=
  parse_missing_anchor sv fuel 0x32 (ustr "< a < b") outSettings outParseError hsp hns
    (by decide) (by decide)

/-- An instance of `parse_before2_fails`, with the sample collaborators. -/
theorem parse_before2_fails_witness :
    ∃ q, parse sampleServices 1 (ustr "&[before 2] << a < b") sampleSettings true
        UErrorCode.U_ZERO_ERROR = some q ∧
      q.errorCode = UErrorCode.U_PARSE_ERROR ∧ q.errorReason = some "missing string" :=
  parse_before2_fails sampleServices 0 sampleSettings true rfl sampleServices_printable

/-! ## The offset `parseString` returns at a terminating syntax character -/

/-- C11 (the code at the failing inputs): `parseString` on `a|b` from offset 0 decodes `a` and
returns offset 2, one past the terminating `|` that sits at offset 1; on `&a<b` from offset 1
it returns offset 3, one past the `<` at offset 2, and so the parse of `&a<b` fails with
"reset not followed by a relation": the terminating syntax character is consumed. -/
theorem parseString_terminator_consumed :
    parseString sampleServices 0 false { newParser sampleSettings with rules := ustr "a|b" } =
      (2, { newParser sampleSettings with rules := ustr "a|b", raw := [0x61] }) ∧
    charAt (ustr "a|b") 1 = 0x7c ∧
    parseString sampleServices 1 false { newParser sampleSettings with rules := ustr "&a<b" } =
      (3, { newParser sampleSettings with rules := ustr "&a<b", raw := [0x61] }) ∧
    charAt (ustr "&a<b") 2 = 0x3c ∧
    Option.map Parser.errorReason
        (parse sampleServices 30 (ustr "&a<b") sampleSettings true UErrorCode.U_ZERO_ERROR) =
      some (some "reset not followed by a relation") := by
  decide

/-- C12 (the code at the failing input): on the relation text `p|s/e` written without white
space `parseRelationStrings` emits `addRelation(PRIMARY, "", "p", "")` and leaves the cursor
at `s` (offset 2): the `|` was consumed by the literal parser and is not seen as a separator.
With white space before `|` and `/` the relation is `addRelation(PRIMARY, "p", "s", "e")`. -/
theorem parseRelationStrings_separators_consumed :
    (parseRelationStrings sampleServices PRIMARY 0
        { newParser sampleSettings with rules := ustr "p|s/e" }).sinkCalls =
      [SinkCall.addRelation PRIMARY [] (ustr "p") []] ∧
    (parseRelationStrings sampleServices PRIMARY 0
        { newParser sampleSettings with rules := ustr "p|s/e" }).ruleIndex = 2 ∧
    (parseRelationStrings sampleServices PRIMARY 0
        { newParser sampleSettings with rules := ustr "p|s/e" }).errorCode =
      UErrorCode.U_ZERO_ERROR ∧
    (parseRelationStrings sampleServices PRIMARY 0
        { newParser sampleSettings with rules := ustr "p |s /e" }).sinkCalls =
      [SinkCall.addRelation PRIMARY (ustr "p") (ustr "s") (ustr "e")] ∧
    (parseRelationStrings sampleServices PRIMARY 0
        { newParser sampleSettings with rules := ustr "p | s / e" }).sinkCalls =
      [SinkCall.addRelation PRIMARY (ustr "p") (ustr "s") (ustr "e")] := by
  decide

/-! ## The length limit of a tailoring string -/

theorem errorCode_setParseError (reason : String) (p : Parser)
    (h : U_FAILURE p.errorCode = false) :
    (setParseError reason p).errorCode = UErrorCode.U_PARSE_ERROR ∧
      (setParseError reason p).errorReason = some reason ∧
      (setParseError reason p).raw = p.raw := by
  unfold setParseError
  rw [if_neg (by simp [h])]
  cases p.parseError <;> simp

theorem sinkCalls_callSink_eq (sv : Services) (call : SinkCall) (p : Parser) :
    (callSink sv call p).sinkCalls = p.sinkCalls ++ [call] := by
  unfold callSink
  simp only []
  split
  · rfl
  · split <;> rfl

/-- C15: when the literal itself decodes without error, `parseTailoringString` fails exactly
when the NFD form of the decoded literal is longer than 31 code units, and then the reason is
"tailoring string too long"; otherwise it returns what `parseString` returned.  The offset
and the decoded literal are those of `parseString` either way, and when the literal stands
alone (no `|`, no `/` after it) the one relation that `parseRelationStrings` emits carries the
FCC form of the decoded literal. -/
theorem parseTailoringString_length_limit (sv : Services) (i : Nat) (p : Parser)
    (h : U_FAILURE (parseString sv i false p).2.errorCode = false) :
    (U_FAILURE (parseTailoringString sv i p).2.errorCode = true ↔
      31 < (sv.nfdNormalize (parseString sv i false p).2.raw).length) ∧
    (31 < (sv.nfdNormalize (parseString sv i false p).2.raw).length →
      (parseTailoringString sv i p).2.errorCode = UErrorCode.U_PARSE_ERROR ∧
      (parseTailoringString sv i p).2.errorReason = some "tailoring string too long") ∧
    ((sv.nfdNormalize (parseString sv i false p).2.raw).length ≤ 31 →
      parseTailoringString sv i p = parseString sv i false p) ∧
    (parseTailoringString sv i p).1 = (parseString sv i false p).1 ∧
    (parseTailoringString sv i p).2.raw = (parseString sv i false p).2.raw ∧
    (∀ (strength : Int) (p0 : Parser), resetTailoringStrings p0 = p →
      (sv.nfdNormalize (parseString sv i false p).2.raw).length ≤ 31 →
      (if (parseString sv i false p).1 < p.rules.length
        then charAt p.rules (parseString sv i false p).1 else 0) ≠ 0x7c →
      (if (parseString sv i false p).1 < p.rules.length
        then charAt p.rules (parseString sv i false p).1 else 0) ≠ 0x2f →
      (parseRelationStrings sv strength i p0).sinkCalls =
        p0.sinkCalls ++ [SinkCall.addRelation strength []
          (sv.fccNormalize (parseString sv i false p).2.raw) []]) := by
  have hfr := scanFrame_parseString sv i false p
  generalize hr : parseString sv i false p = r at h hfr ⊢
  have hn : normalize sv.nfdNormalize r.2.raw r.2.errorCode = sv.nfdNormalize r.2.raw := by
    simp [normalize, h]
  have hT : parseTailoringString sv i p =
      if 31 < (sv.nfdNormalize r.2.raw).length
      then (r.1, setParseError "tailoring string too long" r.2) else r := by
    unfold parseTailoringString
    simp only [hr, hn, gt_iff_lt]
  obtain ⟨e1, e2, e3⟩ := errorCode_setParseError "tailoring string too long" r.2 h
  by_cases hl : 31 < (sv.nfdNormalize r.2.raw).length
  · rw [hT, if_pos hl]
    refine ⟨?_, ?_, ?_, rfl, e3, ?_⟩
    · simp [e1, hl, U_FAILURE]
    · intro _; exact ⟨e1, e2⟩
    · intro h1; omega
    · intro _ _ _ h1; omega
  · rw [hT, if_neg hl]
    refine ⟨?_, ?_, ?_, rfl, rfl, ?_⟩
    · simp [h, hl]
    · intro h1; exact absurd h1 hl
    · intro _; trivial
    · intro strength p0 hp0 _ h7c h2f
      have hrules : r.2.rules = p.rules := by
        have := congrArg (fun t => t.1) hfr; simpa [scanFrame] using this
      unfold parseRelationStrings
      simp only [hp0, hT, if_neg hl, h, hrules, if_neg h7c, Bool.false_eq_true, if_false]
      unfold parseRelationTail
      simp only [if_neg h2f, sinkCalls_callSink_eq]
      simp only [scanFrame, Prod.mk.injEq] at hfr
      obtain ⟨_, _, f3, f4, f5, _, _, f8⟩ := hfr
      subst hp0
      simp [normalize, h, f3, f5, f8, resetTailoringStrings]

theorem parseTailoringString_length_limit_witness :
    parseTailoringString decomposingServices 0
        { newParser sampleSettings with rules := List.replicate 15 0xe9 ++ [0x61] } =
      parseString decomposingServices 0 false
        { newParser sampleSettings with rules := List.replicate 15 0xe9 ++ [0x61] } ∧
    (parseTailoringString decomposingServices 0
        { newParser sampleSettings with rules := List.replicate 16 0xe9 }).2.errorReason =
      some "tailoring string too long" ∧
    (parseRelationStrings decomposingServices PRIMARY 0
        { newParser sampleSettings with rules := List.replicate 15 0xe9 ++ [0x61] }).sinkCalls =
      [SinkCall.addRelation PRIMARY [] (List.replicate 15 0xe9 ++ [0x61]) []] :=
  ⟨(parseTailoringString_length_limit decomposingServices 0
      { newParser sampleSettings with rules := List.replicate 15 0xe9 ++ [0x61] }
      (by decide)).2.2.1 (by decide),
   ((parseTailoringString_length_limit decomposingServices 0
      { newParser sampleSettings with rules := List.replicate 16 0xe9 }
      (by decide)).2.1 (by decide)).2,
   (parseTailoringString_length_limit decomposingServices 0
      { newParser sampleSettings with rules := List.replicate 15 0xe9 ++ [0x61] }
      (by decide)).2.2.2.2.2 PRIMARY
      { newParser sampleSettings with rules := List.replicate 15 0xe9 ++ [0x61] }
      (by decide) (by decide) (by decide) (by decide)⟩


/-! ## The top-level loop: white space, `!`, `@`, comments, and anything else -/

theorem skipCommentLoop_text (rules : List Nat) :
    ∀ (text : List Nat) (t : Nat) (post : List Nat) (fuel i : Nat),
      (∀ u ∈ text, lineTerminator u = false) → lineTerminator t = true →
      rules.drop i = text ++ t :: post → text.length < fuel →
      skipCommentLoop rules fuel i = i + text.length + 1 := by
  intro text
  induction text with
  | nil =>
    intro t post fuel i _ ht hd hfuel
    obtain ⟨hi, hc, _⟩ := drop_cons_facts (by simpa using hd)
    cases fuel with
    | zero => simp at hfuel
    | succ n =>
      rw [skipCommentLoop]
      simp only [lineTerminator, Bool.or_eq_true, beq_iff_eq] at ht
      simp [hi, hc, ht]
  | cons u text ih =>
    intro t post fuel i hx ht hd hfuel
    obtain ⟨hi, hc, hrest⟩ := drop_cons_facts (by simpa using hd)
    cases fuel with
    | zero => simp at hfuel
    | succ n =>
      have hu := hx u (by simp)
      simp only [lineTerminator, Bool.or_eq_false_iff, beq_eq_false_iff_ne] at hu
      rw [skipCommentLoop]
      have := ih t post n (i + 1) (fun v hv => hx v (by simp [hv])) ht hrest
        (by simpa using hfuel)
      simp [hi, hc, hu, this]
      omega

theorem skipCommentLoop_open (rules : List Nat) :
    ∀ (text : List Nat) (fuel i : Nat),
      (∀ u ∈ text, lineTerminator u = false) →
      rules.drop i = text → i ≤ rules.length → text.length ≤ fuel →
      skipCommentLoop rules fuel i = rules.length := by
  intro text
  induction text with
  | nil =>
    intro fuel i _ hd hi _
    have := drop_nil_facts hd
    have hn : ¬ i < rules.length := by omega
    cases fuel with
    | zero => simp [skipCommentLoop]; omega
    | succ n => rw [skipCommentLoop]; simp [hn]; omega
  | cons u text ih =>
    intro fuel i hx hd _ hfuel
    obtain ⟨hi, hc, hrest⟩ := drop_cons_facts hd
    cases fuel with
    | zero => simp at hfuel
    | succ n =>
      have hu := hx u (by simp)
      simp only [lineTerminator, Bool.or_eq_false_iff, beq_eq_false_iff_ne] at hu
      rw [skipCommentLoop]
      have := ih n (i + 1) (fun v hv => hx v (by simp [hv])) hrest (by omega)
        (by simpa using hfuel)
      simp [hi, hc, hu, this]

theorem skipComment_text (rules : List Nat) (text : List Nat) (t : Nat) (post : List Nat)
    (i : Nat) (hx : ∀ u ∈ text, lineTerminator u = false) (ht : lineTerminator t = true)
    (hd : rules.drop i = text ++ t :: post) :
    skipComment rules i = i + text.length + 1 := by
  have hlen : (rules.drop i).length = text.length + (post.length + 1) := by
    rw [hd]; simp
  rw [List.length_drop] at hlen
  exact skipCommentLoop_text rules text t post _ i hx ht hd (by omega)

theorem skipComment_open (rules : List Nat) (text : List Nat) (i : Nat)
    (hx : ∀ u ∈ text, lineTerminator u = false) (hd : rules.drop i = text)
    (hi : i ≤ rules.length) :
    skipComment rules i = rules.length := by
  have hlen : (rules.drop i).length = text.length := by rw [hd]
  rw [List.length_drop] at hlen
  exact skipCommentLoop_open rules text _ i hx hd hi (by omega)

theorem setFlag_backwards (p : Parser) (h : U_FAILURE p.errorCode = false) :
    setFlag Flag.BACKWARD_SECONDARY UCOL_ON p =
      { p with settings := { p.settings with backwardSecondary := true } } := by
  simp [setFlag, h, UCOL_ON]

theorem parseLoop_whiteSpace (sv : Services) (fuel : Nat) (p : Parser)
    (hi : p.ruleIndex < p.rules.length)
    (hw : sv.isWhiteSpace (charAt p.rules p.ruleIndex) = true) :
    parseLoop sv (fuel + 1) p = parseLoop sv fuel { p with ruleIndex := p.ruleIndex + 1 } := by
  rw [parseLoop]
  simp [hi, hw]

theorem parseLoop_reversal (sv : Services) (fuel : Nat) (p : Parser)
    (h0 : U_FAILURE p.errorCode = false) (hi : p.ruleIndex < p.rules.length)
    (hc : charAt p.rules p.ruleIndex = 0x21) (hw : sv.isWhiteSpace 0x21 = false) :
    parseLoop sv (fuel + 1) p = parseLoop sv fuel { p with ruleIndex := p.ruleIndex + 1 } := by
  rw [parseLoop]
  simp [hi, hc, hw, h0]

theorem parseLoop_backwards (sv : Services) (fuel : Nat) (p : Parser)
    (h0 : U_FAILURE p.errorCode = false) (hi : p.ruleIndex < p.rules.length)
    (hc : charAt p.rules p.ruleIndex = 0x40) (hw : sv.isWhiteSpace 0x40 = false) :
    parseLoop sv (fuel + 1) p =
      parseLoop sv fuel { p with ruleIndex := p.ruleIndex + 1,
                                 settings := { p.settings with backwardSecondary := true } } := by
  rw [parseLoop]
  simp [hi, hc, hw, h0, setFlag_backwards]

theorem parseLoop_comment (sv : Services) (fuel : Nat) (p : Parser)
    (h0 : U_FAILURE p.errorCode = false) (hi : p.ruleIndex < p.rules.length)
    (hc : charAt p.rules p.ruleIndex = 0x23) (hw : sv.isWhiteSpace 0x23 = false) :
    parseLoop sv (fuel + 1) p =
      parseLoop sv fuel { p with ruleIndex := skipComment p.rules (p.ruleIndex + 1) } := by
  rw [parseLoop]
  simp [hi, hc, hw, h0]

theorem parseLoop_end (sv : Services) (fuel : Nat) (p : Parser)
    (hi : p.rules.length ≤ p.ruleIndex) : parseLoop sv (fuel + 1) p = some p := by
  rw [parseLoop]
  simp [Nat.not_lt.mpr hi]

theorem topLevelEffect_cons (it : TopLevelItem) (items : List TopLevelItem)
    (s : CollationSettings) :
    topLevelEffect (it :: items) s =
      topLevelEffect items
        (if it = TopLevelItem.backwards then { s with backwardSecondary := true } else s) := by
  by_cases h : it = TopLevelItem.backwards
  · subst h
    simp only [topLevelEffect, List.mem_cons, true_or, if_true]
    split <;> rfl
  · have : (TopLevelItem.backwards ∈ it :: items) ↔ (TopLevelItem.backwards ∈ items) := by
      simp [List.mem_cons, Ne.symm h]
    simp only [topLevelEffect, if_neg h, this]

/-- the top-level loop over white space, `!`, `@` and terminated comments -/
theorem parseLoop_items (sv : Services) (hbang : sv.isWhiteSpace 0x21 = false)
    (hat : sv.isWhiteSpace 0x40 = false) (hhash : sv.isWhiteSpace 0x23 = false) :
    ∀ (items : List TopLevelItem) (post : List Nat) (fuel : Nat) (p : Parser),
      (∀ it ∈ items, it.valid sv) → U_FAILURE p.errorCode = false →
      p.rules.drop p.ruleIndex = items.flatMap TopLevelItem.text ++ post →
      parseLoop sv (fuel + items.length) p =
        parseLoop sv fuel
          { p with ruleIndex := p.ruleIndex + (items.flatMap TopLevelItem.text).length,
                   settings := topLevelEffect items p.settings } := by
  intro items
  induction items with
  | nil => intro post fuel p _ _ _; simp [topLevelEffect]
  | cons it items ih =>
    intro post fuel p hv h0 hd
    have hvalid := hv it (by simp)
    have hv2 : ∀ x ∈ items, x.valid sv := fun x hx => hv x (by simp [hx])
    have e : fuel + (it :: items).length = (fuel + items.length) + 1 := by
      simp only [List.length_cons]; omega
    rw [e, topLevelEffect_cons]
    cases it with
    | whiteSpace c =>
      simp only [List.flatMap_cons, TopLevelItem.text, List.cons_append, List.nil_append,
        List.singleton_append] at hd
      obtain ⟨hi, hc, hrest⟩ := drop_cons_facts hd
      rw [parseLoop_whiteSpace sv _ p hi (by rw [hc]; exact hvalid)]
      rw [ih post fuel { p with ruleIndex := p.ruleIndex + 1 } hv2 h0 hrest]
      simp [TopLevelItem.text, Nat.add_assoc, Nat.add_comm 1]
    | reversal =>
      simp only [List.flatMap_cons, TopLevelItem.text, List.cons_append, List.nil_append,
        List.singleton_append] at hd
      obtain ⟨hi, hc, hrest⟩ := drop_cons_facts hd
      rw [parseLoop_reversal sv _ p h0 hi hc hbang]
      rw [ih post fuel { p with ruleIndex := p.ruleIndex + 1 } hv2 h0 hrest]
      simp [TopLevelItem.text, Nat.add_assoc, Nat.add_comm 1]
    | backwards =>
      simp only [List.flatMap_cons, TopLevelItem.text, List.cons_append, List.nil_append,
        List.singleton_append] at hd
      obtain ⟨hi, hc, hrest⟩ := drop_cons_facts hd
      rw [parseLoop_backwards sv _ p h0 hi hc hat]
      rw [ih post fuel { p with ruleIndex := p.ruleIndex + 1,
                                settings := { p.settings with backwardSecondary := true } }
        hv2 h0 hrest]
      simp [TopLevelItem.text, Nat.add_assoc, Nat.add_comm 1]
    | comment text t =>
      simp only [List.flatMap_cons, TopLevelItem.text, List.cons_append, List.append_assoc,
        List.singleton_append] at hd
      obtain ⟨hi, hc, hrest⟩ := drop_cons_facts hd
      rw [parseLoop_comment sv _ p h0 hi hc hhash]
      rw [skipComment_text p.rules text t _ (p.ruleIndex + 1) hvalid.1 hvalid.2 hrest]
      have hrest2 : p.rules.drop (p.ruleIndex + 1 + text.length + 1) =
          items.flatMap TopLevelItem.text ++ post := by
        have h1 := drop_add_of_drop_append hrest
        obtain ⟨_, _, h2⟩ := drop_cons_facts h1
        exact h2
      rw [ih post fuel { p with ruleIndex := p.ruleIndex + 1 + text.length + 1 } hv2 h0 hrest2]
      have e2 : p.ruleIndex + 1 + text.length + 1 + (items.flatMap TopLevelItem.text).length =
          p.ruleIndex + ((TopLevelItem.comment text t :: items).flatMap
            TopLevelItem.text).length := by
        simp [TopLevelItem.text]; omega
      rw [e2]
      rfl


theorem parseError_setParseError (reason : String) (p : Parser)
    (h : U_FAILURE p.errorCode = false) (hp : p.parseError.isSome = true) :
    (setParseError reason p).parseError.map UParseError.offset = some (p.ruleIndex : Int) := by
  unfold setParseError
  rw [if_neg (by simp [h])]
  cases hpe : p.parseError with
  | none => rw [hpe] at hp; cases hp
  | some e => simp

theorem settings_setParseError (reason : String) (p : Parser) :
    (setParseError reason p).settings = p.settings ∧
      (setParseError reason p).ruleIndex = p.ruleIndex ∧
      (setParseError reason p).rules = p.rules := by
  have := scanFrame_setParseError reason p
  simp only [scanFrame, Prod.mk.injEq] at this
  exact ⟨this.2.2.2.2.2.1, this.2.1, this.1⟩

theorem parseLoop_default (sv : Services) (fuel : Nat) (p : Parser)
    (hi : p.ruleIndex < p.rules.length)
    (hw : sv.isWhiteSpace (charAt p.rules p.ruleIndex) = false)
    (hc : charAt p.rules p.ruleIndex ≠ 0x26 ∧ charAt p.rules p.ruleIndex ≠ 0x5b ∧
      charAt p.rules p.ruleIndex ≠ 0x23 ∧ charAt p.rules p.ruleIndex ≠ 0x40 ∧
      charAt p.rules p.ruleIndex ≠ 0x21) :
    parseLoop sv (fuel + 1) p =
      some (setParseError "expected a reset or setting or comment" p) := by
  rw [parseLoop]
  obtain ⟨c1, c2, c3, c4, c5⟩ := hc
  simp [hi, hw, c1, c2, c3, c4, c5, U_FAILURE_setParseError]

/-- C17: in any state of the top-level loop that is not a failure, when the text at the cursor
is a run of white space, `!`, `@` and terminated comments followed by a character that is
neither white space nor one of `&`, `[`, `#`, `@`, `!`, the parse ends with U_PARSE_ERROR and
the reason "expected a reset or setting or comment"; the cursor and the recorded error offset
are the index of that character, no sink call is added, and the settings are those the run
before the character left. -/
theorem parseLoop_unexpected_character (sv : Services) (items : List TopLevelItem)
    (c : Nat) (rest : List Nat) (fuel : Nat) (p : Parser)
    (hbang : sv.isWhiteSpace 0x21 = false) (hat : sv.isWhiteSpace 0x40 = false)
    (hhash : sv.isWhiteSpace 0x23 = false)
    (hv : ∀ it ∈ items, it.valid sv) (h0 : U_FAILURE p.errorCode = false)
    (hd : p.rules.drop p.ruleIndex = items.flatMap TopLevelItem.text ++ c :: rest)
    (hw : sv.isWhiteSpace c = false)
    (hc : c ≠ 0x26 ∧ c ≠ 0x5b ∧ c ≠ 0x23 ∧ c ≠ 0x40 ∧ c ≠ 0x21) :
    ∃ q, parseLoop sv (fuel + 1 + items.length) p = some q ∧
      q.errorCode = UErrorCode.U_PARSE_ERROR ∧
      q.errorReason = some "expected a reset or setting or comment" ∧
      q.ruleIndex = p.ruleIndex + (items.flatMap TopLevelItem.text).length ∧
      charAt p.rules q.ruleIndex = c ∧
      (p.parseError.isSome = true →
        q.parseError.map UParseError.offset = some (q.ruleIndex : Int)) ∧
      q.sinkCalls = p.sinkCalls ∧
      q.settings = topLevelEffect items p.settings := by
  rw [parseLoop_items sv hbang hat hhash items (c :: rest) (fuel + 1) p hv h0 hd]
  obtain ⟨hi, hch, _⟩ := drop_cons_facts (drop_add_of_drop_append hd)
  generalize hp1 : ({ p with
      ruleIndex := p.ruleIndex + (items.flatMap TopLevelItem.text).length,
      settings := topLevelEffect items p.settings } : Parser) = p1
  have e0 : U_FAILURE p1.errorCode = false := by rw [← hp1]; exact h0
  have e1 : p1.ruleIndex = p.ruleIndex + (items.flatMap TopLevelItem.text).length := by
    rw [← hp1]
  have e2 : p1.rules = p.rules := by rw [← hp1]
  have e3 : p1.sinkCalls = p.sinkCalls := by rw [← hp1]
  have e4 : p1.settings = topLevelEffect items p.settings := by rw [← hp1]
  have e5 : p1.parseError = p.parseError := by rw [← hp1]
  have hch1 : charAt p1.rules p1.ruleIndex = c := by rw [e1, e2]; exact hch
  rw [parseLoop_default sv fuel p1 (by rw [e1, e2]; exact hi) (by rw [hch1]; exact hw)
    (by rw [hch1]; exact hc)]
  obtain ⟨s1, s2, _⟩ := errorCode_setParseError "expected a reset or setting or comment" p1 e0
  obtain ⟨t1, t2, _⟩ := settings_setParseError "expected a reset or setting or comment" p1
  refine ⟨_, rfl, s1, s2, by rw [t2, e1], by rw [t2, e1]; exact hch, ?_, ?_, by rw [t1, e4]⟩
  · intro hp
    rw [t2]
    exact parseError_setParseError _ p1 e0 (by rw [e5]; exact hp)
  · rw [sinkCalls_setParseError, e3]

theorem parseLoop_unexpected_character_witness :
    ∃ q, parse sampleServices 6 (ustr " @ #c\n x") sampleSettings true
        UErrorCode.U_ZERO_ERROR = some q ∧
      q.errorCode = UErrorCode.U_PARSE_ERROR ∧
      q.errorReason = some "expected a reset or setting or comment" ∧
      q.ruleIndex = 7 ∧
      charAt (ustr " @ #c\n x") q.ruleIndex = 0x78 ∧
      (true = true → q.parseError.map UParseError.offset = some (q.ruleIndex : Int)) ∧
      q.sinkCalls = [] ∧
      q.settings = { sampleSettings with backwardSecondary := true } :=
  parseLoop_unexpected_character sampleServices
    [TopLevelItem.whiteSpace 0x20, TopLevelItem.backwards, TopLevelItem.whiteSpace 0x20,
     TopLevelItem.comment [0x63] 0xa, TopLevelItem.whiteSpace 0x20]
    0x78 [] 0
    { newParser sampleSettings with
      rules := ustr " @ #c\n x",
      parseError := some { line := 0, offset := 0, preContext := [], postContext := [] } }
    (by decide) (by decide) (by decide) (by decide) (by decide) (by decide) (by decide)
    (by decide)


/-! ## Words of a setting, and `[strength v]` -/

theorem readWordsLoop_word (sv : Services) :
    ∀ (w post : List Nat) (fuel i : Nat) (p : Parser),
      (∀ u ∈ w, wordChar sv u) → p.rules.drop i = w ++ post →
      readWordsLoop sv (fuel + w.length) i p =
        readWordsLoop sv fuel (i + w.length) { p with raw := p.raw ++ w } := by
  intro w
  induction w with
  | nil => intro post fuel i p _ _; simp
  | cons u w ih =>
    intro post fuel i p hw hd
    obtain ⟨hi, hc, hrest⟩ := drop_cons_facts (by simpa using hd)
    obtain ⟨hu1, hu2⟩ := hw u (by simp)
    have e : fuel + (u :: w).length = (fuel + w.length) + 1 := by
      simp only [List.length_cons]; omega
    have hn : ¬ (isSyntaxChar u = true ∧ u ≠ 0x2d ∧ u ≠ 0x5f) := by
      rintro ⟨a, b, c⟩
      rcases hu1 with h | h | h
      · rw [h] at a; cases a
      · exact b h
      · exact c h
    have hni : ¬ i ≥ p.rules.length := by omega
    rw [e, readWordsLoop]
    simp only [hni, if_false, hc]
    have hcond : (isSyntaxChar u && decide (u ≠ 0x2d) && decide (u ≠ 0x5f)) = false := by
      by_contra hcon
      simp only [Bool.not_eq_false, Bool.and_eq_true, decide_eq_true_eq] at hcon
      exact hn ⟨hcon.1.1, hcon.1.2, hcon.2⟩
    simp only [hcond, hu2, Bool.false_eq_true, if_false]
    rw [ih post fuel (i + 1) { p with raw := p.raw ++ [u] }
      (fun v hv => hw v (by simp [hv])) hrest]
    simp [Nat.add_assoc, Nat.add_comm 1]

theorem readWordsLoop_space (sv : Services) (fuel i : Nat) (p : Parser) (c : Nat)
    (hi : i < p.rules.length) (hc : charAt p.rules i = c) (hs : isSyntaxChar c = false)
    (hw : sv.isWhiteSpace c = true) :
    readWordsLoop sv (fuel + 1) i p =
      readWordsLoop sv fuel (skipWhiteSpace sv p.rules (i + 1))
        { p with raw := p.raw ++ [0x20] } := by
  have hni : ¬ i ≥ p.rules.length := by omega
  rw [readWordsLoop]
  simp [hni, hc, hs, hw]

theorem readWordsLoop_stop (sv : Services) (fuel i : Nat) (p : Parser) (c : Nat)
    (hi : i < p.rules.length) (hc : charAt p.rules i = c)
    (hs : isSyntaxChar c = true ∧ c ≠ 0x2d ∧ c ≠ 0x5f) :
    readWordsLoop sv (fuel + 1) i p =
      (i, if p.raw.getLast? = some 0x20 then { p with raw := p.raw.dropLast } else p) := by
  have hni : ¬ i ≥ p.rules.length := by omega
  rw [readWordsLoop]
  simp only [hni, if_false, hc, hs.1, hs.2.1, hs.2.2, ne_eq, not_false_eq_true, decide_True,
    Bool.and_self, if_true]
  by_cases he : p.raw.isEmpty = true
  · have : p.raw = [] := by simpa using he
    simp [this]
  · rw [if_neg he]
    split <;> rfl

theorem wordChar_not_space (sv : Services) (hsp : sv.isWhiteSpace 0x20 = true) (w : List Nat)
    (hw : ∀ u ∈ w, wordChar sv u) : 0x20 ∉ w := by
  intro h
  have := (hw _ h).2
  rw [hsp] at this; cases this

/-- `readWords` on one word that ends at a syntax character -/
theorem readWords_one (sv : Services) (hsp : sv.isWhiteSpace 0x20 = true) (w : List Nat)
    (c : Nat) (rest : List Nat) (i : Nat) (p : Parser)
    (hw : ∀ u ∈ w, wordChar sv u) (hne : w ≠ [])
    (hc : isSyntaxChar c = true ∧ c ≠ 0x2d ∧ c ≠ 0x5f)
    (hd : p.rules.drop i = w ++ c :: rest) :
    readWords sv i p = (i + w.length, { p with raw := w }) := by
  have hlen : (p.rules.drop i).length = w.length + (rest.length + 1) := by rw [hd]; simp
  rw [List.length_drop] at hlen
  have hskip : skipWhiteSpace sv p.rules i = i := by
    apply skipWhiteSpace_stop
    intro _
    cases w with
    | nil => exact absurd rfl hne
    | cons u w =>
      obtain ⟨_, hcu, _⟩ := drop_cons_facts (by simpa using hd)
      rw [hcu]; exact (hw u (by simp)).2
  unfold readWords
  simp only [hskip]
  have e : p.rules.length - i + 1 = (p.rules.length - i - w.length) + 1 + w.length := by omega
  rw [e, readWordsLoop_word sv w (c :: rest) _ i { p with raw := [] } hw hd]
  obtain ⟨hi2, hc2, _⟩ := drop_cons_facts (drop_add_of_drop_append hd)
  simp only [List.nil_append]
  rw [readWordsLoop_stop sv _ (i + w.length) { p with raw := w } c hi2 hc2 hc]
  have hlast : ¬ w.getLast? = some 0x20 := by
    intro h
    exact wordChar_not_space sv hsp w hw (List.mem_of_getLast?_eq_some h)
  simp only [hlast, if_false]

/-- `readWords` on two words with a space between them, ending at a syntax character -/
theorem readWords_two (sv : Services) (hsp : sv.isWhiteSpace 0x20 = true) (w v : List Nat)
    (c : Nat) (rest : List Nat) (i : Nat) (p : Parser)
    (hw : ∀ u ∈ w, wordChar sv u) (hv : ∀ u ∈ v, wordChar sv u) (hne : w ≠ [])
    (hc : isSyntaxChar c = true ∧ c ≠ 0x2d ∧ c ≠ 0x5f) (hcw : sv.isWhiteSpace c = false)
    (hd : p.rules.drop i = w ++ 0x20 :: (v ++ c :: rest)) :
    readWords sv i p =
      (i + w.length + 1 + v.length, { p with raw := if v = [] then w else w ++ 0x20 :: v }) := by
  have hlen : (p.rules.drop i).length = w.length + (v.length + (rest.length + 1) + 1) := by
    rw [hd]; simp
  rw [List.length_drop] at hlen
  have hskip : skipWhiteSpace sv p.rules i = i := by
    apply skipWhiteSpace_stop
    intro _
    cases w with
    | nil => exact absurd rfl hne
    | cons u w =>
      obtain ⟨_, hcu, _⟩ := drop_cons_facts (by simpa using hd)
      rw [hcu]; exact (hw u (by simp)).2
  unfold readWords
  simp only [hskip]
  have e : p.rules.length - i + 1 =
      ((p.rules.length - i - w.length - 1 - v.length) + 1 + v.length + 1) + w.length := by
    omega
  rw [e, readWordsLoop_word sv w _ _ i { p with raw := [] } hw hd]
  obtain ⟨hi2, hc2, hrest2⟩ := drop_cons_facts (drop_add_of_drop_append hd)
  simp only [List.nil_append]
  rw [readWordsLoop_space sv _ (i + w.length) { p with raw := w } 0x20 hi2 hc2 (by decide) hsp]
  have hskip2 : skipWhiteSpace sv p.rules (i + w.length + 1) = i + w.length + 1 := by
    apply skipWhiteSpace_stop
    intro _
    cases v with
    | nil =>
      obtain ⟨_, hcu, _⟩ := drop_cons_facts (by simpa using hrest2)
      rw [hcu]; exact hcw
    | cons u v =>
      obtain ⟨_, hcu, _⟩ := drop_cons_facts (by simpa using hrest2)
      rw [hcu]; exact (hv u (by simp)).2
  simp only [hskip2]
  rw [readWordsLoop_word sv v (c :: rest) _ (i + w.length + 1) { p with raw := w ++ [0x20] }
    hv hrest2]
  obtain ⟨hi3, hc3, _⟩ := drop_cons_facts (drop_add_of_drop_append hrest2)
  rw [readWordsLoop_stop sv _ (i + w.length + 1 + v.length)
    { p with raw := w ++ [0x20] ++ v } c hi3 hc3 hc]
  by_cases hve : v = []
  · subst hve
    simp
  · have hlast : ¬ (w ++ [0x20] ++ v).getLast? = some 0x20 := by
      intro h
      rw [List.getLast?_append_of_ne_nil _ hve] at h
      exact wordChar_not_space sv hsp v hv (List.mem_of_getLast?_eq_some h)
    simp only [hlast, if_false, hve]
    simp

theorem indexOf?_append_cons (c : Nat) :
    ∀ (l r : List Nat), c ∉ l → (l ++ c :: r).indexOf? c = some l.length := by
  intro l
  induction l with
  | nil => intro r _; simp [List.indexOf?, List.findIdx?_cons]
  | cons a l ih =>
    intro r h
    have ha : a ≠ c := fun e => h (by simp [e])
    have hl : c ∉ l := fun e => h (by simp [e])
    have := ih r hl
    simp only [List.indexOf?] at this ⊢
    simp [List.findIdx?_cons, ha, this]

theorem indexOf?_none (c : Nat) : ∀ (l : List Nat), c ∉ l → l.indexOf? c = none := by
  intro l h
  show List.findIdx? (fun x => x == c) l = none
  rw [List.findIdx?_eq_none_iff]
  intro x hx
  simp only [beq_iff_eq, Bool.not_eq_true, beq_eq_false_iff_ne]
  intro e; exact h (e ▸ hx)

theorem lastIndexOf_append_cons (w v : List Nat) (c : Nat) (hv : c ∉ v) :
    lastIndexOf (w ++ c :: v) c = some w.length := by
  unfold lastIndexOf
  have : (w ++ c :: v).reverse = v.reverse ++ c :: w.reverse := by simp
  rw [this, indexOf?_append_cons c v.reverse w.reverse (by simpa using hv)]
  simp

theorem lastIndexOf_none (w : List Nat) (c : Nat) (hw : c ∉ w) : lastIndexOf w c = none := by
  unfold lastIndexOf
  rw [indexOf?_none c w.reverse (by simpa using hw)]
  rfl

theorem wordChar_of_ascii (sv : Services) (h : asciiWhiteSpace sv) (w : List Nat)
    (hw : ∀ u ∈ w, (isSyntaxChar u = false ∨ u = 0x2d ∨ u = 0x5f) ∧ 0x21 ≤ u ∧ u ≤ 0x7e) :
    ∀ u ∈ w, wordChar sv u :=
  fun u hu => ⟨(hw u hu).1, h.2.2 u (hw u hu).2.1 (hw u hu).2.2⟩

theorem strength_split (raw v : List Nat)
    (hraw : raw = if v = [] then ustr "strength" else ustr "strength" ++ 0x20 :: v)
    (hv : 0x20 ∉ v) :
    (lastIndexOf raw 0x20 = none ∧ v = [] ∧ raw = ustr "strength") ∨
      (lastIndexOf raw 0x20 = some 8 ∧ raw.drop (8 + 1) = v ∧
        raw.take 8 = ustr "strength") := by
  by_cases hve : v = []
  · subst hve
    rw [if_pos rfl] at hraw
    left
    exact ⟨by rw [hraw]; exact lastIndexOf_none (ustr "strength") 0x20 (by decide), rfl, hraw⟩
  · rw [if_neg hve] at hraw
    right
    have e8 : (ustr "strength").length = 8 := by decide
    refine ⟨?_, ?_, ?_⟩
    · rw [hraw, lastIndexOf_append_cons (ustr "strength") v 0x20 hv, e8]
    · rw [hraw]
      have := @List.drop_left _ (ustr "strength" ++ [0x20]) v
      simp [e8] at this
      exact this
    · rw [hraw]
      have := @List.take_left _ (ustr "strength") (0x20 :: v)
      rw [e8] at this
      exact this

/-- the name/value split of `parseSetting` for the name `strength` -/
theorem parseNameValue_strength (sv : Services)
    (parseRec : List Nat → Parser → Option Parser) (j : Nat) (p : Parser) (v : List Nat)
    (hraw : p.raw = if v = [] then ustr "strength" else ustr "strength" ++ 0x20 :: v)
    (hv : 0x20 ∉ v) :
    parseNameValue sv parseRec j p =
      if v.length = 1 ∧
          (if 0x31 ≤ charAt v 0 ∧ charAt v 0 ≤ 0x34 then UCOL_PRIMARY + ((charAt v 0 : Int) - 0x31)
           else if charAt v 0 = 0x49 then UCOL_IDENTICAL else UCOL_DEFAULT) ≠ UCOL_DEFAULT then
        some (some { setStrength
          (if 0x31 ≤ charAt v 0 ∧ charAt v 0 ≤ 0x34 then UCOL_PRIMARY + ((charAt v 0 : Int) - 0x31)
           else if charAt v 0 = 0x49 then UCOL_IDENTICAL else UCOL_DEFAULT)
          { p with raw := ustr "strength" } with ruleIndex := j })
      else some none := by
  have hfacts := strength_split p.raw v hraw hv
  unfold parseNameValue
  rcases hfacts with ⟨hl, hve, hr⟩ | ⟨hl, hd, ht⟩
  · subst hve
    have n1 : ustr "strength" ≠ ustr "alternate" := by decide
    have n2 : ustr "strength" ≠ ustr "caseFirst" := by decide
    have n3 : ustr "strength" ≠ ustr "caseLevel" := by decide
    have n4 : ustr "strength" ≠ ustr "normalization" := by decide
    have n5 : ustr "strength" ≠ ustr "numericOrdering" := by decide
    have n6 : ustr "strength" ≠ ustr "hiraganaQ" := by decide
    have n7 : ustr "strength" ≠ ustr "import" := by decide
    simp only [hl]
    simp [hr, n1, n2, n3, n4, n5, n6, n7]
  simp only [hl, hd, ht, true_and]
  by_cases h1 : v.length = 1
  · simp only [h1, if_true, true_and]
  · have n1 : ustr "strength" ≠ ustr "alternate" := by decide
    have n2 : ustr "strength" ≠ ustr "caseFirst" := by decide
    have n3 : ustr "strength" ≠ ustr "caseLevel" := by decide
    have n4 : ustr "strength" ≠ ustr "normalization" := by decide
    have n5 : ustr "strength" ≠ ustr "numericOrdering" := by decide
    have n6 : ustr "strength" ≠ ustr "hiraganaQ" := by decide
    have n7 : ustr "strength" ≠ ustr "import" := by decide
    simp only [h1, false_and, if_false, n1, n2, n3, n4, n5, n6, n7]

/-- `parseSetting` on `[strength v]`, and on `[strength]` when `v` is empty -/
theorem parseSetting_strength (sv : Services) (hws : asciiWhiteSpace sv) (fuel : Nat)
    (parseRec : List Nat → Parser → Option Parser) (p : Parser) (v rest : List Nat)
    (h0 : U_FAILURE p.errorCode = false) (hv : ∀ u ∈ v, wordChar sv u)
    (hd : p.rules.drop p.ruleIndex = ustr "[strength " ++ v ++ 0x5d :: rest ∨
      (v = [] ∧ p.rules.drop p.ruleIndex = ustr "[strength]" ++ rest)) :
    parseSetting sv fuel parseRec p =
      if v.length = 1 ∧
          (if 0x31 ≤ charAt v 0 ∧ charAt v 0 ≤ 0x34 then UCOL_PRIMARY + ((charAt v 0 : Int) - 0x31)
           else if charAt v 0 = 0x49 then UCOL_IDENTICAL else UCOL_DEFAULT) ≠ UCOL_DEFAULT then
        some { p with
          raw := ustr "strength",
          ruleIndex := p.ruleIndex + 12,
          settings := { p.settings with
            strength :=
              (if 0x31 ≤ charAt v 0 ∧ charAt v 0 ≤ 0x34 then
                UCOL_PRIMARY + ((charAt v 0 : Int) - 0x31)
              else if charAt v 0 = 0x49 then UCOL_IDENTICAL else UCOL_DEFAULT) } }
      else some (setParseError "not a valid setting/option" { p with raw := ustr "strength" }) := by
  have hname : ∀ u ∈ ustr "strength", wordChar sv u :=
    wordChar_of_ascii sv hws _ (by decide)
  have hclose : isSyntaxChar 0x5d = true ∧ (0x5d : Nat) ≠ 0x2d ∧ (0x5d : Nat) ≠ 0x5f := by decide
  have hv20 : 0x20 ∉ v := wordChar_not_space sv hws.1 v hv
  -- what readWords returns
  have hread : ∃ j, readWords sv (p.ruleIndex + 1) p =
      (j, { p with raw := if v = [] then ustr "strength" else ustr "strength" ++ 0x20 :: v }) ∧
      p.ruleIndex + 1 < j ∧ charAt p.rules j = 0x5d ∧
      (v.length = 1 → j + 1 = p.ruleIndex + 12) := by
    rcases hd with hd | ⟨hve, hd⟩
    · obtain ⟨_, _, hrest⟩ := drop_cons_facts
        (show p.rules.drop p.ruleIndex = 0x5b :: (ustr "strength" ++ 0x20 :: (v ++ 0x5d :: rest))
          by rw [hd]; simp [ustr])
      have h2 := readWords_two sv hws.1 (ustr "strength") v 0x5d rest (p.ruleIndex + 1) p
        hname hv (by decide) hclose (hws.2.2 _ (by decide) (by decide)) hrest
      refine ⟨_, h2, ?_, ?_, ?_⟩
      · have : (ustr "strength").length = 8 := by decide
        omega
      · have h3 := drop_add_of_drop_append hrest
        obtain ⟨_, _, h4⟩ := drop_cons_facts h3
        obtain ⟨_, h5, _⟩ := drop_cons_facts (drop_add_of_drop_append h4)
        rw [← h5]
      · intro h1
        have : (ustr "strength").length = 8 := by decide
        omega
    · subst hve
      obtain ⟨_, _, hrest⟩ := drop_cons_facts
        (show p.rules.drop p.ruleIndex = 0x5b :: (ustr "strength" ++ 0x5d :: rest)
          by rw [hd]; simp [ustr])
      have h1 := readWords_one sv hws.1 (ustr "strength") 0x5d rest (p.ruleIndex + 1) p
        hname (by decide) hclose hrest
      refine ⟨_, h1, ?_, ?_, ?_⟩
      · have : (ustr "strength").length = 8 := by decide
        omega
      · obtain ⟨_, h5, _⟩ := drop_cons_facts (drop_add_of_drop_append hrest)
        exact h5
      · intro h1; simp at h1
  obtain ⟨j, hr, hj, hcj, hj12⟩ := hread
  have hR : ∃ raw, raw = (if v = [] then ustr "strength" else ustr "strength" ++ 0x20 :: v) ∧
      raw.isEmpty = false ∧ (ustr "reorder").isPrefixOf raw = false ∧
      raw ≠ ustr "backwards 2" := by
    refine ⟨_, rfl, ?_, ?_, ?_⟩
    · split <;> simp [ustr]
    · split <;> simp [ustr, List.isPrefixOf]
    · split <;> simp [ustr]
  obtain ⟨raw, hraw, hr1, hr2, hr3⟩ := hR
  rw [← hraw] at hr
  have hsplit := strength_split raw v hraw hv20
  have hnv := parseNameValue_strength sv parseRec (j + 1) { p with raw := raw } v hraw hv20
  unfold parseSetting
  rw [if_neg (by simp [h0])]
  simp only [hr]
  have hji : ¬ (j ≤ p.ruleIndex + 1 ∨ raw.isEmpty = true) := by
    rw [hr1]; simp; omega
  rw [if_neg hji]
  simp only [hcj, if_true, hr2, Bool.false_eq_true, false_and, if_false, hr3, hnv]
  by_cases hval : v.length = 1 ∧
      (if 0x31 ≤ charAt v 0 ∧ charAt v 0 ≤ 0x34 then UCOL_PRIMARY + ((charAt v 0 : Int) - 0x31)
       else if charAt v 0 = 0x49 then UCOL_IDENTICAL else UCOL_DEFAULT) ≠ UCOL_DEFAULT
  · rw [if_pos hval, if_pos hval]
    simp only [setStrength, h0, Bool.false_eq_true, if_false, hj12 hval.1]
  · rw [if_neg hval, if_neg hval]
    simp only []
    rcases hsplit with ⟨hl, _, hrr⟩ | ⟨hl, _, ht⟩
    · simp only [hl]
      rw [hrr]
    · simp only [hl, ht]

theorem sampleServices_ascii : asciiWhiteSpace sampleServices :=
  ⟨by decide, by decide, sampleServices_printable⟩

/-- `parseSetting` on `[backwards 2]` -/
theorem parseSetting_backwards (sv : Services) (hws : asciiWhiteSpace sv) (fuel : Nat)
    (parseRec : List Nat → Parser → Option Parser) (p : Parser) (rest : List Nat)
    (h0 : U_FAILURE p.errorCode = false)
    (hd : p.rules.drop p.ruleIndex = ustr "[backwards 2]" ++ rest) :
    parseSetting sv fuel parseRec p =
      some { p with
        raw := ustr "backwards 2",
        ruleIndex := p.ruleIndex + 13,
        settings := { p.settings with backwardSecondary := true } } := by
  have hclose : isSyntaxChar 0x5d = true ∧ (0x5d : Nat) ≠ 0x2d ∧ (0x5d : Nat) ≠ 0x5f := by decide
  obtain ⟨_, _, hrest⟩ := drop_cons_facts
    (show p.rules.drop p.ruleIndex =
        0x5b :: (ustr "backwards" ++ 0x20 :: (ustr "2" ++ 0x5d :: rest))
      by rw [hd]; simp [ustr])
  have h2 := readWords_two sv hws.1 (ustr "backwards") (ustr "2") 0x5d rest (p.ruleIndex + 1) p
    (wordChar_of_ascii sv hws _ (by decide)) (wordChar_of_ascii sv hws _ (by decide))
    (by decide) hclose (hws.2.2 _ (by decide) (by decide)) hrest
  have hraw : (if ustr "2" = [] then ustr "backwards" else ustr "backwards" ++ 0x20 :: ustr "2") =
      ustr "backwards 2" := by decide
  rw [hraw] at h2
  have hl1 : (ustr "backwards").length = 9 := by decide
  have hl2 : (ustr "2").length = 1 := by decide
  rw [hl1, hl2] at h2
  have hcj : charAt p.rules (p.ruleIndex + 1 + 9 + 1 + 1) = 0x5d := by
    have h3 := drop_add_of_drop_append hrest
    obtain ⟨_, _, h4⟩ := drop_cons_facts h3
    obtain ⟨_, h5, _⟩ := drop_cons_facts (drop_add_of_drop_append h4)
    rw [hl1, hl2] at h5
    exact h5
  unfold parseSetting
  rw [if_neg (by simp [h0])]
  simp only [h2]
  have hji : ¬ (p.ruleIndex + 1 + 9 + 1 + 1 ≤ p.ruleIndex + 1 ∨
      (ustr "backwards 2").isEmpty = true) := by
    have : (ustr "backwards 2").isEmpty = false := by decide
    rw [this]; simp; omega
  rw [if_neg hji]
  have hpre : ¬ ((ustr "reorder").isPrefixOf (ustr "backwards 2") = true ∧
      ((ustr "backwards 2").length = 7 ∨ charAt (ustr "backwards 2") 7 = 0x20)) := by decide
  simp only [hcj, if_true, if_neg hpre]
  rw [setFlag_backwards { p with raw := ustr "backwards 2" } h0]

/-- C19: in a state that is not a failure, with the cursor at `[strength v]` where `v` is a
word (or at `[strength]`, `v` empty): for `v` = `1`, `2`, `3` the setting stores PRIMARY,
SECONDARY, TERTIARY as the strength and moves the cursor just past the `]`; for every `v`
other than the single characters `1`, `2`, `3`, `4`, `I` the parse fails with U_PARSE_ERROR
and "not a valid setting/option", and the settings are unchanged. -/
theorem parseSetting_strength_setting (sv : Services) (hws : asciiWhiteSpace sv) (fuel : Nat)
    (parseRec : List Nat → Parser → Option Parser) (p : Parser) (v rest : List Nat)
    (h0 : U_FAILURE p.errorCode = false) (hv : ∀ u ∈ v, wordChar sv u)
    (hd : p.rules.drop p.ruleIndex = ustr "[strength " ++ v ++ 0x5d :: rest ∨
      (v = [] ∧ p.rules.drop p.ruleIndex = ustr "[strength]" ++ rest)) :
    (v = [0x31] → parseSetting sv fuel parseRec p =
      some { p with raw := ustr "strength", ruleIndex := p.ruleIndex + 12,
                    settings := { p.settings with strength := PRIMARY } }) ∧
    (v = [0x32] → parseSetting sv fuel parseRec p =
      some { p with raw := ustr "strength", ruleIndex := p.ruleIndex + 12,
                    settings := { p.settings with strength := SECONDARY } }) ∧
    (v = [0x33] → parseSetting sv fuel parseRec p =
      some { p with raw := ustr "strength", ruleIndex := p.ruleIndex + 12,
                    settings := { p.settings with strength := TERTIARY } }) ∧
    (v.length = 1 → p.rules.drop (p.ruleIndex + 12) = rest) ∧
    (v ≠ [0x31] → v ≠ [0x32] → v ≠ [0x33] → v ≠ [0x34] → v ≠ [0x49] →
      ∃ q, parseSetting sv fuel parseRec p = some q ∧
        q.errorCode = UErrorCode.U_PARSE_ERROR ∧
        q.errorReason = some "not a valid setting/option" ∧
        q.settings = p.settings ∧ q.settings.strength = p.settings.strength ∧
        q.sinkCalls = p.sinkCalls) := by
  have hmain := parseSetting_strength sv hws fuel parseRec p v rest h0 hv hd
  refine ⟨?_, ?_, ?_, ?_, ?_⟩
  · intro e; subst e
    rw [hmain]; simp [UCOL_PRIMARY, UCOL_DEFAULT, PRIMARY]
  · intro e; subst e
    rw [hmain]; simp [UCOL_PRIMARY, UCOL_DEFAULT, SECONDARY]
  · intro e; subst e
    rw [hmain]; simp [UCOL_PRIMARY, UCOL_DEFAULT, TERTIARY]
  · intro h1
    rcases hd with hd | ⟨hve, _⟩
    · have h2 := drop_add_of_drop_append
        (show p.rules.drop p.ruleIndex = (ustr "[strength " ++ v) ++ 0x5d :: rest from hd)
      obtain ⟨_, _, h3⟩ := drop_cons_facts h2
      have e : p.ruleIndex + (ustr "[strength " ++ v).length + 1 = p.ruleIndex + 12 := by
        have : (ustr "[strength ").length = 10 := by decide
        rw [List.length_append, this, h1]
      rw [← e]; exact h3
    · subst hve; simp at h1
  · intro n1 n2 n3 n4 n5
    have hcond : ¬ (v.length = 1 ∧
        (if 0x31 ≤ charAt v 0 ∧ charAt v 0 ≤ 0x34 then UCOL_PRIMARY + ((charAt v 0 : Int) - 0x31)
         else if charAt v 0 = 0x49 then UCOL_IDENTICAL else UCOL_DEFAULT) ≠ UCOL_DEFAULT) := by
      rintro ⟨h1, h2⟩
      match v, h1 with
      | [c], _ =>
        simp only [charAt_cons_zero] at h2
        by_cases hc : 0x31 ≤ c ∧ c ≤ 0x34
        · have : c = 0x31 ∨ c = 0x32 ∨ c = 0x33 ∨ c = 0x34 := by omega
          rcases this with e | e | e | e <;> subst e <;> simp at n1 n2 n3 n4
        · rw [if_neg hc] at h2
          by_cases h49 : c = 0x49
          · subst h49; simp at n5
          · rw [if_neg h49] at h2; exact h2 rfl
    rw [hmain, if_neg hcond]
    have hq0 : U_FAILURE ({ p with raw := ustr "strength" } : Parser).errorCode = false := h0
    obtain ⟨s1, s2, _⟩ := errorCode_setParseError "not a valid setting/option"
      { p with raw := ustr "strength" } hq0
    obtain ⟨t1, _, _⟩ := settings_setParseError "not a valid setting/option"
      { p with raw := ustr "strength" }
    exact ⟨_, rfl, s1, s2, t1, by rw [t1], by rw [sinkCalls_setParseError]⟩

theorem parseSetting_strength_setting_witness :
    parseSetting sampleServices 0 (fun _ q => some q)
        { newParser { sampleSettings with strength := PRIMARY } with
          rules := ustr "[strength 3]" } =
      some { newParser { sampleSettings with strength := PRIMARY } with
        rules := ustr "[strength 3]", raw := ustr "strength", ruleIndex := 0 + 12,
        settings := { sampleSettings with strength := TERTIARY } } ∧
    (∃ q, parseSetting sampleServices 0 (fun _ q => some q)
        { newParser sampleSettings with rules := ustr "[strength 9]" } = some q ∧
      q.errorCode = UErrorCode.U_PARSE_ERROR ∧
      q.errorReason = some "not a valid setting/option" ∧
      q.settings = sampleSettings ∧ q.settings.strength = sampleSettings.strength ∧
      q.sinkCalls = []) ∧
    (∃ q, parseSetting sampleServices 0 (fun _ q => some q)
        { newParser sampleSettings with rules := ustr "[strength 10]" } = some q ∧
      q.errorCode = UErrorCode.U_PARSE_ERROR ∧
      q.errorReason = some "not a valid setting/option" ∧
      q.settings = sampleSettings ∧ q.settings.strength = sampleSettings.strength ∧
      q.sinkCalls = []) ∧
    (∃ q, parseSetting sampleServices 0 (fun _ q => some q)
        { newParser sampleSettings with rules := ustr "[strength]" } = some q ∧
      q.errorCode = UErrorCode.U_PARSE_ERROR ∧
      q.errorReason = some "not a valid setting/option" ∧
      q.settings = sampleSettings ∧ q.settings.strength = sampleSettings.strength ∧
      q.sinkCalls = []) :=
  ⟨(parseSetting_strength_setting sampleServices sampleServices_ascii 0 (fun _ q => some q)
      { newParser { sampleSettings with strength := PRIMARY } with rules := ustr "[strength 3]" }
      [0x33] [] (by decide) (wordChar_of_ascii sampleServices sampleServices_ascii _ (by decide))
      (Or.inl (by decide))).2.2.1 rfl,
   (parseSetting_strength_setting sampleServices sampleServices_ascii 0 (fun _ q => some q)
      { newParser sampleSettings with rules := ustr "[strength 9]" }
      [0x39] [] (by decide) (wordChar_of_ascii sampleServices sampleServices_ascii _ (by decide))
      (Or.inl (by decide))).2.2.2.2 (by decide) (by decide) (by decide) (by decide) (by decide),
   (parseSetting_strength_setting sampleServices sampleServices_ascii 0 (fun _ q => some q)
      { newParser sampleSettings with rules := ustr "[strength 10]" }
      [0x31, 0x30] [] (by decide)
      (wordChar_of_ascii sampleServices sampleServices_ascii _ (by decide))
      (Or.inl (by decide))).2.2.2.2 (by decide) (by decide) (by decide) (by decide) (by decide),
   (parseSetting_strength_setting sampleServices sampleServices_ascii 0 (fun _ q => some q)
      { newParser sampleSettings with rules := ustr "[strength]" }
      [] [] (by decide) (wordChar_of_ascii sampleServices sampleServices_ascii _ (by decide))
      (Or.inr ⟨rfl, by decide⟩)).2.2.2.2 (by decide) (by decide) (by decide) (by decide)
      (by decide)⟩

/-- C20, as stated, does not hold: `[strength 4]` and `[strength I]` do not set the same
strength value.  With the sample collaborators, `[strength 4]` stores 3, the fourth value
from `UCOL_PRIMARY` on (the quaternary level of `ucol.h`), and `[strength I]` stores
`UCOL_IDENTICAL`, which is 15. -/
theorem parseSetting_strength_four_not_identical :
    (parseSetting sampleServices 0 (fun _ q => some q)
        { newParser sampleSettings with rules := ustr "[strength 4]" }).map
        (fun q => (q.settings.strength, U_FAILURE q.errorCode)) = some (3, false) ∧
    (parseSetting sampleServices 0 (fun _ q => some q)
        { newParser sampleSettings with rules := ustr "[strength I]" }).map
        (fun q => (q.settings.strength, U_FAILURE q.errorCode)) = some (15, false) ∧
    (parseSetting sampleServices 0 (fun _ q => some q)
        { newParser sampleSettings with rules := ustr "[strength 4]" }).map
        (fun q => q.settings.strength) ≠
      (parseSetting sampleServices 0 (fun _ q => some q)
        { newParser sampleSettings with rules := ustr "[strength I]" }).map
        (fun q => q.settings.strength) := by
  decide

/-- C20, amended: in a state that is not a failure, with the cursor at `[strength c]` for a
digit `c` from `1` to `4` or the letter `I`, the setting succeeds and moves the cursor past
the `]`.  For a digit it stores `UCOL_PRIMARY + (c - '1')`: the digits `1`, `2`, `3`, `4`
give, in order, the four consecutive values from `UCOL_PRIMARY` on, which are PRIMARY,
SECONDARY, TERTIARY and one more, the fourth level.  For `I` it stores `UCOL_IDENTICAL`, by
a branch of its own.  The fourth level is not `UCOL_IDENTICAL`, so `4` and `I` store
different values. -/
theorem parseSetting_strength_digits (sv : Services) (hws : asciiWhiteSpace sv) (fuel : Nat)
    (parseRec : List Nat → Parser → Option Parser) (p : Parser) (c : Nat) (rest : List Nat)
    (h0 : U_FAILURE p.errorCode = false)
    (hc : (0x31 ≤ c ∧ c ≤ 0x34) ∨ c = 0x49)
    (hd : p.rules.drop p.ruleIndex = ustr "[strength " ++ c :: 0x5d :: rest) :
    parseSetting sv fuel parseRec p =
      some { p with
        raw := ustr "strength",
        ruleIndex := p.ruleIndex + 12,
        settings := { p.settings with
          strength :=
            (if c = 0x49 then UCOL_IDENTICAL else UCOL_PRIMARY + ((c : Int) - 0x31)) } } ∧
    (c ≠ 0x49 →
      UCOL_PRIMARY + ((c : Int) - 0x31) =
        [PRIMARY, SECONDARY, TERTIARY, TERTIARY + 1].getD (c - 0x31) 0) ∧
    (c = 0x34 →
      (parseSetting sv fuel parseRec p).map (fun q => q.settings.strength) =
        some (UCOL_PRIMARY + 3)) ∧
    (c = 0x49 →
      (parseSetting sv fuel parseRec p).map (fun q => q.settings.strength) =
        some UCOL_IDENTICAL) ∧
    UCOL_PRIMARY + 3 ≠ UCOL_IDENTICAL := by
  have hv : ∀ u ∈ [c], wordChar sv u := by
    apply wordChar_of_ascii sv hws
    intro u hu
    simp only [List.mem_singleton] at hu
    subst hu
    rcases hc with ⟨h1, h2⟩ | h
    · have : u = 0x31 ∨ u = 0x32 ∨ u = 0x33 ∨ u = 0x34 := by omega
      rcases this with e | e | e | e <;> subst e <;> decide
    · subst h; decide
  have hmain := parseSetting_strength sv hws fuel parseRec p [c] rest h0 hv
    (Or.inl (by rw [hd]; simp))
  simp only [charAt_cons_zero, List.length_singleton, true_and] at hmain
  have hval : (if 0x31 ≤ c ∧ c ≤ 0x34 then UCOL_PRIMARY + ((c : Int) - 0x31)
      else if c = 0x49 then UCOL_IDENTICAL else UCOL_DEFAULT) =
      (if c = 0x49 then UCOL_IDENTICAL else UCOL_PRIMARY + ((c : Int) - 0x31)) := by
    rcases hc with ⟨h1, h2⟩ | h
    · rw [if_pos ⟨h1, h2⟩, if_neg (by omega)]
    · subst h; rfl
  have hne : (if 0x31 ≤ c ∧ c ≤ 0x34 then UCOL_PRIMARY + ((c : Int) - 0x31)
      else if c = 0x49 then UCOL_IDENTICAL else UCOL_DEFAULT) ≠ UCOL_DEFAULT := by
    rcases hc with ⟨h1, h2⟩ | h
    · have : c = 0x31 ∨ c = 0x32 ∨ c = 0x33 ∨ c = 0x34 := by omega
      rcases this with e | e | e | e <;> subst e <;> decide
    · subst h; decide
  rw [if_pos hne, hval] at hmain
  refine ⟨hmain, ?_, ?_, ?_, by decide⟩
  · intro hn
    rcases hc with ⟨h1, h2⟩ | h
    · have : c = 0x31 ∨ c = 0x32 ∨ c = 0x33 ∨ c = 0x34 := by omega
      rcases this with e | e | e | e <;> subst e <;> decide
    · exact absurd h hn
  · intro h4
    rw [hmain]
    subst h4; rfl
  · intro h49
    rw [hmain]
    subst h49; rfl

/-- Instances of `parseSetting_strength_digits`: `[strength 2]` stores SECONDARY,
`[strength 4]` stores `UCOL_PRIMARY + 3` and `[strength I]` stores `UCOL_IDENTICAL`. -/
theorem parseSetting_strength_digits_witness :
    parseSetting sampleServices 0 (fun _ q => some q)
        { newParser sampleSettings with rules := ustr "[strength 2]" } =
      some { newParser sampleSettings with
        rules := ustr "[strength 2]", raw := ustr "strength", ruleIndex := 0 + 12,
        settings := { sampleSettings with strength := SECONDARY } } ∧
    (parseSetting sampleServices 0 (fun _ q => some q)
        { newParser sampleSettings with rules := ustr "[strength 4]" }).map
        (fun q => q.settings.strength) = some (UCOL_PRIMARY + 3) ∧
    (parseSetting sampleServices 0 (fun _ q => some q)
        { newParser sampleSettings with rules := ustr "[strength I]" }).map
        (fun q => q.settings.strength) = some UCOL_IDENTICAL :=
  ⟨(parseSetting_strength_digits sampleServices sampleServices_ascii 0 (fun _ q => some q)
      { newParser sampleSettings with rules := ustr "[strength 2]" } 0x32 []
      (by decide) (by decide) (by decide)).1,
   (parseSetting_strength_digits sampleServices sampleServices_ascii 0 (fun _ q => some q)
      { newParser sampleSettings with rules := ustr "[strength 4]" } 0x34 []
      (by decide) (by decide) (by decide)).2.2.1 rfl,
   (parseSetting_strength_digits sampleServices sampleServices_ascii 0 (fun _ q => some q)
      { newParser sampleSettings with rules := ustr "[strength I]" } 0x49 []
      (by decide) (by decide) (by decide)).2.2.2.1 rfl⟩


/-! ## Rule strings without chains and bracketed settings -/

theorem parseLoop_backwards_setting (sv : Services) (hws : asciiWhiteSpace sv) (fuel : Nat)
    (p : Parser) (post : List Nat) (h0 : U_FAILURE p.errorCode = false)
    (hd : p.rules.drop p.ruleIndex = ustr "[backwards 2]" ++ post) :
    parseLoop sv (fuel + 1) p =
      parseLoop sv fuel { p with
        raw := ustr "backwards 2",
        ruleIndex := p.ruleIndex + 13,
        settings := { p.settings with backwardSecondary := true } } := by
  obtain ⟨hi, hc, _⟩ := drop_cons_facts
    (show p.rules.drop p.ruleIndex = 0x5b :: (ustr "backwards 2]" ++ post) by rw [hd]; simp [ustr])
  have hw : sv.isWhiteSpace 0x5b = false := hws.2.2 _ (by decide) (by decide)
  rw [parseLoop]
  simp only [hi, if_true, hc, hw, Bool.false_eq_true, if_false]
  rw [parseSetting_backwards sv hws fuel _ p post h0 hd]
  simp [h0]

/-- C18: a rule string made only of white space, `!`, `@` and `#` comments (the last comment
may lack its line terminator) parses without error and without a sink call, and the settings
it leaves are those of the specification: the backward-secondary flag is on when an `@`
stands among the items, and nothing else has changed.  In the loop a `!` only moves the cursor,
and an `@` leaves the settings that `[backwards 2]` leaves. -/
theorem parse_items_refines (sv : Services) (items : List TopLevelItem) (tail : List Nat)
    (fuel : Nat) (settings : CollationSettings) (outParseError : Bool)
    (hws : asciiWhiteSpace sv)
    (hv : ∀ it ∈ items, it.valid sv)
    (htail : tail = [] ∨ ∃ t, tail = 0x23 :: t ∧ ∀ u ∈ t, lineTerminator u = false) :
    (∃ q, parse sv (fuel + 2 + items.length) (items.flatMap TopLevelItem.text ++ tail)
          settings outParseError UErrorCode.U_ZERO_ERROR = some q ∧
        q.errorCode = UErrorCode.U_ZERO_ERROR ∧ q.errorReason = none ∧
        q.sinkCalls = [] ∧
        q.settings = topLevelEffect items settings ∧
        q.ruleIndex = (items.flatMap TopLevelItem.text ++ tail).length) ∧
    (∀ (n : Nat) (p : Parser) (post : List Nat), U_FAILURE p.errorCode = false →
      (p.rules.drop p.ruleIndex = 0x21 :: post →
        parseLoop sv (n + 1) p = parseLoop sv n { p with ruleIndex := p.ruleIndex + 1 }) ∧
      (p.rules.drop p.ruleIndex = 0x40 :: post →
        parseLoop sv (n + 1) p =
          parseLoop sv n { p with
            ruleIndex := p.ruleIndex + 1,
            settings := { p.settings with backwardSecondary := true } }) ∧
      (p.rules.drop p.ruleIndex = ustr "[backwards 2]" ++ post →
        parseLoop sv (n + 1) p =
          parseLoop sv n { p with
            raw := ustr "backwards 2",
            ruleIndex := p.ruleIndex + 13,
            settings := { p.settings with backwardSecondary := true } })) := by
  have hbang : sv.isWhiteSpace 0x21 = false := hws.2.2 _ (by decide) (by decide)
  have hat : sv.isWhiteSpace 0x40 = false := hws.2.2 _ (by decide) (by decide)
  have hhash : sv.isWhiteSpace 0x23 = false := hws.2.2 _ (by decide) (by decide)
  constructor
  · generalize hp0 : ({ newParser settings with
        errorCode := UErrorCode.U_ZERO_ERROR,
        parseError := if outParseError then
            some { line := 0, offset := 0, preContext := [], postContext := [] }
          else none,
        errorReason := none,
        rules := items.flatMap TopLevelItem.text ++ tail, ruleIndex := 0 } : Parser) = p0
    have hparse : parse sv (fuel + 2 + items.length) (items.flatMap TopLevelItem.text ++ tail)
        settings outParseError UErrorCode.U_ZERO_ERROR =
        parseLoop sv (fuel + 2 + items.length) p0 := by
      rw [← hp0]; rfl
    have e0 : U_FAILURE p0.errorCode = false := by rw [← hp0]; rfl
    have e1 : p0.rules = items.flatMap TopLevelItem.text ++ tail := by rw [← hp0]
    have e2 : p0.ruleIndex = 0 := by rw [← hp0]
    have e3 : p0.sinkCalls = [] := by rw [← hp0]; rfl
    have e4 : p0.settings = settings := by rw [← hp0]; rfl
    have e5 : p0.errorCode = UErrorCode.U_ZERO_ERROR := by rw [← hp0]
    have e6 : p0.errorReason = none := by rw [← hp0]
    rw [hparse, parseLoop_items sv hbang hat hhash items tail (fuel + 2) p0 hv e0
      (by rw [e2, e1]; rfl)]
    rcases htail with ht | ⟨t, ht, hno⟩
    · subst ht
      rw [parseLoop_end sv (fuel + 1) _ (by simp [e1, e2])]
      exact ⟨_, rfl, e5, e6, e3, by simp [e4], by simp [e2]⟩
    · subst ht
      have hdrop : p0.rules.drop (p0.ruleIndex + (items.flatMap TopLevelItem.text).length) =
          0x23 :: t := by
        rw [e1, e2, Nat.zero_add, List.drop_left]
      obtain ⟨hi, hc, hrest⟩ := drop_cons_facts hdrop
      rw [parseLoop_comment sv (fuel + 1)
        { p0 with ruleIndex := p0.ruleIndex + (items.flatMap TopLevelItem.text).length,
                  settings := topLevelEffect items p0.settings } e0 hi hc hhash]
      have hsk := skipComment_open p0.rules t
        (p0.ruleIndex + (items.flatMap TopLevelItem.text).length + 1) hno hrest (by omega)
      simp only [hsk]
      rw [parseLoop_end sv fuel _ (Nat.le_refl _)]
      exact ⟨_, rfl, e5, e6, e3, by simp [e4], by simp [e1]⟩
  · intro n p post h0
    refine ⟨?_, ?_, ?_⟩
    · intro hd
      obtain ⟨hi, hc, _⟩ := drop_cons_facts hd
      exact parseLoop_reversal sv n p h0 hi hc hbang
    · intro hd
      obtain ⟨hi, hc, _⟩ := drop_cons_facts hd
      exact parseLoop_backwards sv n p h0 hi hc hat
    · intro hd
      exact parseLoop_backwards_setting sv hws n p post h0 hd

theorem parse_items_refines_witness :
    (∃ q, parse sampleServices 6 (ustr " @!#x\n#y") sampleSettings true
          UErrorCode.U_ZERO_ERROR = some q ∧
        q.errorCode = UErrorCode.U_ZERO_ERROR ∧ q.errorReason = none ∧
        q.sinkCalls = [] ∧
        q.settings = { sampleSettings with backwardSecondary := true } ∧
        q.ruleIndex = 8) ∧
    (∃ q, parse sampleServices 5 (ustr "! #@\n") sampleSettings true
          UErrorCode.U_ZERO_ERROR = some q ∧
        q.errorCode = UErrorCode.U_ZERO_ERROR ∧ q.errorReason = none ∧
        q.sinkCalls = [] ∧
        q.settings = sampleSettings ∧
        q.ruleIndex = 5) :=
  ⟨(parse_items_refines sampleServices
      [TopLevelItem.whiteSpace 0x20, TopLevelItem.backwards, TopLevelItem.reversal,
       TopLevelItem.comment [0x78] 0xa]
      [0x23, 0x79] 0 sampleSettings true sampleServices_ascii (by decide)
      (Or.inr ⟨[0x79], rfl, by decide⟩)).1,
   (parse_items_refines sampleServices
      [TopLevelItem.reversal, TopLevelItem.whiteSpace 0x20, TopLevelItem.comment [0x40] 0xa]
      [] 0 sampleSettings true sampleServices_ascii (by decide) (Or.inl rfl)).1⟩


/-! ## Errors of the literal parser -/

theorem parseQuotedLoop_false (rules : List Nat) :
    ∀ (fuel i : Nat) (raw : List Nat), rules.length - i ≤ fuel → i ≤ rules.length →
      (parseQuotedLoop rules fuel i raw).1 = false →
      (parseQuotedLoop rules fuel i raw).2.1 = rules.length := by
  intro fuel
  induction fuel with
  | zero =>
    intro i raw h1 h2 _
    simp only [parseQuotedLoop]; omega
  | succ n ih =>
    intro i raw h1 h2
    rw [parseQuotedLoop]
    by_cases hi : i = rules.length
    · simp [hi]
    · rw [if_neg hi]
      simp only []
      split
      · split
        · next hc => 
          simp only [Bool.and_eq_true, decide_eq_true_eq] at hc
          exact ih _ _ (by omega) (by omega)
        · intro h; cases h
      · exact ih _ _ (by omega) (by omega)

theorem parseQuotedLoop_ge (rules : List Nat) :
    ∀ (fuel i : Nat) (raw : List Nat), i ≤ (parseQuotedLoop rules fuel i raw).2.1 := by
  intro fuel
  induction fuel with
  | zero => intro i raw; simp [parseQuotedLoop]
  | succ n ih =>
    intro i raw
    rw [parseQuotedLoop]
    split
    · exact Nat.le_refl _
    · simp only []
      split
      · split
        · exact Nat.le_trans (by omega) (ih _ _)
        · simp
      · exact Nat.le_trans (by omega) (ih _ _)

theorem checkStringLoop_cases :
    ∀ (fuel j : Nat) (p : Parser),
      checkStringLoop fuel j p = p ∨
      checkStringLoop fuel j p = setParseError "string contains an unpaired surrogate" p ∨
      checkStringLoop fuel j p = setParseError "string contains U+FFFE or U+FFFF" p := by
  intro fuel
  induction fuel with
  | zero => intro j p; left; rfl
  | succ n ih =>
    intro j p
    rw [checkStringLoop]
    split
    · simp only []
      split
      · right; left; rfl
      · split
        · right; right; rfl
        · exact ih _ _
    · left; rfl

/-- what the scanning loop leaves: either no error and only `raw` written, or one of the
two scanning errors at the end of the rule text -/
theorem parseStringLoop_outcome (sv : Services) (allowDash : Bool) :
    ∀ (fuel i : Nat) (p : Parser), U_FAILURE p.errorCode = false →
      ((parseStringLoop sv allowDash fuel i p).1 = false →
        (parseStringLoop sv allowDash fuel i p).2.2 =
          { p with raw := (parseStringLoop sv allowDash fuel i p).2.2.raw }) ∧
      ((parseStringLoop sv allowDash fuel i p).1 = true →
        (parseStringLoop sv allowDash fuel i p).2.1 = p.rules.length ∧
        (parseStringLoop sv allowDash fuel i p).2.2.errorCode = UErrorCode.U_PARSE_ERROR ∧
        (((parseStringLoop sv allowDash fuel i p).2.2.errorReason =
            some "quoted literal text missing terminating apostrophe" ∧
          ∃ k, i ≤ k ∧ k < p.rules.length ∧ charAt p.rules k = 0x27) ∨
         ((parseStringLoop sv allowDash fuel i p).2.2.errorReason =
            some "backslash escape at the end of the rule string" ∧
          i < p.rules.length ∧ charAt p.rules (p.rules.length - 1) = 0x5c))) := by
  intro fuel
  induction fuel with
  | zero => intro i p _; simp [parseStringLoop]
  | succ n ih =>
    intro i p h0
    have weaken : ∀ (j : Nat) (q : Parser), i < j → q.rules = p.rules →
        U_FAILURE q.errorCode = false →
        (∀ raw, ({ q with raw := raw } : Parser) = { p with raw := raw }) →
        ((parseStringLoop sv allowDash n j q).1 = false →
          (parseStringLoop sv allowDash n j q).2.2 =
            { p with raw := (parseStringLoop sv allowDash n j q).2.2.raw }) ∧
        ((parseStringLoop sv allowDash n j q).1 = true →
          (parseStringLoop sv allowDash n j q).2.1 = p.rules.length ∧
          (parseStringLoop sv allowDash n j q).2.2.errorCode = UErrorCode.U_PARSE_ERROR ∧
          (((parseStringLoop sv allowDash n j q).2.2.errorReason =
              some "quoted literal text missing terminating apostrophe" ∧
            ∃ k, i ≤ k ∧ k < p.rules.length ∧ charAt p.rules k = 0x27) ∨
           ((parseStringLoop sv allowDash n j q).2.2.errorReason =
              some "backslash escape at the end of the rule string" ∧
            i < p.rules.length ∧ charAt p.rules (p.rules.length - 1) = 0x5c))) := by
      intro j q hj hrules hq hraw
      obtain ⟨a, b⟩ := ih j q hq
      rw [hrules] at b
      refine ⟨fun h => ?_, fun h => ?_⟩
      · rw [a h]; exact hraw _
      · obtain ⟨b1, b2, b3⟩ := b h
        refine ⟨b1, b2, ?_⟩
        rcases b3 with ⟨r, k, k1, k2, k3⟩ | ⟨r, k1, k2⟩
        · exact Or.inl ⟨r, k, by omega, k2, k3⟩
        · exact Or.inr ⟨r, by omega, k2⟩
    by_cases hi : i < p.rules.length
    · by_cases hs : isSyntaxChar (charAt p.rules i) = true
      · by_cases h27 : charAt p.rules i = 0x27
        · by_cases hdd : i + 1 < p.rules.length ∧ charAt p.rules (i + 1) = 0x27
          · rw [parseStringLoop_doubled sv allowDash n i p hdd.1 h27 hdd.2]
            exact weaken (i + 2) { p with raw := p.raw ++ [0x27] } (by omega) rfl h0
              (fun _ => rfl)
          · have hq := parseQuotedLoop_false p.rules (p.rules.length - (i + 1)) (i + 1) p.raw
              (Nat.le_refl _) (by omega)
            have hg := parseQuotedLoop_ge p.rules (p.rules.length - (i + 1)) (i + 1) p.raw
            generalize ht : parseQuotedLoop p.rules (p.rules.length - (i + 1)) (i + 1) p.raw = t
              at hq hg
            rcases t with ⟨b, j, raw⟩
            cases b
            · have hstep : parseStringLoop sv allowDash (n + 1) i p =
                  (true, j, setParseError "quoted literal text missing terminating apostrophe"
                    { p with raw := raw }) := by
                rw [parseStringLoop]
                simp [hi, h27, hdd, ht, isSyntaxChar]
              rw [hstep]
              have hq0 : U_FAILURE ({ p with raw := raw } : Parser).errorCode = false := h0
              obtain ⟨s1, s2, _⟩ := errorCode_setParseError
                "quoted literal text missing terminating apostrophe" { p with raw := raw } hq0
              exact ⟨fun h => (by cases h), fun _ => ⟨hq rfl, s1,
                Or.inl ⟨s2, i, Nat.le_refl _, hi, h27⟩⟩⟩
            · rw [parseStringLoop_quote sv allowDash n i p j raw hi h27 hdd ht]
              exact weaken j { p with raw := raw } (by simp only [] at hg; omega) rfl h0
                (fun _ => rfl)
        · by_cases h5c : charAt p.rules i = 0x5c
          · by_cases hlast : i + 1 = p.rules.length
            · have hstep : parseStringLoop sv allowDash (n + 1) i p =
                  (true, i + 1,
                    setParseError "backslash escape at the end of the rule string" p) := by
                rw [parseStringLoop]
                simp [hi, h5c, hlast, isSyntaxChar]
              rw [hstep]
              obtain ⟨s1, s2, _⟩ := errorCode_setParseError
                "backslash escape at the end of the rule string" p h0
              refine ⟨fun h => (by cases h), fun _ => ⟨hlast, s1, Or.inr ⟨s2, hi, ?_⟩⟩⟩
              rw [← hlast]; exact h5c
            · rw [parseStringLoop_backslash sv allowDash n i p (by omega) h5c]
              refine weaken _ { p with raw := p.raw ++ U16_APPEND (char32At p.rules (i + 1)) }
                ?_ rfl h0 (fun _ => rfl)
              have : 1 ≤ U16_LENGTH (char32At p.rules (i + 1)) := by
                unfold U16_LENGTH; split <;> omega
              omega
          · by_cases hdash : charAt p.rules i = 0x2d ∧ allowDash = true
            · have hstep : parseStringLoop sv allowDash (n + 1) i p =
                  parseStringLoop sv allowDash n (i + 1)
                    { p with raw := p.raw ++ [charAt p.rules i] } := by
                rw [parseStringLoop]
                simp [hi, hdash.1, hdash.2, isSyntaxChar]
              rw [hstep]
              exact weaken (i + 1) { p with raw := p.raw ++ [charAt p.rules i] } (by omega) rfl
                h0 (fun _ => rfl)
            · have hstep : parseStringLoop sv allowDash (n + 1) i p = (false, i + 1, p) := by
                rw [parseStringLoop]
                simp only [hi, if_true, hs, h27, h5c, if_false]
                have : (decide (charAt p.rules i = 0x2d) && allowDash) = false := by
                  by_contra hcon
                  simp only [Bool.not_eq_false, Bool.and_eq_true, decide_eq_true_eq] at hcon
                  exact hdash hcon
                simp [this]
              rw [hstep]
              exact ⟨fun _ => rfl, fun h => by cases h⟩
      · by_cases hw : sv.isWhiteSpace (charAt p.rules i) = true
        · have hstep : parseStringLoop sv allowDash (n + 1) i p =
              (false, skipWhiteSpace sv p.rules (i + 1), p) := by
            rw [parseStringLoop]
            simp [hi, hs, hw]
          rw [hstep]
          exact ⟨fun _ => rfl, fun h => by cases h⟩
        · rw [parseStringLoop_plain_step sv allowDash n i p _ hi rfl (by simpa using hs)
            (by simpa using hw)]
          exact weaken (i + 1) { p with raw := p.raw ++ [charAt p.rules i] } (by omega) rfl
            h0 (fun _ => rfl)
    · rw [parseStringLoop_end sv allowDash (n + 1) i p (by omega)]
      exact ⟨fun _ => rfl, fun h => by cases h⟩

theorem parseStringLoop_quote_open (sv : Services) (allowDash : Bool) (fuel i : Nat)
    (p : Parser) (j : Nat) (raw : List Nat)
    (hi : i < p.rules.length) (hc : charAt p.rules i = 0x27)
    (hn : ¬ (i + 1 < p.rules.length ∧ charAt p.rules (i + 1) = 0x27))
    (hq : parseQuotedLoop p.rules (p.rules.length - (i + 1)) (i + 1) p.raw = (false, j, raw)) :
    parseStringLoop sv allowDash (fuel + 1) i p =
      (true, j, setParseError "quoted literal text missing terminating apostrophe"
        { p with raw := raw }) := by
  rw [parseStringLoop]
  simp [hi, hc, hn, hq, isSyntaxChar]

theorem parseStringLoop_backslash_end (sv : Services) (allowDash : Bool) (fuel i : Nat)
    (p : Parser) (hi : i + 1 = p.rules.length) (hc : charAt p.rules i = 0x5c) :
    parseStringLoop sv allowDash (fuel + 1) i p =
      (true, i + 1, setParseError "backslash escape at the end of the rule string" p) := by
  have hi0 : i < p.rules.length := by omega
  rw [parseStringLoop]
  simp [hi0, hi, hc, isSyntaxChar]

/-- a single apostrophe after plain text, with no apostrophe after it up to the end -/
theorem parseString_unterminated (sv : Services) (i : Nat) (allowDash : Bool) (p : Parser)
    (x q : List Nat) (h0 : U_FAILURE p.errorCode = false)
    (hx : ∀ u ∈ x, plainChar sv u) (hq : 0x27 ∉ q)
    (hd : p.rules.drop (skipWhiteSpace sv p.rules i) = x ++ 0x27 :: q) :
    parseString sv i allowDash p =
      (p.rules.length, setParseError "quoted literal text missing terminating apostrophe"
        { p with raw := x ++ q }) := by
  have hlen : (p.rules.drop (skipWhiteSpace sv p.rules i)).length = x.length + (q.length + 1) := by
    rw [hd]; simp
  rw [List.length_drop] at hlen
  generalize hi0 : skipWhiteSpace sv p.rules i = i0 at hd hlen
  have hloop : parseStringLoop sv allowDash (p.rules.length - i0) i0 { p with raw := [] } =
      (true, p.rules.length, setParseError "quoted literal text missing terminating apostrophe"
        { p with raw := x ++ q }) := by
    have e : p.rules.length - i0 = (q.length + 1) + x.length := by omega
    rw [e, parseStringLoop_plain sv allowDash x (0x27 :: q) _ i0 { p with raw := [] } hx hd]
    obtain ⟨hi, hc, hrest⟩ := drop_cons_facts (drop_add_of_drop_append hd)
    have hn : ¬ (i0 + x.length + 1 < p.rules.length ∧
        charAt p.rules (i0 + x.length + 1) = 0x27) := by
      rintro ⟨h1, h2⟩
      cases q with
      | nil => simp at hlen; omega
      | cons u q =>
        obtain ⟨_, hu, _⟩ := drop_cons_facts hrest
        rw [h2] at hu
        exact hq (by simp [← hu])
    have hquoted : parseQuotedLoop p.rules (p.rules.length - (i0 + x.length + 1))
        (i0 + x.length + 1) ([] ++ x) = (false, p.rules.length, x ++ q) := by
      have e2 : p.rules.length - (i0 + x.length + 1) = 0 + q.length := by omega
      rw [e2, parseQuotedLoop_partial p.rules q [] 0 (i0 + x.length + 1) ([] ++ x)
        (fun u hu e => hq (e ▸ hu)) (by simpa using hrest)]
      have e3 : i0 + x.length + 1 + q.length = p.rules.length := by omega
      rw [e3]
      simp [parseQuotedLoop]
    rw [parseStringLoop_quote_open sv allowDash q.length (i0 + x.length)
      { p with raw := [] ++ x } p.rules.length (x ++ q) hi hc hn hquoted]
  unfold parseString
  rw [if_neg (by simp [h0])]
  simp only [hi0, hloop]

/-- a backslash after plain text, as the last code unit -/
theorem parseString_dangling_backslash (sv : Services) (i : Nat) (allowDash : Bool)
    (p : Parser) (x : List Nat) (h0 : U_FAILURE p.errorCode = false)
    (hx : ∀ u ∈ x, plainChar sv u)
    (hd : p.rules.drop (skipWhiteSpace sv p.rules i) = x ++ [0x5c]) :
    parseString sv i allowDash p =
      (p.rules.length, setParseError "backslash escape at the end of the rule string"
        { p with raw := x }) := by
  have hlen : (p.rules.drop (skipWhiteSpace sv p.rules i)).length = x.length + 1 := by
    rw [hd]; simp
  rw [List.length_drop] at hlen
  generalize hi0 : skipWhiteSpace sv p.rules i = i0 at hd hlen
  have hloop : parseStringLoop sv allowDash (p.rules.length - i0) i0 { p with raw := [] } =
      (true, p.rules.length, setParseError "backslash escape at the end of the rule string"
        { p with raw := x }) := by
    have e : p.rules.length - i0 = 1 + x.length := by omega
    rw [e, parseStringLoop_plain sv allowDash x [0x5c] _ i0 { p with raw := [] } hx hd]
    obtain ⟨hi, hc, _⟩ := drop_cons_facts (drop_add_of_drop_append hd)
    rw [parseStringLoop_backslash_end sv allowDash 0 (i0 + x.length)
      { p with raw := [] ++ x } (by simp only []; omega) hc]
    have e3 : i0 + x.length + 1 = p.rules.length := by omega
    rw [e3]
    simp
  unfold parseString
  rw [if_neg (by simp [h0])]
  simp only [hi0, hloop]

/-- nothing to decode: the end of the text, or a syntax character that ends a literal -/
theorem parseString_missing (sv : Services) (i : Nat) (allowDash : Bool) (p : Parser)
    (h0 : U_FAILURE p.errorCode = false)
    (h : p.rules.length ≤ skipWhiteSpace sv p.rules i ∨
      (skipWhiteSpace sv p.rules i < p.rules.length ∧
        isSyntaxChar (charAt p.rules (skipWhiteSpace sv p.rules i)) = true ∧
        charAt p.rules (skipWhiteSpace sv p.rules i) ≠ 0x27 ∧
        charAt p.rules (skipWhiteSpace sv p.rules i) ≠ 0x5c ∧
        ¬ (charAt p.rules (skipWhiteSpace sv p.rules i) = 0x2d ∧ allowDash = true))) :
    (parseString sv i allowDash p).2 = setParseError "missing string" { p with raw := [] } := by
  generalize hi0 : skipWhiteSpace sv p.rules i = i0 at h
  have hloop : ∃ j, parseStringLoop sv allowDash (p.rules.length - i0) i0 { p with raw := [] } =
      (false, j, { p with raw := [] }) := by
    rcases h with h | ⟨hi, hs, h27, h5c, hdash⟩
    · exact ⟨_, parseStringLoop_end sv allowDash _ i0 _ h⟩
    · refine ⟨i0 + 1, ?_⟩
      have e : p.rules.length - i0 = (p.rules.length - i0 - 1) + 1 := by omega
      rw [e, parseStringLoop]
      have hi' : i0 < ({ p with raw := [] } : Parser).rules.length := hi
      simp only [hi', if_true, hs, h27, h5c, if_false]
      have : (decide (charAt p.rules i0 = 0x2d) && allowDash) = false := by
        by_contra hcon
        simp only [Bool.not_eq_false, Bool.and_eq_true, decide_eq_true_eq] at hcon
        exact hdash hcon
      simp [this]
  obtain ⟨j, hj⟩ := hloop
  unfold parseString
  rw [if_neg (by simp [h0])]
  simp only [hi0, hj]
  simp

/-- C13: from a state that is not a failure, `parseString` never succeeds with an empty
literal, and when it fails the error is U_PARSE_ERROR with one of five reasons, each in its
own situation: "quoted literal text missing terminating apostrophe" with the offset at the end
of the text and an apostrophe in the scanned text; "backslash escape at the end of the rule
string" with the offset at the end and a backslash as the last code unit; "missing string"
with nothing decoded; or one of the two validation errors with a non-empty literal.
Conversely a single apostrophe after plain text with no apostrophe up to the end, a backslash
after plain text as the last code unit, and a literal position at the end of the text or at a
terminating syntax character give these three errors. -/
theorem parseString_lexical_errors (sv : Services) (i : Nat) (allowDash : Bool) (p : Parser)
    (h0 : U_FAILURE p.errorCode = false) :
    (U_FAILURE (parseString sv i allowDash p).2.errorCode = false →
      (parseString sv i allowDash p).2.raw ≠ []) ∧
    (U_FAILURE (parseString sv i allowDash p).2.errorCode = true →
      (parseString sv i allowDash p).2.errorCode = UErrorCode.U_PARSE_ERROR ∧
      (((parseString sv i allowDash p).2.errorReason =
            some "quoted literal text missing terminating apostrophe" ∧
          (parseString sv i allowDash p).1 = p.rules.length ∧
          ∃ k, skipWhiteSpace sv p.rules i ≤ k ∧ k < p.rules.length ∧ charAt p.rules k = 0x27) ∨
        ((parseString sv i allowDash p).2.errorReason =
            some "backslash escape at the end of the rule string" ∧
          (parseString sv i allowDash p).1 = p.rules.length ∧
          skipWhiteSpace sv p.rules i < p.rules.length ∧
          charAt p.rules (p.rules.length - 1) = 0x5c) ∨
        ((parseString sv i allowDash p).2.errorReason = some "missing string" ∧
          (parseString sv i allowDash p).2.raw = []) ∨
        ((parseString sv i allowDash p).2.errorReason =
            some "string contains an unpaired surrogate" ∧
          (parseString sv i allowDash p).2.raw ≠ []) ∨
        ((parseString sv i allowDash p).2.errorReason =
            some "string contains U+FFFE or U+FFFF" ∧
          (parseString sv i allowDash p).2.raw ≠ []))) ∧
    (∀ x q : List Nat, (∀ u ∈ x, plainChar sv u) → 0x27 ∉ q →
      p.rules.drop (skipWhiteSpace sv p.rules i) = x ++ 0x27 :: q →
      (parseString sv i allowDash p).2.errorCode = UErrorCode.U_PARSE_ERROR ∧
      (parseString sv i allowDash p).2.errorReason =
        some "quoted literal text missing terminating apostrophe") ∧
    (∀ x : List Nat, (∀ u ∈ x, plainChar sv u) →
      p.rules.drop (skipWhiteSpace sv p.rules i) = x ++ [0x5c] →
      (parseString sv i allowDash p).2.errorCode = UErrorCode.U_PARSE_ERROR ∧
      (parseString sv i allowDash p).2.errorReason =
        some "backslash escape at the end of the rule string") ∧
    ((p.rules.length ≤ skipWhiteSpace sv p.rules i ∨
        (skipWhiteSpace sv p.rules i < p.rules.length ∧
          isSyntaxChar (charAt p.rules (skipWhiteSpace sv p.rules i)) = true ∧
          charAt p.rules (skipWhiteSpace sv p.rules i) ≠ 0x27 ∧
          charAt p.rules (skipWhiteSpace sv p.rules i) ≠ 0x5c ∧
          ¬ (charAt p.rules (skipWhiteSpace sv p.rules i) = 0x2d ∧ allowDash = true))) →
      (parseString sv i allowDash p).2.errorCode = UErrorCode.U_PARSE_ERROR ∧
      (parseString sv i allowDash p).2.errorReason = some "missing string") := by
  refine ⟨parseString_nonempty sv i allowDash p, ?_, ?_, ?_, ?_⟩
  · have hout := parseStringLoop_outcome sv allowDash
      (p.rules.length - skipWhiteSpace sv p.rules i) (skipWhiteSpace sv p.rules i)
      { p with raw := [] } h0
    unfold parseString
    rw [if_neg (by simp [h0])]
    simp only []
    generalize parseStringLoop sv allowDash (p.rules.length - skipWhiteSpace sv p.rules i)
      (skipWhiteSpace sv p.rules i) { p with raw := [] } = s at hout
    rcases s with ⟨b, j, q⟩
    obtain ⟨ha, hb⟩ := hout
    cases b
    · have hq := ha rfl
      simp only [] at hq
      have hq0 : U_FAILURE q.errorCode = false := by rw [hq]; exact h0
      simp only []
      by_cases he : q.raw.isEmpty = true
      · rw [if_pos he]
        obtain ⟨s1, s2, s3⟩ := errorCode_setParseError "missing string" q hq0
        intro _
        refine ⟨s1, Or.inr (Or.inr (Or.inl ⟨s2, ?_⟩))⟩
        rw [s3]; simpa using he
      · rw [if_neg he]
        have hne : q.raw ≠ [] := by simpa using he
        rcases checkStringLoop_cases q.raw.length 0 q with hc | hc | hc
        · rw [hc]; intro hf; rw [hq0] at hf; cases hf
        · rw [hc]
          obtain ⟨s1, s2, s3⟩ := errorCode_setParseError
            "string contains an unpaired surrogate" q hq0
          intro _
          exact ⟨s1, Or.inr (Or.inr (Or.inr (Or.inl ⟨s2, by rw [s3]; exact hne⟩)))⟩
        · rw [hc]
          obtain ⟨s1, s2, s3⟩ := errorCode_setParseError
            "string contains U+FFFE or U+FFFF" q hq0
          intro _
          exact ⟨s1, Or.inr (Or.inr (Or.inr (Or.inr ⟨s2, by rw [s3]; exact hne⟩)))⟩
    · obtain ⟨b1, b2, b3⟩ := hb rfl
      simp only [] at b1 b2 b3 ⊢
      intro _
      refine ⟨b2, ?_⟩
      rcases b3 with ⟨r, hk⟩ | ⟨r, k1, k2⟩
      · exact Or.inl ⟨r, b1, hk⟩
      · exact Or.inr (Or.inl ⟨r, b1, k1, k2⟩)
  · intro x q hx hq hd
    rw [parseString_unterminated sv i allowDash p x q h0 hx hq hd]
    obtain ⟨s1, s2, _⟩ := errorCode_setParseError
      "quoted literal text missing terminating apostrophe" { p with raw := x ++ q } h0
    exact ⟨s1, s2⟩
  · intro x hx hd
    rw [parseString_dangling_backslash sv i allowDash p x h0 hx hd]
    obtain ⟨s1, s2, _⟩ := errorCode_setParseError
      "backslash escape at the end of the rule string" { p with raw := x } h0
    exact ⟨s1, s2⟩
  · intro h
    rw [parseString_missing sv i allowDash p h0 h]
    obtain ⟨s1, s2, _⟩ := errorCode_setParseError "missing string" { p with raw := [] } h0
    exact ⟨s1, s2⟩

theorem char32At_unit (raw : List Nat) (j u : Nat) (hj : j < raw.length)
    (hc : charAt raw j = u)
    (hnl : U16_IS_LEAD u = false ∨ j + 1 = raw.length ∨ U16_IS_TRAIL (charAt raw (j + 1)) = false)
    (hinv : j = 0 ∨ U16_IS_LEAD (charAt raw (j - 1)) = false) :
    char32At raw j = u := by
  unfold char32At
  rw [if_pos hj]
  simp only [hc]
  by_cases hs : U_IS_SURROGATE u = true
  · rw [if_pos hs]
    by_cases hl : U16_IS_LEAD u = true
    · rw [if_pos hl]
      rcases hnl with h | h | h
      · rw [hl] at h; cases h
      · simp [h]
      · simp [h]
    · rw [if_neg hl]
      rcases hinv with h | h
      · simp [h]
      · simp [h]
  · rw [if_neg hs]

/-- a decoded string that is not well-formed fails the check -/
theorem checkStringLoop_illFormed (p : Parser) :
    ∀ (fuel : Nat) (q : List Nat) (j : Nat),
      p.raw.drop j = q → wellFormed16 q = false → (∀ u ∈ q, u < 0x10000) →
      (j = 0 ∨ U16_IS_LEAD (charAt p.raw (j - 1)) = false) →
      q.length ≤ fuel →
      checkStringLoop fuel j p = setParseError "string contains an unpaired surrogate" p ∨
      checkStringLoop fuel j p = setParseError "string contains U+FFFE or U+FFFF" p := by
  intro fuel
  induction fuel using Nat.strong_induction_on with
  | _ fuel ih =>
    intro q j hd hw hu hinv hfuel
    match q, hd, hw, hu, hfuel with
    | [], _, hw, _, _ => simp [wellFormed16] at hw
    | [u], hd, hw, hu, hfuel =>
      obtain ⟨hj, hc, hrest⟩ := drop_cons_facts hd
      have hlen : j + 1 = p.raw.length := by
        have := drop_nil_facts hrest
        omega
      have h32 : char32At p.raw j = u := char32At_unit p.raw j u hj hc (Or.inr (Or.inl hlen)) hinv
      cases fuel with
      | zero => simp at hfuel
      | succ n =>
        rw [checkStringLoop]
        simp only [hj, if_true, h32]
        by_cases hs : U_IS_SURROGATE u = true
        · left; simp [hs]
        · right
          have hs' : U_IS_SURROGATE u = false := by simpa using hs
          simp only [wellFormed16, hs', Bool.not_false, Bool.true_and, Bool.and_eq_false_iff,
            bne_eq_false_iff_eq] at hw
          rcases hw with h | h <;> simp [h, U_IS_SURROGATE]
    | u :: t :: rest, hd, hw, hu, hfuel =>
      obtain ⟨hj, hc, hrest⟩ := drop_cons_facts hd
      obtain ⟨hj1, hc1, hrest1⟩ := drop_cons_facts hrest
      have hu1 : u < 0x10000 := hu u (by simp)
      cases fuel with
      | zero => simp at hfuel
      | succ n =>
        by_cases hlead : U16_IS_LEAD u = true
        · have hsur : U_IS_SURROGATE u = true := by
            simp [U16_IS_LEAD] at hlead; simp [U_IS_SURROGATE]; omega
          by_cases htrail : U16_IS_TRAIL t = true
          · simp only [wellFormed16, hlead, if_true, htrail, Bool.true_and] at hw
            have hne : ¬ j + 1 = p.raw.length := by omega
            have h32 : char32At p.raw j = U16_GET_SUPPLEMENTARY u t := by
              simp [char32At, hj, hc, hsur, hlead, hne, hc1, htrail]
            have hbig : 0x10000 ≤ U16_GET_SUPPLEMENTARY u t := by
              simp [U16_IS_LEAD] at hlead; simp [U16_IS_TRAIL] at htrail
              simp [U16_GET_SUPPLEMENTARY]; omega
            have hs : U_IS_SURROGATE (U16_GET_SUPPLEMENTARY u t) = false := by
              simp [U_IS_SURROGATE]; omega
            have hl : U16_LENGTH (U16_GET_SUPPLEMENTARY u t) = 2 := by
              simp [U16_LENGTH]; omega
            have hn1 : ¬ U16_GET_SUPPLEMENTARY u t = 0xfffe := by omega
            have hn2 : ¬ U16_GET_SUPPLEMENTARY u t = 0xffff := by omega
            have hinv2 : j + 2 = 0 ∨ U16_IS_LEAD (charAt p.raw (j + 2 - 1)) = false := by
              right
              have : j + 2 - 1 = j + 1 := by omega
              rw [this, hc1]
              simp [U16_IS_TRAIL] at htrail; simp [U16_IS_LEAD]; omega
            have hnext := ih n (by omega) rest (j + 2) hrest1 hw
              (fun v hv => hu v (by simp [hv])) hinv2 (by simp at hfuel; omega)
            have hstep : checkStringLoop (n + 1) j p = checkStringLoop n (j + 2) p := by
              rw [checkStringLoop]
              simp [hj, h32, hs, hn1, hn2, hl]
            rw [hstep]; exact hnext
          · have h32 : char32At p.raw j = u :=
              char32At_unit p.raw j u hj hc
                (Or.inr (Or.inr (by rw [hc1]; simpa using htrail))) hinv
            left
            rw [checkStringLoop]
            simp [hj, h32, hsur]
        · have hlead' : U16_IS_LEAD u = false := by simpa using hlead
          have h32 : char32At p.raw j = u :=
            char32At_unit p.raw j u hj hc (Or.inl hlead') hinv
          by_cases hs : U_IS_SURROGATE u = true
          · left
            rw [checkStringLoop]
            simp [hj, h32, hs]
          · have hs' : U_IS_SURROGATE u = false := by simpa using hs
            by_cases hf : u = 0xfffe ∨ u = 0xffff
            · right
              rw [checkStringLoop]
              rcases hf with h | h <;> simp [hj, h32, h, U_IS_SURROGATE]
            · have hf1 : ¬ u = 0xfffe := fun h => hf (Or.inl h)
              have hf2 : ¬ u = 0xffff := fun h => hf (Or.inr h)
              have hw' : wellFormed16 (t :: rest) = false := by
                simp only [wellFormed16, hlead', Bool.false_eq_true, if_false, hs',
                  Bool.not_false, Bool.true_and] at hw
                have e1 : (u != 0xfffe) = true := by simpa using hf1
                have e2 : (u != 0xffff) = true := by simpa using hf2
                simpa [e1, e2] using hw
              have hl : U16_LENGTH u = 1 := by simp [U16_LENGTH]; omega
              have hinv2 : j + 1 = 0 ∨ U16_IS_LEAD (charAt p.raw (j + 1 - 1)) = false := by
                right
                have : j + 1 - 1 = j := by omega
                rw [this, hc]; exact hlead'
              have hnext := ih n (by omega) (t :: rest) (j + 1) hrest hw'
                (fun v hv => hu v (by simp [hv])) hinv2 (by simp at hfuel ⊢; omega)
              have hstep : checkStringLoop (n + 1) j p = checkStringLoop n (j + 1) p := by
                rw [checkStringLoop]
                simp [hj, h32, hs', hf1, hf2, hl]
              rw [hstep]; exact hnext

theorem charAt_lt (rules : List Nat) (h : ∀ u ∈ rules, u < 0x10000) (i : Nat) :
    charAt rules i < 0x10000 := by
  by_cases hi : i < rules.length
  · exact h _ (charAt_mem hi)
  · simp [charAt, List.getD_eq_getElem?_getD, List.getElem?_eq_none (Nat.le_of_not_lt hi),
      kInvalidUChar]

theorem U16_APPEND_units (c : Nat) : ∀ u ∈ U16_APPEND c, u < 0x10000 := by
  intro u hu
  unfold U16_APPEND at hu
  split at hu
  · simp at hu; omega
  · split at hu
    · simp [U16_LEAD, U16_TRAIL] at hu
      rcases hu with h | h <;> omega
    · simp at hu

theorem parseQuotedLoop_units (rules : List Nat) (h : ∀ u ∈ rules, u < 0x10000) :
    ∀ (fuel i : Nat) (raw : List Nat), (∀ u ∈ raw, u < 0x10000) →
      ∀ u ∈ (parseQuotedLoop rules fuel i raw).2.2, u < 0x10000 := by
  intro fuel
  induction fuel with
  | zero => intro i raw hr; simpa [parseQuotedLoop] using hr
  | succ n ih =>
    intro i raw hr
    have hadd : ∀ u ∈ raw ++ [charAt rules i], u < 0x10000 := by
      intro u hu
      rcases List.mem_append.mp hu with h1 | h1
      · exact hr u h1
      · simp at h1; rw [h1]; exact charAt_lt rules h i
    rw [parseQuotedLoop]
    split
    · exact hr
    · simp only []
      split
      · split
        · exact ih _ _ hadd
        · exact hr
      · exact ih _ _ hadd

theorem parseStringLoop_units (sv : Services) (allowDash : Bool) :
    ∀ (fuel i : Nat) (p : Parser), (∀ u ∈ p.rules, u < 0x10000) →
      (∀ u ∈ p.raw, u < 0x10000) →
      ∀ u ∈ (parseStringLoop sv allowDash fuel i p).2.2.raw, u < 0x10000 := by
  intro fuel
  induction fuel with
  | zero => intro i p _ hr; simpa [parseStringLoop] using hr
  | succ n ih =>
    intro i p h hr
    have hset : ∀ reason (q : Parser), (setParseError reason q).raw = q.raw := by
      intro reason q
      unfold setParseError
      split
      · rfl
      · split <;> rfl
    have hadd : ∀ c, c < 0x10000 → ∀ u ∈ p.raw ++ [c], u < 0x10000 := by
      intro c hc u hu
      rcases List.mem_append.mp hu with h1 | h1
      · exact hr u h1
      · simp at h1; rw [h1]; exact hc
    rw [parseStringLoop]
    split
    · simp only []
      split
      · split
        · split
          · exact ih _ { p with raw := p.raw ++ [0x27] } h (hadd 0x27 (by omega))
          · have hq := parseQuotedLoop_units p.rules h (p.rules.length - (i + 1)) (i + 1)
              p.raw hr
            split
            · next j raw heq =>
              rw [heq] at hq
              simp only [hset]
              exact hq
            · next j raw heq =>
              rw [heq] at hq
              exact ih _ { p with raw := raw } h hq
        · split
          · split
            · simp only [hset]; exact hr
            · refine ih _ { p with raw := p.raw ++ U16_APPEND (char32At p.rules (i + 1)) } h ?_
              intro u hu
              rcases List.mem_append.mp hu with h1 | h1
              · exact hr u h1
              · exact U16_APPEND_units _ u h1
          · split
            · exact ih _ { p with raw := p.raw ++ [charAt p.rules i] } h
                (hadd _ (charAt_lt p.rules h i))
            · exact hr
      · split
        · exact hr
        · exact ih _ { p with raw := p.raw ++ [charAt p.rules i] } h
            (hadd _ (charAt_lt p.rules h i))
    · exact hr

/-- C14: for a rule text of UTF-16 code units, in a state that is not a failure: when
`parseString` succeeds the decoded literal is well-formed (no unpaired surrogate, no U+FFFE,
no U+FFFF).  Conversely, when the scanning loop ends without a scanning error and has decoded
something, a well-formed literal is accepted as it is, and a literal that is not well-formed
is rejected with U_PARSE_ERROR and "string contains an unpaired surrogate" or "string
contains U+FFFE or U+FFFF", whatever way its code units were written. -/
theorem parseString_wellFormed (sv : Services) (i : Nat) (allowDash : Bool) (p : Parser)
    (h0 : U_FAILURE p.errorCode = false) (hr : ∀ u ∈ p.rules, u < 0x10000) :
    (U_FAILURE (parseString sv i allowDash p).2.errorCode = false →
      wellFormed16 (parseString sv i allowDash p).2.raw = true) ∧
    ((parseStringLoop sv allowDash (p.rules.length - skipWhiteSpace sv p.rules i)
        (skipWhiteSpace sv p.rules i) { p with raw := [] }).1 = false →
      (parseStringLoop sv allowDash (p.rules.length - skipWhiteSpace sv p.rules i)
        (skipWhiteSpace sv p.rules i) { p with raw := [] }).2.2.raw ≠ [] →
      (wellFormed16 (parseStringLoop sv allowDash (p.rules.length - skipWhiteSpace sv p.rules i)
          (skipWhiteSpace sv p.rules i) { p with raw := [] }).2.2.raw = true →
        parseString sv i allowDash p =
          (parseStringLoop sv allowDash (p.rules.length - skipWhiteSpace sv p.rules i)
            (skipWhiteSpace sv p.rules i) { p with raw := [] }).2 ∧
        U_FAILURE (parseString sv i allowDash p).2.errorCode = false) ∧
      (wellFormed16 (parseStringLoop sv allowDash (p.rules.length - skipWhiteSpace sv p.rules i)
          (skipWhiteSpace sv p.rules i) { p with raw := [] }).2.2.raw = false →
        (parseString sv i allowDash p).2.raw =
          (parseStringLoop sv allowDash (p.rules.length - skipWhiteSpace sv p.rules i)
            (skipWhiteSpace sv p.rules i) { p with raw := [] }).2.2.raw ∧
        (parseString sv i allowDash p).2.errorCode = UErrorCode.U_PARSE_ERROR ∧
        ((parseString sv i allowDash p).2.errorReason =
            some "string contains an unpaired surrogate" ∨
          (parseString sv i allowDash p).2.errorReason =
            some "string contains U+FFFE or U+FFFF"))) := by
  have hout := parseStringLoop_outcome sv allowDash
    (p.rules.length - skipWhiteSpace sv p.rules i) (skipWhiteSpace sv p.rules i)
    { p with raw := [] } h0
  have hflag := parseStringLoop_flag sv allowDash
    (p.rules.length - skipWhiteSpace sv p.rules i) (skipWhiteSpace sv p.rules i)
    { p with raw := [] }
  have hunits := parseStringLoop_units sv allowDash
    (p.rules.length - skipWhiteSpace sv p.rules i) (skipWhiteSpace sv p.rules i)
    { p with raw := [] } hr (by simp)
  have hP : parseString sv i allowDash p =
      match parseStringLoop sv allowDash (p.rules.length - skipWhiteSpace sv p.rules i)
          (skipWhiteSpace sv p.rules i) { p with raw := [] } with
      | (true, i, p) => (i, p)
      | (false, i, p) =>
        if p.raw.isEmpty then (i, setParseError "missing string" p)
        else (i, checkStringLoop p.raw.length 0 p) := by
    unfold parseString
    exact if_neg (by simp [h0])
  rw [hP]
  generalize parseStringLoop sv allowDash (p.rules.length - skipWhiteSpace sv p.rules i)
    (skipWhiteSpace sv p.rules i) { p with raw := [] } = s at hout hflag hunits
  rcases s with ⟨b, j, q⟩
  obtain ⟨ha, _⟩ := hout
  cases b
  · have hq := ha rfl
    simp only [] at hq hunits ⊢
    have hq0 : U_FAILURE q.errorCode = false := by rw [hq]; exact h0
    have good : wellFormed16 q.raw = true → checkStringLoop q.raw.length 0 q = q :=
      fun hw => checkStringLoop_wellFormed q q.raw.length q.raw 0 rfl hw hunits (Nat.le_refl _)
    have bad : wellFormed16 q.raw = false →
        (checkStringLoop q.raw.length 0 q).raw = q.raw ∧
        (checkStringLoop q.raw.length 0 q).errorCode = UErrorCode.U_PARSE_ERROR ∧
        ((checkStringLoop q.raw.length 0 q).errorReason =
            some "string contains an unpaired surrogate" ∨
          (checkStringLoop q.raw.length 0 q).errorReason =
            some "string contains U+FFFE or U+FFFF") := by
      intro hw
      rcases checkStringLoop_illFormed q q.raw.length q.raw 0 rfl hw hunits (Or.inl rfl)
        (Nat.le_refl _) with hc | hc
      · rw [hc]
        obtain ⟨s1, s2, s3⟩ := errorCode_setParseError
          "string contains an unpaired surrogate" q hq0
        exact ⟨s3, s1, Or.inl s2⟩
      · rw [hc]
        obtain ⟨s1, s2, s3⟩ := errorCode_setParseError
          "string contains U+FFFE or U+FFFF" q hq0
        exact ⟨s3, s1, Or.inr s2⟩
    constructor
    · by_cases he : q.raw.isEmpty = true
      · rw [if_pos he]
        intro hf
        rw [U_FAILURE_setParseError] at hf; cases hf
      · rw [if_neg he]
        simp only []
        intro hf
        by_cases hw : wellFormed16 q.raw = true
        · rw [good hw]; exact hw
        · have hw' : wellFormed16 q.raw = false := by simpa using hw
          obtain ⟨_, b2, _⟩ := bad hw'
          rw [b2] at hf; cases hf
    · intro _ hne
      have he : ¬ q.raw.isEmpty = true := by simpa using hne
      rw [if_neg he]
      simp only []
      refine ⟨fun hw => ?_, fun hw => bad hw⟩
      rw [good hw]
      exact ⟨rfl, hq0⟩
  · simp only []
    constructor
    · intro hf
      rw [hflag rfl] at hf; cases hf
    · intro h; cases h

theorem parseString_lexical_errors_witness :
    ((parseString sampleServices 0 false
        { newParser sampleSettings with rules := ustr "a'bc" }).2.errorCode =
        UErrorCode.U_PARSE_ERROR ∧
      (parseString sampleServices 0 false
        { newParser sampleSettings with rules := ustr "a'bc" }).2.errorReason =
        some "quoted literal text missing terminating apostrophe") ∧
    ((parseString sampleServices 0 false
        { newParser sampleSettings with rules := ustr "ab\\" }).2.errorCode =
        UErrorCode.U_PARSE_ERROR ∧
      (parseString sampleServices 0 false
        { newParser sampleSettings with rules := ustr "ab\\" }).2.errorReason =
        some "backslash escape at the end of the rule string") ∧
    ((parseString sampleServices 0 false
        { newParser sampleSettings with rules := ustr " <b" }).2.errorCode =
        UErrorCode.U_PARSE_ERROR ∧
      (parseString sampleServices 0 false
        { newParser sampleSettings with rules := ustr " <b" }).2.errorReason =
        some "missing string") ∧
    (parseString sampleServices 0 false
        { newParser sampleSettings with rules := ustr "ab c" }).2.raw ≠ [] :=
  ⟨(parseString_lexical_errors sampleServices 0 false
      { newParser sampleSettings with rules := ustr "a'bc" } (by decide)).2.2.1
      [0x61] [0x62, 0x63] (by decide) (by decide) (by decide),
   (parseString_lexical_errors sampleServices 0 false
      { newParser sampleSettings with rules := ustr "ab\\" } (by decide)).2.2.2.1
      [0x61, 0x62] (by decide) (by decide),
   (parseString_lexical_errors sampleServices 0 false
      { newParser sampleSettings with rules := ustr " <b" } (by decide)).2.2.2.2
      (Or.inr (by decide)),
   (parseString_lexical_errors sampleServices 0 false
      { newParser sampleSettings with rules := ustr "ab c" } (by decide)).1 (by decide)⟩

theorem parseString_wellFormed_witness :
    ((parseString sampleServices 0 false
        { newParser sampleSettings with rules := [0x5c, 0xd800] }).2.errorCode =
        UErrorCode.U_PARSE_ERROR ∧
      ((parseString sampleServices 0 false
          { newParser sampleSettings with rules := [0x5c, 0xd800] }).2.errorReason =
          some "string contains an unpaired surrogate" ∨
        (parseString sampleServices 0 false
          { newParser sampleSettings with rules := [0x5c, 0xd800] }).2.errorReason =
          some "string contains U+FFFE or U+FFFF")) ∧
    ((parseString sampleServices 0 false
        { newParser sampleSettings with rules := [0x27, 0xffff, 0x27] }).2.errorCode =
        UErrorCode.U_PARSE_ERROR ∧
      ((parseString sampleServices 0 false
          { newParser sampleSettings with rules := [0x27, 0xffff, 0x27] }).2.errorReason =
          some "string contains an unpaired surrogate" ∨
        (parseString sampleServices 0 false
          { newParser sampleSettings with rules := [0x27, 0xffff, 0x27] }).2.errorReason =
          some "string contains U+FFFE or U+FFFF")) ∧
    (parseString sampleServices 0 false
        { newParser sampleSettings with rules := [0xd83d, 0xde00] } =
      (2, { newParser sampleSettings with rules := [0xd83d, 0xde00], raw := [0xd83d, 0xde00] }) ∧
      U_FAILURE (parseString sampleServices 0 false
        { newParser sampleSettings with rules := [0xd83d, 0xde00] }).2.errorCode = false) :=
  ⟨(((parseString_wellFormed sampleServices 0 false
      { newParser sampleSettings with rules := [0x5c, 0xd800] } (by decide) (by decide)).2
      (by decide) (by decide)).2 (by decide)).2,
   (((parseString_wellFormed sampleServices 0 false
      { newParser sampleSettings with rules := [0x27, 0xffff, 0x27] } (by decide)
      (by decide)).2 (by decide) (by decide)).2 (by decide)).2,
   ((parseString_wellFormed sampleServices 0 false
      { newParser sampleSettings with rules := [0xd83d, 0xde00] } (by decide) (by decide)).2
      (by decide) (by decide)).1 (by decide)⟩


/-! ## A comment inside a rule chain -/

/-- a one-letter literal that ends at the end of the text or at a space before another
token -/
theorem parseTailoringString_letter (sv : Services) (hsp : sv.isWhiteSpace 0x20 = true)
    (i i0 : Nat) (p : Parser) (a : Nat) (post : List Nat)
    (h0 : U_FAILURE p.errorCode = false)
    (hskip : skipWhiteSpace sv p.rules i = i0)
    (ha : plainChar sv a) (hwf : wellFormed16 [a] = true) (hau : a < 0x10000)
    (hnfd : (sv.nfdNormalize [a]).length ≤ 31)
    (hd : p.rules.drop i0 = a :: post)
    (hpost : post = [] ∨ ∃ c rest, post = 0x20 :: c :: rest ∧ sv.isWhiteSpace c = false) :
    parseTailoringString sv i p =
      (i0 + 1 + (if post = [] then 0 else 1), { p with raw := [a] }) := by
  obtain ⟨hi, hc, hrest⟩ := drop_cons_facts hd
  have hloop : parseStringLoop sv false (p.rules.length - i0) i0 { p with raw := [] } =
      (false, i0 + 1 + (if post = [] then 0 else 1), { p with raw := [a] }) := by
    have e : p.rules.length - i0 = (p.rules.length - i0 - 1) + 1 := by omega
    rw [e, parseStringLoop_plain_step sv false _ i0 { p with raw := [] } a hi hc ha.1 ha.2]
    rcases hpost with hp | ⟨c, rest, hp, hcw⟩
    · subst hp
      rw [parseStringLoop_end sv false _ (i0 + 1) _ (by simpa using drop_nil_facts hrest)]
      simp
    · subst hp
      obtain ⟨hi1, hc1, hrest1⟩ := drop_cons_facts hrest
      obtain ⟨hi2, hc2, _⟩ := drop_cons_facts hrest1
      have e2 : p.rules.length - i0 - 1 = (p.rules.length - i0 - 2) + 1 := by omega
      rw [e2, parseStringLoop]
      have hi1' : i0 + 1 < ({ p with raw := [] ++ [a] } : Parser).rules.length := hi1
      have hs20 : isSyntaxChar 0x20 = false := by decide
      simp only [hi1', if_true, hc1, hs20, hsp, Bool.false_eq_true, if_false]
      rw [skipWhiteSpace_stop sv p.rules (i0 + 1 + 1) (fun _ => by rw [hc2]; exact hcw)]
      simp
  have hstr : parseString sv i false p =
      (i0 + 1 + (if post = [] then 0 else 1), { p with raw := [a] }) := by
    unfold parseString
    rw [if_neg (by simp [h0])]
    simp only [hskip, hloop]
    have hchk := checkStringLoop_wellFormed { p with raw := [a] } 1 [a] 0 rfl hwf
      (by simpa using hau) (by simp)
    simp [hchk]
  unfold parseTailoringString
  rw [hstr]
  have hn : normalize sv.nfdNormalize [a] p.errorCode = sv.nfdNormalize [a] := by
    simp [normalize, h0]
  simp only [hn]
  rw [if_neg (by omega)]

theorem callSink_accepted (sv : Services) (hsink : ∀ cs call, sv.sink cs call = none)
    (call : SinkCall) (p : Parser) :
    callSink sv call p = { p with sinkCalls := p.sinkCalls ++ [call] } := by
  unfold callSink
  simp only [hsink]
  split <;> rfl

theorem parseRelationOperator_primary (p : Parser) (c : Nat) (rest : List Nat)
    (h0 : U_FAILURE p.errorCode = false)
    (hd : p.rules.drop p.ruleIndex = 0x3c :: c :: rest) (h1 : c ≠ 0x3c) (h2 : c ≠ 0x2a) :
    parseRelationOperator p = 256 := by
  obtain ⟨hi, hc, hrest⟩ := drop_cons_facts hd
  obtain ⟨hi1, hc1, _⟩ := drop_cons_facts hrest
  unfold parseRelationOperator
  have hn : ¬ p.ruleIndex ≥ p.rules.length := by omega
  simp [h0, hn, hc, hc1, h1, h2, hi1, PRIMARY]
  rfl

theorem parseRelationOperator_none (p : Parser)
    (h : p.rules.length ≤ p.ruleIndex ∨
      (charAt p.rules p.ruleIndex ≠ 0x3c ∧ charAt p.rules p.ruleIndex ≠ 0x3b ∧
        charAt p.rules p.ruleIndex ≠ 0x2c ∧ charAt p.rules p.ruleIndex ≠ 0x3d)) :
    parseRelationOperator p = NO_RELATION := by
  unfold parseRelationOperator
  rcases h with h | ⟨h1, h2, h3, h4⟩
  · simp [h]
  · split
    · rfl
    · simp [h1, h2, h3, h4]

/-- the reset `&a ` of a one-letter anchor -/
theorem parseResetAndPosition_letter (sv : Services) (hsp : sv.isWhiteSpace 0x20 = true)
    (hsink : ∀ cs call, sv.sink cs call = none)
    (p : Parser) (a c : Nat) (rest : List Nat)
    (h0 : U_FAILURE p.errorCode = false)
    (ha : plainChar sv a) (hwf : wellFormed16 [a] = true) (hau : a < 0x10000)
    (hnfd : (sv.nfdNormalize [a]).length ≤ 31)
    (hd : p.rules.drop p.ruleIndex = 0x26 :: a :: 0x20 :: c :: rest)
    (hc : sv.isWhiteSpace c = false) :
    parseResetAndPosition sv p =
      (IDENTICAL, { p with
        raw := [a], pfx := [], str := sv.fccNormalize [a], extension := [],
        sinkCalls := p.sinkCalls ++ [SinkCall.addReset IDENTICAL (sv.fccNormalize [a])],
        ruleIndex := p.ruleIndex + 3 }) := by
  obtain ⟨hi, _, hrest⟩ := drop_cons_facts hd
  obtain ⟨hi1, hc1, _⟩ := drop_cons_facts hrest
  have hskip : skipWhiteSpace sv p.rules (p.ruleIndex + 1) = p.ruleIndex + 1 :=
    skipWhiteSpace_stop sv p.rules _ (fun _ => by rw [hc1]; exact ha.2)
  have hnb : (p.rules.drop (p.ruleIndex + 1)).take BEFORE_LENGTH ≠ BEFORE := by
    rw [hrest]
    intro h
    simp [BEFORE_LENGTH, BEFORE] at h
  have ha5b : a ≠ 0x5b := by
    intro h5b
    have := ha.1
    rw [h5b] at this
    revert this; decide
  have hts := parseTailoringString_letter sv hsp (p.ruleIndex + 1) (p.ruleIndex + 1)
    (resetTailoringStrings p) a (0x20 :: c :: rest) h0 hskip ha hwf hau hnfd hrest
    (Or.inr ⟨c, rest, rfl, hc⟩)
  unfold parseResetAndPosition
  rw [if_neg (by simp [h0])]
  simp only [hskip, parseBefore_no_match sv p.rules (p.ruleIndex + 1) hnb]
  rw [if_neg (by omega)]
  have hc1' : charAt (resetTailoringStrings p).rules (p.ruleIndex + 1) = a := hc1
  simp only [hc1', ha5b, if_false, hts]
  rw [callSink_accepted sv hsink]
  simp [normalize, h0, resetTailoringStrings]

/-- one turn of the chain loop at `< b`, a primary relation with a one-letter string -/
theorem parseRuleChainLoop_primary_letter (sv : Services) (hsp : sv.isWhiteSpace 0x20 = true)
    (hsink : ∀ cs call, sv.sink cs call = none)
    (fuel : Nat) (isFirstRelation : Bool) (p : Parser) (b : Nat) (post : List Nat)
    (h0 : U_FAILURE p.errorCode = false)
    (hb : plainChar sv b) (hwf : wellFormed16 [b] = true) (hbu : b < 0x10000)
    (hnfd : (sv.nfdNormalize [b]).length ≤ 31)
    (hd : p.rules.drop p.ruleIndex = 0x3c :: 0x20 :: b :: post)
    (hpost : post = [] ∨ ∃ c rest, post = 0x20 :: c :: rest ∧ sv.isWhiteSpace c = false ∧
      c ≠ 0x7c ∧ c ≠ 0x2f) :
    parseRuleChainLoop sv IDENTICAL (fuel + 1) isFirstRelation p =
      parseRuleChainLoop sv IDENTICAL fuel false { p with
        raw := [b], pfx := [], str := sv.fccNormalize [b], extension := [],
        sinkCalls := p.sinkCalls ++ [SinkCall.addRelation PRIMARY [] (sv.fccNormalize [b]) []],
        ruleIndex := p.ruleIndex + 3 + (if post = [] then 0 else 1) } := by
  obtain ⟨hi, _, hrest⟩ := drop_cons_facts hd
  obtain ⟨hi1, hc1, hrest1⟩ := drop_cons_facts hrest
  obtain ⟨hi2, hc2, hrest2⟩ := drop_cons_facts hrest1
  have hop := parseRelationOperator_primary p 0x20 (b :: post) h0 hd (by decide) (by decide)
  have hskip : skipWhiteSpace sv p.rules (p.ruleIndex + 1) = p.ruleIndex + 1 + 1 := by
    rw [skipWhiteSpace_step sv p.rules (p.ruleIndex + 1) hi1 (by rw [hc1]; exact hsp)]
    exact skipWhiteSpace_stop sv p.rules _ (fun _ => by rw [hc2]; exact hb.2)
  have hpost' : post = [] ∨ ∃ c rest, post = 0x20 :: c :: rest ∧ sv.isWhiteSpace c = false := by
    rcases hpost with h | ⟨c, rest, h, hw, _⟩
    · exact Or.inl h
    · exact Or.inr ⟨c, rest, h, hw⟩
  have hts := parseTailoringString_letter sv hsp (p.ruleIndex + 1) (p.ruleIndex + 1 + 1)
    (resetTailoringStrings p) b post h0 hskip hb hwf hbu hnfd hrest1 hpost'
  have hnext : (if p.ruleIndex + 1 + 1 + 1 + (if post = [] then 0 else 1) < p.rules.length
      then charAt p.rules (p.ruleIndex + 1 + 1 + 1 + (if post = [] then 0 else 1)) else 0) ≠ 0x7c ∧
      (if p.ruleIndex + 1 + 1 + 1 + (if post = [] then 0 else 1) < p.rules.length
      then charAt p.rules (p.ruleIndex + 1 + 1 + 1 + (if post = [] then 0 else 1)) else 0) ≠
        0x2f := by
    rcases hpost with h | ⟨c, rest, h, _, h7c, h2f⟩
    · subst h
      have := drop_nil_facts hrest2
      have hn : ¬ p.ruleIndex + 1 + 1 + 1 + 0 < p.rules.length := by omega
      simp [hn]
    · subst h
      obtain ⟨_, _, hrest3⟩ := drop_cons_facts hrest2
      obtain ⟨hi4, hc4, _⟩ := drop_cons_facts hrest3
      simp [hi4, hc4, h7c, h2f]
  have hrs : parseRelationStrings sv 0 (p.ruleIndex + 1) p =
      { p with
        raw := [b], pfx := [], str := sv.fccNormalize [b], extension := [],
        sinkCalls := p.sinkCalls ++ [SinkCall.addRelation PRIMARY [] (sv.fccNormalize [b]) []],
        ruleIndex := p.ruleIndex + 3 + (if post = [] then 0 else 1) } := by
    unfold parseRelationStrings
    simp only [hts]
    have h0' : U_FAILURE ({ resetTailoringStrings p with raw := [b] } : Parser).errorCode =
        false := h0
    rw [if_neg (by simp [h0'])]
    have hrules : (resetTailoringStrings p).rules = p.rules := rfl
    simp only [hrules]
    rw [if_neg hnext.1]
    unfold parseRelationTail
    simp only [if_neg hnext.2]
    rw [callSink_accepted sv hsink]
    have e : p.ruleIndex + 1 + 1 + 1 + (if post = [] then 0 else 1) =
        p.ruleIndex + 3 + (if post = [] then 0 else 1) := by omega
    simp [normalize, h0, resetTailoringStrings, PRIMARY, e]
  rw [parseRuleChainLoop]
  simp only [hop, h0, Bool.false_eq_true, if_false]
  have h1 : ¬ (256 : Int) = NO_RELATION := by decide
  have h2 : ¬ IDENTICAL < IDENTICAL := by decide
  have h3 : Int.land 256 STRENGTH_MASK = 0 := by decide
  have h4 : Int.land 256 0x10 = 0 := by decide
  have h5 : ((256 : Int) >>> 8).toNat = 1 := by decide
  simp only [h1, h2, h3, h4, h5, if_false, if_true, hrs]
  simp [h0]

/-- one turn of the chain loop at a `#` comment that ends with a line terminator and is
followed by a space and another token -/
theorem parseRuleChainLoop_comment (sv : Services) (hsp : sv.isWhiteSpace 0x20 = true)
    (resetStrength : Int) (fuel : Nat) (isFirstRelation : Bool) (p : Parser)
    (text : List Nat) (t c : Nat) (rest : List Nat)
    (h0 : U_FAILURE p.errorCode = false)
    (htext : ∀ u ∈ text, lineTerminator u = false) (ht : lineTerminator t = true)
    (hc : sv.isWhiteSpace c = false)
    (hd : p.rules.drop p.ruleIndex = 0x23 :: (text ++ t :: 0x20 :: c :: rest)) :
    parseRuleChainLoop sv resetStrength (fuel + 1) isFirstRelation p =
      parseRuleChainLoop sv resetStrength fuel isFirstRelation
        { p with ruleIndex := p.ruleIndex + 1 + text.length + 1 + 1 } := by
  obtain ⟨hi, hc0, hrest⟩ := drop_cons_facts hd
  have hop := parseRelationOperator_none p
    (Or.inr (by rw [hc0]; exact ⟨by decide, by decide, by decide, by decide⟩))
  have hsk := skipComment_text p.rules text t (0x20 :: c :: rest) (p.ruleIndex + 1) htext ht hrest
  obtain ⟨_, _, hrest1⟩ := drop_cons_facts (drop_add_of_drop_append hrest)
  obtain ⟨hi2, hc2, hrest2⟩ := drop_cons_facts hrest1
  obtain ⟨_, hc3, _⟩ := drop_cons_facts hrest2
  have hskip : skipWhiteSpace sv p.rules (p.ruleIndex + 1 + text.length + 1) =
      p.ruleIndex + 1 + text.length + 1 + 1 := by
    rw [skipWhiteSpace_step sv p.rules _ hi2 (by rw [hc2]; exact hsp)]
    exact skipWhiteSpace_stop sv p.rules _ (fun _ => by rw [hc3]; exact hc)
  rw [parseRuleChainLoop]
  simp only [hop, h0, Bool.false_eq_true, if_false, if_true, hsk, hskip]
  simp [hi, hc0]

theorem parseRuleChainLoop_done (sv : Services) (resetStrength : Int) (fuel : Nat) (p : Parser)
    (h0 : U_FAILURE p.errorCode = false) (hi : p.rules.length ≤ p.ruleIndex) :
    parseRuleChainLoop sv resetStrength (fuel + 1) false p = p := by
  have hop := parseRelationOperator_none p (Or.inl hi)
  rw [parseRuleChainLoop]
  simp only [hop, h0, Bool.false_eq_true, if_false, if_true]
  have : ¬ p.ruleIndex < p.rules.length := by omega
  simp [this]

theorem plainChar_letter (sv : Services) (hws : asciiWhiteSpace sv) (a : Nat)
    (h1 : 0x61 ≤ a) (h2 : a ≤ 0x7a) : plainChar sv a := by
  refine ⟨?_, hws.2.2 a (by omega) (by omega)⟩
  simp only [isSyntaxChar, Bool.and_eq_false_iff, Bool.or_eq_false_iff, decide_eq_false_iff_not,
    Bool.and_eq_true, Bool.or_eq_true, decide_eq_true_eq]
  omega

/-- the chain `&a < b <mid>< c` where `mid` is empty or a comment with its line terminator and
a space -/
theorem parseRuleChain_abc (sv : Services) (hws : asciiWhiteSpace sv)
    (hsink : ∀ cs call, sv.sink cs call = none)
    (hnfd : ∀ a, 0x61 ≤ a → a ≤ 0x63 → (sv.nfdNormalize [a]).length ≤ 31)
    (p : Parser) (mid : List Nat) (h0 : U_FAILURE p.errorCode = false)
    (hmid : mid = [] ∨ ∃ text t, mid = 0x23 :: (text ++ [t, 0x20]) ∧
      (∀ u ∈ text, lineTerminator u = false) ∧ lineTerminator t = true)
    (hd : p.rules.drop p.ruleIndex =
      [0x26, 0x61, 0x20, 0x3c, 0x20, 0x62, 0x20] ++ mid ++ [0x3c, 0x20, 0x63]) :
    parseRuleChain sv p =
      { p with
        raw := [0x63], pfx := [], str := sv.fccNormalize [0x63], extension := [],
        sinkCalls := p.sinkCalls ++
          [SinkCall.addReset IDENTICAL (sv.fccNormalize [0x61]),
           SinkCall.addRelation PRIMARY [] (sv.fccNormalize [0x62]) [],
           SinkCall.addRelation PRIMARY [] (sv.fccNormalize [0x63]) []],
        ruleIndex := p.rules.length } := by
  have hsp := hws.1
  have hlt : sv.isWhiteSpace 0x3c = false := hws.2.2 _ (by decide) (by decide)
  have hhash : sv.isWhiteSpace 0x23 = false := hws.2.2 _ (by decide) (by decide)
  have hlen : (p.rules.drop p.ruleIndex).length = 10 + mid.length := by
    rw [hd]; simp; omega
  rw [List.length_drop] at hlen
  have hd' : p.rules.drop p.ruleIndex =
      0x26 :: 0x61 :: 0x20 :: 0x3c :: 0x20 :: 0x62 :: 0x20 :: (mid ++ [0x3c, 0x20, 0x63]) := by
    rw [hd]; simp
  obtain ⟨_, _, hd1⟩ := drop_cons_facts hd'
  obtain ⟨_, _, hd2⟩ := drop_cons_facts hd1
  obtain ⟨_, _, hd3⟩ := drop_cons_facts hd2
  obtain ⟨_, _, hd4⟩ := drop_cons_facts hd3
  obtain ⟨_, _, hd5⟩ := drop_cons_facts hd4
  obtain ⟨_, _, hd6⟩ := drop_cons_facts hd5
  obtain ⟨_, _, hd7⟩ := drop_cons_facts hd6
  have hreset := parseResetAndPosition_letter sv hsp hsink p 0x61 0x3c _ h0
    (plainChar_letter sv hws _ (by decide) (by decide)) (by decide) (by decide)
    (hnfd _ (by decide) (by decide)) hd' hlt
  have hloop : ∀ n, parseRuleChainLoop sv IDENTICAL (n + 1 + 1 + 1 + 1 + 1) true
      { p with
        raw := [0x61], pfx := [], str := sv.fccNormalize [0x61], extension := [],
        sinkCalls := p.sinkCalls ++ [SinkCall.addReset IDENTICAL (sv.fccNormalize [0x61])],
        ruleIndex := p.ruleIndex + 3 } =
      { p with
        raw := [0x63], pfx := [], str := sv.fccNormalize [0x63], extension := [],
        sinkCalls := p.sinkCalls ++
          [SinkCall.addReset IDENTICAL (sv.fccNormalize [0x61]),
           SinkCall.addRelation PRIMARY [] (sv.fccNormalize [0x62]) [],
           SinkCall.addRelation PRIMARY [] (sv.fccNormalize [0x63]) []],
        ruleIndex := p.rules.length } := by
    intro n
    generalize hp1 : ({ p with
        raw := [0x61], pfx := [], str := sv.fccNormalize [0x61], extension := [],
        sinkCalls := p.sinkCalls ++ [SinkCall.addReset IDENTICAL (sv.fccNormalize [0x61])],
        ruleIndex := p.ruleIndex + 3 } : Parser) = p1
    have e1 : p1.rules = p.rules := by rw [← hp1]
    have e2 : p1.ruleIndex = p.ruleIndex + 3 := by rw [← hp1]
    have e3 : U_FAILURE p1.errorCode = false := by rw [← hp1]; exact h0
    rcases hmid with hm | ⟨text, t, hm, htext, ht⟩
    · subst hm
      simp only [List.nil_append] at hd7 hd3
      refine Eq.trans (parseRuleChainLoop_primary_letter sv hsp hsink _ true p1 0x62
        [0x20, 0x3c, 0x20, 0x63] e3 (plainChar_letter sv hws _ (by decide) (by decide))
        (by decide) (by decide) (hnfd _ (by decide) (by decide)) (by rw [e1, e2]; exact hd3)
        (Or.inr ⟨0x3c, [0x20, 0x63], rfl, hlt, by decide, by decide⟩)) ?_
      refine Eq.trans (parseRuleChainLoop_primary_letter sv hsp hsink _ false _ 0x63 []
        (by exact e3) (plainChar_letter sv hws _ (by decide) (by decide))
        (by decide) (by decide) (hnfd _ (by decide) (by decide))
        (by simp only [e1, e2]; simpa [Nat.add_assoc] using hd7) (Or.inl rfl)) ?_
      refine Eq.trans (parseRuleChainLoop_done sv IDENTICAL _ _ (by exact e3)
        (by simp only [e1, e2]; simp at hlen ⊢; omega)) ?_
      rw [← hp1]
      simp at hlen
      simp
      omega
    · subst hm
      have hd3' : p.rules.drop (p.ruleIndex + 1 + 1 + 1) =
          0x3c :: 0x20 :: 0x62 ::
            (0x20 :: 0x23 :: (text ++ t :: 0x20 :: 0x3c :: [0x20, 0x63])) := by
        rw [hd3]; simp
      have hd7' : p.rules.drop (p.ruleIndex + 7) =
          0x23 :: (text ++ t :: 0x20 :: 0x3c :: [0x20, 0x63]) := by
        have : p.ruleIndex + 7 = p.ruleIndex + 1 + 1 + 1 + 1 + 1 + 1 + 1 := by omega
        rw [this, hd7]; simp
      obtain ⟨_, _, hd8⟩ := drop_cons_facts hd7'
      obtain ⟨_, _, hd9⟩ := drop_cons_facts (drop_add_of_drop_append hd8)
      obtain ⟨_, _, hd10⟩ := drop_cons_facts hd9
      have hlen' : p.rules.length = p.ruleIndex + 13 + text.length := by
        simp at hlen; omega
      refine Eq.trans (parseRuleChainLoop_primary_letter sv hsp hsink _ true p1 0x62
        (0x20 :: 0x23 :: (text ++ t :: 0x20 :: 0x3c :: [0x20, 0x63])) e3
        (plainChar_letter sv hws _ (by decide) (by decide))
        (by decide) (by decide) (hnfd _ (by decide) (by decide)) (by rw [e1, e2]; exact hd3')
        (Or.inr ⟨0x23, _, rfl, hhash, by decide, by decide⟩)) ?_
      refine Eq.trans (parseRuleChainLoop_comment sv hsp IDENTICAL _ false _ text t 0x3c
        [0x20, 0x63] (by exact e3) htext ht hlt
        (by simp only [e1, e2]; simpa [Nat.add_assoc] using hd7')) ?_
      refine Eq.trans (parseRuleChainLoop_primary_letter sv hsp hsink _ false _ 0x63 []
        (by exact e3) (plainChar_letter sv hws _ (by decide) (by decide))
        (by decide) (by decide) (hnfd _ (by decide) (by decide))
        (by
          simp only [e1, e2]
          have : p.ruleIndex + 3 + 3 + (if (0x20 :: 0x23 ::
              (text ++ t :: 0x20 :: 0x3c :: [0x20, 0x63]) : List Nat) = [] then 0 else 1) + 1 +
              text.length + 1 + 1 = p.ruleIndex + 7 + 1 + text.length + 1 + 1 := by
            simp
          rw [this]; exact hd10) (Or.inl rfl)) ?_
      refine Eq.trans (parseRuleChainLoop_done sv IDENTICAL _ _ (by exact e3)
        (by simp only [e1, e2]; simp; omega)) ?_
      rw [← hp1]
      simp
      omega
  unfold parseRuleChain
  rw [hreset]
  have e : p.rules.length - (p.ruleIndex + 3) + 1 = (3 + mid.length) + 1 + 1 + 1 + 1 + 1 := by
    omega
  show parseRuleChainLoop sv IDENTICAL (p.rules.length - (p.ruleIndex + 3) + 1) true _ = _
  rw [e]
  exact hloop _

theorem parse_chain_abc (sv : Services) (hws : asciiWhiteSpace sv)
    (hsink : ∀ cs call, sv.sink cs call = none)
    (hnfd : ∀ a, 0x61 ≤ a → a ≤ 0x63 → (sv.nfdNormalize [a]).length ≤ 31)
    (mid : List Nat) (fuel : Nat) (settings : CollationSettings) (outParseError : Bool)
    (hmid : mid = [] ∨ ∃ text t, mid = 0x23 :: (text ++ [t, 0x20]) ∧
      (∀ u ∈ text, lineTerminator u = false) ∧ lineTerminator t = true) :
    ∃ q, parse sv (fuel + 2) ([0x26, 0x61, 0x20, 0x3c, 0x20, 0x62, 0x20] ++ mid ++
          [0x3c, 0x20, 0x63]) settings outParseError UErrorCode.U_ZERO_ERROR = some q ∧
      q.errorCode = UErrorCode.U_ZERO_ERROR ∧
      q.sinkCalls =
        [SinkCall.addReset IDENTICAL (sv.fccNormalize [0x61]),
         SinkCall.addRelation PRIMARY [] (sv.fccNormalize [0x62]) [],
         SinkCall.addRelation PRIMARY [] (sv.fccNormalize [0x63]) []] ∧
      q.settings = settings := by
  generalize hp0 : ({ newParser settings with
      errorCode := UErrorCode.U_ZERO_ERROR,
      parseError := if outParseError then
          some { line := 0, offset := 0, preContext := [], postContext := [] }
        else none,
      errorReason := none,
      rules := [0x26, 0x61, 0x20, 0x3c, 0x20, 0x62, 0x20] ++ mid ++ [0x3c, 0x20, 0x63],
      ruleIndex := 0 } : Parser) = p0
  have hparse : parse sv (fuel + 2) ([0x26, 0x61, 0x20, 0x3c, 0x20, 0x62, 0x20] ++ mid ++
      [0x3c, 0x20, 0x63]) settings outParseError UErrorCode.U_ZERO_ERROR =
      parseLoop sv (fuel + 2) p0 := by
    rw [← hp0]; rfl
  have e0 : U_FAILURE p0.errorCode = false := by rw [← hp0]; rfl
  have e1 : p0.rules = [0x26, 0x61, 0x20, 0x3c, 0x20, 0x62, 0x20] ++ mid ++ [0x3c, 0x20, 0x63] := by
    rw [← hp0]
  have e2 : p0.ruleIndex = 0 := by rw [← hp0]
  have e3 : p0.sinkCalls = [] := by rw [← hp0]; rfl
  have e4 : p0.settings = settings := by rw [← hp0]; rfl
  have e5 : p0.errorCode = UErrorCode.U_ZERO_ERROR := by rw [← hp0]
  have hd : p0.rules.drop p0.ruleIndex =
      [0x26, 0x61, 0x20, 0x3c, 0x20, 0x62, 0x20] ++ mid ++ [0x3c, 0x20, 0x63] := by
    rw [e2, e1]; rfl
  have hchain := parseRuleChain_abc sv hws hsink hnfd p0 mid e0 hmid hd
  have hi : p0.ruleIndex < p0.rules.length := by rw [e1, e2]; simp
  have hc : charAt p0.rules p0.ruleIndex = 0x26 := by rw [e1, e2]; simp
  have hw : sv.isWhiteSpace 0x26 = false := hws.2.2 _ (by decide) (by decide)
  rw [hparse, parseLoop]
  simp only [hi, if_true, hc, hw, Bool.false_eq_true, if_false, hchain]
  have hf : U_FAILURE p0.errorCode = true ↔ False := by simp [e0]
  simp only [hf, if_false]
  rw [parseLoop_end sv fuel _ (Nat.le_refl _)]
  exact ⟨_, rfl, e5, by simp [e3], e4⟩

/-- C16: with a sink that accepts every call, for every comment text without a line
terminator, the rule string `&a < b #<comment>` + line feed + ` < c` parses without error and
calls the sink exactly as `&a < b < c` does: one addReset for `a`, then addRelation for `b`
and for `c`, both PRIMARY.  The settings are left as they were. -/
theorem parse_comment_in_chain (sv : Services) (comment : List Nat) (fuel : Nat)
    (settings : CollationSettings) (outParseError : Bool)
    (hws : asciiWhiteSpace sv)
    (hsink : ∀ cs call, sv.sink cs call = none)
    (hnfd : ∀ a, 0x61 ≤ a → a ≤ 0x63 → (sv.nfdNormalize [a]).length ≤ 31)
    (hcomment : ∀ u ∈ comment, lineTerminator u = false) :
    ∃ q r,
      parse sv (fuel + 2) (ustr "&a < b #" ++ comment ++ ustr "\n < c") settings outParseError
        UErrorCode.U_ZERO_ERROR = some q ∧
      parse sv (fuel + 2) (ustr "&a < b < c") settings outParseError
        UErrorCode.U_ZERO_ERROR = some r ∧
      q.errorCode = UErrorCode.U_ZERO_ERROR ∧ r.errorCode = UErrorCode.U_ZERO_ERROR ∧
      q.sinkCalls =
        [SinkCall.addReset IDENTICAL (sv.fccNormalize (ustr "a")),
         SinkCall.addRelation PRIMARY [] (sv.fccNormalize (ustr "b")) [],
         SinkCall.addRelation PRIMARY [] (sv.fccNormalize (ustr "c")) []] ∧
      r.sinkCalls = q.sinkCalls ∧
      q.settings = settings ∧ r.settings = settings := by
  have h1 : ustr "&a < b #" ++ comment ++ ustr "\n < c" =
      [0x26, 0x61, 0x20, 0x3c, 0x20, 0x62, 0x20] ++ (0x23 :: (comment ++ [0xa, 0x20])) ++
        [0x3c, 0x20, 0x63] := by
    have a1 : ustr "&a < b #" = [0x26, 0x61, 0x20, 0x3c, 0x20, 0x62, 0x20, 0x23] := by decide
    have a2 : ustr "\n < c" = [0xa, 0x20, 0x3c, 0x20, 0x63] := by decide
    rw [a1, a2]; simp
  have h2 : ustr "&a < b < c" =
      [0x26, 0x61, 0x20, 0x3c, 0x20, 0x62, 0x20] ++ [] ++ [0x3c, 0x20, 0x63] := by decide
  obtain ⟨q, hq, q1, q2, q3⟩ := parse_chain_abc sv hws hsink hnfd
    (0x23 :: (comment ++ [0xa, 0x20])) fuel settings outParseError
    (Or.inr ⟨comment, 0xa, rfl, hcomment, by decide⟩)
  obtain ⟨r, hr, r1, r2, r3⟩ := parse_chain_abc sv hws hsink hnfd [] fuel settings
    outParseError (Or.inl rfl)
  rw [h1, h2]
  exact ⟨q, r, hq, hr, q1, r1, q2, by rw [r2, q2], q3, r3⟩

theorem parse_comment_in_chain_witness :
    ∃ q r,
      parse sampleServices (0 + 2) (ustr "&a < b #" ++ ustr " x < y" ++ ustr "\n < c")
        sampleSettings true UErrorCode.U_ZERO_ERROR = some q ∧
      parse sampleServices (0 + 2) (ustr "&a < b < c") sampleSettings true
        UErrorCode.U_ZERO_ERROR = some r ∧
      q.errorCode = UErrorCode.U_ZERO_ERROR ∧ r.errorCode = UErrorCode.U_ZERO_ERROR ∧
      q.sinkCalls =
        [SinkCall.addReset IDENTICAL (sampleServices.fccNormalize (ustr "a")),
         SinkCall.addRelation PRIMARY [] (sampleServices.fccNormalize (ustr "b")) [],
         SinkCall.addRelation PRIMARY [] (sampleServices.fccNormalize (ustr "c")) []] ∧
      r.sinkCalls = q.sinkCalls ∧
      q.settings = sampleSettings ∧ r.settings = sampleSettings :=
  parse_comment_in_chain sampleServices (ustr " x < y") 0 sampleSettings true
    sampleServices_ascii (fun _ _ => rfl) (fun _ _ _ => (by decide : (1 : Nat) ≤ 31))
    (by decide)



/-- every code that the word loop of `parseReordering` stores is non-negative, so the test for
the single sentinel after the loop, which is negative, is never true -/
theorem parseReorderingLoop_nonneg (sv : Services) :
    ∀ (fuel i : Nat) (codes : List Int) (p : Parser), (∀ c ∈ codes, 0 ≤ c) →
      ∀ c ∈ (parseReorderingLoop sv fuel i codes p).2.1, 0 ≤ c := by
  intro fuel
  induction fuel with
  | zero => intro i codes p h; exact h
  | succ n ih =>
    intro i codes p h
    rw [parseReorderingLoop]
    split
    · simp only []
      split
      · exact h
      · split
        · exact h
        · next hc =>
          apply ih
          intro c hcm
          rcases List.mem_append.mp hcm with hcm | hcm
          · exact h c hcm
          · simp only [List.mem_singleton] at hcm
            rw [hcm]
            omega
    · exact h


/-- C22 (the code at the failing inputs): for each of the 16 special-position keywords the
rule string `&[keyword] < a` fails with "not a valid special reset position", and the one
sink call of the run is an addReset with an empty position string instead of the two-unit
position: `parseSpecialPosition` calls `readWords` at the `[`, which is a syntax character,
so `readWords` returns at once with no word read (offset 1 for the text `&[top] < a`). -/
theorem parseSpecialPosition_never_matches :
    (∀ kw ∈ positions ++ ["top", "variable top"],
      Option.map (fun q => (q.errorCode, q.errorReason, q.sinkCalls))
          (parse sampleServices 40 (ustr "&[" ++ ustr kw ++ ustr "] < a") sampleSettings true
            UErrorCode.U_ZERO_ERROR) =
        some (UErrorCode.U_PARSE_ERROR, some "not a valid special reset position",
          [SinkCall.addReset IDENTICAL []])) ∧
    readWords sampleServices 1 { newParser sampleSettings with rules := ustr "&[top] < a" } =
      (1, { newParser sampleSettings with rules := ustr "&[top] < a" }) ∧
    readWords sampleServices 2 { newParser sampleSettings with rules := ustr "&[top] < a" } =
      (5, { newParser sampleSettings with rules := ustr "&[top] < a", raw := ustr "top" }) := by
  decide

/-- C25 (the code at the failing input): `[reorder default]`, whose one word resolves to the
sentinel `UCOL_REORDER_CODE_DEFAULT`, fails with "unknown script or reorder code": the
sentinel is negative, and a negative code is refused inside the word loop, before the test
for the single sentinel is reached.  An empty `[reorder]` is accepted. -/
theorem parseReordering_default_rejected :
    getReorderCode sampleServices (ustr "default") = UCOL_REORDER_CODE_DEFAULT ∧
    UCOL_REORDER_CODE_DEFAULT < 0 ∧
    Option.map (fun q => (q.errorCode, q.errorReason))
        (parse sampleServices 40 (ustr "[reorder default]") sampleSettings true
          UErrorCode.U_ZERO_ERROR) =
      some (UErrorCode.U_PARSE_ERROR, some "unknown script or reorder code") ∧
    Option.map (fun q => (q.errorCode, q.settings.reorderCodes, q.settings.reorderTable))
        (parse sampleServices 40 (ustr "[reorder]") sampleSettings true
          UErrorCode.U_ZERO_ERROR) =
      some (UErrorCode.U_ZERO_ERROR, none, none) := by
  decide

/-- C30 (the code at the failing inputs): in `&'a` the literal of the reset fails (unterminated
quote) and addReset is still called, with an empty string; in `&a < b / ` the extension
literal fails ("missing string") and addRelation is still called; and for the text
`[suppressContractions`, which ends inside the head, the error "expected a setting/option at
'['" is recorded first and suppressContractions is still called. -/
theorem sink_called_after_error :
    Option.map (fun q => (q.errorReason, q.sinkCalls))
        (parse sampleServices 40 (ustr "&'a") sampleSettings true UErrorCode.U_ZERO_ERROR) =
      some (some "quoted literal text missing terminating apostrophe",
        [SinkCall.addReset IDENTICAL []]) ∧
    Option.map (fun q => (q.errorReason, q.sinkCalls))
        (parse sampleServices 40 (ustr "&a < b / ") sampleSettings true
          UErrorCode.U_ZERO_ERROR) =
      some (some "missing string",
        [SinkCall.addReset IDENTICAL (ustr "a"),
         SinkCall.addRelation PRIMARY [] (ustr "b") []]) ∧
    (parseRelationStrings sampleServices PRIMARY 4
        { newParser sampleSettings with
          rules := ustr "&a < b / ", ruleIndex := 3,
          sinkCalls := [SinkCall.addReset IDENTICAL (ustr "a")] }).errorReason =
      some "missing string" ∧
    Option.map (fun q => (q.errorReason, q.sinkCalls))
        (parse sampleServices 40 (ustr "[suppressContractions") sampleSettings true
          UErrorCode.U_ZERO_ERROR) =
      some (some "expected a setting/option at '['", [SinkCall.suppressContractions []]) := by
  decide



theorem parseRuleChain_of_failure (sv : Services) (p : Parser)
    (h : U_FAILURE p.errorCode = true) : parseRuleChain sv p = p := by
  have hr : parseResetAndPosition sv p = (NO_RELATION, p) := by
    unfold parseResetAndPosition
    rw [if_pos h]
  unfold parseRuleChain
  rw [hr]
  simp only []
  have : ∀ fuel, parseRuleChainLoop sv NO_RELATION fuel true p = p := by
    intro fuel
    cases fuel with
    | zero => rfl
    | succ n => rw [parseRuleChainLoop]; simp [h]
  exact this _

theorem parseSetting_of_failure (sv : Services) (fuel : Nat)
    (parseRec : List Nat → Parser → Option Parser) (p : Parser)
    (h : U_FAILURE p.errorCode = true) : parseSetting sv fuel parseRec p = some p := by
  unfold parseSetting
  rw [if_pos h]

theorem setFlag_of_failure (bit : Flag) (value : Int) (p : Parser)
    (h : U_FAILURE p.errorCode = true) : setFlag bit value p = p := by
  unfold setFlag
  rw [if_pos h]

/-- from a state that is a failure the top-level loop ends with the same error -/
theorem parseLoop_of_failure (sv : Services) :
    ∀ (fuel : Nat) (p q : Parser), U_FAILURE p.errorCode = true →
      parseLoop sv fuel p = some q →
      q.errorCode = p.errorCode ∧ q.errorReason = p.errorReason ∧
        q.parseError = p.parseError ∧ q.sinkCalls = p.sinkCalls ∧ q.settings = p.settings := by
  intro fuel
  induction fuel with
  | zero => intro p q _ h; simp [parseLoop] at h
  | succ n ih =>
    intro p q hf h
    rw [parseLoop] at h
    by_cases hi : p.ruleIndex < p.rules.length
    · rw [if_pos hi] at h
      simp only [] at h
      by_cases hw : sv.isWhiteSpace (charAt p.rules p.ruleIndex) = true
      · rw [if_pos hw] at h
        exact ih { p with ruleIndex := p.ruleIndex + 1 } q hf h
      · rw [if_neg hw] at h
        simp only [parseRuleChain_of_failure sv p hf, parseSetting_of_failure sv n _ p hf,
          setFlag_of_failure _ _ p hf, setParseError_of_failure _ p hf] at h
        split at h
        · cases h
        · next r x hx =>
          have hx' : x.errorCode = p.errorCode ∧ x.errorReason = p.errorReason ∧
              x.parseError = p.parseError ∧ x.sinkCalls = p.sinkCalls ∧
              x.settings = p.settings := by
            split at hx
            · cases hx; exact ⟨rfl, rfl, rfl, rfl, rfl⟩
            · split at hx
              · cases hx; exact ⟨rfl, rfl, rfl, rfl, rfl⟩
              · split at hx
                · cases hx; exact ⟨rfl, rfl, rfl, rfl, rfl⟩
                · split at hx
                  · cases hx; exact ⟨rfl, rfl, rfl, rfl, rfl⟩
                  · split at hx
                    · cases hx; exact ⟨rfl, rfl, rfl, rfl, rfl⟩
                    · cases hx; exact ⟨rfl, rfl, rfl, rfl, rfl⟩
          have hxf : U_FAILURE x.errorCode = true := by rw [hx'.1]; exact hf
          rw [if_pos hxf] at h
          cases h
          exact hx'
    · rw [if_neg hi] at h
      cases h
      exact ⟨rfl, rfl, rfl, rfl, rfl⟩

/-- C26: `setParseError` does nothing when the error code already is a failure; so of two
calls in sequence the second changes nothing, and the reason, offset, pre-context and
post-context are those of the first call; after either call the error code is a failure.
A rule chain and a setting entered with a failure return the state as it is, and the
top-level loop entered with a failure ends with the same error code, reason and
`UParseError`: the status does not return to success. -/
theorem setParseError_first_failure_wins :
    (∀ (reason : String) (p : Parser), U_FAILURE p.errorCode = true →
      setParseError reason p = p) ∧
    (∀ (first second : String) (p : Parser),
      setParseError second (setParseError first p) = setParseError first p ∧
      (setParseError second (setParseError first p)).errorReason =
        (setParseError first p).errorReason ∧
      (setParseError second (setParseError first p)).parseError =
        (setParseError first p).parseError ∧
      U_FAILURE (setParseError second (setParseError first p)).errorCode = true) ∧
    (∀ (sv : Services) (fuel : Nat) (parseRec : List Nat → Parser → Option Parser)
      (p : Parser), U_FAILURE p.errorCode = true →
      parseRuleChain sv p = p ∧ parseSetting sv fuel parseRec p = some p) ∧
    (∀ (sv : Services) (fuel : Nat) (p q : Parser), U_FAILURE p.errorCode = true →
      parseLoop sv fuel p = some q →
      U_FAILURE q.errorCode = true ∧ q.errorCode = p.errorCode ∧
        q.errorReason = p.errorReason ∧ q.parseError = p.parseError) := by
  refine ⟨setParseError_of_failure, ?_, ?_, ?_⟩
  · intro first second p
    have h := setParseError_of_failure second (setParseError first p)
      (U_FAILURE_setParseError first p)
    rw [h]
    exact ⟨rfl, rfl, rfl, U_FAILURE_setParseError first p⟩
  · intro sv fuel parseRec p h
    exact ⟨parseRuleChain_of_failure sv p h, parseSetting_of_failure sv fuel parseRec p h⟩
  · intro sv fuel p q hf h
    obtain ⟨h1, h2, h3, _, _⟩ := parseLoop_of_failure sv fuel p q hf h
    exact ⟨by rw [h1]; exact hf, h1, h2, h3⟩

theorem setParseError_first_failure_wins_witness :
    setParseError "second"
        (setParseError "first"
          { newParser sampleSettings with
            rules := ustr "abc", ruleIndex := 1,
            parseError := some { line := 0, offset := 0, preContext := [],
                                 postContext := [] } }) =
      { newParser sampleSettings with
        rules := ustr "abc", ruleIndex := 1,
        errorCode := UErrorCode.U_PARSE_ERROR, errorReason := some "first",
        parseError := some { line := 0, offset := 1, preContext := ustr "a",
                             postContext := ustr "bc" } } :=
  (setParseError_first_failure_wins.1 "second"
    (setParseError "first"
      { newParser sampleSettings with
        rules := ustr "abc", ruleIndex := 1,
        parseError := some { line := 0, offset := 0, preContext := [],
                             postContext := [] } }) (by decide)).trans (by decide)



theorem charAt_eq_of_getElem? (s : List Nat) (k u : Nat) (h : s[k]? = some u) :
    charAt s k = u := by
  unfold charAt
  rw [List.getD_eq_getElem?_getD, h]
  rfl

/-- C27: when `setParseError` records an error (no error recorded before, the caller passed a
`UParseError`) with the cursor inside the rule text, the line is 0, the offset is the cursor,
the pre-context is a suffix of the text before the cursor and the post-context a prefix of the
text from the cursor; each has at most `U_PARSE_CONTEXT_LEN - 1` units, so with its
terminating zero it fits its buffer, and each is the whole text on its side when that has at
most `U_PARSE_CONTEXT_LEN - 1` units; in a text with paired surrogates the pre-context does
not begin with a trail surrogate and the post-context does not end with a lead surrogate. -/
theorem setParseError_contexts (reason : String) (p : Parser) (e0 : UParseError)
    (h0 : U_FAILURE p.errorCode = false) (hpe : p.parseError = some e0)
    (hidx : p.ruleIndex ≤ p.rules.length) :
    ∃ pre post : List Nat,
      (setParseError reason p).parseError =
        some { line := 0, offset := p.ruleIndex, preContext := pre, postContext := post } ∧
      pre <:+ p.rules.take p.ruleIndex ∧
      pre.length + 1 ≤ U_PARSE_CONTEXT_LEN ∧
      (p.ruleIndex ≤ U_PARSE_CONTEXT_LEN - 1 → pre = p.rules.take p.ruleIndex) ∧
      post <+: p.rules.drop p.ruleIndex ∧
      post.length + 1 ≤ U_PARSE_CONTEXT_LEN ∧
      (p.rules.length - p.ruleIndex ≤ U_PARSE_CONTEXT_LEN - 1 →
        post = p.rules.drop p.ruleIndex) ∧
      (pairedSurrogates p.rules →
        (∀ u, pre.head? = some u → U16_IS_TRAIL u = false) ∧
        (∀ u, post.getLast? = some u → U16_IS_LEAD u = false)) := by
  -- the start of the pre-context and the length of the post-context
  obtain ⟨start, hstart⟩ : ∃ start : Nat, start =
      (if ((p.ruleIndex : Int) - ((U_PARSE_CONTEXT_LEN : Int) - 1)) < 0 then 0
        else if 0 < ((p.ruleIndex : Int) - ((U_PARSE_CONTEXT_LEN : Int) - 1)) &&
            U16_IS_TRAIL (charAt p.rules
              ((p.ruleIndex : Int) - ((U_PARSE_CONTEXT_LEN : Int) - 1)).toNat) then
          ((p.ruleIndex : Int) - ((U_PARSE_CONTEXT_LEN : Int) - 1)).toNat + 1
        else ((p.ruleIndex : Int) - ((U_PARSE_CONTEXT_LEN : Int) - 1)).toNat) := ⟨_, rfl⟩
  obtain ⟨len2, hlen2⟩ : ∃ len2 : Int, len2 =
      (if (p.rules.length : Int) - p.ruleIndex ≥ U_PARSE_CONTEXT_LEN then
          if U16_IS_LEAD (charAt p.rules (p.ruleIndex + (U_PARSE_CONTEXT_LEN - 1) - 1)) then
            (U_PARSE_CONTEXT_LEN : Int) - 1 - 1
          else (U_PARSE_CONTEXT_LEN : Int) - 1
        else (p.rules.length : Int) - p.ruleIndex) := ⟨_, rfl⟩
  have hres : (setParseError reason p).parseError =
      some { line := 0, offset := p.ruleIndex,
             preContext := extract p.rules start ((p.ruleIndex : Int) - start),
             postContext := extract p.rules p.ruleIndex len2 } := by
    unfold setParseError
    rw [h0, hpe, hstart, hlen2]
    rfl
  -- bounds on the start
  have hs1 : start ≤ p.ruleIndex := by
    rw [hstart]; unfold U_PARSE_CONTEXT_LEN
    split
    · omega
    · split <;> omega
  have hs2 : p.ruleIndex ≤ start + 15 := by
    rw [hstart]; unfold U_PARSE_CONTEXT_LEN
    split
    · omega
    · split <;> omega
  have hs3 : p.ruleIndex ≤ 15 → start = 0 := by
    intro h
    rw [hstart]; unfold U_PARSE_CONTEXT_LEN
    split
    · rfl
    · rw [if_neg]
      · omega
      · intro hc
        simp only [Bool.and_eq_true, decide_eq_true_eq] at hc
        omega
  have hpre : extract p.rules start ((p.ruleIndex : Int) - start) =
      (p.rules.take p.ruleIndex).drop start := by
    unfold extract
    rw [Int.toNat_sub, List.drop_take]
  -- bounds on the length of the post-context
  have hl0 : 0 ≤ len2 := by
    rw [hlen2]; unfold U_PARSE_CONTEXT_LEN
    split
    · split <;> omega
    · omega
  have hl1 : len2 ≤ 15 := by
    rw [hlen2]; unfold U_PARSE_CONTEXT_LEN
    split
    · split <;> omega
    · omega
  have hl2 : len2 ≤ (p.rules.length : Int) - p.ruleIndex := by
    rw [hlen2]; unfold U_PARSE_CONTEXT_LEN
    split
    · split <;> omega
    · omega
  have hl3 : p.rules.length - p.ruleIndex ≤ 15 → len2.toNat = p.rules.length - p.ruleIndex := by
    intro h
    rw [hlen2]; unfold U_PARSE_CONTEXT_LEN
    rw [if_neg (by omega)]
    omega
  refine ⟨_, _, hres, ?_, ?_, ?_, ?_, ?_, ?_, ?_⟩
  · rw [hpre]; exact List.drop_suffix _ _
  · rw [hpre]; unfold U_PARSE_CONTEXT_LEN
    simp only [List.length_drop, List.length_take]
    omega
  · intro h
    unfold U_PARSE_CONTEXT_LEN at h
    rw [hpre, hs3 (by omega)]
    rfl
  · unfold extract; exact List.take_prefix _ _
  · unfold extract U_PARSE_CONTEXT_LEN
    simp only [List.length_take, List.length_drop]
    omega
  · intro h
    unfold U_PARSE_CONTEXT_LEN at h
    unfold extract
    rw [hl3 (by omega)]
    exact List.take_of_length_le (by simp)
  · intro hw
    constructor
    · intro u hu
      rw [hpre, List.head?_drop, List.getElem?_take] at hu
      by_cases hlt : start < p.ruleIndex
      · rw [if_pos hlt] at hu
        have hc : charAt p.rules start = u := charAt_eq_of_getElem? _ _ _ hu
        rw [← hc]
        by_contra ht
        simp only [Bool.not_eq_false] at ht
        have hk := (hw start (by omega)).2 ht
        -- the unit before is a lead surrogate, so the start was moved past a trail
        have hne : ¬ ((p.ruleIndex : Int) - ((U_PARSE_CONTEXT_LEN : Int) - 1)) < 0 := by
          intro hneg
          rw [if_pos hneg] at hstart
          omega
        rw [if_neg hne] at hstart
        by_cases hmv : (0 < ((p.ruleIndex : Int) - ((U_PARSE_CONTEXT_LEN : Int) - 1)) &&
            U16_IS_TRAIL (charAt p.rules
              ((p.ruleIndex : Int) - ((U_PARSE_CONTEXT_LEN : Int) - 1)).toNat)) = true
        · rw [if_pos hmv] at hstart
          simp only [Bool.and_eq_true, decide_eq_true_eq] at hmv
          have h1 : start - 1 = ((p.ruleIndex : Int) - ((U_PARSE_CONTEXT_LEN : Int) - 1)).toNat := by
            omega
          rw [h1] at hk
          have h2 := hmv.2
          have h3 := hk.2
          unfold U16_IS_LEAD at h3
          unfold U16_IS_TRAIL at h2
          simp only [decide_eq_true_eq] at h2 h3
          omega
        · rw [if_neg hmv] at hstart
          simp only [Bool.and_eq_true, decide_eq_true_eq, not_and, Bool.not_eq_true] at hmv
          have hpos : 0 < ((p.ruleIndex : Int) - ((U_PARSE_CONTEXT_LEN : Int) - 1)) := by
            unfold U_PARSE_CONTEXT_LEN at hne ⊢
            omega
          have h2 := hmv hpos
          rw [← hstart, ht] at h2
          cases h2
      · rw [if_neg hlt] at hu
        cases hu
    · intro u hu
      unfold extract at hu
      rw [List.getLast?_eq_getElem?, List.getElem?_take, List.getElem?_drop] at hu
      simp only [List.length_take, List.length_drop] at hu
      split at hu
      · next hlt =>
        have hc := charAt_eq_of_getElem? _ _ _ hu
        rw [← hc]
        by_contra hl
        simp only [Bool.not_eq_false] at hl
        have hin : p.ruleIndex + (min len2.toNat (p.rules.length - p.ruleIndex) - 1) <
            p.rules.length := by omega
        have hk := (hw _ hin).1 hl
        by_cases hbig : (p.rules.length : Int) - p.ruleIndex ≥ U_PARSE_CONTEXT_LEN
        · rw [if_pos hbig] at hlen2
          unfold U_PARSE_CONTEXT_LEN at hbig
          by_cases hld : U16_IS_LEAD
              (charAt p.rules (p.ruleIndex + (U_PARSE_CONTEXT_LEN - 1) - 1)) = true
          · rw [if_pos hld] at hlen2
            unfold U_PARSE_CONTEXT_LEN at hlen2 hld
            have h1 : p.ruleIndex + (min len2.toNat (p.rules.length - p.ruleIndex) - 1) + 1 =
                p.ruleIndex + (16 - 1) - 1 := by omega
            rw [h1] at hk
            have h2 := hk.2
            unfold U16_IS_LEAD at hld
            unfold U16_IS_TRAIL at h2
            simp only [decide_eq_true_eq] at h2 hld
            omega
          · rw [if_neg hld] at hlen2
            unfold U_PARSE_CONTEXT_LEN at hlen2 hld
            have h1 : p.ruleIndex + (min len2.toNat (p.rules.length - p.ruleIndex) - 1) =
                p.ruleIndex + (16 - 1) - 1 := by omega
            rw [h1] at hl
            exact hld hl
        · rw [if_neg hbig] at hlen2
          have := hk.1
          omega
      · cases hu

theorem setParseError_contexts_witness :
    pairedSurrogates ([0xd800, 0xdc00] ++ ustr "0123456789abcd" ++ ustr "0123456789abcd" ++
      [0xd800, 0xdc00]) ∧
    (setParseError "reason"
      { newParser sampleSettings with
        rules := [0xd800, 0xdc00] ++ ustr "0123456789abcd" ++ ustr "0123456789abcd" ++
          [0xd800, 0xdc00],
        ruleIndex := 16,
        parseError := some { line := 0, offset := 0, preContext := [],
                             postContext := [] } }).parseError =
      some { line := 0, offset := 16, preContext := ustr "0123456789abcd",
             postContext := ustr "0123456789abcd" } ∧
    ∃ pre post : List Nat,
      (setParseError "reason"
        { newParser sampleSettings with
          rules := [0xd800, 0xdc00] ++ ustr "0123456789abcd" ++ ustr "0123456789abcd" ++
            [0xd800, 0xdc00],
          ruleIndex := 16,
          parseError := some { line := 0, offset := 0, preContext := [],
                               postContext := [] } }).parseError =
        some { line := 0, offset := 16, preContext := pre, postContext := post } ∧
      pre.length + 1 ≤ U_PARSE_CONTEXT_LEN ∧ post.length + 1 ≤ U_PARSE_CONTEXT_LEN :=
  ⟨by decide, by decide,
    (setParseError_contexts "reason"
      { newParser sampleSettings with
        rules := [0xd800, 0xdc00] ++ ustr "0123456789abcd" ++ ustr "0123456789abcd" ++
          [0xd800, 0xdc00],
        ruleIndex := 16,
        parseError := some { line := 0, offset := 0, preContext := [],
                             postContext := [] } }
      { line := 0, offset := 0, preContext := [], postContext := [] }
      (by decide) rfl (by decide)).elim
      (fun pre h => h.elim (fun post h => ⟨pre, post, h.1, h.2.2.1, h.2.2.2.2.2.1⟩))⟩



theorem readWordsLoop_frame (sv : Services) :
    ∀ (fuel i : Nat) (p : Parser),
      (readWordsLoop sv fuel i p).2 = { p with raw := (readWordsLoop sv fuel i p).2.raw } := by
  intro fuel
  induction fuel with
  | zero => intro i p; rfl
  | succ n ih =>
    intro i p
    rw [readWordsLoop]
    split
    · rfl
    · simp only []
      split
      · split
        · rfl
        · split <;> rfl
      · split
        · have := ih (skipWhiteSpace sv p.rules (i + 1)) { p with raw := p.raw ++ [0x20] }
          rw [this]
        · have := ih (i + 1) { p with raw := p.raw ++ [charAt p.rules i] }
          rw [this]

theorem readWords_frame (sv : Services) (i : Nat) (p : Parser) :
    (readWords sv i p).2 = { p with raw := (readWords sv i p).2.raw } := by
  unfold readWords
  simp only []
  rw [readWordsLoop_frame]

theorem raw_setParseError (reason : String) (p : Parser) :
    (setParseError reason p).raw = p.raw := by
  cases h : U_FAILURE p.errorCode
  · exact (errorCode_setParseError reason p h).2.2
  · rw [setParseError_of_failure reason p h]

theorem splitSetting_name (raw : List Nat) :
    (match lastIndexOf raw 0x20 with
      | some k => raw.take k
      | none => raw) = (splitSetting raw).1 := by
  unfold splitSetting
  cases lastIndexOf raw 0x20 <;> rfl

theorem splitSetting_value (raw : List Nat) :
    (match lastIndexOf raw 0x20 with
      | some k => raw.drop (k + 1)
      | none => []) = (splitSetting raw).2 := by
  unfold splitSetting
  cases lastIndexOf raw 0x20 <;> rfl


theorem getOnOffValue_default (v : List Nat)
    (h : (["on", "off"].map ustr).contains v = false) : getOnOffValue v = UCOL_DEFAULT := by
  unfold getOnOffValue
  have h1 : v ≠ ustr "on" := by intro e; subst e; revert h; decide
  have h2 : v ≠ ustr "off" := by intro e; subst e; revert h; decide
  rw [if_neg h1, if_neg h2]

/-- the chain of name/value branches of `parseSetting`, on a name and a value that are not in
the table -/
theorem nameValue_unrecognised (sv : Services) (parseRec : List Nat → Parser → Option Parser)
    (j : Nat) (q : Parser) (v : List Nat)
    (hname : q.raw ≠ ustr "import") (hrec : recognisedSetting q.raw v = false) :
    (if q.raw = ustr "strength" ∧ v.length = 1 then
      let c := charAt v 0
      let value : Int :=
        if 0x31 ≤ c ∧ c ≤ 0x34 then UCOL_PRIMARY + ((c : Int) - 0x31)
        else if c = 0x49 then UCOL_IDENTICAL
        else UCOL_DEFAULT
      if value ≠ UCOL_DEFAULT then some (some { setStrength value q with ruleIndex := j })
      else some none
    else if q.raw = ustr "alternate" then
      let value : Int :=
        if v = ustr "non-ignorable" then UCOL_NON_IGNORABLE
        else if v = ustr "shifted" then UCOL_SHIFTED
        else UCOL_DEFAULT
      if value ≠ UCOL_DEFAULT then some (some { setAlternateHandling value q with ruleIndex := j })
      else some none
    else if q.raw = ustr "caseFirst" then
      let value : Int :=
        if v = ustr "off" then UCOL_OFF
        else if v = ustr "lower" then UCOL_LOWER_FIRST
        else if v = ustr "upper" then UCOL_UPPER_FIRST
        else UCOL_DEFAULT
      if value ≠ UCOL_DEFAULT then some (some { setCaseFirst value q with ruleIndex := j })
      else some none
    else if q.raw = ustr "caseLevel" then
      let value := getOnOffValue v
      if value ≠ UCOL_DEFAULT then
        some (some { setFlag Flag.CASE_LEVEL value q with ruleIndex := j })
      else some none
    else if q.raw = ustr "normalization" then
      let value := getOnOffValue v
      if value ≠ UCOL_DEFAULT then
        some (some { setFlag Flag.CHECK_FCD value q with ruleIndex := j })
      else some none
    else if q.raw = ustr "numericOrdering" then
      let value := getOnOffValue v
      if value ≠ UCOL_DEFAULT then
        some (some { setFlag Flag.NUMERIC value q with ruleIndex := j })
      else some none
    else if q.raw = ustr "hiraganaQ" then
      let value := getOnOffValue v
      if value ≠ UCOL_DEFAULT then
        let q := if value = UCOL_ON then setParseError "[hiraganaQ on] is not supported" q else q
        some (some { q with ruleIndex := j })
      else some none
    else if q.raw = ustr "import" then (parseImport sv parseRec j v q).map some
    else some none) = some none := by
  generalize q.raw = name at hname hrec
  by_cases h1 : name = ustr "strength" ∧ v.length = 1
  · rw [if_pos h1]
    obtain ⟨hn, hv⟩ := h1
    obtain ⟨c, rfl⟩ : ∃ c, v = [c] := by
      cases v with
      | nil => cases hv
      | cons c t => cases t with
        | nil => exact ⟨c, rfl⟩
        | cons _ _ => simp at hv
    have hc : charAt [c] 0 = c := rfl
    simp only [hc]
    subst hn
    have hr : ¬ (0x31 ≤ c ∧ c ≤ 0x34) ∧ c ≠ 0x49 := by
      constructor
      · intro ⟨h1, h2⟩
        have : c = 0x31 ∨ c = 0x32 ∨ c = 0x33 ∨ c = 0x34 := by omega
        rcases this with h | h | h | h <;> subst h <;> revert hrec <;> decide
      · intro h; subst h; revert hrec; decide
    rw [if_neg hr.1, if_neg hr.2]
    simp
  · rw [if_neg h1]
    by_cases h2 : name = ustr "alternate"
    · rw [if_pos h2]
      subst h2
      have ha : v ≠ ustr "non-ignorable" := by intro e; subst e; revert hrec; decide
      have hb : v ≠ ustr "shifted" := by intro e; subst e; revert hrec; decide
      simp only [if_neg ha, if_neg hb]
      simp
    · rw [if_neg h2]
      by_cases h3 : name = ustr "caseFirst"
      · rw [if_pos h3]
        subst h3
        have ha : v ≠ ustr "off" := by intro e; subst e; revert hrec; decide
        have hb : v ≠ ustr "lower" := by intro e; subst e; revert hrec; decide
        have hc : v ≠ ustr "upper" := by intro e; subst e; revert hrec; decide
        simp only [if_neg ha, if_neg hb, if_neg hc]
        simp
      · rw [if_neg h3]
        have hflag : (["caseLevel", "normalization", "numericOrdering", "hiraganaQ"].map
            ustr).contains name = true → getOnOffValue v = UCOL_DEFAULT := by
          intro hn
          apply getOnOffValue_default
          unfold recognisedSetting at hrec
          rw [hn] at hrec
          have := hrec
          simp only [Bool.or_eq_false_iff, Bool.true_and] at this
          exact this.2
        by_cases h4 : name = ustr "caseLevel"
        · rw [if_pos h4]
          simp only [hflag (by rw [h4]; decide)]
          simp
        · rw [if_neg h4]
          by_cases h5 : name = ustr "normalization"
          · rw [if_pos h5]
            simp only [hflag (by rw [h5]; decide)]
            simp
          · rw [if_neg h5]
            by_cases h6 : name = ustr "numericOrdering"
            · rw [if_pos h6]
              simp only [hflag (by rw [h6]; decide)]
              simp
            · rw [if_neg h6]
              by_cases h7 : name = ustr "hiraganaQ"
              · rw [if_pos h7]
                simp only [hflag (by rw [h7]; decide)]
                simp
              · rw [if_neg h7, if_neg hname]

/-- a name/value pair that is not in the table reaches the end of the name/value branches -/
theorem parseNameValue_unrecognised (sv : Services)
    (parseRec : List Nat → Parser → Option Parser) (j : Nat) (p : Parser)
    (hname : (splitSetting p.raw).1 ≠ ustr "import")
    (hrec : recognisedSetting (splitSetting p.raw).1 (splitSetting p.raw).2 = false) :
    parseNameValue sv parseRec j p = some none := by
  unfold splitSetting at hname hrec
  unfold parseNameValue
  cases hl : lastIndexOf p.raw 0x20 with
  | none =>
    simp only [hl] at hname hrec ⊢
    exact nameValue_unrecognised sv parseRec j p [] hname hrec
  | some k =>
    simp only [hl] at hname hrec ⊢
    exact nameValue_unrecognised sv parseRec j { p with raw := p.raw.take k }
      (p.raw.drop (k + 1)) hname hrec


/-- C21 (the code at the failing inputs): for `[]` and `[ ]`, whose head is empty and is
terminated by `]`, the error is "expected a setting/option at '['" and not "not a valid
setting/option"; no sink call is made and the cursor stays at the `[`. -/
theorem parseSetting_empty_head :
    Option.map (fun q => (q.errorCode, q.errorReason, q.ruleIndex, q.sinkCalls))
        (parse sampleServices 40 (ustr "[]") sampleSettings true UErrorCode.U_ZERO_ERROR) =
      some (UErrorCode.U_PARSE_ERROR, some "expected a setting/option at '['", 0, []) ∧
    Option.map (fun q => (q.errorCode, q.errorReason, q.ruleIndex, q.sinkCalls))
        (parse sampleServices 40 (ustr "[ ]") sampleSettings true UErrorCode.U_ZERO_ERROR) =
      some (UErrorCode.U_PARSE_ERROR, some "expected a setting/option at '['", 0, []) := by
  decide

/-- C21: when the words read after the `[` end at a `]`, the head is not a reorder head, is
not `backwards 2`, its name is not `import`, and its name and value are not one of the pairs
of the table of settings, then `parseSetting` returns with `U_PARSE_ERROR`; the reason is
"not a valid setting/option" when the head is not empty, and "expected a setting/option at
'['" when no word was read; the sink calls, the settings, the optimize set, the rule text and
the cursor (which stands at the `[`) are as they were before. -/
theorem parseSetting_unrecognised (sv : Services) (fuel : Nat)
    (parseRec : List Nat → Parser → Option Parser) (p : Parser)
    (h0 : U_FAILURE p.errorCode = false)
    (hclose : charAt p.rules (readWords sv (p.ruleIndex + 1) p).1 = 0x5d)
    (hreorder : ¬ ((ustr "reorder").isPrefixOf (readWords sv (p.ruleIndex + 1) p).2.raw = true ∧
      ((readWords sv (p.ruleIndex + 1) p).2.raw.length = 7 ∨
        charAt (readWords sv (p.ruleIndex + 1) p).2.raw 7 = 0x20)))
    (hback : (readWords sv (p.ruleIndex + 1) p).2.raw ≠ ustr "backwards 2")
    (hname : (splitSetting (readWords sv (p.ruleIndex + 1) p).2.raw).1 ≠ ustr "import")
    (hrec : recognisedSetting (splitSetting (readWords sv (p.ruleIndex + 1) p).2.raw).1
      (splitSetting (readWords sv (p.ruleIndex + 1) p).2.raw).2 = false) :
    ∃ q, parseSetting sv fuel parseRec p = some q ∧
      q.errorCode = UErrorCode.U_PARSE_ERROR ∧
      q.errorReason = some
        (if p.ruleIndex + 1 < (readWords sv (p.ruleIndex + 1) p).1 ∧
            (readWords sv (p.ruleIndex + 1) p).2.raw ≠ [] then
          "not a valid setting/option"
        else "expected a setting/option at '['") ∧
      q.sinkCalls = p.sinkCalls ∧ q.settings = p.settings ∧ q.optimizeSet = p.optimizeSet ∧
      q.rules = p.rules ∧ q.ruleIndex = p.ruleIndex := by
  have hframe := readWords_frame sv (p.ruleIndex + 1) p
  generalize hr : readWords sv (p.ruleIndex + 1) p = r
    at hclose hreorder hback hname hrec hframe
  have hrules : r.2.rules = p.rules := by rw [hframe]
  have hr0 : U_FAILURE r.2.errorCode = false := by rw [hframe]; exact h0
  -- the state after the test for an empty head
  obtain ⟨p1, hp1⟩ : ∃ p1 : Parser, p1 =
      (if r.1 ≤ p.ruleIndex + 1 ∨ r.2.raw.isEmpty = true then
        setParseError "expected a setting/option at '['" r.2 else r.2) := ⟨_, rfl⟩
  have hp1raw : p1.raw = r.2.raw := by
    rw [hp1]; split
    · exact raw_setParseError _ _
    · rfl
  have hp1frame : p1.sinkCalls = p.sinkCalls ∧ p1.settings = p.settings ∧
      p1.optimizeSet = p.optimizeSet ∧ p1.rules = p.rules ∧ p1.ruleIndex = p.ruleIndex := by
    have hsf : scanFrame p1 = scanFrame r.2 := by
      rw [hp1]; split
      · exact scanFrame_setParseError _ _
      · rfl
    rw [hframe] at hsf
    simp only [scanFrame, Prod.mk.injEq] at hsf
    exact ⟨hsf.2.2.2.2.2.2.2, hsf.2.2.2.2.2.1, hsf.2.2.2.2.2.2.1, hsf.1, hsf.2.1⟩
  -- the state that reaches the final `setParseError`
  obtain ⟨x, hx⟩ : ∃ x : Parser, x = (match lastIndexOf p1.raw 0x20 with
      | some k => { p1 with raw := p1.raw.take k }
      | none => p1) := ⟨_, rfl⟩
  have hxframe : x.errorCode = p1.errorCode ∧ x.errorReason = p1.errorReason ∧
      scanFrame x = scanFrame p1 := by
    rw [hx]
    cases lastIndexOf p1.raw 0x20 <;> exact ⟨rfl, rfl, rfl⟩
  have hps : parseSetting sv fuel parseRec p =
      some (setParseError "not a valid setting/option" x) := by
    unfold parseSetting
    rw [if_neg (by simp [h0])]
    simp only [hr]
    rw [← hp1]
    have hp1rules : p1.rules = p.rules := hp1frame.2.2.2.1
    rw [if_pos (by rw [hp1rules]; exact hclose), if_neg (by rw [hp1raw]; exact hreorder),
      if_neg (by rw [hp1raw]; exact hback),
      parseNameValue_unrecognised sv parseRec (r.1 + 1) p1 (by rw [hp1raw]; exact hname)
        (by rw [hp1raw]; exact hrec)]
    simp only []
    subst hx
    rfl
  have hsf : scanFrame (setParseError "not a valid setting/option" x) = scanFrame p1 := by
    rw [scanFrame_setParseError, hxframe.2.2]
  simp only [scanFrame, Prod.mk.injEq] at hsf
  refine ⟨_, hps, ?_, ?_, hsf.2.2.2.2.2.2.2.trans hp1frame.1,
    hsf.2.2.2.2.2.1.trans hp1frame.2.1, hsf.2.2.2.2.2.2.1.trans hp1frame.2.2.1,
    hsf.1.trans hp1frame.2.2.2.1, hsf.2.1.trans hp1frame.2.2.2.2⟩
  · by_cases hne : r.1 ≤ p.ruleIndex + 1 ∨ r.2.raw.isEmpty = true
    · have hp1' : p1 = setParseError "expected a setting/option at '['" r.2 := by
        rw [hp1, if_pos hne]
      have hxf : U_FAILURE x.errorCode = true := by
        rw [hxframe.1, hp1']; exact U_FAILURE_setParseError _ _
      rw [setParseError_of_failure _ x hxf, hxframe.1, hp1']
      exact (errorCode_setParseError _ r.2 hr0).1
    · have hp1' : p1 = r.2 := by rw [hp1, if_neg hne]
      have hxf : U_FAILURE x.errorCode = false := by rw [hxframe.1, hp1']; exact hr0
      exact (errorCode_setParseError _ x hxf).1
  · by_cases hne : r.1 ≤ p.ruleIndex + 1 ∨ r.2.raw.isEmpty = true
    · have hp1' : p1 = setParseError "expected a setting/option at '['" r.2 := by
        rw [hp1, if_pos hne]
      have hxf : U_FAILURE x.errorCode = true := by
        rw [hxframe.1, hp1']; exact U_FAILURE_setParseError _ _
      rw [setParseError_of_failure _ x hxf, hxframe.2.1, hp1',
        (errorCode_setParseError _ r.2 hr0).2.1]
      rw [if_neg]
      intro hc
      rcases hne with h | h
      · omega
      · exact hc.2 (by simpa using h)
    · have hp1' : p1 = r.2 := by rw [hp1, if_neg hne]
      have hxf : U_FAILURE x.errorCode = false := by rw [hxframe.1, hp1']; exact hr0
      rw [(errorCode_setParseError _ x hxf).2.1]
      rw [if_pos]
      constructor
      · by_contra hc
        exact hne (Or.inl (by omega))
      · intro hc
        exact hne (Or.inr (by rw [hc]; rfl))

theorem parseSetting_unrecognised_witness :
    (∃ q, parseSetting sampleServices 5 (fun _ q => some q)
        { newParser sampleSettings with rules := ustr "a[strength 5]", ruleIndex := 1 } =
        some q ∧
      q.errorCode = UErrorCode.U_PARSE_ERROR ∧
      q.errorReason = some "not a valid setting/option" ∧
      q.sinkCalls = [] ∧ q.settings = sampleSettings ∧ q.optimizeSet = [] ∧
      q.rules = ustr "a[strength 5]" ∧ q.ruleIndex = 1) ∧
    (∃ q, parseSetting sampleServices 5 (fun _ q => some q)
        { newParser sampleSettings with rules := ustr "a[ ]", ruleIndex := 1 } = some q ∧
      q.errorCode = UErrorCode.U_PARSE_ERROR ∧
      q.errorReason = some "expected a setting/option at '['" ∧
      q.sinkCalls = [] ∧ q.settings = sampleSettings ∧ q.optimizeSet = [] ∧
      q.rules = ustr "a[ ]" ∧ q.ruleIndex = 1) :=
  ⟨parseSetting_unrecognised sampleServices 5 (fun _ q => some q)
      { newParser sampleSettings with rules := ustr "a[strength 5]", ruleIndex := 1 }
      (by decide) (by decide) (by decide) (by decide) (by decide) (by decide),
    parseSetting_unrecognised sampleServices 5 (fun _ q => some q)
      { newParser sampleSettings with rules := ustr "a[ ]", ruleIndex := 1 }
      (by decide) (by decide) (by decide) (by decide) (by decide) (by decide)⟩



theorem skipWhiteSpaceLoop_bounds (sv : Services) (rules : List Nat) :
    ∀ (fuel i : Nat), i ≤ skipWhiteSpaceLoop sv rules fuel i ∧
      (i ≤ rules.length → skipWhiteSpaceLoop sv rules fuel i ≤ rules.length) := by
  intro fuel
  induction fuel with
  | zero => intro i; exact ⟨Nat.le_refl _, fun h => h⟩
  | succ n ih =>
    intro i
    rw [skipWhiteSpaceLoop]
    split
    · next h =>
      simp only [Bool.and_eq_true, decide_eq_true_eq] at h
      have := ih (i + 1)
      exact ⟨by omega, fun _ => this.2 (by omega)⟩
    · exact ⟨Nat.le_refl _, fun h => h⟩

theorem skipWhiteSpace_bounds (sv : Services) (rules : List Nat) (i : Nat) :
    i ≤ skipWhiteSpace sv rules i ∧
      (i ≤ rules.length → skipWhiteSpace sv rules i ≤ rules.length) :=
  skipWhiteSpaceLoop_bounds sv rules _ i

theorem skipWhiteSpaceLoop_all (sv : Services) (rules : List Nat) :
    ∀ (fuel i : Nat), rules.length ≤ i + fuel →
      (∀ k, i ≤ k → k < rules.length → sv.isWhiteSpace (charAt rules k) = true) →
      i ≤ rules.length → skipWhiteSpaceLoop sv rules fuel i = rules.length := by
  intro fuel
  induction fuel with
  | zero => intro i h _ hi; simp only [skipWhiteSpaceLoop]; omega
  | succ n ih =>
    intro i h hw hi
    rw [skipWhiteSpaceLoop]
    by_cases hlt : i < rules.length
    · have := hw i (Nat.le_refl _) hlt
      simp only [hlt, this, decide_True, Bool.and_self, if_true]
      exact ih (i + 1) (by omega) (fun k hk hkl => hw k (by omega) hkl) (by omega)
    · simp only [hlt, decide_False, Bool.false_and, Bool.false_eq_true, if_false]
      omega

/-- white space up to the end of the text is skipped to the end -/
theorem skipWhiteSpace_all (sv : Services) (rules : List Nat) (i : Nat)
    (hw : ∀ k, i ≤ k → k < rules.length → sv.isWhiteSpace (charAt rules k) = true)
    (hi : i ≤ rules.length) : skipWhiteSpace sv rules i = rules.length :=
  skipWhiteSpaceLoop_all sv rules _ i (by omega) hw hi

theorem parseBefore_end (sv : Services) (rules : List Nat) (i : Nat)
    (hi : rules.length ≤ i) : parseBefore sv rules i = (i, IDENTICAL) := by
  apply parseBefore_no_match
  rw [List.drop_eq_nil_of_le hi]
  decide

/-- C23: the reset of a rule chain, from a state without error, with `i` the offset after the
white space that follows the `&` and `b = parseBefore .. i` the offset and strength after the
optional `[before n]`.
(1) `[before n]` with `n` in 1..3 at `i` gives the strength `PRIMARY + (n - 1)` and the offset
after the white space that follows it; a text that does not start with `[before` at `i` gives
`IDENTICAL` and the offset `i`.
(2) When the text goes on at `b.1` with something other than `[` and the literal parser
succeeds there, `parseResetAndPosition` returns the strength `b.2`, has added exactly one sink
call, `addReset` with `b.2` and the FCC form of the literal, and leaves the cursor at the
offset that the literal parser returned.
(3) When `b.1` is at the end of the text, `parseResetAndPosition` returns `NO_RELATION` with
the error "reset without position" and no sink call; that is the case when only white space
follows the `&`, and when only white space follows `[before n]`. -/
theorem parseResetAndPosition_reset (sv : Services) (p : Parser)
    (h0 : U_FAILURE p.errorCode = false) :
    (∀ (d : Nat) (rest : List Nat),
      p.rules.drop (skipWhiteSpace sv p.rules (p.ruleIndex + 1)) =
        BEFORE ++ 0x20 :: d :: 0x5d :: rest →
      sv.isWhiteSpace 0x20 = true → sv.isWhiteSpace d = false → 0x31 ≤ d → d ≤ 0x33 →
      parseBefore sv p.rules (skipWhiteSpace sv p.rules (p.ruleIndex + 1)) =
        (skipWhiteSpace sv p.rules (skipWhiteSpace sv p.rules (p.ruleIndex + 1) + 10),
          PRIMARY + ((d : Int) - 0x31))) ∧
    ((p.rules.drop (skipWhiteSpace sv p.rules (p.ruleIndex + 1))).take BEFORE_LENGTH ≠ BEFORE →
      parseBefore sv p.rules (skipWhiteSpace sv p.rules (p.ruleIndex + 1)) =
        (skipWhiteSpace sv p.rules (p.ruleIndex + 1), IDENTICAL)) ∧
    (∀ b : Nat × Int,
      b = parseBefore sv p.rules (skipWhiteSpace sv p.rules (p.ruleIndex + 1)) →
      b.1 < p.rules.length → charAt p.rules b.1 ≠ 0x5b →
      U_FAILURE (parseTailoringString sv b.1 (resetTailoringStrings p)).2.errorCode = false →
      (parseResetAndPosition sv p).1 = b.2 ∧
      (parseResetAndPosition sv p).2.sinkCalls =
        p.sinkCalls ++ [SinkCall.addReset b.2
          (sv.fccNormalize (parseTailoringString sv b.1 (resetTailoringStrings p)).2.raw)] ∧
      (parseResetAndPosition sv p).2.ruleIndex =
        (parseTailoringString sv b.1 (resetTailoringStrings p)).1) ∧
    (p.rules.length ≤
        (parseBefore sv p.rules (skipWhiteSpace sv p.rules (p.ruleIndex + 1))).1 →
      parseResetAndPosition sv p = (NO_RELATION, setParseError "reset without position" p) ∧
      (parseResetAndPosition sv p).2.errorCode = UErrorCode.U_PARSE_ERROR ∧
      (parseResetAndPosition sv p).2.errorReason = some "reset without position" ∧
      (parseResetAndPosition sv p).2.sinkCalls = p.sinkCalls) ∧
    (p.ruleIndex + 1 ≤ p.rules.length →
      (∀ k, p.ruleIndex + 1 ≤ k → k < p.rules.length →
        sv.isWhiteSpace (charAt p.rules k) = true) →
      (parseBefore sv p.rules (skipWhiteSpace sv p.rules (p.ruleIndex + 1))).1 =
        p.rules.length) ∧
    (∀ (d : Nat) (rest : List Nat),
      p.rules.drop (skipWhiteSpace sv p.rules (p.ruleIndex + 1)) =
        BEFORE ++ 0x20 :: d :: 0x5d :: rest →
      sv.isWhiteSpace 0x20 = true → sv.isWhiteSpace d = false → 0x31 ≤ d → d ≤ 0x33 →
      (∀ c ∈ rest, sv.isWhiteSpace c = true) →
      (parseBefore sv p.rules (skipWhiteSpace sv p.rules (p.ruleIndex + 1))).1 =
        p.rules.length) := by
  refine ⟨?_, ?_, ?_, ?_, ?_, ?_⟩
  · intro d rest hd hsp hdw h1 h3
    exact parseBefore_match sv p.rules _ d rest hd hsp hdw h1 h3
  · exact parseBefore_no_match sv p.rules _
  · intro b hb hlt h5b hok
    have hrules : (resetTailoringStrings p).rules = p.rules := rfl
    have hstep : parseResetAndPosition sv p =
        (b.2, { callSink sv (SinkCall.addReset b.2
            (normalize sv.fccNormalize
              (parseTailoringString sv b.1 (resetTailoringStrings p)).2.raw
              (parseTailoringString sv b.1 (resetTailoringStrings p)).2.errorCode))
            { (parseTailoringString sv b.1 (resetTailoringStrings p)).2 with
              str := normalize sv.fccNormalize
                (parseTailoringString sv b.1 (resetTailoringStrings p)).2.raw
                (parseTailoringString sv b.1 (resetTailoringStrings p)).2.errorCode } with
          ruleIndex := (parseTailoringString sv b.1 (resetTailoringStrings p)).1 }) := by
      unfold parseResetAndPosition
      rw [if_neg (by simp [h0])]
      simp only [← hb]
      rw [if_neg (by omega), hrules, if_neg h5b]
    have hn : normalize sv.fccNormalize
        (parseTailoringString sv b.1 (resetTailoringStrings p)).2.raw
        (parseTailoringString sv b.1 (resetTailoringStrings p)).2.errorCode =
        sv.fccNormalize (parseTailoringString sv b.1 (resetTailoringStrings p)).2.raw := by
      unfold normalize
      rw [hok]
      rfl
    rw [hstep, hn]
    refine ⟨rfl, ?_, rfl⟩
    show (callSink sv _ _).sinkCalls = _
    rw [sinkCalls_callSink]
    show (parseTailoringString sv b.1 (resetTailoringStrings p)).2.sinkCalls ++ _ = _
    rw [sinkCalls_parseTailoringString]
    rfl
  · intro hge
    have hstep : parseResetAndPosition sv p =
        (NO_RELATION, setParseError "reset without position" p) := by
      unfold parseResetAndPosition
      rw [if_neg (by simp [h0])]
      simp only []
      rw [if_pos hge]
    rw [hstep]
    exact ⟨rfl, (errorCode_setParseError _ p h0).1, (errorCode_setParseError _ p h0).2.1,
      sinkCalls_setParseError _ p⟩
  · intro hi hw
    rw [skipWhiteSpace_all sv p.rules _ hw hi, parseBefore_end sv p.rules _ (Nat.le_refl _)]
  · intro d rest hd hsp hdw h1 h3 hrest
    rw [parseBefore_match sv p.rules _ d rest hd hsp hdw h1 h3]
    have hlen : (p.rules.drop (skipWhiteSpace sv p.rules (p.ruleIndex + 1))).length =
        10 + rest.length := by
      rw [hd]; simp [BEFORE]; omega
    rw [List.length_drop] at hlen
    apply skipWhiteSpace_all
    · intro k hk hkl
      have hd10 := @drop_add_of_drop_append p.rules _
        (BEFORE ++ [0x20, d, 0x5d]) rest (by rw [hd]; simp)
      have hlen10 : (BEFORE ++ [0x20, d, 0x5d]).length = 10 := rfl
      rw [hlen10] at hd10
      have hc := charAt_add_drop p.rules
        (skipWhiteSpace sv p.rules (p.ruleIndex + 1) + 10)
        (k - (skipWhiteSpace sv p.rules (p.ruleIndex + 1) + 10))
      have hk' : skipWhiteSpace sv p.rules (p.ruleIndex + 1) + 10 +
          (k - (skipWhiteSpace sv p.rules (p.ruleIndex + 1) + 10)) = k := by omega
      rw [hk', hd10] at hc
      rw [hc]
      apply hrest
      apply charAt_mem
      omega
    · omega


theorem parseResetAndPosition_reset_witness :
    ((parseResetAndPosition sampleServices
        { newParser sampleSettings with rules := ustr "&[before 2] a << b" }).1 = SECONDARY ∧
      (parseResetAndPosition sampleServices
        { newParser sampleSettings with rules := ustr "&[before 2] a << b" }).2.sinkCalls =
        [SinkCall.addReset SECONDARY (ustr "a")] ∧
      (parseResetAndPosition sampleServices
        { newParser sampleSettings with rules := ustr "&[before 2] a << b" }).2.ruleIndex =
        14) ∧
    (parseResetAndPosition sampleServices
        { newParser sampleSettings with rules := ustr "&[before 2]  " }).2.errorReason =
      some "reset without position" :=
  ⟨(parseResetAndPosition_reset sampleServices
      { newParser sampleSettings with rules := ustr "&[before 2] a << b" }
      (by decide)).2.2.1 (12, SECONDARY) (by decide) (by decide) (by decide) (by decide),
   ((parseResetAndPosition_reset sampleServices
      { newParser sampleSettings with rules := ustr "&[before 2]  " }
      (by decide)).2.2.2.1 (by decide)).2.2.1⟩



theorem indexOfFrom_word (pre w rest : List Nat) (hw : 0x20 ∉ w) :
    (indexOfFrom (pre ++ w ++ rest) 0x20 pre.length).getD (pre ++ w ++ rest).length =
      if rest.head? = some 0x20 then pre.length + w.length
      else (indexOfFrom (pre ++ w ++ rest) 0x20 pre.length).getD (pre ++ w ++ rest).length := by
  unfold indexOfFrom
  have hd : (pre ++ w ++ rest).drop pre.length = w ++ rest := by
    rw [List.append_assoc, List.drop_left]
  rw [hd]
  split
  · next h =>
    cases rest with
    | nil => cases h
    | cons c t =>
      simp only [List.head?_cons, Option.some.injEq] at h
      subst h
      rw [indexOf?_append_cons 0x20 w t hw]
      rfl
  · rfl

/-- the word loop of `parseReordering` over words that all resolve to a code -/
theorem parseReorderingLoop_words (sv : Services) :
    ∀ (words : List (List Nat)) (pre : List Nat) (codes : List Int) (fuel : Nat) (p : Parser),
      p.raw = pre ++ words.flatMap (fun w => 0x20 :: w) →
      (∀ w ∈ words, 0x20 ∉ w ∧ sv.isInvariantString w = true ∧ 0 ≤ getReorderCode sv w) →
      words.length < fuel →
      parseReorderingLoop sv fuel pre.length codes p =
        (false, codes ++ words.map (getReorderCode sv), p) := by
  intro words
  induction words with
  | nil =>
    intro pre codes fuel p hraw _ hfuel
    obtain ⟨n, rfl⟩ : ∃ n, fuel = n + 1 := ⟨fuel - 1, by simp at hfuel; omega⟩
    rw [parseReorderingLoop]
    have : ¬ pre.length < p.raw.length := by rw [hraw]; simp
    rw [if_neg this]
    simp
  | cons w ws ih =>
    intro pre codes fuel p hraw hw hfuel
    obtain ⟨n, rfl⟩ : ∃ n, fuel = n + 1 := ⟨fuel - 1, by simp at hfuel; omega⟩
    obtain ⟨hw1, hw2, hw3⟩ := hw w (by simp)
    have hraw' : p.raw = (pre ++ [0x20]) ++ w ++ ws.flatMap (fun w => 0x20 :: w) := by
      rw [hraw]; simp [List.flatMap_cons]
    have hlt : pre.length < p.raw.length := by rw [hraw']; simp
    have hlimit : (indexOfFrom p.raw 0x20 (pre.length + 1)).getD p.raw.length =
        (pre ++ 0x20 :: w).length := by
      have hpl : pre.length + 1 = (pre ++ [0x20]).length := by simp
      rw [hraw', hpl]
      cases ws with
      | nil =>
        unfold indexOfFrom
        simp only [List.flatMap_nil, List.append_nil]
        rw [List.drop_left, indexOf?_none 0x20 w hw1]
        simp
      | cons v vs =>
        rw [indexOfFrom_word (pre ++ [0x20]) w _ hw1, if_pos (by simp [List.flatMap_cons])]
        simp
        omega
    have hword : (p.raw.drop (pre.length + 1)).take
        ((pre ++ 0x20 :: w).length - (pre.length + 1)) = w := by
      have hpl : pre.length + 1 = (pre ++ [0x20]).length := by simp
      have hd : p.raw.drop (pre.length + 1) = w ++ ws.flatMap (fun w => 0x20 :: w) := by
        rw [hraw', hpl, List.append_assoc, List.drop_left]
      rw [hd]
      have : (pre ++ 0x20 :: w).length - (pre.length + 1) = w.length := by simp; omega
      rw [this, List.take_left]
    rw [parseReorderingLoop, if_pos hlt]
    simp only [hlimit, hword, hw2, Bool.not_true, Bool.false_eq_true, if_false]
    rw [if_neg (by omega)]
    have hrec := ih (pre ++ 0x20 :: w) (codes ++ [getReorderCode sv w]) n p
      (by rw [hraw]; simp [List.flatMap_cons])
      (fun v hv => hw v (by simp [hv])) (by simp at hfuel; omega)
    rw [hrec]
    simp

theorem length_le_flatMap (words : List (List Nat)) :
    words.length ≤ (words.flatMap (fun w => 0x20 :: w)).length := by
  induction words with
  | nil => simp
  | cons w ws ih =>
    simp only [List.flatMap_cons, List.length_append, List.length_cons]
    omega

theorem count_spaces (words : List (List Nat)) (hw : ∀ w ∈ words, 0x20 ∉ w) :
    ((words.flatMap (fun w => 0x20 :: w)).filter (fun c => decide (c = 0x20))).length =
      words.length := by
  induction words with
  | nil => rfl
  | cons w ws ih =>
    have h1 : w.filter (fun c => decide (c = 0x20)) = [] := by
      rw [List.filter_eq_nil_iff]
      intro a ha
      simp only [decide_eq_true_eq]
      intro e
      exact hw w (by simp) (e ▸ ha)
    simp only [List.flatMap_cons, List.cons_append, List.filter_cons, decide_True, if_true,
      List.filter_append, h1, List.nil_append, List.length_cons]
    rw [ih (fun v hv => hw v (by simp [hv]))]

/-- `parseReordering` on a head `reorder w1 ... wn` whose words all resolve to a code -/
theorem parseReordering_words (sv : Services) (p : Parser) (words : List (List Nat))
    (h0 : U_FAILURE p.errorCode = false)
    (hraw : p.raw = ustr "reorder" ++ words.flatMap (fun w => 0x20 :: w))
    (hne : words ≠ [])
    (hw : ∀ w ∈ words, 0x20 ∉ w ∧ sv.isInvariantString w = true ∧ 0 ≤ getReorderCode sv w) :
    parseReordering sv p =
      { p with
        settings := { p.settings with
          reorderCodes := some (words.map (getReorderCode sv)),
          reorderTable := some (sv.makeReorderTable (words.map (getReorderCode sv))).1,
          reorderCodesLength := words.length },
        errorCode := match (sv.makeReorderTable (words.map (getReorderCode sv))).2 with
          | none => p.errorCode
          | some e => e } := by
  have hlen7 : ¬ 7 = p.raw.length := by
    rw [hraw]
    cases words with
    | nil => exact absurd rfl hne
    | cons w ws => simp [ustr, List.flatMap_cons]
  have hcount : ((p.raw.drop 7).filter (fun c => decide (c = 0x20))).length = words.length := by
    rw [hraw]
    have : (ustr "reorder" ++ words.flatMap (fun w => 0x20 :: w)).drop 7 =
        words.flatMap (fun w => 0x20 :: w) :=
      List.drop_left (ustr "reorder") (words.flatMap (fun w => 0x20 :: w))
    rw [this]
    exact count_spaces words (fun w h => (hw w h).1)
  have hloop := parseReorderingLoop_words sv words (ustr "reorder") [] p.raw.length
    { p with settings := { p.settings with reorderCodes := none, reorderCodesLength := 0 } }
    hraw hw (by
      show words.length < p.raw.length
      have := length_le_flatMap words
      have h7 : (ustr "reorder").length = 7 := rfl
      rw [hraw, List.length_append]
      omega)
  have h7 : (ustr "reorder").length = 7 := rfl
  rw [h7] at hloop
  have hhead : ¬ (words.length = 1 ∧
      (words.map (getReorderCode sv)).head? = some UCOL_REORDER_CODE_DEFAULT) := by
    intro ⟨_, h⟩
    cases words with
    | nil => exact absurd rfl hne
    | cons w ws =>
      simp only [List.map_cons, List.head?_cons, Option.some.injEq] at h
      have := (hw w (by simp)).2.2
      rw [h] at this
      exact absurd this (by decide)
  unfold parseReordering
  rw [if_neg (by simp [h0])]
  simp only []
  rw [if_neg hlen7, hloop]
  simp only [List.nil_append, hcount]
  rw [if_neg hhead]
  cases (sv.makeReorderTable (words.map (getReorderCode sv))).2 <;> rfl

/-- `parseReordering` on the head `reorder` -/
theorem parseReordering_empty (sv : Services) (p : Parser)
    (h0 : U_FAILURE p.errorCode = false) (hraw : p.raw = ustr "reorder") :
    parseReordering sv p =
      { p with settings := { p.settings with
          reorderCodes := none, reorderCodesLength := 0, reorderTable := none } } := by
  unfold parseReordering
  rw [if_neg (by simp [h0])]
  simp only []
  rw [if_pos (by rw [hraw]; rfl)]


theorem readWordsLoop_words (sv : Services) (hsp : sv.isWhiteSpace 0x20 = true) :
    ∀ (words : List (List Nat)) (fuel i : Nat) (p : Parser) (post : List Nat),
      (∀ w ∈ words, w ≠ [] ∧ ∀ u ∈ w, wordChar sv u) →
      p.rules.drop i = words.flatMap (fun w => 0x20 :: w) ++ post →
      readWordsLoop sv (fuel + (words.flatMap (fun w => 0x20 :: w)).length) i p =
        readWordsLoop sv fuel (i + (words.flatMap (fun w => 0x20 :: w)).length)
          { p with raw := p.raw ++ words.flatMap (fun w => 0x20 :: w) } := by
  intro words
  induction words with
  | nil => intro fuel i p post _ _; simp
  | cons w ws ih =>
    intro fuel i p post hw hd
    obtain ⟨hne, hwc⟩ := hw w (by simp)
    have hd' : p.rules.drop i =
        0x20 :: (w ++ (ws.flatMap (fun w => 0x20 :: w) ++ post)) := by
      rw [hd]; simp [List.flatMap_cons]
    obtain ⟨hi, hc, hd1⟩ := drop_cons_facts hd'
    have hskip : skipWhiteSpace sv p.rules (i + 1) = i + 1 := by
      apply skipWhiteSpace_stop
      intro _
      cases w with
      | nil => exact absurd rfl hne
      | cons u w =>
        obtain ⟨_, hcu, _⟩ := drop_cons_facts (by simpa using hd1)
        rw [hcu]; exact (hwc u (by simp)).2
    have e : fuel + ((w :: ws).flatMap (fun w => 0x20 :: w)).length =
        (fuel + (ws.flatMap (fun w => 0x20 :: w)).length + w.length) + 1 := by
      simp only [List.flatMap_cons, List.length_append, List.length_cons]
      omega
    rw [e, readWordsLoop_space sv _ i p 0x20 hi hc (by decide) hsp, hskip]
    have hd1' : ({ p with raw := p.raw ++ [0x20] } : Parser).rules.drop (i + 1) =
        w ++ (ws.flatMap (fun w => 0x20 :: w) ++ post) := hd1
    rw [readWordsLoop_word sv w _ _ (i + 1) { p with raw := p.raw ++ [0x20] } hwc hd1']
    have hd2 := drop_add_of_drop_append hd1
    have hd2' : ({ p with raw := p.raw ++ [0x20] ++ w } : Parser).rules.drop (i + 1 + w.length) =
        ws.flatMap (fun w => 0x20 :: w) ++ post := hd2
    have hrec := ih fuel (i + 1 + w.length) { p with raw := p.raw ++ [0x20] ++ w } post
      (fun v hv => hw v (by simp [hv])) hd2'
    refine Eq.trans hrec ?_
    have e2 : i + 1 + w.length + (ws.flatMap (fun w => 0x20 :: w)).length =
        i + ((w :: ws).flatMap (fun w => 0x20 :: w)).length := by
      simp only [List.flatMap_cons, List.length_append, List.length_cons]
      omega
    rw [e2]
    simp [List.flatMap_cons]

/-- `readWords` on a word and further words, each after one space, ending at a syntax
character -/
theorem readWords_words (sv : Services) (hsp : sv.isWhiteSpace 0x20 = true) (w : List Nat)
    (words : List (List Nat)) (c : Nat) (rest : List Nat) (i : Nat) (p : Parser)
    (hw : ∀ u ∈ w, wordChar sv u) (hne : w ≠ [])
    (hws : ∀ v ∈ words, v ≠ [] ∧ ∀ u ∈ v, wordChar sv u)
    (hc : isSyntaxChar c = true ∧ c ≠ 0x2d ∧ c ≠ 0x5f)
    (hd : p.rules.drop i = w ++ words.flatMap (fun v => 0x20 :: v) ++ c :: rest) :
    readWords sv i p =
      (i + w.length + (words.flatMap (fun v => 0x20 :: v)).length,
        { p with raw := w ++ words.flatMap (fun v => 0x20 :: v) }) := by
  have hd0 : p.rules.drop i = w ++ (words.flatMap (fun v => 0x20 :: v) ++ c :: rest) := by
    rw [hd, List.append_assoc]
  have hlen : (p.rules.drop i).length =
      w.length + ((words.flatMap (fun v => 0x20 :: v)).length + (rest.length + 1)) := by
    rw [hd0]; simp
  rw [List.length_drop] at hlen
  have hskip : skipWhiteSpace sv p.rules i = i := by
    apply skipWhiteSpace_stop
    intro _
    cases w with
    | nil => exact absurd rfl hne
    | cons u w =>
      obtain ⟨_, hcu, _⟩ := drop_cons_facts (by simpa using hd0)
      rw [hcu]; exact (hw u (by simp)).2
  unfold readWords
  simp only [hskip]
  have e : p.rules.length - i + 1 =
      ((p.rules.length - i - w.length - (words.flatMap (fun v => 0x20 :: v)).length) + 1 +
        (words.flatMap (fun v => 0x20 :: v)).length) + w.length := by
    omega
  rw [e, readWordsLoop_word sv w _ _ i { p with raw := [] } hw hd0]
  have hd1 := drop_add_of_drop_append hd0
  simp only [List.nil_append]
  have hd1' : ({ p with raw := w } : Parser).rules.drop (i + w.length) =
      words.flatMap (fun v => 0x20 :: v) ++ c :: rest := hd1
  rw [readWordsLoop_words sv hsp words _ (i + w.length) { p with raw := w } (c :: rest)
    hws hd1']
  obtain ⟨hi3, hc3, _⟩ := drop_cons_facts (drop_add_of_drop_append hd1)
  rw [readWordsLoop_stop sv _ _
    { p with raw := w ++ words.flatMap (fun v => 0x20 :: v) } c hi3 hc3 hc]
  have hlast : ¬ (w ++ words.flatMap (fun v => 0x20 :: v)).getLast? = some 0x20 := by
    intro h
    have hmem : ∀ (ws : List (List Nat)), (∀ v ∈ ws, v ≠ [] ∧ ∀ u ∈ v, wordChar sv u) →
        ∀ (x : List Nat), x ≠ [] → (∀ u ∈ x, wordChar sv u) →
        (x ++ ws.flatMap (fun v => 0x20 :: v)).getLast? ≠ some 0x20 := by
      intro ws
      induction ws with
      | nil =>
        intro _ x _ hx h
        simp only [List.flatMap_nil, List.append_nil] at h
        exact wordChar_not_space sv hsp x hx (List.mem_of_getLast?_eq_some h)
      | cons v vs ih =>
        intro hvs x _ _ h
        have hv := hvs v (by simp)
        have e : x ++ (v :: vs).flatMap (fun v => 0x20 :: v) =
            (x ++ [0x20]) ++ (v ++ vs.flatMap (fun v => 0x20 :: v)) := by
          simp [List.flatMap_cons]
        rw [e, List.getLast?_append_of_ne_nil _ (by
          intro hnil
          have := congrArg List.length hnil
          simp at this
          exact hv.1 this.1)] at h
        exact ih (fun u hu => hvs u (by simp [hu])) v hv.1 hv.2 h
    exact hmem words hws w hne hw h
  simp only [hlast, if_false]


/-- C24: `parseSetting` on `[reorder w1 ... wn]`, the words separated by single spaces, each
word resolving to a code that is not negative.  When there is at least one word, the reorder
codes of the settings afterwards are exactly the codes of the words in their order, their
number is the number of words, and the table is the one that `makeReorderTable` builds from
these codes, whatever the three fields held before; with no word, `[reorder]`, the codes and
the table are absent and the length is 0.  The other settings are unchanged, no sink call is
made, and the cursor is after the `]`. -/
theorem parseSetting_reorder (sv : Services) (hws : asciiWhiteSpace sv) (fuel : Nat)
    (parseRec : List Nat → Parser → Option Parser) (p : Parser) (words : List (List Nat))
    (rest : List Nat)
    (h0 : U_FAILURE p.errorCode = false)
    (hd : p.rules.drop p.ruleIndex =
      0x5b :: (ustr "reorder" ++ words.flatMap (fun w => 0x20 :: w) ++ 0x5d :: rest))
    (hw : ∀ w ∈ words, w ≠ [] ∧ (∀ u ∈ w, wordChar sv u) ∧
      sv.isInvariantString w = true ∧ 0 ≤ getReorderCode sv w) :
    ∃ q, parseSetting sv fuel parseRec p = some q ∧
      q.ruleIndex = p.ruleIndex + 1 + 7 + (words.flatMap (fun w => 0x20 :: w)).length + 1 ∧
      q.sinkCalls = p.sinkCalls ∧
      (words ≠ [] →
        q.settings = { p.settings with
          reorderCodes := some (words.map (getReorderCode sv)),
          reorderCodesLength := words.length,
          reorderTable := some (sv.makeReorderTable (words.map (getReorderCode sv))).1 } ∧
        ((sv.makeReorderTable (words.map (getReorderCode sv))).2 = none →
          q.errorCode = UErrorCode.U_ZERO_ERROR)) ∧
      (words = [] →
        q.settings = { p.settings with
          reorderCodes := none, reorderCodesLength := 0, reorderTable := none } ∧
        q.errorCode = UErrorCode.U_ZERO_ERROR) := by
  have hcode0 : p.errorCode = UErrorCode.U_ZERO_ERROR := by
    cases hc : p.errorCode <;> rw [hc] at h0 <;> first | rfl | cases h0
  obtain ⟨hi0, _, hd1⟩ := drop_cons_facts hd
  have hwr : ∀ u ∈ ustr "reorder", wordChar sv u := by
    apply wordChar_of_ascii sv hws
    decide
  have hread := readWords_words sv hws.1 (ustr "reorder") words 0x5d rest (p.ruleIndex + 1) p
    hwr (by decide) (fun v hv => ⟨(hw v hv).1, (hw v hv).2.1⟩) (by decide) hd1
  have h7 : (ustr "reorder").length = 7 := rfl
  rw [h7] at hread
  have hd1' : p.rules.drop (p.ruleIndex + 1) =
      (ustr "reorder" ++ words.flatMap (fun w => 0x20 :: w)) ++ 0x5d :: rest := hd1
  have hdj := drop_add_of_drop_append hd1'
  rw [List.length_append, h7, ← Nat.add_assoc] at hdj
  obtain ⟨_, hcj, _⟩ := drop_cons_facts hdj
  have hnot : ¬ (p.ruleIndex + 1 + 7 + (words.flatMap (fun w => 0x20 :: w)).length ≤
      p.ruleIndex + 1 ∨
      (ustr "reorder" ++ words.flatMap (fun w => 0x20 :: w)).isEmpty = true) := by
    intro h
    rcases h with h | h
    · omega
    · revert h; simp [ustr]
  have hpre : (ustr "reorder").isPrefixOf
      (ustr "reorder" ++ words.flatMap (fun w => 0x20 :: w)) = true ∧
      ((ustr "reorder" ++ words.flatMap (fun w => 0x20 :: w)).length = 7 ∨
        charAt (ustr "reorder" ++ words.flatMap (fun w => 0x20 :: w)) 7 = 0x20) := by
    constructor
    · rw [List.isPrefixOf_iff_prefix]
      exact List.prefix_append _ _
    · cases words with
      | nil => left; rfl
      | cons w ws => right; rfl
  have hps : parseSetting sv fuel parseRec p =
      some { parseReordering sv
          { p with raw := ustr "reorder" ++ words.flatMap (fun w => 0x20 :: w) } with
        ruleIndex := p.ruleIndex + 1 + 7 + (words.flatMap (fun w => 0x20 :: w)).length + 1 } := by
    unfold parseSetting
    rw [if_neg (by simp [h0])]
    simp only [hread]
    rw [if_neg hnot, if_pos hcj, if_pos hpre]
  have hwords : words ≠ [] →
      parseReordering sv
          { p with raw := ustr "reorder" ++ words.flatMap (fun w => 0x20 :: w) } =
        { p with
          raw := ustr "reorder" ++ words.flatMap (fun w => 0x20 :: w),
          settings := { p.settings with
            reorderCodes := some (words.map (getReorderCode sv)),
            reorderTable := some (sv.makeReorderTable (words.map (getReorderCode sv))).1,
            reorderCodesLength := words.length },
          errorCode := match (sv.makeReorderTable (words.map (getReorderCode sv))).2 with
            | none => p.errorCode
            | some e => e } :=
    fun hne => parseReordering_words sv
      { p with raw := ustr "reorder" ++ words.flatMap (fun w => 0x20 :: w) } words h0 rfl hne
      (fun w h => ⟨wordChar_not_space sv hws.1 w (hw w h).2.1, (hw w h).2.2⟩)
  have hempty : words = [] →
      parseReordering sv
          { p with raw := ustr "reorder" ++ words.flatMap (fun w => 0x20 :: w) } =
        { p with
          raw := ustr "reorder" ++ words.flatMap (fun w => 0x20 :: w),
          settings := { p.settings with
            reorderCodes := none, reorderCodesLength := 0, reorderTable := none } } := by
    intro he
    subst he
    exact parseReordering_empty sv { p with raw := ustr "reorder" } h0 rfl
  refine ⟨_, hps, rfl, ?_, ?_, ?_⟩
  · show (parseReordering sv
      { p with raw := ustr "reorder" ++ words.flatMap (fun w => 0x20 :: w) }).sinkCalls = _
    by_cases hne : words = []
    · rw [hempty hne]
    · rw [hwords hne]
  · intro hne
    show (parseReordering sv
      { p with raw := ustr "reorder" ++ words.flatMap (fun w => 0x20 :: w) }).settings = _ ∧
      (_ → (parseReordering sv
        { p with raw := ustr "reorder" ++ words.flatMap (fun w => 0x20 :: w) }).errorCode = _)
    rw [hwords hne]
    refine ⟨rfl, ?_⟩
    intro hm
    simp only [hm]
    exact hcode0
  · intro he
    show (parseReordering sv
      { p with raw := ustr "reorder" ++ words.flatMap (fun w => 0x20 :: w) }).settings = _ ∧
      (parseReordering sv
        { p with raw := ustr "reorder" ++ words.flatMap (fun w => 0x20 :: w) }).errorCode = _
    rw [hempty he]
    exact ⟨rfl, hcode0⟩

theorem parseSetting_reorder_witness :
    ∃ q, parseSetting sampleServices 5 (fun _ q => some q)
        { newParser { sampleSettings with
            reorderCodes := some [7], reorderCodesLength := 1, reorderTable := some [1] } with
          rules := ustr "[reorder digit space]" } = some q ∧
      q.ruleIndex = 21 ∧ q.sinkCalls = [] ∧
      q.settings = { sampleSettings with
          reorderCodes := some [0x1004, 0x1000], reorderCodesLength := 2,
          reorderTable := some [] } ∧
      q.errorCode = UErrorCode.U_ZERO_ERROR :=
  (parseSetting_reorder sampleServices sampleServices_ascii 5 (fun _ q => some q)
    { newParser { sampleSettings with
        reorderCodes := some [7], reorderCodesLength := 1, reorderTable := some [1] } with
      rules := ustr "[reorder digit space]" }
    [ustr "digit", ustr "space"] [] (by decide) (by decide) (by decide)).elim
    (fun q h => ⟨q, h.1, h.2.1, h.2.2.1, (h.2.2.2.1 (by decide)).1,
      (h.2.2.2.1 (by decide)).2 (by decide)⟩)



theorem isRelation_of_strength (c : SinkCall) (s : Int) (h : relationStrength c = some s) :
    isRelation c = true := by
  unfold isRelation
  rw [h]
  rfl

/-- the sink calls of a reset: none, or one `addReset`; one when it ends without a failure -/
theorem parseResetAndPosition_trace (sv : Services) (p : Parser) :
    ∃ l, (parseResetAndPosition sv p).2.sinkCalls = p.sinkCalls ++ l ∧
      (l = [] ∨ ∃ s str, l = [SinkCall.addReset s str]) ∧
      (U_FAILURE (parseResetAndPosition sv p).2.errorCode = false → l ≠ []) := by
  unfold parseResetAndPosition
  by_cases hf : U_FAILURE p.errorCode = true
  · rw [if_pos hf]
    exact ⟨[], by simp, Or.inl rfl, fun h => by rw [hf] at h; cases h⟩
  · rw [if_neg hf]
    simp only []
    generalize parseBefore sv p.rules (skipWhiteSpace sv p.rules (p.ruleIndex + 1)) = b
    by_cases hi : b.1 ≥ p.rules.length
    · rw [if_pos hi]
      refine ⟨[], by simp [sinkCalls_setParseError], Or.inl rfl, ?_⟩
      intro h
      rw [U_FAILURE_setParseError] at h
      cases h
    · rw [if_neg hi]
      have hrs : (if charAt (resetTailoringStrings p).rules b.1 = 0x5b then
            parseSpecialPosition sv b.1 (resetTailoringStrings p)
          else
            ((parseTailoringString sv b.1 (resetTailoringStrings p)).1,
              { (parseTailoringString sv b.1 (resetTailoringStrings p)).2 with
                str := normalize sv.fccNormalize
                  (parseTailoringString sv b.1 (resetTailoringStrings p)).2.raw
                  (parseTailoringString sv b.1
                    (resetTailoringStrings p)).2.errorCode })).2.sinkCalls =
          p.sinkCalls := by
        split
        · rw [sinkCalls_parseSpecialPosition]; rfl
        · show (parseTailoringString sv b.1 (resetTailoringStrings p)).2.sinkCalls = _
          rw [sinkCalls_parseTailoringString]; rfl
      generalize (if charAt (resetTailoringStrings p).rules b.1 = 0x5b then
            parseSpecialPosition sv b.1 (resetTailoringStrings p)
          else
            ((parseTailoringString sv b.1 (resetTailoringStrings p)).1,
              { (parseTailoringString sv b.1 (resetTailoringStrings p)).2 with
                str := normalize sv.fccNormalize
                  (parseTailoringString sv b.1 (resetTailoringStrings p)).2.raw
                  (parseTailoringString sv b.1
                    (resetTailoringStrings p)).2.errorCode })) = r at hrs
      refine ⟨[SinkCall.addReset b.2 r.2.str], ?_, Or.inr ⟨_, _, rfl⟩, fun _ => by simp⟩
      show (callSink sv _ r.2).sinkCalls = _
      rw [sinkCalls_callSink, hrs]

theorem skipCommentLoop_ge (rules : List Nat) :
    ∀ (fuel i : Nat), i ≤ skipCommentLoop rules fuel i ∧
      (i ≤ rules.length → skipCommentLoop rules fuel i ≤ rules.length) := by
  intro fuel
  induction fuel with
  | zero => intro i; exact ⟨Nat.le_refl _, fun h => h⟩
  | succ n ih =>
    intro i
    rw [skipCommentLoop]
    split
    · simp only []
      split
      · exact ⟨by omega, fun _ => by omega⟩
      · have := ih (i + 1)
        exact ⟨by omega, fun _ => this.2 (by omega)⟩
    · exact ⟨Nat.le_refl _, fun h => h⟩

theorem skipComment_bounds (rules : List Nat) (i : Nat) :
    i ≤ skipComment rules i ∧ (i ≤ rules.length → skipComment rules i ≤ rules.length) :=
  skipCommentLoop_ge rules _ i

/-- the sink calls of the relations of a chain: `addRelation` calls only, none from a state
that is a failure, and at least one when the loop starts at the first relation and ends
without a failure -/
theorem parseRuleChainLoop_trace (sv : Services) (B : Int) :
    ∀ (fuel : Nat) (isFirst : Bool) (p : Parser),
      ∃ rels, (parseRuleChainLoop sv B fuel isFirst p).sinkCalls = p.sinkCalls ++ rels ∧
        (∀ c ∈ rels, isRelation c = true) ∧
        (U_FAILURE p.errorCode = true → rels = [] ∧ parseRuleChainLoop sv B fuel isFirst p = p) ∧
        (U_FAILURE (parseRuleChainLoop sv B fuel isFirst p).errorCode = false →
          p.rules.length - p.ruleIndex < fuel → isFirst = true → rels ≠ []) := by
  intro fuel
  induction fuel with
  | zero =>
    intro isFirst p
    exact ⟨[], by simp [parseRuleChainLoop], by simp, fun _ => ⟨rfl, rfl⟩,
      fun _ h => by omega⟩
  | succ n ih =>
    intro isFirst p
    rw [parseRuleChainLoop]
    simp only []
    by_cases hf : U_FAILURE p.errorCode = true
    · rw [if_pos hf]
      exact ⟨[], by simp, by simp, fun _ => ⟨rfl, rfl⟩, fun h => by rw [hf] at h; cases h⟩
    · rw [if_neg hf]
      by_cases hno : parseRelationOperator p = NO_RELATION
      · rw [if_pos hno]
        by_cases hc : (decide (p.ruleIndex < p.rules.length) &&
            decide (charAt p.rules p.ruleIndex = 0x23)) = true
        · rw [if_pos hc]
          simp only [Bool.and_eq_true, decide_eq_true_eq] at hc
          obtain ⟨rels, h1, h2, _, h4⟩ := ih isFirst
            { p with ruleIndex :=
              skipWhiteSpace sv p.rules (skipComment p.rules (p.ruleIndex + 1)) }
          refine ⟨rels, h1, h2, fun h => absurd h hf, ?_⟩
          intro hok hfuel hfirst
          apply h4 hok _ hfirst
          have h5 := (skipComment_bounds p.rules (p.ruleIndex + 1)).1
          have h6 := (skipWhiteSpace_bounds sv p.rules
            (skipComment p.rules (p.ruleIndex + 1))).1
          show p.rules.length -
            skipWhiteSpace sv p.rules (skipComment p.rules (p.ruleIndex + 1)) < n
          omega
        · rw [if_neg hc]
          cases isFirst with
          | true =>
            simp only [if_true]
            refine ⟨[], by simp [sinkCalls_setParseError], by simp, fun h => absurd h hf, ?_⟩
            intro h
            rw [U_FAILURE_setParseError] at h
            cases h
          | false =>
            simp only [Bool.false_eq_true, if_false]
            exact ⟨[], by simp, by simp, fun h => absurd h hf, fun _ _ h => by cases h⟩
      · rw [if_neg hno]
        generalize Int.land (parseRelationOperator p) STRENGTH_MASK = strength
        split
        · refine ⟨[], by simp [sinkCalls_setParseError], by simp, fun h => absurd h hf, ?_⟩
          intro h
          rw [U_FAILURE_setParseError] at h
          cases h
        · generalize hq : (if Int.land (parseRelationOperator p) 0x10 = 0 then
              parseRelationStrings sv strength
                (p.ruleIndex + (parseRelationOperator p >>> 8).toNat) p
            else parseStarredCharacters sv strength
                (p.ruleIndex + (parseRelationOperator p >>> 8).toNat) p) = q
          have hcalls : ∃ l, q.sinkCalls = p.sinkCalls ++ l ∧
              (∀ c ∈ l, relationStrength c = some strength) ∧
              (U_FAILURE q.errorCode = false → l ≠ []) := by
            rw [← hq]
            split
            · exact sinkCalls_parseRelationStrings sv strength _ p
            · exact sinkCalls_parseStarredCharacters sv strength _ p
          obtain ⟨l, hl, hls, hlne⟩ := hcalls
          have hlrel : ∀ c ∈ l, isRelation c = true :=
            fun c hc => isRelation_of_strength c strength (hls c hc)
          by_cases hqf : U_FAILURE q.errorCode = true
          · rw [if_pos hqf]
            exact ⟨l, hl, hlrel, fun h => absurd h hf, fun h => by rw [hqf] at h; cases h⟩
          · rw [if_neg hqf]
            obtain ⟨rels, hr, hrel, _, _⟩ := ih false q
            refine ⟨l ++ rels, by rw [hr, hl]; simp, ?_, fun h => absurd h hf, ?_⟩
            · intro c hc
              rcases List.mem_append.mp hc with h | h
              · exact hlrel c h
              · exact hrel c h
            · intro _ _ _ hnil
              have := hlne (by simpa using hqf)
              simp at hnil
              exact this hnil.1

/-- the sink calls of a rule chain: nothing, or one `addReset` followed by `addRelation`
calls only; when the chain ends without a failure, one `addReset` followed by at least one
`addRelation` -/
theorem parseRuleChain_trace (sv : Services) (p : Parser) :
    ∃ l, (parseRuleChain sv p).sinkCalls = p.sinkCalls ++ l ∧
      (l = [] ∨ chainCalls false l = true) ∧
      (U_FAILURE (parseRuleChain sv p).errorCode = false → chainCalls true l = true) := by
  obtain ⟨l1, h1, h2, h3⟩ := parseResetAndPosition_trace sv p
  unfold parseRuleChain
  simp only []
  generalize parseResetAndPosition sv p = r at h1 h2 h3
  obtain ⟨rels, g1, g2, g3, g4⟩ := parseRuleChainLoop_trace sv r.1
    (r.2.rules.length - r.2.ruleIndex + 1) true r.2
  refine ⟨l1 ++ rels, by rw [g1, h1]; simp, ?_, ?_⟩
  · rcases h2 with h2 | ⟨s, str, h2⟩
    · left
      have hfail : U_FAILURE r.2.errorCode = true := by
        by_contra hc
        exact h3 (by simpa using hc) h2
      rw [h2, (g3 hfail).1]
      rfl
    · right
      rw [h2]
      show (rels.all isRelation && (!false || !rels.isEmpty)) = true
      simp only [Bool.not_false, Bool.true_or, Bool.and_true, List.all_eq_true]
      exact g2
  · intro hok
    have hr2 : U_FAILURE r.2.errorCode = false := by
      by_contra hc
      have hc' : U_FAILURE r.2.errorCode = true := by simpa using hc
      rw [(g3 hc').2, hc'] at hok
      cases hok
    rcases h2 with h2 | ⟨s, str, h2⟩
    · exact absurd h2 (h3 hr2)
    · rw [h2]
      have hne := g4 hok (by omega) rfl
      show (rels.all isRelation && (!true || !rels.isEmpty)) = true
      simp only [Bool.not_true, Bool.false_or, Bool.and_eq_true, List.all_eq_true,
        Bool.not_eq_true', List.isEmpty_eq_false]
      exact ⟨g2, hne⟩


theorem sinkCalls_readWords (sv : Services) (i : Nat) (p : Parser) :
    (readWords sv i p).2.sinkCalls = p.sinkCalls := by
  rw [readWords_frame]

theorem sinkCalls_parseReorderingLoop (sv : Services) :
    ∀ (fuel i : Nat) (codes : List Int) (p : Parser),
      (parseReorderingLoop sv fuel i codes p).2.2.sinkCalls = p.sinkCalls := by
  intro fuel
  induction fuel with
  | zero => intro i codes p; rfl
  | succ n ih =>
    intro i codes p
    rw [parseReorderingLoop]
    split
    · simp only []
      split
      · rfl
      · split
        · exact sinkCalls_setParseError _ p
        · exact ih _ _ p
    · rfl

theorem sinkCalls_parseReordering (sv : Services) (p : Parser) :
    (parseReordering sv p).sinkCalls = p.sinkCalls := by
  unfold parseReordering
  split
  · rfl
  · simp only []
    split
    · rfl
    · have := sinkCalls_parseReorderingLoop sv p.raw.length 7 []
        { p with settings := { p.settings with reorderCodes := none, reorderCodesLength := 0 } }
      generalize parseReorderingLoop sv p.raw.length 7 []
        { p with settings := { p.settings with reorderCodes := none, reorderCodesLength := 0 } } =
        r at this
      obtain ⟨b, codes, q⟩ := r
      cases b with
      | true => exact this
      | false =>
        simp only []
        split
        · exact this
        · cases (sv.makeReorderTable codes).2 <;> exact this

theorem sinkCalls_setFlag (bit : Flag) (value : Int) (p : Parser) :
    (setFlag bit value p).sinkCalls = p.sinkCalls := by
  unfold setFlag
  split
  · rfl
  · split
    · cases bit <;> rfl
    · rfl

theorem sinkCalls_setStrength (value : Int) (p : Parser) :
    (setStrength value p).sinkCalls = p.sinkCalls := by
  unfold setStrength
  split <;> rfl

theorem sinkCalls_setAlternateHandling (value : Int) (p : Parser) :
    (setAlternateHandling value p).sinkCalls = p.sinkCalls := by
  unfold setAlternateHandling
  split <;> rfl

theorem sinkCalls_setCaseFirst (value : Int) (p : Parser) :
    (setCaseFirst value p).sinkCalls = p.sinkCalls := by
  unfold setCaseFirst
  split <;> rfl

theorem sinkCalls_parseUnicodeSet (sv : Services) (fuel i : Nat) (p : Parser) (j : Nat)
    (set : List Nat) (q : Parser) (h : parseUnicodeSet sv fuel i p = some (j, set, q)) :
    q.sinkCalls = p.sinkCalls := by
  unfold parseUnicodeSet at h
  split at h
  · cases h
  · cases h; exact sinkCalls_setParseError _ p
  · split at h
    · cases h
      rw [sinkCalls_setParseError]
    · simp only [] at h
      split at h
      · cases h; exact sinkCalls_setParseError _ p
      · cases h; rfl


theorem ite_some_some {c : Prop} [Decidable c] {a q : Parser}
    (h : (if c then some (some a) else some none) = some (some q)) : q = a := by
  split at h
  · cases h; rfl
  · cases h

theorem parseImport_trace (sv : Services) (parseRec : List Nat → Parser → Option Parser)
    (j : Nat) (v : List Nat) (p q : Parser) (h : parseImport sv parseRec j v p = some q) :
    q.sinkCalls = p.sinkCalls ∨
      ∃ rs x, parseRec rs p = some x ∧ q.sinkCalls = x.sinkCalls ∧ q.errorCode = x.errorCode := by
  unfold parseImport at h
  split at h
  · cases h
    left
    rw [sinkCalls_setParseError]
  · split at h
    · cases h
      left
      rw [sinkCalls_setParseError]
    · split at h
      · cases h
        left; rfl
      · next rs _ =>
        cases hx : parseRec rs p with
        | none => rw [hx] at h; cases h
        | some x =>
          rw [hx] at h
          cases h
          right
          exact ⟨rs, x, hx, rfl, rfl⟩

/-- the sink calls of the name/value branches of `parseSetting`: the calls before, or those
of the recursive parse of imported rules -/
theorem nameValue_trace (sv : Services) (parseRec : List Nat → Parser → Option Parser)
    (j : Nat) (q0 : Parser) (v : List Nat) (q : Parser)
    (h : (if q0.raw = ustr "strength" ∧ v.length = 1 then
      let c := charAt v 0
      let value : Int :=
        if 0x31 ≤ c ∧ c ≤ 0x34 then UCOL_PRIMARY + ((c : Int) - 0x31)
        else if c = 0x49 then UCOL_IDENTICAL
        else UCOL_DEFAULT
      if value ≠ UCOL_DEFAULT then some (some { setStrength value q0 with ruleIndex := j })
      else some none
    else if q0.raw = ustr "alternate" then
      let value : Int :=
        if v = ustr "non-ignorable" then UCOL_NON_IGNORABLE
        else if v = ustr "shifted" then UCOL_SHIFTED
        else UCOL_DEFAULT
      if value ≠ UCOL_DEFAULT then
        some (some { setAlternateHandling value q0 with ruleIndex := j })
      else some none
    else if q0.raw = ustr "caseFirst" then
      let value : Int :=
        if v = ustr "off" then UCOL_OFF
        else if v = ustr "lower" then UCOL_LOWER_FIRST
        else if v = ustr "upper" then UCOL_UPPER_FIRST
        else UCOL_DEFAULT
      if value ≠ UCOL_DEFAULT then some (some { setCaseFirst value q0 with ruleIndex := j })
      else some none
    else if q0.raw = ustr "caseLevel" then
      let value := getOnOffValue v
      if value ≠ UCOL_DEFAULT then
        some (some { setFlag Flag.CASE_LEVEL value q0 with ruleIndex := j })
      else some none
    else if q0.raw = ustr "normalization" then
      let value := getOnOffValue v
      if value ≠ UCOL_DEFAULT then
        some (some { setFlag Flag.CHECK_FCD value q0 with ruleIndex := j })
      else some none
    else if q0.raw = ustr "numericOrdering" then
      let value := getOnOffValue v
      if value ≠ UCOL_DEFAULT then
        some (some { setFlag Flag.NUMERIC value q0 with ruleIndex := j })
      else some none
    else if q0.raw = ustr "hiraganaQ" then
      let value := getOnOffValue v
      if value ≠ UCOL_DEFAULT then
        let q0 :=
          if value = UCOL_ON then setParseError "[hiraganaQ on] is not supported" q0 else q0
        some (some { q0 with ruleIndex := j })
      else some none
    else if q0.raw = ustr "import" then (parseImport sv parseRec j v q0).map some
    else some none) = some (some q)) :
    q.sinkCalls = q0.sinkCalls ∨
      ∃ rs x, parseRec rs q0 = some x ∧ q.sinkCalls = x.sinkCalls ∧
        q.errorCode = x.errorCode := by
  by_cases h1 : q0.raw = ustr "strength" ∧ v.length = 1
  · rw [if_pos h1] at h
    have hq := ite_some_some h
    subst hq
    left; exact sinkCalls_setStrength _ q0
  rw [if_neg h1] at h
  by_cases h2 : q0.raw = ustr "alternate"
  · rw [if_pos h2] at h
    have hq := ite_some_some h
    subst hq
    left; exact sinkCalls_setAlternateHandling _ q0
  rw [if_neg h2] at h
  by_cases h3 : q0.raw = ustr "caseFirst"
  · rw [if_pos h3] at h
    have hq := ite_some_some h
    subst hq
    left; exact sinkCalls_setCaseFirst _ q0
  rw [if_neg h3] at h
  by_cases h4 : q0.raw = ustr "caseLevel"
  · rw [if_pos h4] at h
    have hq := ite_some_some h
    subst hq
    left; exact sinkCalls_setFlag _ _ q0
  rw [if_neg h4] at h
  by_cases h5 : q0.raw = ustr "normalization"
  · rw [if_pos h5] at h
    have hq := ite_some_some h
    subst hq
    left; exact sinkCalls_setFlag _ _ q0
  rw [if_neg h5] at h
  by_cases h6 : q0.raw = ustr "numericOrdering"
  · rw [if_pos h6] at h
    have hq := ite_some_some h
    subst hq
    left; exact sinkCalls_setFlag _ _ q0
  rw [if_neg h6] at h
  by_cases h7 : q0.raw = ustr "hiraganaQ"
  · rw [if_pos h7] at h
    have hq := ite_some_some h
    subst hq
    left
    show (if getOnOffValue v = UCOL_ON then
      setParseError "[hiraganaQ on] is not supported" q0 else q0).sinkCalls = _
    split
    · exact sinkCalls_setParseError _ q0
    · rfl
  rw [if_neg h7] at h
  by_cases h8 : q0.raw = ustr "import"
  · rw [if_pos h8] at h
    cases hx : parseImport sv parseRec j v q0 with
    | none => rw [hx] at h; cases h
    | some x =>
      rw [hx] at h
      cases h
      exact parseImport_trace sv parseRec j v q0 _ hx
  · rw [if_neg h8] at h
    cases h

theorem parseNameValue_trace (sv : Services) (parseRec : List Nat → Parser → Option Parser)
    (j : Nat) (p q : Parser) (h : parseNameValue sv parseRec j p = some (some q)) :
    q.sinkCalls = p.sinkCalls ∨
      ∃ rs p1 x, p1.sinkCalls = p.sinkCalls ∧ parseRec rs p1 = some x ∧
        q.sinkCalls = x.sinkCalls ∧ q.errorCode = x.errorCode := by
  unfold parseNameValue at h
  cases hl : lastIndexOf p.raw 0x20 with
  | none =>
    simp only [hl] at h
    rcases nameValue_trace sv parseRec j p [] q h with h1 | ⟨rs, x, h1, h2, h3⟩
    · exact Or.inl h1
    · exact Or.inr ⟨rs, p, x, rfl, h1, h2, h3⟩
  | some k =>
    simp only [hl] at h
    rcases nameValue_trace sv parseRec j { p with raw := p.raw.take k } (p.raw.drop (k + 1)) q h
      with h1 | ⟨rs, x, h1, h2, h3⟩
    · exact Or.inl h1
    · exact Or.inr ⟨rs, { p with raw := p.raw.take k }, x, rfl, h1, h2, h3⟩

/-- the sink calls of a setting: the calls before, or one more `suppressContractions`, or the
calls of the recursive parse of imported rules -/
theorem parseSetting_trace (sv : Services) (fuel : Nat)
    (parseRec : List Nat → Parser → Option Parser) (p q : Parser)
    (h : parseSetting sv fuel parseRec p = some q) :
    q.sinkCalls = p.sinkCalls ∨
      (∃ set, q.sinkCalls = p.sinkCalls ++ [SinkCall.suppressContractions set]) ∨
      ∃ rs p1 x, p1.sinkCalls = p.sinkCalls ∧ parseRec rs p1 = some x ∧
        q.sinkCalls = x.sinkCalls ∧ q.errorCode = x.errorCode := by
  unfold parseSetting at h
  split at h
  · cases h; left; rfl
  · simp only [] at h
    have hp1 : (if (readWords sv (p.ruleIndex + 1) p).1 ≤ p.ruleIndex + 1 ∨
          (readWords sv (p.ruleIndex + 1) p).2.raw.isEmpty = true then
        setParseError "expected a setting/option at '['" (readWords sv (p.ruleIndex + 1) p).2
        else (readWords sv (p.ruleIndex + 1) p).2).sinkCalls = p.sinkCalls := by
      split
      · rw [sinkCalls_setParseError, sinkCalls_readWords]
      · exact sinkCalls_readWords sv _ p
    generalize (if (readWords sv (p.ruleIndex + 1) p).1 ≤ p.ruleIndex + 1 ∨
          (readWords sv (p.ruleIndex + 1) p).2.raw.isEmpty = true then
        setParseError "expected a setting/option at '['" (readWords sv (p.ruleIndex + 1) p).2
        else (readWords sv (p.ruleIndex + 1) p).2) = p1 at h hp1
    generalize (readWords sv (p.ruleIndex + 1) p).1 = j at h
    split at h
    · split at h
      · cases h
        left
        show (parseReordering sv p1).sinkCalls = _
        rw [sinkCalls_parseReordering, hp1]
      · split at h
        · cases h
          left
          show (setFlag _ _ p1).sinkCalls = _
          rw [sinkCalls_setFlag, hp1]
        · split at h
          · cases h
          · next x hx =>
            cases h
            rcases parseNameValue_trace sv parseRec (j + 1) p1 _ hx with
              h1 | ⟨rs, p2, x, h1, h2, h3, h4⟩
            · left; rw [h1, hp1]
            · right; right
              exact ⟨rs, p2, x, by rw [h1, hp1], h2, h3, h4⟩
          · cases h
            left
            rw [sinkCalls_setParseError]
            split
            · exact hp1
            · exact hp1
    · split at h
      · split at h
        · cases h
        · next j2 set p2 hu =>
          have hu2 := sinkCalls_parseUnicodeSet sv fuel j p1 j2 set p2 hu
          split at h
          · cases h
            left
            show p2.sinkCalls = _
            rw [hu2, hp1]
          · split at h
            · cases h
              right; left
              refine ⟨set, ?_⟩
              show (callSink sv _ p2).sinkCalls = _
              rw [sinkCalls_callSink, hu2, hp1]
            · cases h
              left
              rw [sinkCalls_setParseError, hu2, hp1]
      · cases h
        left
        rw [sinkCalls_setParseError, hp1]


theorem protocolBlock_of_chainCalls (complete : Bool) (l : List SinkCall)
    (h : chainCalls complete l = true) : protocolBlock complete l = true := by
  unfold protocolBlock
  split
  · rfl
  · exact h

/-- the trace of the top-level loop is a sequence of blocks, each the calls of one rule chain
or one `suppressContractions`; when the loop ends without a failure, every chain has at least
one relation -/
theorem parseLoop_trace (sv : Services) :
    ∀ (fuel : Nat) (p q : Parser), parseLoop sv fuel p = some q →
      ∃ blocks : List (List SinkCall), q.sinkCalls = p.sinkCalls ++ blocks.flatten ∧
        (∀ b ∈ blocks, protocolBlock false b = true) ∧
        (U_FAILURE q.errorCode = false → ∀ b ∈ blocks, protocolBlock true b = true) := by
  intro fuel
  induction fuel with
  | zero => intro p q h; simp [parseLoop] at h
  | succ n ih =>
    intro p q h
    rw [parseLoop] at h
    by_cases hi : p.ruleIndex < p.rules.length
    · rw [if_pos hi] at h
      simp only [] at h
      by_cases hw : sv.isWhiteSpace (charAt p.rules p.ruleIndex) = true
      · rw [if_pos hw] at h
        exact ih { p with ruleIndex := p.ruleIndex + 1 } q h
      · rw [if_neg hw] at h
        -- the calls of one item
        have hitem : ∀ x, (if charAt p.rules p.ruleIndex = 0x26 then some (parseRuleChain sv p)
            else if charAt p.rules p.ruleIndex = 0x5b then
              parseSetting sv n
                (fun ruleString q =>
                  if U_FAILURE q.errorCode then some q
                  else parseLoop sv n { q with rules := ruleString, ruleIndex := 0 }) p
            else if charAt p.rules p.ruleIndex = 0x23 then
              some { p with ruleIndex := skipComment p.rules (p.ruleIndex + 1) }
            else if charAt p.rules p.ruleIndex = 0x40 then
              some { setFlag Flag.BACKWARD_SECONDARY UCOL_ON p with
                ruleIndex := p.ruleIndex + 1 }
            else if charAt p.rules p.ruleIndex = 0x21 then
              some { p with ruleIndex := p.ruleIndex + 1 }
            else some (setParseError "expected a reset or setting or comment" p)) = some x →
            ∃ blocks : List (List SinkCall), x.sinkCalls = p.sinkCalls ++ blocks.flatten ∧
              (∀ b ∈ blocks, protocolBlock false b = true) ∧
              (U_FAILURE x.errorCode = false → ∀ b ∈ blocks, protocolBlock true b = true) := by
          intro x hx
          have hnone : x.sinkCalls = p.sinkCalls →
              ∃ blocks : List (List SinkCall), x.sinkCalls = p.sinkCalls ++ blocks.flatten ∧
                (∀ b ∈ blocks, protocolBlock false b = true) ∧
                (U_FAILURE x.errorCode = false → ∀ b ∈ blocks, protocolBlock true b = true) :=
            fun hs => ⟨[], by simp [hs], by simp, fun _ => by simp⟩
          by_cases c1 : charAt p.rules p.ruleIndex = 0x26
          · rw [if_pos c1] at hx
            cases hx
            obtain ⟨l, h1, h2, h3⟩ := parseRuleChain_trace sv p
            rcases h2 with h2 | h2
            · exact hnone (by rw [h1, h2]; simp)
            · refine ⟨[l], by simp [h1], ?_, ?_⟩
              · intro b hb
                simp at hb
                subst hb
                exact protocolBlock_of_chainCalls false _ h2
              · intro hok b hb
                simp at hb
                subst hb
                exact protocolBlock_of_chainCalls true _ (h3 hok)
          rw [if_neg c1] at hx
          by_cases c2 : charAt p.rules p.ruleIndex = 0x5b
          · rw [if_pos c2] at hx
            rcases parseSetting_trace sv n _ p x hx with
              h1 | ⟨set, h1⟩ | ⟨rs, p1, y, h1, h2, h3, h4⟩
            · exact hnone h1
            · refine ⟨[[SinkCall.suppressContractions set]], by simp [h1], ?_, ?_⟩
              · intro b hb
                simp at hb
                subst hb
                rfl
              · intro _ b hb
                simp at hb
                subst hb
                rfl
            · have h2 : (if U_FAILURE p1.errorCode = true then some p1
                  else parseLoop sv n { p1 with rules := rs, ruleIndex := 0 }) = some y := h2
              by_cases hf : U_FAILURE p1.errorCode = true
              · rw [if_pos hf] at h2
                cases h2
                exact hnone (by rw [h3, h1])
              · rw [if_neg hf] at h2
                obtain ⟨blocks, g1, g2, g3⟩ := ih _ y h2
                refine ⟨blocks, ?_, g2, ?_⟩
                · rw [h3, g1]
                  show p1.sinkCalls ++ _ = _
                  rw [h1]
                · intro hok
                  rw [h4] at hok
                  exact g3 hok
          rw [if_neg c2] at hx
          by_cases c3 : charAt p.rules p.ruleIndex = 0x23
          · rw [if_pos c3] at hx
            cases hx
            exact hnone rfl
          rw [if_neg c3] at hx
          by_cases c4 : charAt p.rules p.ruleIndex = 0x40
          · rw [if_pos c4] at hx
            cases hx
            exact hnone (sinkCalls_setFlag _ _ p)
          rw [if_neg c4] at hx
          by_cases c5 : charAt p.rules p.ruleIndex = 0x21
          · rw [if_pos c5] at hx
            cases hx
            exact hnone rfl
          · rw [if_neg c5] at hx
            cases hx
            exact hnone (sinkCalls_setParseError _ p)
        split at h
        · cases h
        · next r x hx =>
          obtain ⟨blocks1, a1, a2, a3⟩ := hitem x hx
          by_cases hxf : U_FAILURE x.errorCode = true
          · rw [if_pos hxf] at h
            cases h
            exact ⟨blocks1, a1, a2, a3⟩
          · rw [if_neg hxf] at h
            obtain ⟨blocks2, b1, b2, b3⟩ := ih x q h
            refine ⟨blocks1 ++ blocks2, ?_, ?_, ?_⟩
            · rw [b1, a1, List.flatten_append, List.append_assoc]
            · intro b hb
              rcases List.mem_append.mp hb with hb | hb
              · exact a2 b hb
              · exact b2 b hb
            · intro hok b hb
              rcases List.mem_append.mp hb with hb | hb
              · exact a3 (by simpa using hxf) b hb
              · exact b3 hok b hb
    · rw [if_neg hi] at h
      cases h
      exact ⟨[], by simp, by simp, fun _ => by simp⟩

theorem noRelationBeforeReset_blocks :
    ∀ (blocks : List (List SinkCall)), (∀ b ∈ blocks, protocolBlock false b = true) →
      noRelationBeforeReset blocks.flatten = true := by
  intro blocks
  induction blocks with
  | nil => intro _; rfl
  | cons b bs ih =>
    intro h
    have hb := h b (by simp)
    have hbs := ih (fun x hx => h x (by simp [hx]))
    rw [List.flatten_cons]
    cases b with
    | nil => simp [protocolBlock, chainCalls] at hb
    | cons c t =>
      cases c with
      | addReset s str => rfl
      | addRelation s x y z => simp [protocolBlock, chainCalls] at hb
      | suppressContractions set =>
        cases t with
        | nil => exact hbs
        | cons _ _ => simp [protocolBlock, chainCalls] at hb

theorem resetsFollowed_relations :
    ∀ (rels rest : List SinkCall), (∀ c ∈ rels, isRelation c = true) →
      resetsFollowed (rels ++ rest) = resetsFollowed rest := by
  intro rels
  induction rels with
  | nil => intro rest _; rfl
  | cons c t ih =>
    intro rest h
    have hc := h c (by simp)
    cases c with
    | addReset s str => simp [isRelation, relationStrength] at hc
    | addRelation s x y z =>
      show resetsFollowed (t ++ rest) = _
      exact ih rest (fun x hx => h x (by simp [hx]))
    | suppressContractions set => simp [isRelation, relationStrength] at hc

theorem resetsFollowed_blocks :
    ∀ (blocks : List (List SinkCall)), (∀ b ∈ blocks, protocolBlock true b = true) →
      resetsFollowed blocks.flatten = true := by
  intro blocks
  induction blocks with
  | nil => intro _; rfl
  | cons b bs ih =>
    intro h
    have hb := h b (by simp)
    have hbs := ih (fun x hx => h x (by simp [hx]))
    rw [List.flatten_cons]
    cases b with
    | nil => simp [protocolBlock, chainCalls] at hb
    | cons c t =>
      cases c with
      | addReset s str =>
        have hb' : (t.all isRelation && (!true || !t.isEmpty)) = true := hb
        simp only [Bool.not_true, Bool.false_or, Bool.and_eq_true, List.all_eq_true,
          Bool.not_eq_true', List.isEmpty_eq_false] at hb'
        obtain ⟨hall, hne⟩ := hb'
        show (followedByRelation (t ++ bs.flatten) && resetsFollowed (t ++ bs.flatten)) = true
        rw [resetsFollowed_relations t _ hall, hbs, Bool.and_true]
        cases t with
        | nil => exact absurd rfl hne
        | cons r rs =>
          have hr := hall r (by simp)
          cases r with
          | addReset _ _ => simp [isRelation, relationStrength] at hr
          | addRelation _ _ _ _ => rfl
          | suppressContractions _ => simp [isRelation, relationStrength] at hr
      | addRelation s x y z => simp [protocolBlock, chainCalls] at hb
      | suppressContractions set =>
        cases t with
        | nil => exact hbs
        | cons _ _ => simp [protocolBlock, chainCalls] at hb


/-- the reset of a chain, from a state without failure: when the position is reached, exactly
one `addReset` with the strength of the optional `[before n]`; when the text ends before the
position, the error "reset without position" and nothing else -/
theorem parseResetAndPosition_reached (sv : Services) (p : Parser)
    (h0 : U_FAILURE p.errorCode = false) :
    (p.rules.length ≤ (parseBefore sv p.rules (skipWhiteSpace sv p.rules (p.ruleIndex + 1))).1 →
      parseResetAndPosition sv p =
        (NO_RELATION, setParseError "reset without position" p)) ∧
    ((parseBefore sv p.rules (skipWhiteSpace sv p.rules (p.ruleIndex + 1))).1 < p.rules.length →
      ∃ str, (parseResetAndPosition sv p).2.sinkCalls =
          p.sinkCalls ++ [SinkCall.addReset
            (parseBefore sv p.rules (skipWhiteSpace sv p.rules (p.ruleIndex + 1))).2 str] ∧
        (parseResetAndPosition sv p).1 =
          (parseBefore sv p.rules (skipWhiteSpace sv p.rules (p.ruleIndex + 1))).2) := by
  have hf : ¬ U_FAILURE p.errorCode = true := by rw [h0]; decide
  unfold parseResetAndPosition
  rw [if_neg hf]
  simp only []
  generalize parseBefore sv p.rules (skipWhiteSpace sv p.rules (p.ruleIndex + 1)) = b
  constructor
  · intro hi
    rw [if_pos hi]
  · intro hi
    rw [if_neg (by omega)]
    have hrs : (if charAt (resetTailoringStrings p).rules b.1 = 0x5b then
          parseSpecialPosition sv b.1 (resetTailoringStrings p)
        else
          ((parseTailoringString sv b.1 (resetTailoringStrings p)).1,
            { (parseTailoringString sv b.1 (resetTailoringStrings p)).2 with
              str := normalize sv.fccNormalize
                (parseTailoringString sv b.1 (resetTailoringStrings p)).2.raw
                (parseTailoringString sv b.1
                  (resetTailoringStrings p)).2.errorCode })).2.sinkCalls =
        p.sinkCalls := by
      split
      · rw [sinkCalls_parseSpecialPosition]; rfl
      · show (parseTailoringString sv b.1 (resetTailoringStrings p)).2.sinkCalls = _
        rw [sinkCalls_parseTailoringString]; rfl
    generalize (if charAt (resetTailoringStrings p).rules b.1 = 0x5b then
          parseSpecialPosition sv b.1 (resetTailoringStrings p)
        else
          ((parseTailoringString sv b.1 (resetTailoringStrings p)).1,
            { (parseTailoringString sv b.1 (resetTailoringStrings p)).2 with
              str := normalize sv.fccNormalize
                (parseTailoringString sv b.1 (resetTailoringStrings p)).2.raw
                (parseTailoringString sv b.1
                  (resetTailoringStrings p)).2.errorCode })) = r at hrs
    refine ⟨r.2.str, ?_, rfl⟩
    show (callSink sv _ r.2).sinkCalls = _
    rw [sinkCalls_callSink, hrs]

/-- the sink calls of a rule chain, from a state without failure: when the position of the
reset is reached, exactly one `addReset` and after it `addRelation` calls only, at least one
if the chain ends without a failure; when the text ends before the position, no call and the
error "reset without position" -/
theorem parseRuleChain_calls (sv : Services) (p : Parser)
    (h0 : U_FAILURE p.errorCode = false) :
    (p.rules.length ≤ (parseBefore sv p.rules (skipWhiteSpace sv p.rules (p.ruleIndex + 1))).1 →
      parseRuleChain sv p = setParseError "reset without position" p ∧
      (parseRuleChain sv p).sinkCalls = p.sinkCalls) ∧
    ((parseBefore sv p.rules (skipWhiteSpace sv p.rules (p.ruleIndex + 1))).1 < p.rules.length →
      ∃ str rels, (parseRuleChain sv p).sinkCalls =
          p.sinkCalls ++ SinkCall.addReset
            (parseBefore sv p.rules (skipWhiteSpace sv p.rules (p.ruleIndex + 1))).2 str ::
            rels ∧
        (∀ c ∈ rels, isRelation c = true) ∧
        (U_FAILURE (parseRuleChain sv p).errorCode = false → rels ≠ [])) := by
  obtain ⟨hA, hB⟩ := parseResetAndPosition_reached sv p h0
  constructor
  · intro hi
    have hr := hA hi
    have hchain : parseRuleChain sv p = setParseError "reset without position" p := by
      unfold parseRuleChain
      simp only []
      rw [hr]
      exact ((parseRuleChainLoop_trace sv _ _ true _).choose_spec.2.2.1
        (U_FAILURE_setParseError _ _)).2
    exact ⟨hchain, by rw [hchain, sinkCalls_setParseError]⟩
  · intro hi
    obtain ⟨str, h1, _⟩ := hB hi
    unfold parseRuleChain
    simp only []
    generalize parseResetAndPosition sv p = r at h1
    obtain ⟨rels, g1, g2, g3, g4⟩ := parseRuleChainLoop_trace sv r.1
      (r.2.rules.length - r.2.ruleIndex + 1) true r.2
    refine ⟨str, rels, by rw [g1, h1]; simp, g2, ?_⟩
    intro hok
    exact g4 hok (by omega) rfl

/-- the top-level loop at an `&`: one rule chain, then the loop goes on unless the chain
failed -/
theorem parseLoop_reset (sv : Services) (fuel : Nat) (p : Parser)
    (hi : p.ruleIndex < p.rules.length) (hc : charAt p.rules p.ruleIndex = 0x26)
    (hw : sv.isWhiteSpace 0x26 = false) :
    parseLoop sv (fuel + 1) p =
      if U_FAILURE (parseRuleChain sv p).errorCode then some (parseRuleChain sv p)
      else parseLoop sv fuel (parseRuleChain sv p) := by
  rw [parseLoop]
  rw [if_pos hi]
  simp only []
  rw [hc, hw]
  simp

/-- C29, as stated, does not hold: `addReset` is not called once for every `&` reset.  A
reset whose position is missing calls no sink method at all.  The rule text `&` alone has one
reset and leaves an empty trace, and `&a < b &` has two resets and a trace with one
`addReset`; both runs end with the error "reset without position". -/
theorem sink_trace_reset_without_addReset :
    (parse sampleServices 40 (ustr "&") sampleSettings false
        UErrorCode.U_ZERO_ERROR).map (fun q => (q.sinkCalls, q.errorReason)) =
      some ([], some "reset without position") ∧
    (ustr "&a < b &").count 0x26 = 2 ∧
    (parse sampleServices 40 (ustr "&a < b &") sampleSettings false
        UErrorCode.U_ZERO_ERROR).map (fun q => (q.sinkCalls, q.errorReason)) =
      some ([SinkCall.addReset IDENTICAL (ustr "a"),
          SinkCall.addRelation PRIMARY [] (ustr "b") []],
        some "reset without position") := by
  decide

/-- C29, amended: the trace of sink calls follows the chain protocol, with `addReset` called
exactly once for every reset whose position is reached and not at all for the others.
(1) One rule chain, started without a failure, with `b` the offset and strength after the
optional `[before n]`.  When the text ends at `b.1`, the chain adds no sink call and is
nothing but the error "reset without position".  Otherwise the chain adds exactly one
`addReset`, with the strength `b.2`, as its first call, and after it `addRelation` calls
only; at least one when the chain ends without a failure.  A chain started from a failure
changes nothing.
(2) At the top level an `&` starts exactly one rule chain, and the loop goes on after it only
when the chain did not fail.
(3) When `parse` returns, the trace is a sequence of blocks, each the calls of one rule chain
(one `addReset`, then relations only) or one `suppressContractions`; so no `addRelation`
stands before the first `addReset`; and when `parse` returns without a failure, every chain
has at least one relation, so every `addReset` is followed by an `addRelation` before the
next `addReset` or the end of the trace.
(4) Where the first relation of a chain is expected and the text has neither a relation
operator nor a comment, the chain fails with "reset not followed by a relation". -/
theorem sink_trace_protocol (sv : Services) :
    (∀ p : Parser, U_FAILURE p.errorCode = false →
      (p.rules.length ≤
          (parseBefore sv p.rules (skipWhiteSpace sv p.rules (p.ruleIndex + 1))).1 →
        parseRuleChain sv p = setParseError "reset without position" p ∧
        (parseRuleChain sv p).sinkCalls = p.sinkCalls) ∧
      ((parseBefore sv p.rules (skipWhiteSpace sv p.rules (p.ruleIndex + 1))).1 <
          p.rules.length →
        ∃ str rels, (parseRuleChain sv p).sinkCalls =
            p.sinkCalls ++ SinkCall.addReset
              (parseBefore sv p.rules (skipWhiteSpace sv p.rules (p.ruleIndex + 1))).2 str ::
              rels ∧
          (∀ c ∈ rels, isRelation c = true) ∧
          (U_FAILURE (parseRuleChain sv p).errorCode = false → rels ≠ []))) ∧
    (∀ p : Parser, U_FAILURE p.errorCode = true → parseRuleChain sv p = p) ∧
    (∀ (fuel : Nat) (p : Parser), p.ruleIndex < p.rules.length →
      charAt p.rules p.ruleIndex = 0x26 → sv.isWhiteSpace 0x26 = false →
      parseLoop sv (fuel + 1) p =
        if U_FAILURE (parseRuleChain sv p).errorCode then some (parseRuleChain sv p)
        else parseLoop sv fuel (parseRuleChain sv p)) ∧
    (∀ (fuel : Nat) (ruleString : List Nat) (outSettings : CollationSettings)
      (outParseError : Bool) (q : Parser),
      parse sv fuel ruleString outSettings outParseError UErrorCode.U_ZERO_ERROR = some q →
      (∃ blocks : List (List SinkCall), q.sinkCalls = blocks.flatten ∧
        (∀ b ∈ blocks, protocolBlock false b = true) ∧
        (U_FAILURE q.errorCode = false → ∀ b ∈ blocks, protocolBlock true b = true)) ∧
      noRelationBeforeReset q.sinkCalls = true ∧
      (U_FAILURE q.errorCode = false → resetsFollowed q.sinkCalls = true)) ∧
    (∀ (B : Int) (fuel : Nat) (p : Parser), U_FAILURE p.errorCode = false →
      parseRelationOperator p = NO_RELATION →
      ¬ (p.ruleIndex < p.rules.length ∧ charAt p.rules p.ruleIndex = 0x23) →
      parseRuleChainLoop sv B (fuel + 1) true p =
        setParseError "reset not followed by a relation" p) := by
  refine ⟨parseRuleChain_calls sv, parseRuleChain_of_failure sv,
    parseLoop_reset sv, ?_, ?_⟩
  · intro fuel ruleString outSettings outParseError q h
    have h' : parseLoop sv fuel
        { newParser outSettings with
          parseError := if outParseError = true then
            some { line := 0, offset := 0, preContext := [], postContext := [] } else none,
          rules := ruleString, ruleIndex := 0 } = some q := h
    obtain ⟨blocks, h1, h2, h3⟩ := parseLoop_trace sv fuel _ q h'
    have h1' : q.sinkCalls = blocks.flatten := by
      rw [h1]; rfl
    refine ⟨⟨blocks, h1', h2, h3⟩, ?_, ?_⟩
    · rw [h1']; exact noRelationBeforeReset_blocks blocks h2
    · intro hok
      rw [h1']; exact resetsFollowed_blocks blocks (h3 hok)
  · intro B fuel p h0 hno hc
    rw [parseRuleChainLoop]
    simp only []
    rw [if_neg (by simp [h0]), if_pos hno, if_neg (by simpa using hc)]
    rfl

/-- Instances of `sink_trace_protocol`: the chain of the rule text `& `, where only white
space follows the reset, is the error "reset without position" and adds no sink call; the
chain of `&a < b` adds one `addReset` and then relations only; and the trace of
`&a < b &[before 2] c << d` has no relation before the first reset and a relation after
every reset. -/
theorem sink_trace_protocol_witness :
    (parseRuleChain sampleServices { newParser sampleSettings with rules := ustr "& " } =
        setParseError "reset without position"
          { newParser sampleSettings with rules := ustr "& " } ∧
      (parseRuleChain sampleServices
        { newParser sampleSettings with rules := ustr "& " }).sinkCalls = []) ∧
    (∃ str rels, (parseRuleChain sampleServices
          { newParser sampleSettings with rules := ustr "&a < b" }).sinkCalls =
        [] ++ SinkCall.addReset IDENTICAL str :: rels ∧
      (∀ c ∈ rels, isRelation c = true) ∧
      (U_FAILURE (parseRuleChain sampleServices
          { newParser sampleSettings with rules := ustr "&a < b" }).errorCode = false →
        rels ≠ [])) ∧
    parse sampleServices 40 (ustr "&a < b &[before 2] c << d") sampleSettings true
        UErrorCode.U_ZERO_ERROR =
      some { newParser sampleSettings with
        rules := ustr "&a < b &[before 2] c << d", ruleIndex := 25,
        raw := ustr "d", str := ustr "d",
        parseError := some { line := 0, offset := 0, preContext := [], postContext := [] },
        sinkCalls := [SinkCall.addReset IDENTICAL (ustr "a"),
          SinkCall.addRelation PRIMARY [] (ustr "b") [],
          SinkCall.addReset SECONDARY (ustr "c"),
          SinkCall.addRelation SECONDARY [] (ustr "d") []] } ∧
    noRelationBeforeReset [SinkCall.addReset IDENTICAL (ustr "a"),
      SinkCall.addRelation PRIMARY [] (ustr "b") [],
      SinkCall.addReset SECONDARY (ustr "c"),
      SinkCall.addRelation SECONDARY [] (ustr "d") []] = true ∧
    resetsFollowed [SinkCall.addReset IDENTICAL (ustr "a"),
      SinkCall.addRelation PRIMARY [] (ustr "b") [],
      SinkCall.addReset SECONDARY (ustr "c"),
      SinkCall.addRelation SECONDARY [] (ustr "d") []] = true :=
  ⟨((sink_trace_protocol sampleServices).1
      { newParser sampleSettings with rules := ustr "& " } rfl).1 (by decide),
    ((sink_trace_protocol sampleServices).1
      { newParser sampleSettings with rules := ustr "&a < b" } rfl).2 (by decide),
    by decide,
    ((sink_trace_protocol sampleServices).2.2.2.1 40 (ustr "&a < b &[before 2] c << d")
      sampleSettings true
      { newParser sampleSettings with
        rules := ustr "&a < b &[before 2] c << d", ruleIndex := 25,
        raw := ustr "d", str := ustr "d",
        parseError := some { line := 0, offset := 0, preContext := [], postContext := [] },
        sinkCalls := [SinkCall.addReset IDENTICAL (ustr "a"),
          SinkCall.addRelation PRIMARY [] (ustr "b") [],
          SinkCall.addReset SECONDARY (ustr "c"),
          SinkCall.addRelation SECONDARY [] (ustr "d") []] }
      (by decide)).2.1,
    ((sink_trace_protocol sampleServices).2.2.2.1 40 (ustr "&a < b &[before 2] c << d")
      sampleSettings true
      { newParser sampleSettings with
        rules := ustr "&a < b &[before 2] c << d", ruleIndex := 25,
        raw := ustr "d", str := ustr "d",
        parseError := some { line := 0, offset := 0, preContext := [], postContext := [] },
        sinkCalls := [SinkCall.addReset IDENTICAL (ustr "a"),
          SinkCall.addRelation PRIMARY [] (ustr "b") [],
          SinkCall.addReset SECONDARY (ustr "c"),
          SinkCall.addRelation SECONDARY [] (ustr "d") []] }
      (by decide)).2.2 (by decide)⟩


theorem parseStringLoop_stable (sv : Services) (P : Parser → Prop) (hS : ScanStable sv P)
    (allowDash : Bool) :
    ∀ (fuel i : Nat) (p : Parser), P p → P (parseStringLoop sv allowDash fuel i p).2.2 := by
  intro fuel
  induction fuel with
  | zero => intro i p h; exact h
  | succ n ih =>
    intro i p h
    rw [parseStringLoop]
    split
    · simp only []
      split
      · split
        · split
          · exact ih _ _ (hS.raw _ _ h)
          · split
            · exact hS.err _ _ (hS.raw _ _ h)
            · exact ih _ _ (hS.raw _ _ h)
        · split
          · split
            · exact hS.err _ _ h
            · exact ih _ _ (hS.raw _ _ h)
          · split
            · exact ih _ _ (hS.raw _ _ h)
            · exact h
      · split
        · exact h
        · exact ih _ _ (hS.raw _ _ h)
    · exact h

theorem checkStringLoop_stable (sv : Services) (P : Parser → Prop) (hS : ScanStable sv P)
    (fuel j : Nat) (p : Parser) (h : P p) : P (checkStringLoop fuel j p) := by
  rcases checkStringLoop_cases fuel j p with e | e | e <;> rw [e]
  · exact h
  · exact hS.err _ _ h
  · exact hS.err _ _ h

theorem parseString_stable (sv : Services) (P : Parser → Prop) (hS : ScanStable sv P)
    (i : Nat) (allowDash : Bool) (p : Parser) (h : P p) :
    P (parseString sv i allowDash p).2 := by
  unfold parseString
  split
  · exact h
  · simp only []
    have hl := parseStringLoop_stable sv P hS allowDash
      (p.rules.length - skipWhiteSpace sv p.rules i) (skipWhiteSpace sv p.rules i)
      { p with raw := [] } (hS.raw _ _ h)
    split
    · next b j q heq => rw [heq] at hl; exact hl
    · next b j q heq =>
      rw [heq] at hl
      split
      · exact hS.err _ _ hl
      · exact checkStringLoop_stable sv P hS _ _ q hl

theorem parseTailoringString_stable (sv : Services) (P : Parser → Prop)
    (hS : ScanStable sv P) (i : Nat) (p : Parser) (h : P p) :
    P (parseTailoringString sv i p).2 := by
  unfold parseTailoringString
  simp only []
  split
  · exact hS.err _ _ (parseString_stable sv P hS i false p h)
  · exact parseString_stable sv P hS i false p h

theorem readWords_stable (sv : Services) (P : Parser → Prop) (hS : ScanStable sv P)
    (i : Nat) (p : Parser) (h : P p) : P (readWords sv i p).2 := by
  rw [readWords_frame]
  exact hS.raw _ _ h

theorem parseSpecialPosition_stable (sv : Services) (P : Parser → Prop)
    (hS : ScanStable sv P) (i : Nat) (p : Parser) (h : P p) :
    P (parseSpecialPosition sv i p).2 := by
  have hr := readWords_stable sv P hS i p h
  unfold parseSpecialPosition
  split
  · exact h
  · simp only []
    split
    · split
      · exact hS.str _ _ hr
      · split
        · exact hS.str _ _ hr
        · split
          · exact hS.str _ _ hr
          · exact hS.err _ _ hr
    · exact hS.err _ _ hr

theorem resetTailoringStrings_stable (sv : Services) (P : Parser → Prop)
    (hS : ScanStable sv P) (p : Parser) (h : P p) : P (resetTailoringStrings p) :=
  hS.extension _ [] (hS.str _ [] (hS.pfx _ [] h))

theorem parseStarredRange_stable (sv : Services) (P : Parser → Prop) (hS : ScanStable sv P)
    (strength : Int) :
    ∀ (fuel : Nat) (prev : Int) (c : Nat) (p : Parser), P p →
      P (parseStarredRange sv strength fuel prev c p) := by
  intro fuel
  induction fuel with
  | zero => intro prev c p h; exact h
  | succ n ih =>
    intro prev c p h
    rw [parseStarredRange]
    simp only []
    split
    · exact ih _ _ _ (hS.sink _ _ (hS.str _ _ h))
    · exact h

theorem parseStarredLoop_stable (sv : Services) (P : Parser → Prop) (hS : ScanStable sv P)
    (strength : Int) :
    ∀ (fuel j : Nat) (prev : Int) (p : Parser), P p →
      P (parseStarredLoop sv strength fuel j prev p).2 := by
  intro fuel
  induction fuel with
  | zero => intro j prev p h; exact h
  | succ n ih =>
    intro j prev p h
    rw [parseStarredLoop]
    split
    · simp only []
      split
      · split
        · exact hS.err _ _ h
        · exact ih _ _ _ (hS.sink _ _ (hS.str _ _ h))
      · split
        · exact hS.err _ _ h
        · split
          · exact hS.err _ _ h
          · split
            · exact hS.err _ _ h
            · split
              · exact hS.err _ _ h
              · exact ih _ _ _ (parseStarredRange_stable sv P hS strength _ _ _ _ h)
    · exact h


theorem lt_length_of_charAt (s : List Nat) (j c : Nat) (h : charAt s j = c)
    (hc : c ≠ kInvalidUChar) : j < s.length := by
  by_contra hj
  have : charAt s j = kInvalidUChar := by
    unfold charAt
    rw [List.getD_eq_getElem?_getD, List.getElem?_eq_none (by omega)]
    rfl
  rw [this] at h
  exact hc h.symm

theorem parseQuotedLoop_le (rules : List Nat) :
    ∀ (fuel i : Nat) (raw : List Nat), i ≤ rules.length →
      (parseQuotedLoop rules fuel i raw).2.1 ≤ rules.length := by
  intro fuel
  induction fuel with
  | zero => intro i raw h; exact h
  | succ n ih =>
    intro i raw h
    rw [parseQuotedLoop]
    split
    · exact h
    · simp only []
      split
      · split
        · next hc =>
          simp only [Bool.and_eq_true, decide_eq_true_eq] at hc
          exact ih _ _ (by omega)
        · show i + 1 ≤ rules.length
          omega
      · exact ih _ _ (by omega)

/-- a code point read right after a code unit that is no lead surrogate ends inside the
text -/
theorem char32At_end_le (s : List Nat) (hunits : ∀ u ∈ s, u < 0x10000) (i : Nat)
    (hi : i + 1 < s.length) (hprev : U16_IS_LEAD (charAt s i) = false) :
    i + 1 + U16_LENGTH (char32At s (i + 1)) ≤ s.length := by
  have hu : charAt s (i + 1) < 0x10000 := hunits _ (charAt_mem hi)
  have h1 : U16_LENGTH (charAt s (i + 1)) = 1 := by
    unfold U16_LENGTH
    rw [if_pos (by omega)]
  unfold char32At
  rw [if_pos hi]
  simp only []
  split
  · split
    · split
      · next hc =>
        simp only [Bool.and_eq_true, bne_iff_ne, ne_eq, decide_eq_true_eq] at hc
        have : U16_LENGTH (U16_GET_SUPPLEMENTARY (charAt s (i + 1)) (charAt s (i + 1 + 1))) ≤
            2 := by
          unfold U16_LENGTH
          split <;> omega
        omega
      · rw [h1]; omega
    · rw [if_neg (by simp [hprev])]
      rw [h1]; omega
  · rw [h1]; omega

theorem parseStringLoop_le (sv : Services) (allowDash : Bool) :
    ∀ (fuel i : Nat) (p : Parser), (∀ u ∈ p.rules, u < 0x10000) → i ≤ p.rules.length →
      (parseStringLoop sv allowDash fuel i p).2.1 ≤ p.rules.length := by
  intro fuel
  induction fuel with
  | zero => intro i p _ h; exact h
  | succ n ih =>
    intro i p hu h
    rw [parseStringLoop]
    split
    · next hi =>
      simp only []
      split
      · split
        · split
          · next hc =>
            simp only [Bool.and_eq_true, decide_eq_true_eq] at hc
            exact ih _ { p with raw := p.raw ++ [0x27] } hu (by show i + 1 + 1 ≤ p.rules.length; omega)
          · have hq := parseQuotedLoop_le p.rules (p.rules.length - (i + 1)) (i + 1) p.raw
              (by omega)
            split
            · next heq => rw [heq] at hq; exact hq
            · next heq =>
              rw [heq] at hq
              exact ih _ { p with raw := _ } hu hq
        · split
          · next h5c =>
            split
            · show i + 1 ≤ p.rules.length
              omega
            · next hne =>
              have hlead : U16_IS_LEAD (charAt p.rules i) = false := by
                rw [h5c]; decide
              exact ih _ { p with raw := _ } hu
                (char32At_end_le p.rules hu i (by omega) hlead)
          · split
            · exact ih _ { p with raw := _ } hu (by show i + 1 ≤ p.rules.length; omega)
            · show i + 1 ≤ p.rules.length
              omega
      · split
        · exact (skipWhiteSpace_bounds sv p.rules (i + 1)).2 (by omega)
        · exact ih _ { p with raw := _ } hu (by show i + 1 ≤ p.rules.length; omega)
    · exact h

/-- a literal that is parsed without a failure ends inside the text -/
theorem parseString_le (sv : Services) (i : Nat) (allowDash : Bool) (p : Parser)
    (hu : ∀ u ∈ p.rules, u < 0x10000) (h0 : U_FAILURE p.errorCode = false)
    (hok : U_FAILURE (parseString sv i allowDash p).2.errorCode = false) :
    (parseString sv i allowDash p).1 ≤ p.rules.length := by
  by_cases hi : i ≤ p.rules.length
  · have hs := (skipWhiteSpace_bounds sv p.rules i).2 hi
    have hl := parseStringLoop_le sv allowDash (p.rules.length - skipWhiteSpace sv p.rules i)
      (skipWhiteSpace sv p.rules i) { p with raw := [] } hu hs
    unfold parseString
    rw [if_neg (by simp [h0])]
    simp only []
    split
    · next heq => rw [heq] at hl; exact hl
    · next heq =>
      rw [heq] at hl
      split <;> exact hl
  · have hs := (skipWhiteSpace_bounds sv p.rules i).1
    have := parseString_missing sv i allowDash p h0 (Or.inl (by omega))
    rw [this, U_FAILURE_setParseError] at hok
    cases hok

theorem parseTailoringString_le (sv : Services) (i : Nat) (p : Parser)
    (hu : ∀ u ∈ p.rules, u < 0x10000) (h0 : U_FAILURE p.errorCode = false)
    (hok : U_FAILURE (parseTailoringString sv i p).2.errorCode = false) :
    (parseTailoringString sv i p).1 ≤ p.rules.length := by
  unfold parseTailoringString at hok ⊢
  simp only [] at hok ⊢
  split
  · next hlen =>
    rw [if_pos hlen, U_FAILURE_setParseError] at hok
    cases hok
  · next hlen =>
    rw [if_neg hlen] at hok
    exact parseString_le sv i false p hu h0 hok


theorem callSink_of_ok (sv : Services) (c : SinkCall) (x : Parser)
    (h : U_FAILURE (callSink sv c x).errorCode = false) : U_FAILURE x.errorCode = false := by
  by_contra hx
  have hx' : U_FAILURE x.errorCode = true := by simpa using hx
  unfold callSink at h
  simp only [] at h
  rw [if_pos hx'] at h
  rw [hx'] at h
  cases h

theorem rules_callSink (sv : Services) (c : SinkCall) (x : Parser) :
    (callSink sv c x).rules = x.rules := by
  unfold callSink
  simp only []
  split
  · rfl
  · split <;> rfl

/-- the rule text is not written by the scanners -/
theorem scanStable_rules (sv : Services) (R : List Nat) :
    ScanStable sv (fun x => x.rules = R) :=
  { raw := fun _ _ h => h
    pfx := fun _ _ h => h
    str := fun _ _ h => h
    extension := fun _ _ h => h
    err := fun x r h => by rw [(settings_setParseError r x).2.2]; exact h
    sink := fun x c h => by rw [rules_callSink]; exact h }

theorem rules_parseTailoringString (sv : Services) (i : Nat) (p : Parser) :
    (parseTailoringString sv i p).2.rules = p.rules :=
  parseTailoringString_stable sv (fun x => x.rules = p.rules) (scanStable_rules sv p.rules)
    i p rfl

theorem parseSpecialPosition_le (sv : Services) (i : Nat) (p : Parser)
    (hi : i ≤ p.rules.length) : (parseSpecialPosition sv i p).1 ≤ p.rules.length := by
  have hrules : (readWords sv i p).2.rules = p.rules := by rw [readWords_frame]
  unfold parseSpecialPosition
  split
  · exact Nat.zero_le _
  · simp only []
    split
    · next hc =>
      simp only [Bool.and_eq_true, decide_eq_true_eq] at hc
      have hj := lt_length_of_charAt _ _ _ hc.1.2 (by decide)
      rw [hrules] at hj
      split
      · exact hj
      · split
        · exact hj
        · split
          · exact hj
          · exact hi
    · exact hi

/-- what a reset keeps: `P` holds while the reset is scanned, `Q` after the cursor is moved;
the cursor is moved to an offset inside the text unless the reset failed -/
theorem parseResetAndPosition_stable (sv : Services) (P Q : Parser → Prop)
    (hS : ScanStable sv P) (p : Parser) (hPQ : ∀ x, P x → Q x)
    (hidx : ∀ (x : Parser) (j : Nat), P x →
      (U_FAILURE x.errorCode = false → j ≤ p.rules.length) → Q { x with ruleIndex := j })
    (hu : ∀ u ∈ p.rules, u < 0x10000) (h : P p) :
    Q (parseResetAndPosition sv p).2 := by
  unfold parseResetAndPosition
  by_cases hf : U_FAILURE p.errorCode = true
  · rw [if_pos hf]; exact hPQ _ h
  · rw [if_neg hf]
    have h0 : U_FAILURE p.errorCode = false := by simpa using hf
    simp only []
    generalize parseBefore sv p.rules (skipWhiteSpace sv p.rules (p.ruleIndex + 1)) = b
    by_cases hi : b.1 ≥ p.rules.length
    · rw [if_pos hi]; exact hPQ _ (hS.err _ _ h)
    · rw [if_neg hi]
      have hrp := resetTailoringStrings_stable sv P hS p h
      have hrules : (resetTailoringStrings p).rules = p.rules := rfl
      by_cases h5b : charAt (resetTailoringStrings p).rules b.1 = 0x5b
      · rw [if_pos h5b]
        apply hidx _ _ (hS.sink _ _ (parseSpecialPosition_stable sv P hS _ _ hrp))
        intro _
        exact parseSpecialPosition_le sv b.1 (resetTailoringStrings p) (by rw [hrules]; omega)
      · rw [if_neg h5b]
        apply hidx _ _ (hS.sink _ _ (hS.str _ _ (parseTailoringString_stable sv P hS _ _ hrp)))
        intro hok
        have hok2 := callSink_of_ok sv _ _ hok
        exact parseTailoringString_le sv b.1 (resetTailoringStrings p) hu h0 hok2

theorem parseRelationTail_stable (sv : Services) (P Q : Parser → Prop)
    (hS : ScanStable sv P) (R : List Nat)
    (hidx : ∀ (x : Parser) (j : Nat), P x →
      (U_FAILURE x.errorCode = false → j ≤ R.length) → Q { x with ruleIndex := j })
    (hu : ∀ u ∈ R, u < 0x10000) (strength : Int) (i next : Nat) (p : Parser)
    (hR : p.rules = R) (h0 : U_FAILURE p.errorCode = false) (hi : i ≤ R.length) (h : P p) :
    Q (parseRelationTail sv strength i next p) := by
  subst hR
  unfold parseRelationTail
  simp only []
  by_cases hn : next = 0x2f
  · rw [if_pos hn]
    apply hidx _ _ (hS.sink _ _ (hS.extension _ _
      (parseTailoringString_stable sv P hS _ _ (hS.str _ _ h))))
    intro hok
    have hok2 := callSink_of_ok sv _ _ hok
    exact parseTailoringString_le sv (i + 1)
      { p with str := normalize sv.fccNormalize p.raw p.errorCode } hu h0 hok2
  · rw [if_neg hn]
    exact hidx _ _ (hS.sink _ _ (hS.str _ _ h)) (fun _ => hi)

/-- what the strings of a relation keep -/
theorem parseRelationStrings_stable (sv : Services) (P Q : Parser → Prop)
    (hS : ScanStable sv P) (p : Parser) (hPQ : ∀ x, P x → Q x)
    (hidx : ∀ (x : Parser) (j : Nat), P x →
      (U_FAILURE x.errorCode = false → j ≤ p.rules.length) → Q { x with ruleIndex := j })
    (hu : ∀ u ∈ p.rules, u < 0x10000) (h0 : U_FAILURE p.errorCode = false)
    (strength : Int) (i : Nat) (h : P p) :
    Q (parseRelationStrings sv strength i p) := by
  unfold parseRelationStrings
  simp only []
  have h1 := parseTailoringString_stable sv P hS i _ (resetTailoringStrings_stable sv P hS p h)
  have hr1 := rules_parseTailoringString sv i (resetTailoringStrings p)
  have hl1 := parseTailoringString_le sv i (resetTailoringStrings p) hu h0
  generalize parseTailoringString sv i (resetTailoringStrings p) = r1 at h1 hr1 hl1
  have hr1' : r1.2.rules = p.rules := hr1
  by_cases hf1 : U_FAILURE r1.2.errorCode = true
  · rw [if_pos hf1]; exact hPQ _ h1
  · rw [if_neg hf1]
    have hok1 : U_FAILURE r1.2.errorCode = false := by simpa using hf1
    have hi1 : r1.1 ≤ p.rules.length := hl1 hok1
    by_cases hbar : (if r1.1 < r1.2.rules.length then charAt r1.2.rules r1.1 else 0) = 0x7c
    · rw [if_pos hbar]
      have h2 := parseTailoringString_stable sv P hS (r1.1 + 1) _
        (hS.pfx _ (normalize sv.fccNormalize r1.2.raw r1.2.errorCode) h1)
      have hr2 := rules_parseTailoringString sv (r1.1 + 1)
        { r1.2 with pfx := normalize sv.fccNormalize r1.2.raw r1.2.errorCode }
      have hl2 := parseTailoringString_le sv (r1.1 + 1)
        { r1.2 with pfx := normalize sv.fccNormalize r1.2.raw r1.2.errorCode }
        (by rw [show ({ r1.2 with pfx := normalize sv.fccNormalize r1.2.raw r1.2.errorCode } :
          Parser).rules = p.rules from hr1']; exact hu) hok1
      generalize parseTailoringString sv (r1.1 + 1)
        { r1.2 with pfx := normalize sv.fccNormalize r1.2.raw r1.2.errorCode } = r2
        at h2 hr2 hl2
      have hr2' : r2.2.rules = p.rules := hr2.trans hr1'
      by_cases hf2 : U_FAILURE r2.2.errorCode = true
      · rw [if_pos hf2]; exact hPQ _ h2
      · rw [if_neg hf2]
        have hok2 : U_FAILURE r2.2.errorCode = false := by simpa using hf2
        have hi2 : r2.1 ≤ p.rules.length := by
          have := hl2 hok2
          rw [show ({ r1.2 with pfx := normalize sv.fccNormalize r1.2.raw r1.2.errorCode } :
            Parser).rules = p.rules from hr1'] at this
          exact this
        exact parseRelationTail_stable sv P Q hS p.rules hidx hu strength r2.1 _ r2.2 hr2'
          hok2 hi2 h2
    · rw [if_neg hbar]
      exact parseRelationTail_stable sv P Q hS p.rules hidx hu strength r1.1 _ r1.2 hr1'
        hok1 hi1 h1

/-- what the characters of a starred relation keep -/
theorem parseStarredCharacters_stable (sv : Services) (P Q : Parser → Prop)
    (hS : ScanStable sv P) (p : Parser) (hPQ : ∀ x, P x → Q x)
    (hidx : ∀ (x : Parser) (j : Nat), P x →
      (U_FAILURE x.errorCode = false → j ≤ p.rules.length) → Q { x with ruleIndex := j })
    (hu : ∀ u ∈ p.rules, u < 0x10000) (h0 : U_FAILURE p.errorCode = false)
    (strength : Int) (i : Nat) (h : P p) :
    Q (parseStarredCharacters sv strength i p) := by
  unfold parseStarredCharacters
  simp only []
  have h1 := parseString_stable sv P hS i true _ (resetTailoringStrings_stable sv P hS p h)
  have hl1 := parseString_le sv i true (resetTailoringStrings p) hu h0
  generalize parseString sv i true (resetTailoringStrings p) = r at h1 hl1
  by_cases hf : U_FAILURE r.2.errorCode = true
  · rw [if_pos hf]; exact hPQ _ h1
  · rw [if_neg hf]
    have hok : U_FAILURE r.2.errorCode = false := by simpa using hf
    have h2 := parseStarredLoop_stable sv P hS strength r.2.raw.length 0 (-1) r.2 h1
    generalize parseStarredLoop sv strength r.2.raw.length 0 (-1) r.2 = res at h2
    obtain ⟨b, q⟩ := res
    cases b with
    | true => exact hPQ _ h2
    | false => exact hidx _ _ h2 (fun _ => hl1 hok)


theorem setFlag_stable (sv : Services) (P : Parser → Prop) (hS : SettingStable sv P)
    (bit : Flag) (value : Int) (p : Parser) (h : P p) : P (setFlag bit value p) := by
  unfold setFlag
  split
  · exact h
  · split
    · cases bit <;> exact hS.settings _ _ h
    · exact h

theorem setStrength_stable (sv : Services) (P : Parser → Prop) (hS : SettingStable sv P)
    (value : Int) (p : Parser) (h : P p) : P (setStrength value p) := by
  unfold setStrength
  split
  · exact h
  · exact hS.settings _ _ h

theorem setAlternateHandling_stable (sv : Services) (P : Parser → Prop)
    (hS : SettingStable sv P) (value : Int) (p : Parser) (h : P p) :
    P (setAlternateHandling value p) := by
  unfold setAlternateHandling
  split
  · exact h
  · exact hS.settings _ _ h

theorem setCaseFirst_stable (sv : Services) (P : Parser → Prop) (hS : SettingStable sv P)
    (value : Int) (p : Parser) (h : P p) : P (setCaseFirst value p) := by
  unfold setCaseFirst
  split
  · exact h
  · exact hS.settings _ _ h

theorem parseReorderingLoop_stable (sv : Services) (P : Parser → Prop)
    (hS : SettingStable sv P) :
    ∀ (fuel i : Nat) (codes : List Int) (p : Parser), P p →
      P (parseReorderingLoop sv fuel i codes p).2.2 := by
  intro fuel
  induction fuel with
  | zero => intro i codes p h; exact h
  | succ n ih =>
    intro i codes p h
    rw [parseReorderingLoop]
    split
    · simp only []
      split
      · exact hS.code _ _ (by decide) h
      · split
        · exact hS.scan.err _ _ h
        · exact ih _ _ p h
    · exact h

theorem parseReordering_stable (sv : Services) (P : Parser → Prop) (hS : SettingStable sv P)
    (hmake : ∀ codes e, (sv.makeReorderTable codes).2 = some e → e ≠ UErrorCode.U_PARSE_ERROR)
    (p : Parser) (h : P p) : P (parseReordering sv p) := by
  unfold parseReordering
  split
  · exact h
  · simp only []
    split
    · exact hS.settings _ _ (hS.settings _ _ h)
    · have hl := parseReorderingLoop_stable sv P hS p.raw.length 7 []
        { p with settings := { p.settings with reorderCodes := none, reorderCodesLength := 0 } }
        (hS.settings _ _ h)
      generalize parseReorderingLoop sv p.raw.length 7 []
        { p with settings := { p.settings with reorderCodes := none, reorderCodesLength := 0 } } =
        r at hl
      obtain ⟨b, codes, q⟩ := r
      cases b with
      | true => exact hS.settings _ _ hl
      | false =>
        simp only []
        split
        · exact hS.settings _ _ hl
        · cases hm : (sv.makeReorderTable codes).2 with
          | none =>
            dsimp only
            exact hS.settings _ _ (hS.settings _ _ hl)
          | some e =>
            dsimp only
            exact hS.settings
              { { q with settings := { q.settings with
                    reorderCodes := some codes,
                    reorderTable := some (sv.makeReorderTable codes).1 } } with
                errorCode := e } _
              (hS.code
                { q with settings := { q.settings with
                    reorderCodes := some codes,
                    reorderTable := some (sv.makeReorderTable codes).1 } } e
                (hmake codes e hm) (hS.settings q _ hl))

theorem parseUnicodeSet_stable (sv : Services) (P : Parser → Prop) (hS : SettingStable sv P)
    (fuel i : Nat) (p : Parser) (j : Nat) (set : List Nat) (q : Parser)
    (hq : parseUnicodeSet sv fuel i p = some (j, set, q)) (h : P p) : P q := by
  unfold parseUnicodeSet at hq
  split at hq
  · cases hq
  · cases hq; exact hS.scan.err _ _ h
  · split at hq
    · cases hq
      exact hS.scan.err _ _ (hS.code _ _ (by decide) h)
    · simp only [] at hq
      split at hq
      · cases hq; exact hS.scan.err _ _ h
      · cases hq; exact h

/-- a set pattern that is read without a failure ends inside `raw` -/
theorem parseUnicodeSet_le (sv : Services) (fuel i : Nat) (p : Parser) (j : Nat)
    (set : List Nat) (q : Parser) (hq : parseUnicodeSet sv fuel i p = some (j, set, q))
    (hok : U_FAILURE q.errorCode = false) : j ≤ p.raw.length := by
  unfold parseUnicodeSet at hq
  split at hq
  · cases hq
  · cases hq
    rw [U_FAILURE_setParseError] at hok; cases hok
  · split at hq
    · cases hq
      rw [U_FAILURE_setParseError] at hok; cases hok
    · simp only [] at hq
      split at hq
      · cases hq
        rw [U_FAILURE_setParseError] at hok; cases hok
      · next hc =>
        cases hq
        simp only [Bool.or_eq_true, decide_eq_true_eq, not_or, bne_iff_ne, ne_eq,
          Decidable.not_not] at hc
        have := lt_length_of_charAt _ _ _ hc.2 (by decide)
        omega

theorem parseImport_stable (sv : Services) (P : Parser → Prop) (hS : SettingStable sv P)
    (himp : sv.importer = none) (parseRec : List Nat → Parser → Option Parser)
    (j : Nat) (v : List Nat) (p q : Parser) (hq : parseImport sv parseRec j v p = some q)
    (h : P p) : P q := by
  unfold parseImport at hq
  split at hq
  · cases hq
    exact hS.scan.err _ _ (hS.code _ _ (by decide) h)
  · rw [himp] at hq
    cases hq
    exact hS.scan.err _ _ h


theorem readWordsLoop_raw_length (sv : Services) :
    ∀ (fuel i : Nat) (p : Parser), p.raw.length ≤ i → i ≤ p.rules.length →
      (readWordsLoop sv fuel i p).2.raw.length ≤ p.rules.length := by
  intro fuel
  induction fuel with
  | zero => intro i p h1 h2; exact Nat.le_trans h1 h2
  | succ n ih =>
    intro i p h1 h2
    rw [readWordsLoop]
    split
    · exact Nat.le_trans h1 h2
    · next hi =>
      simp only []
      split
      · split
        · exact Nat.le_trans h1 h2
        · split
          · show p.raw.dropLast.length ≤ _
            rw [List.length_dropLast]
            omega
          · exact Nat.le_trans h1 h2
      · split
        · have hb := skipWhiteSpace_bounds sv p.rules (i + 1)
          exact ih _ { p with raw := p.raw ++ [0x20] }
            (by show (p.raw ++ [0x20]).length ≤ _; rw [List.length_append]; simp; omega)
            (hb.2 (by omega))
        · exact ih _ { p with raw := p.raw ++ [charAt p.rules i] }
            (by show (p.raw ++ [charAt p.rules i]).length ≤ _
                rw [List.length_append]; simp; omega)
            (by show i + 1 ≤ p.rules.length; omega)

theorem readWords_raw_length (sv : Services) (i : Nat) (p : Parser)
    (hi : i ≤ p.rules.length) : (readWords sv i p).2.raw.length ≤ p.rules.length := by
  unfold readWords
  simp only []
  exact readWordsLoop_raw_length sv _ _ { p with raw := [] } (Nat.zero_le _)
    ((skipWhiteSpace_bounds sv p.rules i).2 hi)

/-- what the name/value branches of `parseSetting` keep, without an importer -/
theorem nameValue_stable (sv : Services) (P Q : Parser → Prop) (hS : SettingStable sv P)
    (himp : sv.importer = none) (parseRec : List Nat → Parser → Option Parser)
    (j : Nat) (q0 : Parser) (v : List Nat) (q : Parser)
    (hPQ : ∀ x, P x → Q x) (hidx : ∀ x, P x → Q { x with ruleIndex := j })
    (h : (if q0.raw = ustr "strength" ∧ v.length = 1 then
      let c := charAt v 0
      let value : Int :=
        if 0x31 ≤ c ∧ c ≤ 0x34 then UCOL_PRIMARY + ((c : Int) - 0x31)
        else if c = 0x49 then UCOL_IDENTICAL
        else UCOL_DEFAULT
      if value ≠ UCOL_DEFAULT then some (some { setStrength value q0 with ruleIndex := j })
      else some none
    else if q0.raw = ustr "alternate" then
      let value : Int :=
        if v = ustr "non-ignorable" then UCOL_NON_IGNORABLE
        else if v = ustr "shifted" then UCOL_SHIFTED
        else UCOL_DEFAULT
      if value ≠ UCOL_DEFAULT then
        some (some { setAlternateHandling value q0 with ruleIndex := j })
      else some none
    else if q0.raw = ustr "caseFirst" then
      let value : Int :=
        if v = ustr "off" then UCOL_OFF
        else if v = ustr "lower" then UCOL_LOWER_FIRST
        else if v = ustr "upper" then UCOL_UPPER_FIRST
        else UCOL_DEFAULT
      if value ≠ UCOL_DEFAULT then some (some { setCaseFirst value q0 with ruleIndex := j })
      else some none
    else if q0.raw = ustr "caseLevel" then
      let value := getOnOffValue v
      if value ≠ UCOL_DEFAULT then
        some (some { setFlag Flag.CASE_LEVEL value q0 with ruleIndex := j })
      else some none
    else if q0.raw = ustr "normalization" then
      let value := getOnOffValue v
      if value ≠ UCOL_DEFAULT then
        some (some { setFlag Flag.CHECK_FCD value q0 with ruleIndex := j })
      else some none
    else if q0.raw = ustr "numericOrdering" then
      let value := getOnOffValue v
      if value ≠ UCOL_DEFAULT then
        some (some { setFlag Flag.NUMERIC value q0 with ruleIndex := j })
      else some none
    else if q0.raw = ustr "hiraganaQ" then
      let value := getOnOffValue v
      if value ≠ UCOL_DEFAULT then
        let q0 :=
          if value = UCOL_ON then setParseError "[hiraganaQ on] is not supported" q0 else q0
        some (some { q0 with ruleIndex := j })
      else some none
    else if q0.raw = ustr "import" then (parseImport sv parseRec j v q0).map some
    else some none) = some (some q)) (hp : P q0) : Q q := by
  by_cases h1 : q0.raw = ustr "strength" ∧ v.length = 1
  · rw [if_pos h1] at h
    have hq := ite_some_some h
    subst hq
    exact hidx _ (setStrength_stable sv P hS _ q0 hp)
  rw [if_neg h1] at h
  by_cases h2 : q0.raw = ustr "alternate"
  · rw [if_pos h2] at h
    have hq := ite_some_some h
    subst hq
    exact hidx _ (setAlternateHandling_stable sv P hS _ q0 hp)
  rw [if_neg h2] at h
  by_cases h3 : q0.raw = ustr "caseFirst"
  · rw [if_pos h3] at h
    have hq := ite_some_some h
    subst hq
    exact hidx _ (setCaseFirst_stable sv P hS _ q0 hp)
  rw [if_neg h3] at h
  by_cases h4 : q0.raw = ustr "caseLevel"
  · rw [if_pos h4] at h
    have hq := ite_some_some h
    subst hq
    exact hidx _ (setFlag_stable sv P hS _ _ q0 hp)
  rw [if_neg h4] at h
  by_cases h5 : q0.raw = ustr "normalization"
  · rw [if_pos h5] at h
    have hq := ite_some_some h
    subst hq
    exact hidx _ (setFlag_stable sv P hS _ _ q0 hp)
  rw [if_neg h5] at h
  by_cases h6 : q0.raw = ustr "numericOrdering"
  · rw [if_pos h6] at h
    have hq := ite_some_some h
    subst hq
    exact hidx _ (setFlag_stable sv P hS _ _ q0 hp)
  rw [if_neg h6] at h
  by_cases h7 : q0.raw = ustr "hiraganaQ"
  · rw [if_pos h7] at h
    have hq := ite_some_some h
    subst hq
    apply hidx
    split
    · exact hS.scan.err _ _ hp
    · exact hp
  rw [if_neg h7] at h
  by_cases h8 : q0.raw = ustr "import"
  · rw [if_pos h8] at h
    cases hx : parseImport sv parseRec j v q0 with
    | none => rw [hx] at h; cases h
    | some x =>
      rw [hx] at h
      cases h
      exact hPQ _ (parseImport_stable sv P hS himp parseRec j v q0 _ hx hp)
  · rw [if_neg h8] at h
    cases h

theorem parseNameValue_stable (sv : Services) (P Q : Parser → Prop) (hS : SettingStable sv P)
    (himp : sv.importer = none) (parseRec : List Nat → Parser → Option Parser)
    (j : Nat) (p q : Parser)
    (hPQ : ∀ x, P x → Q x) (hidx : ∀ x, P x → Q { x with ruleIndex := j })
    (h : parseNameValue sv parseRec j p = some (some q)) (hp : P p) : Q q := by
  unfold parseNameValue at h
  cases hl : lastIndexOf p.raw 0x20 with
  | none =>
    simp only [hl] at h
    exact nameValue_stable sv P Q hS himp parseRec j p [] q hPQ hidx h hp
  | some k =>
    simp only [hl] at h
    exact nameValue_stable sv P Q hS himp parseRec j { p with raw := p.raw.take k }
      (p.raw.drop (k + 1)) q hPQ hidx h (hS.scan.raw _ _ hp)

/-- what a setting keeps, without an importer: `P` holds while the setting is scanned, `Q`
after the cursor is moved; the cursor is moved to an offset inside the text unless the setting
failed -/
theorem parseSetting_stable (sv : Services) (P Q : Parser → Prop) (hS : SettingStable sv P)
    (himp : sv.importer = none)
    (hmake : ∀ codes e, (sv.makeReorderTable codes).2 = some e → e ≠ UErrorCode.U_PARSE_ERROR)
    (fuel : Nat) (parseRec : List Nat → Parser → Option Parser) (p q : Parser)
    (hPQ : ∀ x, P x → Q x)
    (hidx : ∀ (x : Parser) (j : Nat), P x →
      (U_FAILURE x.errorCode = false → j ≤ p.rules.length) → Q { x with ruleIndex := j })
    (hi : p.ruleIndex < p.rules.length)
    (h : parseSetting sv fuel parseRec p = some q) (hp : P p) : Q q := by
  unfold parseSetting at h
  split at h
  · cases h; exact hPQ _ hp
  · simp only [] at h
    have hr := readWords_stable sv P hS.scan (p.ruleIndex + 1) p hp
    have hrules : (readWords sv (p.ruleIndex + 1) p).2.rules = p.rules := by
      rw [readWords_frame]
    have hrawlen := readWords_raw_length sv (p.ruleIndex + 1) p (by omega)
    have hp1 : P (if (readWords sv (p.ruleIndex + 1) p).1 ≤ p.ruleIndex + 1 ∨
          (readWords sv (p.ruleIndex + 1) p).2.raw.isEmpty = true then
        setParseError "expected a setting/option at '['" (readWords sv (p.ruleIndex + 1) p).2
        else (readWords sv (p.ruleIndex + 1) p).2) := by
      split
      · exact hS.scan.err _ _ hr
      · exact hr
    have hp1rules : (if (readWords sv (p.ruleIndex + 1) p).1 ≤ p.ruleIndex + 1 ∨
          (readWords sv (p.ruleIndex + 1) p).2.raw.isEmpty = true then
        setParseError "expected a setting/option at '['" (readWords sv (p.ruleIndex + 1) p).2
        else (readWords sv (p.ruleIndex + 1) p).2).rules = p.rules := by
      split
      · rw [(settings_setParseError _ _).2.2, hrules]
      · exact hrules
    have hp1raw : (if (readWords sv (p.ruleIndex + 1) p).1 ≤ p.ruleIndex + 1 ∨
          (readWords sv (p.ruleIndex + 1) p).2.raw.isEmpty = true then
        setParseError "expected a setting/option at '['" (readWords sv (p.ruleIndex + 1) p).2
        else (readWords sv (p.ruleIndex + 1) p).2).raw.length ≤ p.rules.length := by
      split
      · rw [raw_setParseError]; exact hrawlen
      · exact hrawlen
    generalize (if (readWords sv (p.ruleIndex + 1) p).1 ≤ p.ruleIndex + 1 ∨
          (readWords sv (p.ruleIndex + 1) p).2.raw.isEmpty = true then
        setParseError "expected a setting/option at '['" (readWords sv (p.ruleIndex + 1) p).2
        else (readWords sv (p.ruleIndex + 1) p).2) = p1 at h hp1 hp1rules hp1raw
    generalize (readWords sv (p.ruleIndex + 1) p).1 = j at h
    by_cases hclose : charAt p1.rules j = 0x5d
    · rw [if_pos hclose] at h
      have hj : j + 1 ≤ p.rules.length := by
        have := lt_length_of_charAt _ _ _ hclose (by decide)
        rw [hp1rules] at this
        omega
      split at h
      · cases h
        exact hidx _ _ (parseReordering_stable sv P hS hmake p1 hp1) (fun _ => hj)
      · split at h
        · cases h
          exact hidx _ _ (setFlag_stable sv P hS _ _ p1 hp1) (fun _ => hj)
        · split at h
          · cases h
          · next x hx =>
            cases h
            exact parseNameValue_stable sv P Q hS himp parseRec (j + 1) p1 _ hPQ
              (fun y hy => hidx y (j + 1) hy (fun _ => hj)) hx hp1
          · cases h
            apply hPQ
            apply hS.scan.err
            split
            · exact hS.scan.raw _ _ hp1
            · exact hp1
    · rw [if_neg hclose] at h
      split at h
      · split at h
        · cases h
        · next j2 set p2 hu =>
          have hp2 := parseUnicodeSet_stable sv P hS fuel j p1 j2 set p2 hu hp1
          have hj2 : U_FAILURE p2.errorCode = false → j2 ≤ p.rules.length := fun hok =>
            Nat.le_trans (parseUnicodeSet_le sv fuel j p1 j2 set p2 hu hok) hp1raw
          split at h
          · cases h
            exact hidx { p2 with optimizeSet := p2.optimizeSet ++ set } j2
              (hS.optimizeSet p2 _ hp2) hj2
          · split at h
            · cases h
              exact hidx _ _ (hS.scan.sink _ _ hp2) (fun hok => hj2 (callSink_of_ok sv _ _ hok))
            · cases h
              exact hPQ _ (hS.scan.err _ _ hp2)
      · cases h
        exact hPQ _ (hS.scan.err _ _ hp1)


theorem ne_parseError_of_ok (x : Parser) (h : U_FAILURE x.errorCode = false) :
    x.errorCode ≠ UErrorCode.U_PARSE_ERROR := by
  intro e
  rw [e] at h
  cases h

/-- the `UParseError` stays consistent with the token that starts at `k` while the token is
scanned, when the sink does not report `U_PARSE_ERROR` itself -/
theorem settingStable_scanningAt (sv : Services)
    (hsink : ∀ cs c e r, sv.sink cs c = some (e, r) → e ≠ UErrorCode.U_PARSE_ERROR)
    (B : Prop) (R : List Nat) (k : Nat) (hk : B → k ≤ R.length) :
    SettingStable sv (scanningAt B R k) :=
  { scan :=
      { raw := fun _ _ h => h
        pfx := fun _ _ h => h
        str := fun _ _ h => h
        extension := fun _ _ h => h
        err := by
          intro x r h
          cases hf : U_FAILURE x.errorCode
          · obtain ⟨⟨hR, e, he, _, _⟩, hidx⟩ := h
            have hoff := parseError_setParseError r x hf (by rw [he]; rfl)
            obtain ⟨e1, he1, hoff1⟩ := Option.map_eq_some'.mp hoff
            refine ⟨⟨by rw [(settings_setParseError r x).2.2]; exact hR, e1, he1, ?_, ?_⟩,
              by rw [(settings_setParseError r x).2.1]; exact hidx⟩
            · intro hB
              rw [hoff1, hidx]
              exact ⟨Int.ofNat_nonneg _, Int.ofNat_le.mpr (hk hB)⟩
            · intro _
              rw [hoff1, hidx]
          · rw [setParseError_of_failure r x hf]; exact h
        sink := by
          intro x c h
          obtain ⟨⟨hR, e, he, hb, hp⟩, hidx⟩ := h
          unfold callSink
          simp only []
          split
          · exact ⟨⟨hR, e, he, hb, hp⟩, hidx⟩
          · next hf =>
            split
            · exact ⟨⟨hR, e, he, hb, hp⟩, hidx⟩
            · next e1 r1 hs =>
              exact ⟨⟨hR, e, he, hb, fun hc => absurd hc (hsink _ _ _ _ hs)⟩, hidx⟩ }
    settings := fun _ _ h => h
    optimizeSet := fun _ _ h => h
    code := by
      intro x e hne h
      obtain ⟨⟨hR, e1, he1, hb, _⟩, hidx⟩ := h
      exact ⟨⟨hR, e1, he1, hb, fun hc => absurd hc hne⟩, hidx⟩ }

/-- a state without failure is consistent with a token that starts at its cursor -/
theorem scanningAt_of_ok (B : Prop) (p : Parser) (e0 : UParseError)
    (h0 : U_FAILURE p.errorCode = false) (hpe : p.parseError = some e0)
    (hb : B → 0 ≤ e0.offset ∧ e0.offset ≤ (p.rules.length : Int)) :
    scanningAt B p.rules p.ruleIndex p :=
  ⟨⟨rfl, e0, hpe, hb, fun hc => absurd hc (ne_parseError_of_ok p h0)⟩, rfl⟩

theorem offset_of_recordedAt (B : Prop) (R : List Nat) (k : Nat) (q : Parser)
    (h : recordedAt B R k q) (hc : q.errorCode = UErrorCode.U_PARSE_ERROR) :
    q.parseError.map UParseError.offset = some (k : Int) := by
  obtain ⟨_, e, he, _, hp⟩ := h
  rw [he]
  show some e.offset = _
  rw [hp hc]

/-- while a token is scanned without a failure, the `UParseError` is not written -/
theorem scanStable_untouched (sv : Services) (e0 : UParseError) :
    ScanStable sv (fun x => U_FAILURE x.errorCode = false → x.parseError = some e0) :=
  { raw := fun _ _ h => h
    pfx := fun _ _ h => h
    str := fun _ _ h => h
    extension := fun _ _ h => h
    err := by
      intro x r _ hok
      rw [U_FAILURE_setParseError] at hok
      cases hok
    sink := by
      intro x c h hok
      have hx := callSink_of_ok sv c x hok
      have : (callSink sv c x).parseError = x.parseError := by
        unfold callSink
        simp only []
        split
        · rfl
        · split <;> rfl
      rw [this]
      exact h hx }


theorem errorWithin_of_scanningAt (R : List Nat) (k : Nat) (hk : k ≤ R.length) (x : Parser)
    (h : scanningAt True R k x) : errorWithin R x := by
  obtain ⟨⟨hR, e, he, hb, _⟩, hidx⟩ := h
  exact ⟨hR, ⟨e, he, hb trivial⟩, fun _ => by rw [hidx]; exact hk⟩

theorem errorWithin_ruleIndex (R : List Nat) (k : Nat) (x : Parser) (j : Nat)
    (h : scanningAt True R k x) (hj : U_FAILURE x.errorCode = false → j ≤ R.length) :
    errorWithin R { x with ruleIndex := j } := by
  obtain ⟨⟨hR, e, he, hb, _⟩, _⟩ := h
  exact ⟨hR, ⟨e, he, hb trivial⟩, hj⟩

theorem scanningAt_of_within (R : List Nat) (p : Parser) (h : errorWithin R p)
    (h0 : U_FAILURE p.errorCode = false) : scanningAt True R p.ruleIndex p := by
  obtain ⟨hR, ⟨e, he, hb⟩, _⟩ := h
  exact ⟨⟨hR, e, he, fun _ => hb, fun hc => absurd hc (ne_parseError_of_ok p h0)⟩, rfl⟩

/-- the loop of a rule chain stays inside the text -/
theorem parseRuleChainLoop_within (sv : Services)
    (hsink : ∀ cs c e r, sv.sink cs c = some (e, r) → e ≠ UErrorCode.U_PARSE_ERROR)
    (R : List Nat) (hu : ∀ u ∈ R, u < 0x10000) (B : Int) :
    ∀ (fuel : Nat) (isFirst : Bool) (p : Parser), errorWithin R p →
      errorWithin R (parseRuleChainLoop sv B fuel isFirst p) := by
  intro fuel
  induction fuel with
  | zero => intro isFirst p h; exact h
  | succ n ih =>
    intro isFirst p h
    rw [parseRuleChainLoop]
    simp only []
    by_cases hf : U_FAILURE p.errorCode = true
    · rw [if_pos hf]; exact h
    · rw [if_neg hf]
      have h0 : U_FAILURE p.errorCode = false := by simpa using hf
      have hR : p.rules = R := h.1
      have hk : p.ruleIndex ≤ R.length := h.2.2 h0
      have hsc := scanningAt_of_within R p h h0
      have hS := settingStable_scanningAt sv hsink True R p.ruleIndex (fun _ => hk)
      have herr : ∀ reason, errorWithin R (setParseError reason p) := fun reason =>
        errorWithin_of_scanningAt R p.ruleIndex hk _ (hS.scan.err _ reason hsc)
      by_cases hno : parseRelationOperator p = NO_RELATION
      · rw [if_pos hno]
        split
        · next hc =>
          simp only [Bool.and_eq_true, decide_eq_true_eq] at hc
          apply ih
          refine ⟨hR, h.2.1, fun _ => ?_⟩
          show skipWhiteSpace sv p.rules (skipComment p.rules (p.ruleIndex + 1)) ≤ R.length
          rw [← hR]
          exact (skipWhiteSpace_bounds sv p.rules _).2
            ((skipComment_bounds p.rules _).2 (by omega))
        · split
          · exact herr _
          · exact h
      · rw [if_neg hno]
        generalize Int.land (parseRelationOperator p) STRENGTH_MASK = strength
        split
        · exact herr _
        · have hq : errorWithin R (if Int.land (parseRelationOperator p) 0x10 = 0 then
              parseRelationStrings sv strength
                (p.ruleIndex + (parseRelationOperator p >>> 8).toNat) p
            else parseStarredCharacters sv strength
                (p.ruleIndex + (parseRelationOperator p >>> 8).toNat) p) := by
            split
            · exact parseRelationStrings_stable sv (scanningAt True R p.ruleIndex)
                (errorWithin R) hS.scan p (errorWithin_of_scanningAt R p.ruleIndex hk)
                (fun x j hx hj => errorWithin_ruleIndex R p.ruleIndex x j hx
                  (by rw [← hR]; exact hj))
                (by rw [hR]; exact hu) h0 strength _ hsc
            · exact parseStarredCharacters_stable sv (scanningAt True R p.ruleIndex)
                (errorWithin R) hS.scan p (errorWithin_of_scanningAt R p.ruleIndex hk)
                (fun x j hx hj => errorWithin_ruleIndex R p.ruleIndex x j hx
                  (by rw [← hR]; exact hj))
                (by rw [hR]; exact hu) h0 strength _ hsc
          generalize (if Int.land (parseRelationOperator p) 0x10 = 0 then
              parseRelationStrings sv strength
                (p.ruleIndex + (parseRelationOperator p >>> 8).toNat) p
            else parseStarredCharacters sv strength
                (p.ruleIndex + (parseRelationOperator p >>> 8).toNat) p) = q at hq
          split
          · exact hq
          · exact ih false q hq

theorem parseRuleChain_within (sv : Services)
    (hsink : ∀ cs c e r, sv.sink cs c = some (e, r) → e ≠ UErrorCode.U_PARSE_ERROR)
    (R : List Nat) (hu : ∀ u ∈ R, u < 0x10000) (p : Parser) (h : errorWithin R p)
    (h0 : U_FAILURE p.errorCode = false) : errorWithin R (parseRuleChain sv p) := by
  have hR : p.rules = R := h.1
  have hk : p.ruleIndex ≤ R.length := h.2.2 h0
  have hsc := scanningAt_of_within R p h h0
  have hS := settingStable_scanningAt sv hsink True R p.ruleIndex (fun _ => hk)
  have hr := parseResetAndPosition_stable sv (scanningAt True R p.ruleIndex) (errorWithin R)
    hS.scan p (errorWithin_of_scanningAt R p.ruleIndex hk)
    (fun x j hx hj => errorWithin_ruleIndex R p.ruleIndex x j hx (by rw [← hR]; exact hj))
    (by rw [hR]; exact hu) hsc
  unfold parseRuleChain
  simp only []
  exact parseRuleChainLoop_within sv hsink R hu _ _ _ _ hr

/-- the top-level loop stays inside the text, without an importer -/
theorem parseLoop_within (sv : Services)
    (hsink : ∀ cs c e r, sv.sink cs c = some (e, r) → e ≠ UErrorCode.U_PARSE_ERROR)
    (hmake : ∀ codes e, (sv.makeReorderTable codes).2 = some e → e ≠ UErrorCode.U_PARSE_ERROR)
    (himp : sv.importer = none) (R : List Nat) (hu : ∀ u ∈ R, u < 0x10000) :
    ∀ (fuel : Nat) (p q : Parser), errorWithin R p → U_FAILURE p.errorCode = false →
      parseLoop sv fuel p = some q → errorWithin R q := by
  intro fuel
  induction fuel with
  | zero => intro p q _ _ h; simp [parseLoop] at h
  | succ n ih =>
    intro p q hw h0 h
    have hR : p.rules = R := hw.1
    rw [parseLoop] at h
    by_cases hi : p.ruleIndex < p.rules.length
    · rw [if_pos hi] at h
      simp only [] at h
      have hk : p.ruleIndex ≤ R.length := by rw [← hR]; omega
      by_cases hws : sv.isWhiteSpace (charAt p.rules p.ruleIndex) = true
      · rw [if_pos hws] at h
        exact ih { p with ruleIndex := p.ruleIndex + 1 } q
          ⟨hR, hw.2.1, fun _ => by show p.ruleIndex + 1 ≤ R.length; rw [← hR]; omega⟩ h0 h
      · rw [if_neg hws] at h
        have hsc := scanningAt_of_within R p hw h0
        have hS := settingStable_scanningAt sv hsink True R p.ruleIndex (fun _ => hk)
        have hitem : ∀ x, (if charAt p.rules p.ruleIndex = 0x26 then some (parseRuleChain sv p)
            else if charAt p.rules p.ruleIndex = 0x5b then
              parseSetting sv n
                (fun ruleString q =>
                  if U_FAILURE q.errorCode then some q
                  else parseLoop sv n { q with rules := ruleString, ruleIndex := 0 }) p
            else if charAt p.rules p.ruleIndex = 0x23 then
              some { p with ruleIndex := skipComment p.rules (p.ruleIndex + 1) }
            else if charAt p.rules p.ruleIndex = 0x40 then
              some { setFlag Flag.BACKWARD_SECONDARY UCOL_ON p with
                ruleIndex := p.ruleIndex + 1 }
            else if charAt p.rules p.ruleIndex = 0x21 then
              some { p with ruleIndex := p.ruleIndex + 1 }
            else some (setParseError "expected a reset or setting or comment" p)) = some x →
            errorWithin R x := by
          intro x hx
          by_cases c1 : charAt p.rules p.ruleIndex = 0x26
          · rw [if_pos c1] at hx
            cases hx
            exact parseRuleChain_within sv hsink R hu p hw h0
          rw [if_neg c1] at hx
          by_cases c2 : charAt p.rules p.ruleIndex = 0x5b
          · rw [if_pos c2] at hx
            exact parseSetting_stable sv (scanningAt True R p.ruleIndex) (errorWithin R) hS
              himp hmake n _ p x (errorWithin_of_scanningAt R p.ruleIndex hk)
              (fun y j hy hj => errorWithin_ruleIndex R p.ruleIndex y j hy
                (by rw [← hR]; exact hj)) hi hx hsc
          rw [if_neg c2] at hx
          by_cases c3 : charAt p.rules p.ruleIndex = 0x23
          · rw [if_pos c3] at hx
            cases hx
            refine ⟨hR, hw.2.1, fun _ => ?_⟩
            show skipComment p.rules (p.ruleIndex + 1) ≤ R.length
            rw [← hR]
            exact (skipComment_bounds p.rules _).2 (by omega)
          rw [if_neg c3] at hx
          by_cases c4 : charAt p.rules p.ruleIndex = 0x40
          · rw [if_pos c4] at hx
            cases hx
            exact errorWithin_ruleIndex R p.ruleIndex _ _
              (setFlag_stable sv _ hS _ _ p hsc) (fun _ => by rw [← hR]; omega)
          rw [if_neg c4] at hx
          by_cases c5 : charAt p.rules p.ruleIndex = 0x21
          · rw [if_pos c5] at hx
            cases hx
            exact ⟨hR, hw.2.1, fun _ => by show p.ruleIndex + 1 ≤ R.length; rw [← hR]; omega⟩
          · rw [if_neg c5] at hx
            cases hx
            exact errorWithin_of_scanningAt R p.ruleIndex hk _ (hS.scan.err _ _ hsc)
        split at h
        · cases h
        · next r x hx =>
          have hxw := hitem x hx
          by_cases hxf : U_FAILURE x.errorCode = true
          · rw [if_pos hxf] at h
            cases h
            exact hxw
          · rw [if_neg hxf] at h
            exact ih x q hxw (by simpa using hxf) h
    · rw [if_neg hi] at h
      cases h
      exact hw


/-- C28 (the code at the failing inputs): a failure that is not reported through
`setParseError` leaves the `UParseError` as `parse` initialised it, with the offset 0, and not
at the token where the parse failed.  In `@[reorder X]` with X the letter U+00E9, which is not
an invariant character, the parse fails in the setting that starts at offset 1 with
`U_INVARIANT_CONVERSION_ERROR`; in `&a < b` with a sink that rejects `addRelation` the parse
fails in the relation whose operator is at offset 3. -/
theorem parseError_offset_not_recorded :
    Option.map (fun q => (q.errorCode, q.parseError.map UParseError.offset))
        (parse sampleServices 40 (ustr "@[reorder " ++ [0xe9] ++ ustr "]") sampleSettings true
          UErrorCode.U_ZERO_ERROR) =
      some (UErrorCode.U_INVARIANT_CONVERSION_ERROR, some 0) ∧
    charAt (ustr "@[reorder " ++ [0xe9] ++ ustr "]") 1 = 0x5b ∧
    Option.map (fun q => (q.errorCode, q.errorReason, q.parseError.map UParseError.offset))
        (parse
          { sampleServices with
            sink := fun _ c =>
              match c with
              | SinkCall.addRelation _ _ _ _ =>
                some (UErrorCode.U_ILLEGAL_ARGUMENT_ERROR, "rejected")
              | _ => none }
          40 (ustr "&a < b") sampleSettings true UErrorCode.U_ZERO_ERROR) =
      some (UErrorCode.U_ILLEGAL_ARGUMENT_ERROR, some "rejected", some 0) ∧
    charAt (ustr "&a < b") 3 = 0x3c := by
  decide

/-- the strings of a relation, read at an operator: the `UParseError` is at the cursor when
they fail with `U_PARSE_ERROR`, and is not written when they do not fail -/
theorem relation_outcome (sv : Services)
    (hsink : ∀ cs c e r, sv.sink cs c = some (e, r) → e ≠ UErrorCode.U_PARSE_ERROR)
    (p : Parser) (e0 : UParseError) (h0 : U_FAILURE p.errorCode = false)
    (hpe : p.parseError = some e0) (hu : ∀ u ∈ p.rules, u < 0x10000)
    (strength : Int) (i : Nat) (starred : Bool) :
    ∀ x, x = (if starred = false then parseRelationStrings sv strength i p
        else parseStarredCharacters sv strength i p) →
      (x.errorCode = UErrorCode.U_PARSE_ERROR →
        x.parseError.map UParseError.offset = some (p.ruleIndex : Int)) ∧
      (U_FAILURE x.errorCode = false → x.parseError = some e0) ∧ x.rules = p.rules := by
  intro x hx
  have hsc := scanningAt_of_ok False p e0 h0 hpe (fun h => h.elim)
  have hS := settingStable_scanningAt sv hsink False p.rules p.ruleIndex (fun h => h.elim)
  have hU := scanStable_untouched sv e0
  have hRl := scanStable_rules sv p.rules
  cases starred with
  | false =>
    rw [if_pos rfl] at hx
    rw [hx]
    refine ⟨?_, ?_, ?_⟩
    · exact offset_of_recordedAt False p.rules p.ruleIndex _
        (parseRelationStrings_stable sv _ (recordedAt False p.rules p.ruleIndex) hS.scan p
          (fun _ h => h.1) (fun _ _ h _ => h.1) hu h0 strength i hsc)
    · exact parseRelationStrings_stable sv _
        (fun x => U_FAILURE x.errorCode = false → x.parseError = some e0) hU p
        (fun _ h => h) (fun _ _ h _ => h) hu h0 strength i (fun _ => hpe)
    · exact parseRelationStrings_stable sv _ (fun x => x.rules = p.rules) hRl p
        (fun _ h => h) (fun _ _ h _ => h) hu h0 strength i rfl
  | true =>
    rw [if_neg (by decide)] at hx
    rw [hx]
    refine ⟨?_, ?_, ?_⟩
    · exact offset_of_recordedAt False p.rules p.ruleIndex _
        (parseStarredCharacters_stable sv _ (recordedAt False p.rules p.ruleIndex) hS.scan p
          (fun _ h => h.1) (fun _ _ h _ => h.1) hu h0 strength i hsc)
    · exact parseStarredCharacters_stable sv _
        (fun x => U_FAILURE x.errorCode = false → x.parseError = some e0) hU p
        (fun _ h => h) (fun _ _ h _ => h) hu h0 strength i (fun _ => hpe)
    · exact parseStarredCharacters_stable sv _ (fun x => x.rules = p.rules) hRl p
        (fun _ h => h) (fun _ _ h _ => h) hu h0 strength i rfl

/-- one iteration of the loop of a rule chain: it ends the loop with the `UParseError` at its
cursor, or it goes on to the next iteration from a state without failure -/
theorem parseRuleChainLoop_iteration (sv : Services)
    (hsink : ∀ cs c e r, sv.sink cs c = some (e, r) → e ≠ UErrorCode.U_PARSE_ERROR)
    (B : Int) (fuel : Nat) (isFirst : Bool) (p : Parser) (e0 : UParseError)
    (h0 : U_FAILURE p.errorCode = false) (hpe : p.parseError = some e0)
    (hu : ∀ u ∈ p.rules, u < 0x10000) :
    ((parseRuleChainLoop sv B (fuel + 1) isFirst p).errorCode = UErrorCode.U_PARSE_ERROR →
      (parseRuleChainLoop sv B (fuel + 1) isFirst p).parseError.map UParseError.offset =
        some (p.ruleIndex : Int)) ∨
    ∃ (next : Bool) (p1 : Parser), U_FAILURE p1.errorCode = false ∧
      p1.parseError = some e0 ∧ p1.rules = p.rules ∧
      parseRuleChainLoop sv B (fuel + 1) isFirst p = parseRuleChainLoop sv B fuel next p1 := by
  have herr : ∀ reason,
      (setParseError reason p).parseError.map UParseError.offset = some (p.ruleIndex : Int) :=
    fun reason => parseError_setParseError reason p h0 (by rw [hpe]; rfl)
  rw [parseRuleChainLoop]
  simp only []
  rw [if_neg (by simp [h0])]
  by_cases hno : parseRelationOperator p = NO_RELATION
  · rw [if_pos hno]
    split
    · right
      exact ⟨isFirst,
        { p with ruleIndex :=
          skipWhiteSpace sv p.rules (skipComment p.rules (p.ruleIndex + 1)) },
        h0, hpe, rfl, rfl⟩
    · split
      · left; intro _; exact herr _
      · left; intro hc; exact absurd hc (ne_parseError_of_ok p h0)
  · rw [if_neg hno]
    generalize Int.land (parseRelationOperator p) STRENGTH_MASK = strength
    split
    · left; intro _; exact herr _
    · have hq := relation_outcome sv hsink p e0 h0 hpe hu strength
        (p.ruleIndex + (parseRelationOperator p >>> 8).toNat)
        (decide (Int.land (parseRelationOperator p) 0x10 ≠ 0))
        (if Int.land (parseRelationOperator p) 0x10 = 0 then
          parseRelationStrings sv strength
            (p.ruleIndex + (parseRelationOperator p >>> 8).toNat) p
        else parseStarredCharacters sv strength
            (p.ruleIndex + (parseRelationOperator p >>> 8).toNat) p)
        (by by_cases hz : Int.land (parseRelationOperator p) 0x10 = 0 <;> simp [hz])
      generalize (if Int.land (parseRelationOperator p) 0x10 = 0 then
          parseRelationStrings sv strength
            (p.ruleIndex + (parseRelationOperator p >>> 8).toNat) p
        else parseStarredCharacters sv strength
            (p.ruleIndex + (parseRelationOperator p >>> 8).toNat) p) = q at hq
      by_cases hqf : U_FAILURE q.errorCode = true
      · rw [if_pos hqf]
        left
        exact hq.1
      · rw [if_neg hqf]
        right
        have hok : U_FAILURE q.errorCode = false := by simpa using hqf
        exact ⟨false, q, hok, hq.2.1 hok, hq.2.2, rfl⟩

/-- C28: where `setParseError` records the offset, with a sink and a table builder that do
not report `U_PARSE_ERROR` themselves and without an importer.  From a state that is no
failure and has a `UParseError`, over a text of 16-bit code units:
(1) a reset that fails with `U_PARSE_ERROR` leaves the offset at its cursor, the index of the
`&`;
(2) the strings of a relation and the characters of a starred relation that fail with
`U_PARSE_ERROR` leave the offset at the cursor, the index of the first character of the
relation operator;
(3) one iteration of the loop of a rule chain either ends the loop, with the offset at its
cursor when the error code is `U_PARSE_ERROR` (for the strength violations, for "reset not
followed by a relation" and for the strings of the relation alike), or goes on to the next
iteration from a state that is no failure and has the `UParseError` untouched;
(4) a setting that fails with `U_PARSE_ERROR` leaves the offset at its cursor, the index of
the `[`;
(5) a character at the top level that starts no item gives the offset of that character;
(6) when `parse` returns, the offset is between 0 and the length of the rule text. -/
theorem parseError_offset (sv : Services)
    (hsink : ∀ cs c e r, sv.sink cs c = some (e, r) → e ≠ UErrorCode.U_PARSE_ERROR)
    (hmake : ∀ codes e, (sv.makeReorderTable codes).2 = some e → e ≠ UErrorCode.U_PARSE_ERROR)
    (himp : sv.importer = none) :
    (∀ (p : Parser) (e0 : UParseError), U_FAILURE p.errorCode = false →
      p.parseError = some e0 → (∀ u ∈ p.rules, u < 0x10000) →
      (parseResetAndPosition sv p).2.errorCode = UErrorCode.U_PARSE_ERROR →
      (parseResetAndPosition sv p).2.parseError.map UParseError.offset =
        some (p.ruleIndex : Int)) ∧
    (∀ (p : Parser) (e0 : UParseError) (strength : Int) (i : Nat),
      U_FAILURE p.errorCode = false →
      p.parseError = some e0 → (∀ u ∈ p.rules, u < 0x10000) →
      ((parseRelationStrings sv strength i p).errorCode = UErrorCode.U_PARSE_ERROR →
        (parseRelationStrings sv strength i p).parseError.map UParseError.offset =
          some (p.ruleIndex : Int)) ∧
      ((parseStarredCharacters sv strength i p).errorCode = UErrorCode.U_PARSE_ERROR →
        (parseStarredCharacters sv strength i p).parseError.map UParseError.offset =
          some (p.ruleIndex : Int))) ∧
    (∀ (B : Int) (fuel : Nat) (isFirst : Bool) (p : Parser) (e0 : UParseError),
      U_FAILURE p.errorCode = false →
      p.parseError = some e0 → (∀ u ∈ p.rules, u < 0x10000) →
      ((parseRuleChainLoop sv B (fuel + 1) isFirst p).errorCode = UErrorCode.U_PARSE_ERROR →
        (parseRuleChainLoop sv B (fuel + 1) isFirst p).parseError.map UParseError.offset =
          some (p.ruleIndex : Int)) ∨
      ∃ (next : Bool) (p1 : Parser), U_FAILURE p1.errorCode = false ∧
        p1.parseError = some e0 ∧ p1.rules = p.rules ∧
        parseRuleChainLoop sv B (fuel + 1) isFirst p =
          parseRuleChainLoop sv B fuel next p1) ∧
    (∀ (fuel : Nat) (parseRec : List Nat → Parser → Option Parser) (p q : Parser)
      (e0 : UParseError), U_FAILURE p.errorCode = false → p.parseError = some e0 →
      p.ruleIndex < p.rules.length → parseSetting sv fuel parseRec p = some q →
      q.errorCode = UErrorCode.U_PARSE_ERROR →
      q.parseError.map UParseError.offset = some (p.ruleIndex : Int)) ∧
    (∀ (fuel : Nat) (p : Parser) (e0 : UParseError), U_FAILURE p.errorCode = false →
      p.parseError = some e0 → p.ruleIndex < p.rules.length →
      sv.isWhiteSpace (charAt p.rules p.ruleIndex) = false →
      (charAt p.rules p.ruleIndex ≠ 0x26 ∧ charAt p.rules p.ruleIndex ≠ 0x5b ∧
        charAt p.rules p.ruleIndex ≠ 0x23 ∧ charAt p.rules p.ruleIndex ≠ 0x40 ∧
        charAt p.rules p.ruleIndex ≠ 0x21) →
      ∃ q, parseLoop sv (fuel + 1) p = some q ∧
        q.errorCode = UErrorCode.U_PARSE_ERROR ∧
        q.parseError.map UParseError.offset = some (p.ruleIndex : Int)) ∧
    (∀ (fuel : Nat) (ruleString : List Nat) (outSettings : CollationSettings) (q : Parser),
      (∀ u ∈ ruleString, u < 0x10000) →
      parse sv fuel ruleString outSettings true UErrorCode.U_ZERO_ERROR = some q →
      ∃ e, q.parseError = some e ∧ 0 ≤ e.offset ∧ e.offset ≤ (ruleString.length : Int)) := by
  refine ⟨?_, ?_, ?_, ?_, ?_, ?_⟩
  · intro p e0 h0 hpe hu hc
    have hsc := scanningAt_of_ok False p e0 h0 hpe (fun h => h.elim)
    have hS := settingStable_scanningAt sv hsink False p.rules p.ruleIndex (fun h => h.elim)
    exact offset_of_recordedAt False p.rules p.ruleIndex _
      (parseResetAndPosition_stable sv _ (recordedAt False p.rules p.ruleIndex) hS.scan p
        (fun _ h => h.1) (fun _ _ h _ => h.1) hu hsc) hc
  · intro p e0 strength i h0 hpe hu
    exact ⟨(relation_outcome sv hsink p e0 h0 hpe hu strength i false _ rfl).1,
      (relation_outcome sv hsink p e0 h0 hpe hu strength i true _ rfl).1⟩
  · intro B fuel isFirst p e0 h0 hpe hu
    exact parseRuleChainLoop_iteration sv hsink B fuel isFirst p e0 h0 hpe hu
  · intro fuel parseRec p q e0 h0 hpe hi hq hc
    have hsc := scanningAt_of_ok False p e0 h0 hpe (fun h => h.elim)
    have hS := settingStable_scanningAt sv hsink False p.rules p.ruleIndex (fun h => h.elim)
    exact offset_of_recordedAt False p.rules p.ruleIndex _
      (parseSetting_stable sv _ (recordedAt False p.rules p.ruleIndex) hS himp hmake fuel
        parseRec p q (fun _ h => h.1) (fun _ _ h _ => h.1) hi hq hsc) hc
  · intro fuel p e0 h0 hpe hi hw hc
    refine ⟨_, parseLoop_default sv fuel p hi hw hc, (errorCode_setParseError _ p h0).1,
      parseError_setParseError _ p h0 (by rw [hpe]; rfl)⟩
  · intro fuel ruleString outSettings q hu hq
    have hq' : parseLoop sv fuel
        { newParser outSettings with
          parseError := some { line := 0, offset := 0, preContext := [], postContext := [] },
          rules := ruleString, ruleIndex := 0 } = some q := hq
    have hw := parseLoop_within sv hsink hmake himp ruleString hu fuel
      { newParser outSettings with
        parseError := some { line := 0, offset := 0, preContext := [], postContext := [] },
        rules := ruleString, ruleIndex := 0 } q
      ⟨rfl, ⟨_, rfl, Int.le_refl _, Int.ofNat_nonneg _⟩, fun _ => Nat.zero_le _⟩ rfl hq'
    exact hw.2.1

theorem parseError_offset_witness :
    ∃ e, Option.map Parser.parseError
        (parse sampleServices 40 (ustr "&a < b / ") sampleSettings true
          UErrorCode.U_ZERO_ERROR) = some (some e) ∧
      e.offset = 3 ∧ 0 ≤ e.offset ∧ e.offset ≤ ((ustr "&a < b / ").length : Int) :=
  ((parseError_offset sampleServices (fun _ _ _ _ h => nomatch h) (fun _ _ h => nomatch h)
      rfl).2.2.2.2.2 40 (ustr "&a < b / ") sampleSettings
    { newParser sampleSettings with
      rules := ustr "&a < b / ", ruleIndex := 9,
      str := ustr "b",
      errorCode := UErrorCode.U_PARSE_ERROR, errorReason := some "missing string",
      parseError := some { line := 0, offset := 3, preContext := ustr "&a ",
                           postContext := ustr "< b / " },
      sinkCalls := [SinkCall.addReset IDENTICAL (ustr "a"),
        SinkCall.addRelation PRIMARY [] (ustr "b") []] }
    (by decide) (by decide)).elim
    (fun e h => ⟨e, by rw [← h.1]; decide, by
      have h1 := h.1
      simp only [Option.some.injEq] at h1
      rw [← h1], h.2.1, h.2.2⟩)


/-! ## Syntax characters -/


/-- C34: `isSyntaxChar c` is true exactly for the code points of the four ranges
U+0021..U+002F, U+003A..U+0040, U+005B..U+0060 and U+007B..U+007E.  So it is false for
space and the control characters (everything up to U+0020), for the ASCII digits and
letters, for U+007F and for every code point above U+007E. -/
theorem isSyntaxChar_ranges (c : Nat) :
    (isSyntaxChar c = true ↔
      (0x21 ≤ c ∧ c ≤ 0x2f) ∨ (0x3a ≤ c ∧ c ≤ 0x40) ∨ (0x5b ≤ c ∧ c ≤ 0x60) ∨
        (0x7b ≤ c ∧ c ≤ 0x7e)) ∧
    (c ≤ 0x20 → isSyntaxChar c = false) ∧
    (0x30 ≤ c ∧ c ≤ 0x39 → isSyntaxChar c = false) ∧
    (0x41 ≤ c ∧ c ≤ 0x5a → isSyntaxChar c = false) ∧
    (0x61 ≤ c ∧ c ≤ 0x7a → isSyntaxChar c = false) ∧
    (0x7f ≤ c → isSyntaxChar c = false) := by
  have key : isSyntaxChar c = true ↔
      (0x21 ≤ c ∧ c ≤ 0x2f) ∨ (0x3a ≤ c ∧ c ≤ 0x40) ∨ (0x5b ≤ c ∧ c ≤ 0x60) ∨
        (0x7b ≤ c ∧ c ≤ 0x7e) := by
    simp only [isSyntaxChar, Bool.and_eq_true, Bool.or_eq_true, decide_eq_true_eq]
    omega
  have neg : ∀ (_ : ¬ ((0x21 ≤ c ∧ c ≤ 0x2f) ∨ (0x3a ≤ c ∧ c ≤ 0x40) ∨ (0x5b ≤ c ∧ c ≤ 0x60) ∨
        (0x7b ≤ c ∧ c ≤ 0x7e))), isSyntaxChar c = false := by
    intro h
    cases hs : isSyntaxChar c
    · rfl
    · exact absurd (key.mp hs) h
  refine ⟨key, ?_, ?_, ?_, ?_, ?_⟩
  · intro h; exact neg (by omega)
  · intro h; exact neg (by omega)
  · intro h; exact neg (by omega)
  · intro h; exact neg (by omega)
  · intro h; exact neg (by omega)


/-! ## Set patterns, imports and the cursor -/


/-- the index of `parseUnicodeSet` never comes back once it is beyond `raw` -/
theorem parseUnicodeSetLoop_beyond (raw : List Nat) :
    ∀ (fuel j : Nat) (level : Int), raw.length < j →
      parseUnicodeSetLoop raw fuel j level = none := by
  intro fuel
  induction fuel with
  | zero => intro j level _; rfl
  | succ n ih =>
    intro j level hj
    rw [parseUnicodeSetLoop]
    rw [if_neg (by omega)]
    by_cases hmax : j = INT32_MAX
    · rw [if_pos hmax]
    · rw [if_neg hmax]
      have hc : charAt raw j = kInvalidUChar := by
        unfold charAt
        exact List.getD_eq_default _ _ (by omega)
      simp only [hc]
      rw [if_neg (by decide), if_neg (by decide)]
      exact ih (j + 1) level (by omega)

theorem parseUnicodeSet_beyond (sv : Services) (fuel i : Nat) (p : Parser)
    (h : p.raw.length < i) : parseUnicodeSet sv fuel i p = none := by
  unfold parseUnicodeSet
  rw [parseUnicodeSetLoop_beyond p.raw fuel i 0 h]

/-- the head that `readWords` collects is not longer than the text it went over -/
theorem readWordsLoop_raw_advance (sv : Services) :
    ∀ (fuel i : Nat) (p : Parser), 0 < (readWordsLoop sv fuel i p).1 →
      (readWordsLoop sv fuel i p).2.raw.length + i ≤
        (readWordsLoop sv fuel i p).1 + p.raw.length := by
  intro fuel
  induction fuel with
  | zero => intro i p h; simp [readWordsLoop] at h
  | succ n ih =>
    intro i p
    rw [readWordsLoop]
    split
    · intro h; simp at h
    · simp only []
      split
      · split
        · intro _; simp only []; omega
        · split
          · intro _; simp only [List.length_dropLast]; omega
          · intro _; simp only []; omega
      · split
        · intro h
          have := ih _ _ h
          have hb := (skipWhiteSpace_bounds sv p.rules (i + 1)).1
          simp only [List.length_append, List.length_singleton] at this
          omega
        · intro h
          have := ih _ _ h
          simp only [List.length_append, List.length_singleton] at this
          omega

theorem readWords_raw_advance (sv : Services) (i : Nat) (p : Parser)
    (h : 0 < (readWords sv i p).1) :
    (readWords sv i p).2.raw.length + i ≤ (readWords sv i p).1 := by
  unfold readWords at h ⊢
  simp only [] at h ⊢
  have := readWordsLoop_raw_advance sv _ _ _ h
  have hb := (skipWhiteSpace_bounds sv p.rules i).1
  simp only [List.length_nil] at this
  have hr : ({ p with raw := [] } : Parser).rules = p.rules := rfl
  rw [hr] at this
  omega

theorem rules_setParseError (reason : String) (p : Parser) :
    (setParseError reason p).rules = p.rules := by
  unfold setParseError
  split
  · rfl
  · simp only []
    split <;> rfl

/-- a setting whose head is followed by `[` has no result: the set scanner starts beyond the
head it scans -/
theorem parseSetting_beyond (sv : Services) (fuel : Nat)
    (parseRec : List Nat → Parser → Option Parser) (p : Parser)
    (hok : U_FAILURE p.errorCode = false)
    (hj : 0 < (readWords sv (p.ruleIndex + 1) p).1)
    (hc : charAt p.rules (readWords sv (p.ruleIndex + 1) p).1 = 0x5b) :
    parseSetting sv fuel parseRec p = none := by
  have hlen := readWords_raw_advance sv (p.ruleIndex + 1) p hj
  have hrules : (readWords sv (p.ruleIndex + 1) p).2.rules = p.rules := by
    rw [readWords_frame]
  unfold parseSetting
  rw [if_neg (by rw [hok]; decide)]
  simp only []
  generalize readWords sv (p.ruleIndex + 1) p = r at *
  generalize hq : (if r.1 ≤ p.ruleIndex + 1 ∨ r.2.raw.isEmpty then
      setParseError "expected a setting/option at '['" r.2 else r.2) = q
  have hqr : q.rules = p.rules ∧ q.raw = r.2.raw := by
    rw [← hq]
    split
    · exact ⟨by rw [rules_setParseError, hrules], raw_setParseError _ _⟩
    · exact ⟨hrules, rfl⟩
  rw [hqr.1, hc]
  rw [if_neg (by decide), if_pos rfl]
  rw [parseUnicodeSet_beyond sv fuel r.1 q (by rw [hqr.2]; omega)]


/-- C31 (the outer rule text is not restored after an import): with an importer that returns
the rules `&c <d `, parsing `[import de]&a <b ` ends without error with the two sink calls of
the imported rules only; the reset `&a` and the relation `<b` that follow the setting are
never read, because the parser is left reading the imported text at the offset 11 of the
outer text, which is beyond its end.  When the imported text is longer than that offset, as
`&c <d       &e <f `, the parse goes on inside it: the rule `&e <f ` is applied twice, and
again `&a <b ` is not. -/
theorem parse_import_not_restored :
    (parse (importingServices (ustr "&c <d ")) 100 (ustr "[import de]&a <b ")
        sampleSettings true UErrorCode.U_ZERO_ERROR).map
      (fun q => (q.rules, q.ruleIndex, q.sinkCalls, U_FAILURE q.errorCode)) =
      some (ustr "&c <d ", 11,
        [SinkCall.addReset IDENTICAL [0x63], SinkCall.addRelation PRIMARY [] [0x64] []],
        false) ∧
    (parse (importingServices (ustr "&c <d       &e <f ")) 100 (ustr "[import de]&a <b ")
        sampleSettings true UErrorCode.U_ZERO_ERROR).map
      (fun q => (q.rules, q.ruleIndex, q.sinkCalls, U_FAILURE q.errorCode)) =
      some (ustr "&c <d       &e <f ", 18,
        [SinkCall.addReset IDENTICAL [0x63], SinkCall.addRelation PRIMARY [] [0x64] [],
         SinkCall.addReset IDENTICAL [0x65], SinkCall.addRelation PRIMARY [] [0x66] [],
         SinkCall.addReset IDENTICAL [0x65], SinkCall.addRelation PRIMARY [] [0x66] []],
        false) ∧
    (parse (importingServices (ustr "&c <d ")) 100 (ustr "&a <b ")
        sampleSettings true UErrorCode.U_ZERO_ERROR).map (fun q => q.sinkCalls) =
      some [SinkCall.addReset IDENTICAL [0x61], SinkCall.addRelation PRIMARY [] [0x62] []] := by
  decide

/-- C32 (the set pattern of a setting is never scanned as described): in a state without
error, when the head that `readWords` collects ends at a `[` of the rule text, as in
`[optimize [a]]`, `parseSetting` has no result whatever the fuel is.  `parseUnicodeSet` scans
the head `raw`, not the rule text, from the offset of the `[` in the rule text, which is
beyond the end of the head, so its test `j == raw.length()` never holds; no pattern is handed
to the validator and the cursor is not moved.  Moreover the loop closes on U+005C, not on
`]`: over the text `[a]` it reports unbalanced brackets at the end, over `[a\` it stops after
the backslash. -/
theorem parseSetting_set_pattern_unscanned (sv : Services) (fuel : Nat)
    (parseRec : List Nat → Parser → Option Parser) (p : Parser)
    (hok : U_FAILURE p.errorCode = false)
    (hj : 0 < (readWords sv (p.ruleIndex + 1) p).1)
    (hc : charAt p.rules (readWords sv (p.ruleIndex + 1) p).1 = 0x5b) :
    parseSetting sv fuel parseRec p = none ∧
    parseUnicodeSetLoop (ustr "[a]") 10 0 0 = some (false, 3) ∧
    parseUnicodeSetLoop [0x5b, 0x61, 0x5c] 10 0 0 = some (true, 3) :=
  ⟨parseSetting_beyond sv fuel parseRec p hok hj hc, by decide, by decide⟩

/-- Instances of `parseSetting_set_pattern_unscanned`: `[optimize [a]]`,
`[suppressContractions [a]]` and `[other [a]]` have no result. -/
theorem parseSetting_set_pattern_unscanned_witness :
    parseSetting sampleServices 100 (fun _ q => some q)
      { newParser sampleSettings with rules := ustr "[optimize [a]]" } = none ∧
    parseSetting sampleServices 100 (fun _ q => some q)
      { newParser sampleSettings with rules := ustr "[suppressContractions [a]]" } = none ∧
    parseSetting sampleServices 100 (fun _ q => some q)
      { newParser sampleSettings with rules := ustr "[other [a]]" } = none :=
  ⟨(parseSetting_set_pattern_unscanned sampleServices 100 (fun _ q => some q)
      { newParser sampleSettings with rules := ustr "[optimize [a]]" }
      (by decide) (by decide) (by decide)).1,
   (parseSetting_set_pattern_unscanned sampleServices 100 (fun _ q => some q)
      { newParser sampleSettings with rules := ustr "[suppressContractions [a]]" }
      (by decide) (by decide) (by decide)).1,
   (parseSetting_set_pattern_unscanned sampleServices 100 (fun _ q => some q)
      { newParser sampleSettings with rules := ustr "[other [a]]" }
      (by decide) (by decide) (by decide)).1⟩

/-- C33 (the parse of a set-pattern setting does not end): the rule string `[optimize [a]]`
has no import setting, and `parse` has no result on it however much fuel it is given.  The
set scanner starts at the offset 10 of the `[` in the rule text while the head `optimize` it
scans has 8 units, so its index only moves away from the end of the head: it neither finds a
closing bracket nor reports "unbalanced UnicodeSet pattern brackets", and in C++ the index is
incremented until it overflows. -/
theorem parse_set_pattern_no_result (fuel : Nat) :
    parse sampleServices fuel (ustr "[optimize [a]]") sampleSettings true
      UErrorCode.U_ZERO_ERROR = none := by
  cases fuel with
  | zero => rfl
  | succ n =>
    show parseLoop sampleServices (n + 1)
      { newParser sampleSettings with
        rules := ustr "[optimize [a]]",
        parseError := some { line := 0, offset := 0, preContext := [], postContext := [] } } =
      none
    rw [parseLoop]
    rw [if_pos (by decide)]
    simp only []
    rw [if_neg (by decide), if_neg (by decide), if_pos (by decide)]
    rw [parseSetting_beyond sampleServices n _ _ (by decide) (by decide) (by decide)]

/-- C35 (the cursor goes back in a failing step): in `[strength 1][optimize` the first
setting is a successful step that moves the cursor from 0 to 12.  The second step starts at
12; `readWords` reaches the end of the text and returns 0, the error "expected a
setting/option at '['" is recorded without a `return`, the unit at offset 0 is `[`, and the
step ends with the cursor at 8, the length of the head `optimize`, which is less than 12.
The whole parse ends in that state. -/
theorem parse_cursor_goes_back :
    (parseSetting sampleServices 100 (fun _ q => some q)
        { newParser sampleSettings with rules := ustr "[strength 1][optimize" }).map
      (fun q => (q.ruleIndex, U_FAILURE q.errorCode)) = some (12, false) ∧
    ((parseSetting sampleServices 100 (fun _ q => some q)
        { newParser sampleSettings with rules := ustr "[strength 1][optimize" }).bind
      (parseSetting sampleServices 100 (fun _ q => some q))).map
      (fun q => (q.ruleIndex, q.errorReason)) =
      some (8, some "expected a setting/option at '['") ∧
    (parse sampleServices 100 (ustr "[strength 1][optimize") sampleSettings true
        UErrorCode.U_ZERO_ERROR).map
      (fun q => (q.ruleIndex, q.errorReason, q.parseError.map (fun e => e.offset))) =
      some (8, some "expected a setting/option at '['", some 12) := by
  decide


/-! ## White space around a literal -/


theorem skipWhiteSpaceLoop_lands (sv : Services) (rules : List Nat) :
    ∀ (fuel i : Nat), rules.length ≤ i + fuel →
      (skipWhiteSpaceLoop sv rules fuel i < rules.length →
        sv.isWhiteSpace (charAt rules (skipWhiteSpaceLoop sv rules fuel i)) = false) ∧
      ∀ m, i ≤ m → m < skipWhiteSpaceLoop sv rules fuel i →
        m < rules.length ∧ sv.isWhiteSpace (charAt rules m) = true := by
  intro fuel
  induction fuel with
  | zero =>
    intro i h
    simp only [skipWhiteSpaceLoop]
    exact ⟨fun h' => by omega, fun m h1 h2 => by omega⟩
  | succ n ih =>
    intro i h
    rw [skipWhiteSpaceLoop]
    by_cases hc : (decide (i < rules.length) && sv.isWhiteSpace (charAt rules i)) = true
    · rw [if_pos hc]
      simp only [Bool.and_eq_true, decide_eq_true_eq] at hc
      obtain ⟨h1, h2⟩ := ih (i + 1) (by omega)
      refine ⟨h1, fun m hm hlt => ?_⟩
      by_cases hmi : m = i
      · subst hmi; exact hc
      · exact h2 m (by omega) hlt
    · rw [if_neg hc]
      simp only [Bool.and_eq_true, decide_eq_true_eq, not_and, Bool.not_eq_true] at hc
      exact ⟨hc, fun m h1 h2 => by omega⟩

/-- where `skipWhiteSpace` stops: at the end of the text or at a unit that is not white
space, with only white space before it -/
theorem skipWhiteSpace_lands (sv : Services) (rules : List Nat) (i : Nat) :
    (skipWhiteSpace sv rules i < rules.length →
      sv.isWhiteSpace (charAt rules (skipWhiteSpace sv rules i)) = false) ∧
    ∀ m, i ≤ m → m < skipWhiteSpace sv rules i →
      m < rules.length ∧ sv.isWhiteSpace (charAt rules m) = true :=
  skipWhiteSpaceLoop_lands sv rules _ i (by omega)

theorem skipWhiteSpace_run (sv : Services) (rules : List Nat) :
    ∀ (ws post : List Nat) (i : Nat), rules.drop i = ws ++ post →
      (∀ u ∈ ws, sv.isWhiteSpace u = true) →
      (∀ u, post.head? = some u → sv.isWhiteSpace u = false) →
      skipWhiteSpace sv rules i = i + ws.length := by
  intro ws
  induction ws with
  | nil =>
    intro post i hd _ hpost
    simp only [List.nil_append] at hd
    simp only [List.length_nil, Nat.add_zero]
    apply skipWhiteSpace_stop
    intro hi
    cases post with
    | nil => exact absurd (drop_nil_facts hd) (by omega)
    | cons u post =>
      obtain ⟨_, hc, _⟩ := drop_cons_facts hd
      rw [hc]; exact hpost u rfl
  | cons w ws ih =>
    intro post i hd hws hpost
    obtain ⟨hi, hc, hrest⟩ := drop_cons_facts (by simpa using hd)
    rw [skipWhiteSpace_step sv rules i hi (by rw [hc]; exact hws w (by simp))]
    rw [ih post (i + 1) hrest (fun u hu => hws u (by simp [hu])) hpost]
    simp only [List.length_cons]; omega

theorem parseStringLoop_whiteSpace (sv : Services) (allowDash : Bool) (fuel i : Nat)
    (p : Parser) (hi : i < p.rules.length)
    (hs : isSyntaxChar (charAt p.rules i) = false)
    (hw : sv.isWhiteSpace (charAt p.rules i) = true) :
    parseStringLoop sv allowDash (fuel + 1) i p =
      (false, skipWhiteSpace sv p.rules (i + 1), p) := by
  rw [parseStringLoop]
  simp [hi, hs, hw]

theorem raw_checkStringLoop : ∀ (fuel j : Nat) (p : Parser),
    (checkStringLoop fuel j p).raw = p.raw := by
  intro fuel
  induction fuel with
  | zero => intro j p; rfl
  | succ n ih =>
    intro j p
    rw [checkStringLoop]
    split
    · simp only []
      split
      · exact raw_setParseError _ _
      · split
        · exact raw_setParseError _ _
        · exact ih _ _
    · rfl

/-- C36: unquoted white space around a literal.  Wherever the scanning loop of `parseString`
is at a white space unit (one that is no syntax character), outside a quotation and not
after a backslash, it ends there: the unit is not appended to the literal, and the offset
returned is where `skipWhiteSpace` stops after it, which is the end of the text or the first
unit that is not white space.  So for a text that reads, from `i` on, white space `ws1`, the
plain characters `content` (at least one), the white space unit `w`, more white space `ws2`
and then `post`, which is empty or starts with a unit that is not white space,
`parseString` decodes exactly `content`, with none of the white space, and returns the
offset of `post`; a relation operator that starts `post` is the unit at that offset. -/
theorem parseString_whiteSpace_terminates (sv : Services) (allowDash : Bool) (p : Parser)
    (i : Nat) (ws1 content ws2 post : List Nat) (w : Nat)
    (hok : U_FAILURE p.errorCode = false)
    (hd : p.rules.drop i = ws1 ++ (content ++ w :: (ws2 ++ post)))
    (hws1 : ∀ u ∈ ws1, sv.isWhiteSpace u = true)
    (hcontent : content ≠ [] ∧ ∀ u ∈ content, plainChar sv u)
    (hw : isSyntaxChar w = false ∧ sv.isWhiteSpace w = true)
    (hws2 : ∀ u ∈ ws2, sv.isWhiteSpace u = true)
    (hpost : ∀ u, post.head? = some u → sv.isWhiteSpace u = false) :
    (∀ (fuel k : Nat) (q : Parser), k < q.rules.length →
      isSyntaxChar (charAt q.rules k) = false → sv.isWhiteSpace (charAt q.rules k) = true →
      parseStringLoop sv allowDash (fuel + 1) k q =
          (false, skipWhiteSpace sv q.rules (k + 1), q) ∧
        (skipWhiteSpace sv q.rules (k + 1) < q.rules.length →
          sv.isWhiteSpace (charAt q.rules (skipWhiteSpace sv q.rules (k + 1))) = false) ∧
        ∀ m, k ≤ m → m < skipWhiteSpace sv q.rules (k + 1) →
          sv.isWhiteSpace (charAt q.rules m) = true) ∧
    (parseString sv i allowDash p).1 =
      i + ws1.length + content.length + 1 + ws2.length ∧
    (parseString sv i allowDash p).2.raw = content ∧
    p.rules.drop (parseString sv i allowDash p).1 = post ∧
    (∀ u, post.head? = some u → charAt p.rules (parseString sv i allowDash p).1 = u) := by
  refine ⟨?_, ?_⟩
  · intro fuel k q hk hs hwk
    refine ⟨parseStringLoop_whiteSpace sv allowDash fuel k q hk hs hwk,
      (skipWhiteSpace_lands sv q.rules (k + 1)).1, fun m h1 h2 => ?_⟩
    by_cases hmk : m = k
    · subst hmk; exact hwk
    · exact ((skipWhiteSpace_lands sv q.rules (k + 1)).2 m (by omega) h2).2
  · -- the leading white space
    have hskip1 : skipWhiteSpace sv p.rules i = i + ws1.length := by
      apply skipWhiteSpace_run sv p.rules ws1 _ i hd hws1
      intro u hu
      cases content with
      | nil => exact absurd rfl hcontent.1
      | cons c content =>
        simp only [List.cons_append, List.head?_cons, Option.some.injEq] at hu
        subst hu; exact (hcontent.2 c (by simp)).2
    have hd1 : p.rules.drop (i + ws1.length) = content ++ w :: (ws2 ++ post) :=
      drop_add_of_drop_append hd
    have hd2 : p.rules.drop (i + ws1.length + content.length) = w :: (ws2 ++ post) :=
      drop_add_of_drop_append hd1
    obtain ⟨hi2, hc2, hd3⟩ := drop_cons_facts hd2
    have hskip2 : skipWhiteSpace sv p.rules (i + ws1.length + content.length + 1) =
        i + ws1.length + content.length + 1 + ws2.length :=
      skipWhiteSpace_run sv p.rules ws2 post _ hd3 hws2 hpost
    have hd4 : p.rules.drop (i + ws1.length + content.length + 1 + ws2.length) = post :=
      drop_add_of_drop_append hd3
    -- the loop
    have hlen : p.rules.length - (i + ws1.length) =
        (p.rules.length - (i + ws1.length) - content.length - 1) + 1 + content.length := by
      have := congrArg List.length hd1
      simp only [List.length_drop, List.length_append, List.length_cons] at this
      omega
    have hloop : parseStringLoop sv allowDash (p.rules.length - (i + ws1.length))
        (i + ws1.length) { p with raw := [] } =
        (false, i + ws1.length + content.length + 1 + ws2.length,
          { p with raw := content }) := by
      rw [hlen]
      refine (parseStringLoop_plain sv allowDash content (w :: (ws2 ++ post)) _
        (i + ws1.length) { p with raw := [] } hcontent.2 hd1).trans ?_
      refine (parseStringLoop_whiteSpace sv allowDash _ (i + ws1.length + content.length)
        { p with raw := content } hi2 (by rw [hc2]; exact hw.1)
        (by rw [hc2]; exact hw.2)).trans ?_
      show (false, skipWhiteSpace sv p.rules (i + ws1.length + content.length + 1),
        ({ p with raw := content } : Parser)) = _
      rw [hskip2]
    have hres : parseString sv i allowDash p =
        (i + ws1.length + content.length + 1 + ws2.length,
          checkStringLoop content.length 0 { p with raw := content }) := by
      unfold parseString
      rw [if_neg (by rw [hok]; decide)]
      simp only []
      rw [hskip1, hloop]
      simp only []
      rw [if_neg (by
        intro h
        exact hcontent.1 (List.isEmpty_iff.mp h))]
    rw [hres]
    refine ⟨rfl, raw_checkStringLoop _ _ _, hd4, ?_⟩
    intro u hu
    cases post with
    | nil => cases hu
    | cons v post =>
      simp only [List.head?_cons, Option.some.injEq] at hu
      subst hu
      exact (drop_cons_facts hd4).2.1

/-- An instance of `parseString_whiteSpace_terminates`: in `&  ab  <c` the literal after `&`
decodes to `ab` and the offset returned is 7, where the `<` stands. -/
theorem parseString_whiteSpace_terminates_witness :
    (parseString sampleServices 1 false
        { newParser sampleSettings with rules := ustr "&  ab  <c" }).1 = 7 ∧
    (parseString sampleServices 1 false
        { newParser sampleSettings with rules := ustr "&  ab  <c" }).2.raw = ustr "ab" ∧
    charAt (ustr "&  ab  <c") (parseString sampleServices 1 false
        { newParser sampleSettings with rules := ustr "&  ab  <c" }).1 = 0x3c :=
  have h := parseString_whiteSpace_terminates sampleServices false
    { newParser sampleSettings with rules := ustr "&  ab  <c" } 1
    [0x20, 0x20] [0x61, 0x62] [0x20] [0x3c, 0x63] 0x20
    (by decide) (by decide) (by decide) (by decide) (by decide) (by decide) (by decide)
  ⟨h.2.1, h.2.2.1, h.2.2.2.2 0x3c rfl⟩


/-! ## The head of a setting and the words of `[reorder ...]` -/


theorem not_headStop_of_space (sv : Services) (hws : asciiWhiteSpace sv) (c : Nat)
    (h : sv.isWhiteSpace c = true) : ¬ headStop c := by
  rintro ⟨hs, _, _⟩
  have hr : 0x21 ≤ c ∧ c ≤ 0x7e := by
    simp only [isSyntaxChar, Bool.and_eq_true, Bool.or_eq_true, decide_eq_true_eq] at hs
    omega
  rw [hws.2.2 c hr.1 hr.2] at h
  cases h

theorem headStop_cond (c : Nat) :
    (isSyntaxChar c && decide (c ≠ 0x2d) && decide (c ≠ 0x5f)) = true ↔ headStop c := by
  simp only [headStop, Bool.and_eq_true, decide_eq_true_eq, and_assoc]

theorem head?_concat_ne (l : List Nat) (a b : Nat) (hl : l.head? ≠ some b) (ha : a ≠ b) :
    (l ++ [a]).head? ≠ some b := by
  cases l with
  | nil => simpa using ha
  | cons x l => simpa using hl

theorem no_pair_concat (l : List Nat) (a b : Nat) (hl : ¬ [b, b] <:+: l)
    (h : a ≠ b ∨ l.getLast? ≠ some b) : ¬ [b, b] <:+: l ++ [a] := by
  intro hin
  rcases List.infix_concat_iff.mp hin with hs | hi
  · rcases List.suffix_concat_iff.mp hs with h0 | ⟨t, ht, hts⟩
    · cases h0
    · have hlen := congrArg List.length ht
      simp only [List.length_cons, List.length_nil, List.length_append] at hlen
      have : t = [b] ∧ b = a := by
        match t, ht, hlen with
        | [x], ht, _ =>
          simp only [List.singleton_append, List.cons.injEq, and_true] at ht
          exact ⟨by rw [ht.1], ht.2⟩
      obtain ⟨rfl, rfl⟩ := this
      rcases h with h | h
      · exact h rfl
      · obtain ⟨s, hs⟩ := hts
        apply h
        rw [← hs]
        simp
  · exact hl hi

theorem collapsed_of_open (sv : Services) (rules : List Nat) (i : Nat) (raw : List Nat)
    (h : openHead sv rules i raw) :
    collapsed (if raw.getLast? = some 0x20 then raw.dropLast else raw) := by
  obtain ⟨h1, h2, h3, _⟩ := h
  by_cases hl : raw.getLast? = some 0x20
  · rw [if_pos hl]
    obtain ⟨ys, rfl⟩ := List.getLast?_eq_some_iff.mp hl
    rw [List.dropLast_concat]
    refine ⟨?_, ?_, ?_, fun c hc => h3 c (by simp [hc])⟩
    · intro hh
      apply h1
      cases ys with
      | nil => cases hh
      | cons y ys => simpa using hh
    · intro hh
      obtain ⟨zs, rfl⟩ := List.getLast?_eq_some_iff.mp hh
      apply h2
      exact ⟨zs, [], by simp⟩
    · intro hh
      exact h2 (hh.trans (List.prefix_append ys [0x20]).isInfix)
  · rw [if_neg hl]
    exact ⟨h1, hl, h2, h3⟩

/-- the outcome of the loop of `readWords` on any text -/
theorem readWordsLoop_outcome (sv : Services) (hws : asciiWhiteSpace sv) :
    ∀ (fuel i : Nat) (p : Parser), p.rules.length < i + fuel →
      openHead sv p.rules i p.raw →
      (∀ k, i ≤ k → k < p.rules.length → headStop (charAt p.rules k) →
        (∀ m, i ≤ m → m < k → ¬ headStop (charAt p.rules m)) →
        (readWordsLoop sv fuel i p).1 = k ∧ collapsed (readWordsLoop sv fuel i p).2.raw) ∧
      ((∀ m, i ≤ m → m < p.rules.length → ¬ headStop (charAt p.rules m)) →
        (readWordsLoop sv fuel i p).1 = 0) := by
  intro fuel
  induction fuel with
  | zero =>
    intro i p hf _
    exact ⟨fun k h1 h2 => by omega, fun _ => rfl⟩
  | succ n ih =>
    intro i p hf hopen
    by_cases hi : i ≥ p.rules.length
    · have hres : readWordsLoop sv (n + 1) i p = (0, p) := by
        rw [readWordsLoop, if_pos hi]
      rw [hres]
      exact ⟨fun k h1 h2 => by omega, fun _ => rfl⟩
    · have hi' : i < p.rules.length := by omega
      by_cases hstop : headStop (charAt p.rules i)
      · have hres := readWordsLoop_stop sv n i p _ hi' rfl hstop
        rw [hres]
        refine ⟨fun k h1 h2 h3 h4 => ?_, fun h => absurd hstop (h i (le_refl _) hi')⟩
        have hk : k = i := by
          by_contra hne
          exact h4 i (le_refl _) (by omega) hstop
        subst hk
        refine ⟨rfl, ?_⟩
        have := collapsed_of_open sv p.rules k p.raw hopen
        by_cases hl : p.raw.getLast? = some 0x20
        · rw [if_pos hl] at this ⊢; exact this
        · rw [if_neg hl] at this ⊢; exact this
      · have hcond : ¬ (isSyntaxChar (charAt p.rules i) && decide (charAt p.rules i ≠ 0x2d) &&
            decide (charAt p.rules i ≠ 0x5f)) = true := fun h => hstop ((headStop_cond _).mp h)
        by_cases hw : sv.isWhiteSpace (charAt p.rules i) = true
        · have hres : readWordsLoop sv (n + 1) i p =
              readWordsLoop sv n (skipWhiteSpace sv p.rules (i + 1))
                { p with raw := p.raw ++ [0x20] } := by
            rw [readWordsLoop, if_neg hi]
            simp only []
            rw [if_neg hcond, if_pos hw]
          rw [hres]
          have hb := (skipWhiteSpace_bounds sv p.rules (i + 1)).1
          obtain ⟨hl1, hl2⟩ := skipWhiteSpace_lands sv p.rules (i + 1)
          have hlast : ¬ (p.raw = [] ∨ p.raw.getLast? = some 0x20) := by
            intro h
            have := hopen.2.2.2 h hi'
            rw [hw] at this; cases this
          have hopen' : openHead sv p.rules (skipWhiteSpace sv p.rules (i + 1))
              (p.raw ++ [0x20]) := by
            refine ⟨?_, ?_, ?_, fun _ hlt => hl1 hlt⟩
            · cases hr : p.raw with
              | nil => exact absurd (Or.inl hr) hlast
              | cons x l =>
                have := hopen.1
                rw [hr] at this
                simpa using this
            · exact no_pair_concat _ _ _ hopen.2.1 (Or.inr (fun h => hlast (Or.inr h)))
            · intro c hc
              rcases List.mem_append.mp hc with h | h
              · exact hopen.2.2.1 c h
              · simp only [List.mem_singleton] at h
                subst h
                exact not_headStop_of_space sv hws _ hws.1
          obtain ⟨ihA, ihB⟩ := ih (skipWhiteSpace sv p.rules (i + 1))
            { p with raw := p.raw ++ [0x20] } (by
              show p.rules.length < skipWhiteSpace sv p.rules (i + 1) + n
              omega) hopen'
          have hskipped : ∀ m, i ≤ m → m < skipWhiteSpace sv p.rules (i + 1) →
              ¬ headStop (charAt p.rules m) := by
            intro m h1 h2
            by_cases hmi : m = i
            · subst hmi; exact hstop
            · exact not_headStop_of_space sv hws _ (hl2 m (by omega) h2).2
          refine ⟨fun k h1 h2 h3 h4 => ?_, fun h => ?_⟩
          · have hk : skipWhiteSpace sv p.rules (i + 1) ≤ k := by
              by_contra hlt
              exact hskipped k h1 (by omega) h3
            exact ihA k hk h2 h3 (fun m hm1 hm2 => h4 m (by omega) hm2)
          · exact ihB (fun m hm1 hm2 => h m (by omega) hm2)
        · have hres : readWordsLoop sv (n + 1) i p =
              readWordsLoop sv n (i + 1) { p with raw := p.raw ++ [charAt p.rules i] } := by
            rw [readWordsLoop, if_neg hi]
            simp only []
            rw [if_neg hcond, if_neg hw]
          rw [hres]
          have hne : charAt p.rules i ≠ 0x20 := by
            intro h
            rw [h] at hw
            exact hw hws.1
          have hopen' : openHead sv p.rules (i + 1) (p.raw ++ [charAt p.rules i]) := by
            refine ⟨head?_concat_ne _ _ _ hopen.1 hne,
              no_pair_concat _ _ _ hopen.2.1 (Or.inl hne), ?_, ?_⟩
            · intro c hc
              rcases List.mem_append.mp hc with h | h
              · exact hopen.2.2.1 c h
              · simp only [List.mem_singleton] at h
                subst h
                exact hstop
            · intro h
              rcases h with h | h
              · simp at h
              · rw [List.getLast?_concat] at h
                simp only [Option.some.injEq] at h
                exact absurd h hne
          obtain ⟨ihA, ihB⟩ := ih (i + 1) { p with raw := p.raw ++ [charAt p.rules i] } (by
            show p.rules.length < i + 1 + n
            omega) hopen'
          refine ⟨fun k h1 h2 h3 h4 => ?_, fun h => ?_⟩
          · have hk : i + 1 ≤ k := by
              by_contra hlt
              have : k = i := by omega
              subst this
              exact hstop h3
            exact ihA k hk h2 h3 (fun m hm1 hm2 => h4 m (by omega) hm2)
          · exact ihB (fun m hm1 hm2 => h m (by omega) hm2)

theorem readWords_outcome (sv : Services) (hws : asciiWhiteSpace sv) (i : Nat) (p : Parser) :
    (∀ k, i ≤ k → k < p.rules.length → headStop (charAt p.rules k) →
      (∀ m, i ≤ m → m < k → ¬ headStop (charAt p.rules m)) →
      (readWords sv i p).1 = k ∧ collapsed (readWords sv i p).2.raw) ∧
    ((∀ m, i ≤ m → m < p.rules.length → ¬ headStop (charAt p.rules m)) →
      (readWords sv i p).1 = 0) := by
  have hb := (skipWhiteSpace_bounds sv p.rules i).1
  obtain ⟨hl1, hl2⟩ := skipWhiteSpace_lands sv p.rules i
  have hopen : openHead sv p.rules (skipWhiteSpace sv p.rules i) [] :=
    ⟨by simp, by simp, by simp, fun _ hlt => hl1 hlt⟩
  obtain ⟨hA, hB⟩ := readWordsLoop_outcome sv hws (p.rules.length - skipWhiteSpace sv p.rules i + 1)
    (skipWhiteSpace sv p.rules i) { p with raw := [] } (by
      show p.rules.length < _
      omega) hopen
  have hres : readWords sv i p = readWordsLoop sv
      (p.rules.length - skipWhiteSpace sv p.rules i + 1) (skipWhiteSpace sv p.rules i)
      { p with raw := [] } := rfl
  rw [hres]
  refine ⟨fun k h1 h2 h3 h4 => ?_, fun h => hB (fun m hm1 hm2 => h m (by omega) hm2)⟩
  have hk : skipWhiteSpace sv p.rules i ≤ k := by
    by_contra hlt
    exact not_headStop_of_space sv hws _ (hl2 k h1 (by omega)).2 h3
  exact hA k hk h2 h3 (fun m hm1 hm2 => h4 m (by omega) hm2)


theorem wordChar_not_stop (sv : Services) (c : Nat) (h : wordChar sv c) : ¬ headStop c := by
  rintro ⟨a, b, d⟩
  rcases h.1 with h | h | h
  · rw [h] at a; cases a
  · exact b h
  · exact d h

/-- the loop of `readWords` over runs of white space, each followed by a word -/
theorem readWordsLoop_runs (sv : Services) :
    ∀ (rest : List (List Nat × List Nat)) (fuel i : Nat) (p : Parser) (post : List Nat),
      (∀ sw ∈ rest, (sw.1 ≠ [] ∧ ∀ u ∈ sw.1, spaceChar sv u) ∧
        (sw.2 ≠ [] ∧ ∀ u ∈ sw.2, wordChar sv u)) →
      p.rules.drop i = rest.flatMap (fun sw => sw.1 ++ sw.2) ++ post →
      readWordsLoop sv (fuel + (rest.flatMap (fun sw => 0x20 :: sw.2)).length) i p =
        readWordsLoop sv fuel (i + (rest.flatMap (fun sw => sw.1 ++ sw.2)).length)
          { p with raw := p.raw ++ rest.flatMap (fun sw => 0x20 :: sw.2) } := by
  intro rest
  induction rest with
  | nil => intro fuel i p post _ _; simp
  | cons sw rest ih =>
    intro fuel i p post hr hd
    obtain ⟨⟨hne1, hs⟩, ⟨hne2, hw⟩⟩ := hr sw (by simp)
    obtain ⟨s, w⟩ := sw
    simp only at hne1 hs hne2 hw
    cases s with
    | nil => exact absurd rfl hne1
    | cons a s =>
      have hd' : p.rules.drop i =
          a :: (s ++ (w ++ (rest.flatMap (fun sw => sw.1 ++ sw.2) ++ post))) := by
        rw [hd]; simp [List.flatMap_cons]
      obtain ⟨hi, hc, hd1⟩ := drop_cons_facts hd'
      have ha := hs a (by simp)
      have hskip : skipWhiteSpace sv p.rules (i + 1) = i + 1 + s.length := by
        apply skipWhiteSpace_run sv p.rules s _ (i + 1) hd1
          (fun u hu => (hs u (by simp [hu])).2)
        intro u hu
        cases w with
        | nil => exact absurd rfl hne2
        | cons x w =>
          simp only [List.cons_append, List.head?_cons, Option.some.injEq] at hu
          subst hu; exact (hw x (by simp)).2
      have e : fuel + (((a :: s, w) :: rest).flatMap (fun sw => 0x20 :: sw.2)).length =
          (fuel + (rest.flatMap (fun sw => 0x20 :: sw.2)).length + w.length) + 1 := by
        simp only [List.flatMap_cons, List.length_append, List.length_cons]
        omega
      rw [e]
      refine (readWordsLoop_space sv _ i p a hi hc ha.1 ha.2).trans ?_
      rw [hskip]
      have hd2 : ({ p with raw := p.raw ++ [0x20] } : Parser).rules.drop (i + 1 + s.length) =
          w ++ (rest.flatMap (fun sw => sw.1 ++ sw.2) ++ post) :=
        drop_add_of_drop_append hd1
      refine (readWordsLoop_word sv w _ _ (i + 1 + s.length)
        { p with raw := p.raw ++ [0x20] } hw hd2).trans ?_
      have hd3 : ({ p with raw := p.raw ++ [0x20] ++ w } : Parser).rules.drop
          (i + 1 + s.length + w.length) = rest.flatMap (fun sw => sw.1 ++ sw.2) ++ post :=
        drop_add_of_drop_append hd2
      refine (ih fuel (i + 1 + s.length + w.length) { p with raw := p.raw ++ [0x20] ++ w }
        post (fun x hx => hr x (by simp [hx])) hd3).trans ?_
      have e2 : i + 1 + s.length + w.length + (rest.flatMap (fun sw => sw.1 ++ sw.2)).length =
          i + (((a :: s, w) :: rest).flatMap (fun sw => sw.1 ++ sw.2)).length := by
        simp only [List.flatMap_cons, List.length_append, List.length_cons]
        omega
      rw [e2]
      simp [List.flatMap_cons]

theorem getLast?_words (sv : Services) (hsp : sv.isWhiteSpace 0x20 = true) :
    ∀ (rest : List (List Nat × List Nat)) (w : List Nat),
      (∀ sw ∈ rest, sw.2 ≠ [] ∧ ∀ u ∈ sw.2, wordChar sv u) →
      w ≠ [] → (∀ u ∈ w, wordChar sv u) →
      (w ++ rest.flatMap (fun sw => 0x20 :: sw.2)).getLast? ≠ some 0x20 := by
  intro rest
  induction rest with
  | nil =>
    intro w _ _ hw h
    simp only [List.flatMap_nil, List.append_nil] at h
    exact wordChar_not_space sv hsp w hw (List.mem_of_getLast?_eq_some h)
  | cons sw rest ih =>
    intro w hr _ _ h
    have hv := hr sw (by simp)
    have e : w ++ (sw :: rest).flatMap (fun sw => 0x20 :: sw.2) =
        (w ++ [0x20]) ++ (sw.2 ++ rest.flatMap (fun sw => 0x20 :: sw.2)) := by
      simp [List.flatMap_cons]
    rw [e, List.getLast?_append_of_ne_nil _ (by
      intro hnil
      have := congrArg List.length hnil
      simp at this
      exact hv.1 this.1)] at h
    exact ih sw.2 (fun u hu => hr u (by simp [hu])) hv.1 hv.2 h

/-- `readWords` on words separated by runs of white space -/
theorem readWords_runs (sv : Services) (hws : asciiWhiteSpace sv) (i : Nat) (p : Parser)
    (ws0 w : List Nat) (rest : List (List Nat × List Nat)) (ws1 : List Nat) (c : Nat)
    (post : List Nat)
    (hd : p.rules.drop i =
      ws0 ++ (w ++ (rest.flatMap (fun sw => sw.1 ++ sw.2) ++ (ws1 ++ c :: post))))
    (hws0 : ∀ u ∈ ws0, spaceChar sv u)
    (hw : w ≠ [] ∧ ∀ u ∈ w, wordChar sv u)
    (hrest : ∀ sw ∈ rest, (sw.1 ≠ [] ∧ ∀ u ∈ sw.1, spaceChar sv u) ∧
      (sw.2 ≠ [] ∧ ∀ u ∈ sw.2, wordChar sv u))
    (hws1 : ∀ u ∈ ws1, spaceChar sv u)
    (hc : headStop c) :
    readWords sv i p =
      (i + ws0.length + w.length + (rest.flatMap (fun sw => sw.1 ++ sw.2)).length + ws1.length,
        { p with raw := w ++ rest.flatMap (fun sw => 0x20 :: sw.2) }) := by
  have hcw : sv.isWhiteSpace c = false := by
    cases h : sv.isWhiteSpace c
    · rfl
    · exact absurd hc (not_headStop_of_space sv hws c h)
  have hskip0 : skipWhiteSpace sv p.rules i = i + ws0.length := by
    apply skipWhiteSpace_run sv p.rules ws0 _ i hd (fun u hu => (hws0 u hu).2)
    intro u hu
    obtain ⟨hne, hwc⟩ := hw
    cases w with
    | nil => exact absurd rfl hne
    | cons x w =>
      simp only [List.cons_append, List.head?_cons, Option.some.injEq] at hu
      subst hu; exact (hwc x (by simp)).2
  have hd1 := drop_add_of_drop_append hd
  have hd2 := drop_add_of_drop_append hd1
  have hd3 := drop_add_of_drop_append hd2
  have hlen := congrArg List.length hd1
  simp only [List.length_drop, List.length_append, List.length_cons] at hlen
  have hflat : (rest.flatMap (fun sw => 0x20 :: sw.2)).length ≤
      (rest.flatMap (fun sw => sw.1 ++ sw.2)).length := by
    clear hd hd1 hd2 hd3 hlen
    induction rest with
    | nil => simp
    | cons sw rest ih =>
      have h1 := (hrest sw (by simp)).1.1
      have := ih (fun x hx => hrest x (by simp [hx]))
      have h2 : 1 ≤ sw.1.length := by
        cases hs : sw.1 with
        | nil => exact absurd hs h1
        | cons a s => simp
      simp only [List.flatMap_cons, List.length_append, List.length_cons]
      omega
  have hres : readWords sv i p = readWordsLoop sv
      (p.rules.length - skipWhiteSpace sv p.rules i + 1) (skipWhiteSpace sv p.rules i)
      { p with raw := [] } := rfl
  rw [hres, hskip0]
  -- the words
  obtain ⟨F, hF⟩ : ∃ F, p.rules.length - (i + ws0.length) + 1 =
      F + 1 + 1 + (rest.flatMap (fun sw => 0x20 :: sw.2)).length + w.length :=
    ⟨p.rules.length - (i + ws0.length) + 1 - 2 -
      (rest.flatMap (fun sw => 0x20 :: sw.2)).length - w.length, by omega⟩
  rw [hF]
  refine (readWordsLoop_word sv w _ _ (i + ws0.length) { p with raw := [] } hw.2 hd1).trans ?_
  refine (readWordsLoop_runs sv rest _ (i + ws0.length + w.length)
    { p with raw := [] ++ w } (ws1 ++ c :: post) hrest hd2).trans ?_
  have hnl := getLast?_words sv hws.1 rest w (fun sw h => (hrest sw h).2) hw.1 hw.2
  cases ws1 with
  | nil =>
    simp only [List.nil_append] at hd3
    obtain ⟨hi3, hc3, _⟩ := drop_cons_facts hd3
    refine (readWordsLoop_stop sv _ _
      { p with raw := [] ++ w ++ rest.flatMap (fun sw => 0x20 :: sw.2) } c hi3 hc3 hc).trans ?_
    simp only [List.nil_append, List.length_nil, Nat.add_zero]
    rw [if_neg hnl]
  | cons a s =>
    have hd3' : p.rules.drop (i + ws0.length + w.length +
        (rest.flatMap (fun sw => sw.1 ++ sw.2)).length) = a :: (s ++ c :: post) := hd3
    obtain ⟨hi3, hc3, hd4⟩ := drop_cons_facts hd3'
    have ha := hws1 a (by simp)
    refine (readWordsLoop_space sv _ _
      { p with raw := [] ++ w ++ rest.flatMap (fun sw => 0x20 :: sw.2) } a hi3 hc3
      ha.1 ha.2).trans ?_
    have hskip : skipWhiteSpace sv p.rules (i + ws0.length + w.length +
        (rest.flatMap (fun sw => sw.1 ++ sw.2)).length + 1) =
        i + ws0.length + w.length + (rest.flatMap (fun sw => sw.1 ++ sw.2)).length + 1 +
          s.length := by
      apply skipWhiteSpace_run sv p.rules s (c :: post) _ hd4
        (fun u hu => (hws1 u (by simp [hu])).2)
      intro u hu
      simp only [List.head?_cons, Option.some.injEq] at hu
      subst hu; exact hcw
    show readWordsLoop sv (F + 1) (skipWhiteSpace sv p.rules (i + ws0.length + w.length +
        (rest.flatMap (fun sw => sw.1 ++ sw.2)).length + 1))
      { p with raw := [] ++ w ++ rest.flatMap (fun sw => 0x20 :: sw.2) ++ [0x20] } = _
    rw [hskip]
    obtain ⟨hi5, hc5, _⟩ := drop_cons_facts (drop_add_of_drop_append hd4)
    refine (readWordsLoop_stop sv _ _
      { p with raw := [] ++ w ++ rest.flatMap (fun sw => 0x20 :: sw.2) ++ [0x20] } c hi5 hc5
      hc).trans ?_
    simp only [List.nil_append, List.length_cons]
    rw [if_pos (List.getLast?_concat _), List.dropLast_concat]
    congr 1
    omega


/-- `readWords` that returns an index other than 0 has stopped at a syntax character: the
head is collapsed -/
theorem readWords_collapsed (sv : Services) (hws : asciiWhiteSpace sv) (i : Nat) (p : Parser)
    (h : 0 < (readWords sv i p).1) : collapsed (readWords sv i p).2.raw := by
  obtain ⟨hA, hB⟩ := readWords_outcome sv hws i p
  by_cases hex : ∃ k, i ≤ k ∧ k < p.rules.length ∧ headStop (charAt p.rules k)
  · obtain ⟨h1, h2, h3⟩ := Nat.find_spec hex
    refine (hA (Nat.find hex) h1 h2 h3 (fun m hm1 hm2 hs => ?_)).2
    exact Nat.find_min hex hm2 ⟨hm1, by omega, hs⟩
  · have := hB (fun m hm1 hm2 hs => hex ⟨m, hm1, hm2, hs⟩)
    omega

/-- a string that starts with a space, does not end with one and has no two spaces in a row
is a sequence of words, each after one space -/
theorem words_of_collapsed :
    ∀ (n : Nat) (l : List Nat), l.length ≤ n → (∀ x, l.head? = some x → x = 0x20) →
      l.getLast? ≠ some 0x20 → ¬ [0x20, 0x20] <:+: l →
      ∃ words : List (List Nat), l = words.flatMap (fun w => 0x20 :: w) ∧
        ∀ w ∈ words, w ≠ [] ∧ 0x20 ∉ w := by
  intro n
  induction n with
  | zero =>
    intro l hl _ _ _
    have : l = [] := List.length_eq_zero.mp (by omega)
    exact ⟨[], by simp [this], by simp⟩
  | succ n ih =>
    intro l hl hhead hlast hpair
    cases l with
    | nil => exact ⟨[], by simp, by simp⟩
    | cons a t =>
      have ha : a = 0x20 := hhead a rfl
      subst ha
      have hsplit := List.takeWhile_append_dropWhile (fun c => decide (c ≠ 0x20)) t
      generalize hw : t.takeWhile (fun c => decide (c ≠ 0x20)) = w at hsplit
      generalize hr : t.dropWhile (fun c => decide (c ≠ 0x20)) = r at hsplit
      have hwmem : 0x20 ∉ w := by
        intro hm
        rw [← hw] at hm
        have := List.mem_takeWhile_imp hm
        simp at this
      have hrhead : ∀ x, r.head? = some x → x = 0x20 := by
        intro x hx
        have := List.head?_dropWhile_not (fun c => decide (c ≠ 0x20)) t
        rw [hr, hx] at this
        simpa using this
      have hwne : w ≠ [] := by
        intro hnil
        rw [hnil, List.nil_append] at hsplit
        cases r with
        | nil =>
          apply hlast
          rw [← hsplit]
          rfl
        | cons b r =>
          have hb : b = 0x20 := hrhead b rfl
          subst hb
          apply hpair
          exact ⟨[], r, by rw [← hsplit]; rfl⟩
      have hsuf : r <:+ 0x20 :: t := ⟨0x20 :: w, by rw [← hsplit]; rfl⟩
      have hrlast : r.getLast? ≠ some 0x20 := by
        intro h
        apply hlast
        obtain ⟨ys, hys⟩ := List.getLast?_eq_some_iff.mp h
        apply List.getLast?_eq_some_iff.mpr
        exact ⟨0x20 :: w ++ ys, by rw [← hsplit, hys]; simp⟩
      have hrpair : ¬ [0x20, 0x20] <:+: r := fun h => hpair (h.trans hsuf.isInfix)
      have hrlen : r.length ≤ n := by
        have := congrArg List.length hsplit
        simp only [List.length_append, List.length_cons] at this hl
        omega
      obtain ⟨words, hwords, hall⟩ := ih r hrlen hrhead hrlast hrpair
      refine ⟨w :: words, ?_, ?_⟩
      · rw [List.flatMap_cons, ← hwords, ← hsplit]
        rfl
      · intro v hv
        rcases List.mem_cons.mp hv with h | h
        · subst h; exact ⟨hwne, hwmem⟩
        · exact hall v h

theorem reorder_limit_word (raw pre w : List Nat) (ws : List (List Nat))
    (hraw : raw = pre ++ (w :: ws).flatMap (fun w => 0x20 :: w)) (hw1 : 0x20 ∉ w) :
    pre.length < raw.length ∧
    (indexOfFrom raw 0x20 (pre.length + 1)).getD raw.length = (pre ++ 0x20 :: w).length ∧
    (raw.drop (pre.length + 1)).take ((pre ++ 0x20 :: w).length - (pre.length + 1)) = w := by
  have hraw' : raw = (pre ++ [0x20]) ++ w ++ ws.flatMap (fun w => 0x20 :: w) := by
    rw [hraw]; simp [List.flatMap_cons]
  have hpl : pre.length + 1 = (pre ++ [0x20]).length := by simp
  refine ⟨by rw [hraw']; simp, ?_, ?_⟩
  · rw [hraw', hpl]
    cases ws with
    | nil =>
      unfold indexOfFrom
      simp only [List.flatMap_nil, List.append_nil]
      rw [List.drop_left, indexOf?_none 0x20 w hw1]
      simp
    | cons v vs =>
      rw [indexOfFrom_word (pre ++ [0x20]) w _ hw1, if_pos (by simp [List.flatMap_cons])]
      simp
      omega
  · have hd : raw.drop (pre.length + 1) = w ++ ws.flatMap (fun w => 0x20 :: w) := by
      rw [hraw', hpl, List.append_assoc, List.drop_left]
    rw [hd]
    have : (pre ++ 0x20 :: w).length - (pre.length + 1) = w.length := by simp; omega
    rw [this, List.take_left]

/-- the word loop of `parseReordering` over words, each after one space: every store is
inside the array, and the words are counted by the spaces -/
theorem parseReorderingStores_words (sv : Services) (length : Nat) :
    ∀ (words : List (List Nat)) (pre : List Nat) (codes : List Int) (seen : List (List Nat))
      (fuel : Nat) (p : Parser),
      p.raw = pre ++ words.flatMap (fun w => 0x20 :: w) →
      (∀ w ∈ words, w ≠ [] ∧ 0x20 ∉ w) →
      codes.length + words.length = length → words.length < fuel →
      (∀ w ∈ seen, w ≠ []) →
      ∃ (flag : Bool) (codes' : List Int) (seen' : List (List Nat)) (q : Parser),
        parseReorderingStores sv length fuel pre.length codes seen p =
          some (flag, codes', seen', q) ∧
        parseReorderingLoop sv fuel pre.length codes p = (flag, codes', q) ∧
        (∀ w ∈ seen', w ≠ []) ∧
        (flag = false → codes'.length = length ∧ seen' = seen ++ words) := by
  intro words
  induction words with
  | nil =>
    intro pre codes seen fuel p hraw _ hlen hfuel hseen
    obtain ⟨n, rfl⟩ : ∃ n, fuel = n + 1 := ⟨fuel - 1, by simp at hfuel; omega⟩
    have hnl : ¬ pre.length < p.raw.length := by rw [hraw]; simp
    refine ⟨false, codes, seen, p, ?_, ?_, hseen, fun _ => ⟨by simpa using hlen, by simp⟩⟩
    · rw [parseReorderingStores, if_neg hnl, if_pos (by simpa using hlen)]
    · rw [parseReorderingLoop, if_neg hnl]
  | cons w ws ih =>
    intro pre codes seen fuel p hraw hw hlen hfuel hseen
    obtain ⟨n, rfl⟩ : ∃ n, fuel = n + 1 := ⟨fuel - 1, by simp at hfuel; omega⟩
    obtain ⟨hwne, hw1⟩ := hw w (by simp)
    obtain ⟨hlt, hlimit, hword⟩ := reorder_limit_word p.raw pre w ws hraw hw1
    have hseen' : ∀ v ∈ seen ++ [w], v ≠ [] := by
      intro v hv
      rcases List.mem_append.mp hv with h | h
      · exact hseen v h
      · simp only [List.mem_singleton] at h
        subst h; exact hwne
    rw [parseReorderingStores, parseReorderingLoop, if_pos hlt, if_pos hlt]
    simp only [hlimit, hword]
    by_cases hinv : sv.isInvariantString w = true
    · simp only [hinv, Bool.not_true, Bool.false_eq_true, if_false]
      by_cases hneg : getReorderCode sv w < 0
      · rw [if_pos hneg, if_pos hneg]
        exact ⟨true, codes, seen ++ [w], _, rfl, rfl, hseen', fun h => by cases h⟩
      · rw [if_neg hneg, if_neg hneg]
        simp only [List.length_cons] at hlen hfuel
        rw [if_pos (by omega)]
        obtain ⟨flag, codes', seen', q, h1, h2, h3, h4⟩ := ih (pre ++ 0x20 :: w)
          (codes ++ [getReorderCode sv w]) (seen ++ [w]) n p
          (by rw [hraw]; simp [List.flatMap_cons])
          (fun v hv => hw v (by simp [hv]))
          (by simp only [List.length_append, List.length_singleton]; omega) (by omega) hseen'
        refine ⟨flag, codes', seen', q, h1, h2, h3, fun hf => ?_⟩
        obtain ⟨h5, h6⟩ := h4 hf
        exact ⟨h5, by rw [h6]; simp⟩
    · have hinv' : sv.isInvariantString w = false := by
        cases h : sv.isInvariantString w
        · rfl
        · exact absurd h hinv
      simp only [hinv', Bool.not_false, if_true]
      exact ⟨true, codes, seen, _, rfl, rfl, hseen, fun h => by cases h⟩


/-- C37: the head that `readWords` collects, for every rule text and start index (with white
space that includes U+0020 and no ASCII syntax character).  When a syntax character other
than `-` and `_` stands at `k`, with none between the start and `k`, `readWords` returns `k`
and the head is collapsed: no space at its start, none at its end, no two spaces in a row,
and no syntax character other than `-` and `_`.  When the text has no such character from
the start on, `readWords` returns 0.  And the head is made of the words of the text with one
U+0020 for each run of white space between two words: for a text that reads white space
`ws0`, a word `w`, then runs of white space each followed by a word, then white space `ws1`
and the syntax character, the head is `w` followed by a space and the word for each run,
whatever the lengths of the runs are, and the index returned is that of the syntax
character. -/
theorem readWords_head_collapsed (sv : Services) (hws : asciiWhiteSpace sv) (i : Nat)
    (p : Parser) :
    (∀ k, i ≤ k → k < p.rules.length → headStop (charAt p.rules k) →
      (∀ m, i ≤ m → m < k → ¬ headStop (charAt p.rules m)) →
      (readWords sv i p).1 = k ∧ collapsed (readWords sv i p).2.raw) ∧
    ((∀ m, i ≤ m → m < p.rules.length → ¬ headStop (charAt p.rules m)) →
      (readWords sv i p).1 = 0) ∧
    (∀ (ws0 w : List Nat) (rest : List (List Nat × List Nat)) (ws1 : List Nat) (c : Nat)
        (post : List Nat),
      p.rules.drop i =
        ws0 ++ (w ++ (rest.flatMap (fun sw => sw.1 ++ sw.2) ++ (ws1 ++ c :: post))) →
      (∀ u ∈ ws0, spaceChar sv u) → (w ≠ [] ∧ ∀ u ∈ w, wordChar sv u) →
      (∀ sw ∈ rest, (sw.1 ≠ [] ∧ ∀ u ∈ sw.1, spaceChar sv u) ∧
        (sw.2 ≠ [] ∧ ∀ u ∈ sw.2, wordChar sv u)) →
      (∀ u ∈ ws1, spaceChar sv u) → headStop c →
      (readWords sv i p).1 =
        i + ws0.length + w.length + (rest.flatMap (fun sw => sw.1 ++ sw.2)).length +
          ws1.length ∧
      (readWords sv i p).2.raw = w ++ rest.flatMap (fun sw => 0x20 :: sw.2)) := by
  obtain ⟨hA, hB⟩ := readWords_outcome sv hws i p
  refine ⟨hA, hB, ?_⟩
  intro ws0 w rest ws1 c post hd h0 hw hrest h1 hc
  rw [readWords_runs sv hws i p ws0 w rest ws1 c post hd h0 hw hrest h1 hc]
  exact ⟨rfl, rfl⟩

/-- An instance of `readWords_head_collapsed`: `[  strength   3  ]` and `[strength 3]` give
the same head `strength 3`, and the index of the `]` in each. -/
theorem readWords_head_collapsed_witness :
    (readWords sampleServices 1
        { newParser sampleSettings with rules := ustr "[  strength   3  ]" }).2.raw =
      (readWords sampleServices 1
        { newParser sampleSettings with rules := ustr "[strength 3]" }).2.raw ∧
    (readWords sampleServices 1
        { newParser sampleSettings with rules := ustr "[  strength   3  ]" }).2.raw =
      ustr "strength 3" ∧
    (readWords sampleServices 1
        { newParser sampleSettings with rules := ustr "[  strength   3  ]" }).1 = 17 ∧
    (readWords sampleServices 1
        { newParser sampleSettings with rules := ustr "[strength 3]" }).1 = 11 ∧
    (readWords sampleServices 1
        { newParser sampleSettings with rules := ustr "[strength 3" }).1 = 0 :=
  have h1 := (readWords_head_collapsed sampleServices sampleServices_ascii 1
    { newParser sampleSettings with rules := ustr "[  strength   3  ]" }).2.2
    [0x20, 0x20] (ustr "strength") [([0x20, 0x20, 0x20], [0x33])] [0x20, 0x20] 0x5d []
    (by decide) (by decide) (by decide) (by decide) (by decide) (by decide)
  have h2 := (readWords_head_collapsed sampleServices sampleServices_ascii 1
    { newParser sampleSettings with rules := ustr "[strength 3]" }).2.2
    [] (ustr "strength") [([0x20], [0x33])] [] 0x5d []
    (by decide) (by decide) (by decide) (by decide) (by decide) (by decide)
  have h3 := (readWords_head_collapsed sampleServices sampleServices_ascii 1
    { newParser sampleSettings with rules := ustr "[strength 3" }).2.1 (by decide)
  ⟨h1.2.trans h2.2.symm, h1.2, h1.1, h2.1, h3⟩

/-- C38: the stores of `parseReordering` stay inside the array.  For a head that
`readWords` has collected up to a syntax character (it returned an index other than 0, and
white space includes U+0020 and no ASCII syntax character) and that reads `reorder`, a space
and more, the word loop of `parseReordering`, run from any state with that head on an array
of as many codes as there are spaces after `reorder`, ends without a store outside the array
and without a failing `U_ASSERT(codeIndex == length)`, with the result of the loop of
`parseReordering`; every word handed to `getReorderCode` is non-empty; and when every word
resolves, the number of codes stored and the number of words handed over both are the number
of spaces counted. -/
theorem parseReordering_stores_in_range (sv : Services) (hws : asciiWhiteSpace sv) (i : Nat)
    (p : Parser) (tail : List Nat) (q0 : Parser)
    (hj : 0 < (readWords sv i p).1)
    (hraw : (readWords sv i p).2.raw = ustr "reorder" ++ 0x20 :: tail)
    (hq0 : q0.raw = (readWords sv i p).2.raw) :
    ∃ (flag : Bool) (codes : List Int) (words : List (List Nat)) (q : Parser),
      parseReorderingStores sv ((q0.raw.drop 7).filter (fun c => c = 0x20)).length
        q0.raw.length 7 [] [] q0 = some (flag, codes, words, q) ∧
      parseReorderingLoop sv q0.raw.length 7 [] q0 = (flag, codes, q) ∧
      (∀ w ∈ words, w ≠ []) ∧
      (flag = false →
        codes.length = ((q0.raw.drop 7).filter (fun c => c = 0x20)).length ∧
        words.length = ((q0.raw.drop 7).filter (fun c => c = 0x20)).length) := by
  have hcol := readWords_collapsed sv hws i p hj
  rw [hraw] at hcol
  rw [hraw] at hq0
  obtain ⟨_, hlast, hpair, _⟩ := hcol
  have hsuf : (0x20 :: tail) <:+ ustr "reorder" ++ 0x20 :: tail := ⟨ustr "reorder", rfl⟩
  have hlast' : (0x20 :: tail).getLast? ≠ some 0x20 := by
    rw [List.getLast?_append_of_ne_nil _ (by simp)] at hlast
    exact hlast
  obtain ⟨words, hwords, hall⟩ := words_of_collapsed (0x20 :: tail).length (0x20 :: tail)
    (le_refl _) (fun x hx => by simpa using hx.symm) hlast'
    (fun h => hpair (h.trans hsuf.isInfix))
  have hq : q0.raw = ustr "reorder" ++ words.flatMap (fun w => 0x20 :: w) := by
    rw [hq0, hwords]
  have h7 : (ustr "reorder").length = 7 := rfl
  have hcount : ((q0.raw.drop 7).filter (fun c => decide (c = 0x20))).length =
      words.length := by
    rw [hq]
    have : (ustr "reorder" ++ words.flatMap (fun w => 0x20 :: w)).drop 7 =
        words.flatMap (fun w => 0x20 :: w) :=
      List.drop_left (ustr "reorder") (words.flatMap (fun w => 0x20 :: w))
    rw [this]
    exact count_spaces words (fun w h => (hall w h).2)
  obtain ⟨flag, codes, seen, q, h1, h2, h3, h4⟩ := parseReorderingStores_words sv
    ((q0.raw.drop 7).filter (fun c => decide (c = 0x20))).length words (ustr "reorder") [] []
    q0.raw.length q0 hq hall (by simp [hcount]) (by
      have := length_le_flatMap words
      rw [hq, List.length_append, h7]
      omega) (by simp)
  rw [h7] at h1 h2
  refine ⟨flag, codes, seen, q, h1, h2, h3, fun hf => ?_⟩
  obtain ⟨h5, h6⟩ := h4 hf
  refine ⟨h5, ?_⟩
  rw [h6, hcount]
  simp

/-- An instance of `parseReordering_stores_in_range`: for `[reorder space  punct]` the head
is `reorder space punct`, two spaces are counted, and the loop stores the two codes of
`space` and `punct` at the indices 0 and 1. -/
theorem parseReordering_stores_in_range_witness :
    parseReorderingStores sampleServices 2 19 7 [] []
        (readWords sampleServices 1
          { newParser sampleSettings with rules := ustr "[reorder space  punct]" }).2 =
      some (false, [0x1000, 0x1001], [ustr "space", ustr "punct"],
        (readWords sampleServices 1
          { newParser sampleSettings with rules := ustr "[reorder space  punct]" }).2) ∧
    ∃ (flag : Bool) (codes : List Int) (words : List (List Nat)) (q : Parser),
      parseReorderingStores sampleServices
        (((readWords sampleServices 1
          { newParser sampleSettings with rules := ustr "[reorder space  punct]" }).2.raw.drop
            7).filter (fun c => c = 0x20)).length
        (readWords sampleServices 1
          { newParser sampleSettings with rules := ustr "[reorder space  punct]" }).2.raw.length
        7 [] []
        (readWords sampleServices 1
          { newParser sampleSettings with rules := ustr "[reorder space  punct]" }).2 =
        some (flag, codes, words, q) ∧
      (∀ w ∈ words, w ≠ []) :=
  ⟨by decide,
   (parseReordering_stores_in_range sampleServices sampleServices_ascii 1
      { newParser sampleSettings with rules := ustr "[reorder space  punct]" }
      (ustr "space punct")
      (readWords sampleServices 1
        { newParser sampleSettings with rules := ustr "[reorder space  punct]" }).2
      (by decide) (by decide) rfl).imp
    (fun _ h => h.imp (fun _ h => h.imp (fun _ h => h.imp (fun _ h => ⟨h.1, h.2.2.1⟩))))⟩


/-! ## Dashes in starred relations -/


theorem U16_APPEND_eq_dash (x : Nat) (h : U16_APPEND x = [0x2d]) : x = 0x2d := by
  unfold U16_APPEND at h
  split at h
  · simpa using h
  · split at h <;> simp at h

theorem charAt_of_char32At_small (s : List Nat) (j : Nat) (hj : j < s.length)
    (h : char32At s j < 0xd800) : charAt s j = char32At s j := by
  unfold char32At at h ⊢
  rw [if_pos hj] at h ⊢
  simp only [] at h ⊢
  by_cases hs : U_IS_SURROGATE (charAt s j) = true
  · exfalso
    have hs' : 0xd800 ≤ charAt s j := by
      simp only [U_IS_SURROGATE, decide_eq_true_eq] at hs; exact hs.1
    rw [if_pos hs] at h
    have hsup : ∀ l t, U16_IS_LEAD l = true → U16_IS_TRAIL t = true →
        ¬ U16_GET_SUPPLEMENTARY l t < 0xd800 := by
      intro l t hl ht
      simp only [U16_IS_LEAD, decide_eq_true_eq] at hl
      simp only [U16_IS_TRAIL, decide_eq_true_eq] at ht
      unfold U16_GET_SUPPLEMENTARY
      omega
    by_cases hl : U16_IS_LEAD (charAt s j) = true
    · rw [if_pos hl] at h
      by_cases h2 : (decide (j + 1 ≠ s.length) && U16_IS_TRAIL (charAt s (j + 1))) = true
      · rw [if_pos h2] at h
        simp only [Bool.and_eq_true] at h2
        exact hsup _ _ hl h2.2 h
      · rw [if_neg h2] at h; omega
    · rw [if_neg hl] at h
      by_cases h2 : (decide (0 < j) && U16_IS_LEAD (charAt s (j - 1))) = true
      · rw [if_pos h2] at h
        simp only [Bool.and_eq_true] at h2
        have ht : U16_IS_TRAIL (charAt s j) = true := by
          simp only [U_IS_SURROGATE, decide_eq_true_eq] at hs
          have hl' : ¬ (0xd800 ≤ charAt s j ∧ charAt s j ≤ 0xdbff) := by
            intro hh
            apply hl
            simp only [U16_IS_LEAD, decide_eq_true_eq]
            exact hh
          simp only [U16_IS_TRAIL, decide_eq_true_eq]
          omega
        exact hsup _ _ h2.2 ht h
      · rw [if_neg h2] at h; omega
  · rw [if_neg hs]

/-- the relations that the loop `while(++prev <= c)` adds: the hyphen-minus is among their
targets only when `prev` is below it and `c` is not -/
theorem parseStarredRange_dash (sv : Services) (s : Int) :
    ∀ (fuel : Nat) (prev : Int) (c : Nat) (p : Parser),
      ∃ l, (parseStarredRange sv s fuel prev c p).sinkCalls = p.sinkCalls ++ l ∧
        (parseStarredRange sv s fuel prev c p).raw = p.raw ∧
        (∀ s' x y, SinkCall.addRelation s' x [0x2d] y ∈ l → prev < 0x2d ∧ 0x2d ≤ c) := by
  intro fuel
  induction fuel with
  | zero => intro prev c p; exact ⟨[], by simp [parseStarredRange], rfl, by simp⟩
  | succ n ih =>
    intro prev c p
    rw [parseStarredRange]
    simp only []
    split
    · next hle =>
      obtain ⟨l, h, hraw, hl⟩ := ih (prev + 1) c
        (callSink sv (SinkCall.addRelation s p.pfx (U16_APPEND (prev + 1).toNat) p.extension)
          { p with str := U16_APPEND (prev + 1).toNat })
      refine ⟨SinkCall.addRelation s p.pfx (U16_APPEND (prev + 1).toNat) p.extension :: l,
        ?_, ?_, ?_⟩
      · rw [h, sinkCalls_callSink]; simp
      · rw [hraw, raw_callSink]
      · intro s' x y hx
        rcases List.mem_cons.mp hx with h1 | h1
        · injection h1 with _ _ h3 _
          have := U16_APPEND_eq_dash _ h3.symm
          omega
        · have := hl s' x y h1
          omega
    · exact ⟨[], by simp, rfl, by simp⟩

/-- the relations that the loop of `parseStarredCharacters` adds: one whose target is the
hyphen-minus comes from a range that covers it -/
theorem parseStarredLoop_dash (sv : Services) (s : Int) :
    ∀ (fuel j : Nat) (prev : Int) (p : Parser),
      (0 ≤ prev → prev < 0x2d → 1 ≤ j ∧ (charAt p.raw (j - 1) : Int) = prev) →
      ∃ l, (parseStarredLoop sv s fuel j prev p).2.sinkCalls = p.sinkCalls ++ l ∧
        (∀ s' x y, SinkCall.addRelation s' x [0x2d] y ∈ l → ∃ k, rangeOverDash p.raw k) := by
  intro fuel
  induction fuel with
  | zero =>
    intro j prev p _
    exact ⟨[], by simp [parseStarredLoop], by simp⟩
  | succ n ih =>
    intro j prev p hinv
    have herr : ∀ reason, ∃ l, (true, setParseError reason p).2.sinkCalls = p.sinkCalls ++ l ∧
        (∀ s' x y, SinkCall.addRelation s' x [0x2d] y ∈ l → ∃ k, rangeOverDash p.raw k) :=
      fun reason => ⟨[], by simp [sinkCalls_setParseError], by simp⟩
    rw [parseStarredLoop]
    by_cases hcond : (decide (j < p.raw.length) && !U_FAILURE p.errorCode) = true
    · rw [if_pos hcond]
      simp only [Bool.and_eq_true, decide_eq_true_eq] at hcond
      simp only []
      by_cases hdash : char32At p.raw j ≠ 0x2d
      · rw [if_pos hdash]
        by_cases hin : (!sv.nfdIsInert (char32At p.raw j)) = true
        · rw [if_pos hin]; exact herr _
        · rw [if_neg hin]
          obtain ⟨l, h, hl⟩ := ih (j + U16_LENGTH (char32At p.raw j)) (char32At p.raw j)
            (callSink sv (SinkCall.addRelation s p.pfx (U16_APPEND (char32At p.raw j))
              p.extension) { p with str := U16_APPEND (char32At p.raw j) })
            (by
              intro _ hlt
              have hsmall : char32At p.raw j < 0xd800 := by omega
              have hc := charAt_of_char32At_small p.raw j hcond.1 hsmall
              have hlen : U16_LENGTH (char32At p.raw j) = 1 := by
                unfold U16_LENGTH; rw [if_pos (by omega)]
              rw [hlen, raw_callSink]
              refine ⟨by omega, ?_⟩
              show ((charAt p.raw (j + 1 - 1) : Nat) : Int) = _
              rw [Nat.add_sub_cancel, hc])
          rw [raw_callSink] at hl
          refine ⟨SinkCall.addRelation s p.pfx (U16_APPEND (char32At p.raw j)) p.extension :: l,
            ?_, ?_⟩
          · rw [h, sinkCalls_callSink]; simp
          · intro s' x y hx
            rcases List.mem_cons.mp hx with h1 | h1
            · injection h1 with _ _ h3 _
              exact absurd (U16_APPEND_eq_dash _ h3.symm) hdash
            · exact hl s' x y h1
      · rw [if_neg hdash]
        have hd : char32At p.raw j = 0x2d := by
          by_contra hne; exact hdash hne
        by_cases hprev : prev < 0
        · rw [if_pos hprev]; exact herr _
        · rw [if_neg hprev]
          by_cases hend : j + 1 = p.raw.length
          · rw [if_pos hend]; exact herr _
          · rw [if_neg hend]
            by_cases hin : (!sv.nfdIsInert (char32At p.raw (j + 1))) = true
            · rw [if_pos hin]; exact herr _
            · rw [if_neg hin]
              by_cases hlt : ((char32At p.raw (j + 1) : Nat) : Int) < prev
              · rw [if_pos hlt]; exact herr _
              · rw [if_neg hlt]
                obtain ⟨l1, h1, hraw1, hl1⟩ := parseStarredRange_dash sv s
                  (char32At p.raw (j + 1) + 1 - prev.toNat) prev (char32At p.raw (j + 1)) p
                obtain ⟨l2, h2, hl2⟩ := ih (j + 1 + U16_LENGTH (char32At p.raw (j + 1))) (-1)
                  (parseStarredRange sv s (char32At p.raw (j + 1) + 1 - prev.toNat) prev
                    (char32At p.raw (j + 1)) p) (fun h => by omega)
                rw [hraw1] at hl2
                refine ⟨l1 ++ l2, ?_, ?_⟩
                · rw [h2, h1, List.append_assoc]
                · intro s' x y hx
                  rcases List.mem_append.mp hx with hm | hm
                  · obtain ⟨hp, hc⟩ := hl1 s' x y hm
                    obtain ⟨hj1, hcp⟩ := hinv (by omega) hp
                    have hcj : charAt p.raw j = 0x2d := by
                      rw [charAt_of_char32At_small p.raw j hcond.1 (by omega), hd]
                    refine ⟨j, hj1, hcj, ?_, by exact_mod_cast hc⟩
                    have : ((charAt p.raw (j - 1) : Nat) : Int) < 0x2d := by omega
                    exact_mod_cast this
                  · exact hl2 s' x y hm
    · rw [if_neg hcond]
      exact ⟨[], by simp, by simp⟩


theorem parseStringLoop_dash_bare (sv : Services) (fuel i : Nat) (p : Parser)
    (hi : i < p.rules.length) (hc : charAt p.rules i = 0x2d) :
    parseStringLoop sv true (fuel + 1) i p =
      parseStringLoop sv true fuel (i + 1) { p with raw := p.raw ++ [0x2d] } := by
  rw [parseStringLoop]
  simp [hi, hc, isSyntaxChar]

theorem parseStringLoop_dash_escaped (sv : Services) (allowDash : Bool) (fuel i : Nat)
    (p : Parser) (rest : List Nat) (hd : p.rules.drop i = 0x5c :: 0x2d :: rest) :
    parseStringLoop sv allowDash (fuel + 1) i p =
      parseStringLoop sv allowDash fuel (i + 2) { p with raw := p.raw ++ [0x2d] } := by
  obtain ⟨hi, hc, hd1⟩ := drop_cons_facts hd
  obtain ⟨hi1, hc1, _⟩ := drop_cons_facts hd1
  have h32 : char32At p.rules (i + 1) = 0x2d := by
    rw [char32At_after_backslash p.rules i hi1 hc, hc1]
    rw [if_neg (fun h => absurd h.1 (by decide))]
  rw [parseStringLoop_backslash sv allowDash fuel i p hi1 hc, h32]
  rfl

theorem parseStringLoop_dash_quoted (sv : Services) (allowDash : Bool) (fuel i : Nat)
    (p : Parser) (rest : List Nat) (hd : p.rules.drop i = 0x27 :: 0x2d :: 0x27 :: rest)
    (hrest : ∀ u, rest.head? = some u → u ≠ 0x27) :
    parseStringLoop sv allowDash (fuel + 1) i p =
      parseStringLoop sv allowDash fuel (i + 3) { p with raw := p.raw ++ [0x2d] } := by
  obtain ⟨hi, hc, hd1⟩ := drop_cons_facts hd
  obtain ⟨hi1, hc1, _⟩ := drop_cons_facts hd1
  have hlen := congrArg List.length hd
  simp only [List.length_drop, List.length_cons] at hlen
  have hq := parseQuotedLoop_run p.rules [0x2d] rest (p.rules.length - (i + 1)) (i + 1) p.raw
    (by simp) (by simpa using hd1) hrest (by simp only [List.length_singleton]; omega)
  exact parseStringLoop_quote sv allowDash fuel i p (i + 3) (p.raw ++ [0x2d]) hi hc
    (by rw [hc1]; simp) hq

/-- `parseString` on a literal made of a plain character, a dash in one of its three
spellings, and a plain character -/
theorem parseString_dash_literal (sv : Services) (p : Parser) (i d : Nat) (a c : Nat)
    (dash post : List Nat)
    (hstep : ∀ (fuel : Nat) (q : Parser), q.rules = p.rules →
      parseStringLoop sv true (fuel + 1) (i + 1) q =
        parseStringLoop sv true fuel (i + 1 + d) { q with raw := q.raw ++ [0x2d] })
    (hd : p.rules.drop i = a :: (dash ++ c :: post)) (hdl : dash.length = d) (hd1 : 1 ≤ d)
    (hok : p.errorCode = UErrorCode.U_ZERO_ERROR)
    (ha : plainChar sv a ∧ U_IS_SURROGATE a = false ∧ a < 0xfffe)
    (hc : plainChar sv c ∧ U_IS_SURROGATE c = false ∧ c < 0xfffe)
    (hpost : ∀ u, post.head? = some u → isSyntaxChar u = false ∧ sv.isWhiteSpace u = true) :
    (parseString sv i true p).2.raw = [a, 0x2d, c] ∧
    (parseString sv i true p).2.errorCode = UErrorCode.U_ZERO_ERROR := by
  obtain ⟨hi, hca, hda⟩ := drop_cons_facts hd
  have hdc : p.rules.drop (i + 1 + d) = c :: post := by
    rw [← hdl]; exact drop_add_of_drop_append hda
  obtain ⟨hi2, hcc, hdp⟩ := drop_cons_facts hdc
  have hlen := congrArg List.length hd
  simp only [List.length_drop, List.length_cons, List.length_append] at hlen
  have hskip : skipWhiteSpace sv p.rules i = i :=
    skipWhiteSpace_stop sv p.rules i (fun _ => by rw [hca]; exact ha.1.2)
  have hF : U_FAILURE p.errorCode = false := by rw [hok]; rfl
  have hwf : wellFormed16 [a, 0x2d, c] = true := by
    have ha1 : U16_IS_LEAD a = false := by
      have := ha.2.1
      simp only [U_IS_SURROGATE, decide_eq_false_iff_not] at this
      simp only [U16_IS_LEAD, decide_eq_false_iff_not]
      omega
    have ha2 : a ≠ 0xfffe ∧ a ≠ 0xffff := by omega
    have hc2 : c ≠ 0xfffe ∧ c ≠ 0xffff := by omega
    have ha3 : ¬ (0xd800 ≤ a ∧ a ≤ 0xdbff) := by
      simpa only [U16_IS_LEAD, decide_eq_false_iff_not] using ha1
    have ha4 : a < 0xd800 ∨ 0xdfff < a := by
      have := ha.2.1
      simp only [U_IS_SURROGATE, decide_eq_false_iff_not] at this
      omega
    have hc4 : c < 0xd800 ∨ 0xdfff < c := by
      have := hc.2.1
      simp only [U_IS_SURROGATE, decide_eq_false_iff_not] at this
      omega
    simp [wellFormed16, ha1, ha.2.1, hc.2.1, ha2.1, ha2.2, hc2.1, hc2.2, U16_IS_LEAD,
      U_IS_SURROGATE]
    rw [if_neg ha3]
    exact ⟨ha4, hc4⟩
  have hu : ∀ u ∈ [a, 0x2d, c], u < 0x10000 := by
    intro u hu
    simp only [List.mem_cons, List.mem_singleton, List.not_mem_nil, or_false] at hu
    rcases hu with rfl | rfl | rfl <;> omega
  have hcheck := checkStringLoop_wellFormed { p with raw := [a, 0x2d, c] } 3 [a, 0x2d, c] 0
    (by simp) hwf hu (le_refl _)
  have hloop : ∃ k, parseStringLoop sv true (p.rules.length - i) i { p with raw := [] } =
      (false, k, { p with raw := [a, 0x2d, c] }) := by
    cases post with
    | nil =>
      obtain ⟨F, hF⟩ : ∃ F, p.rules.length - i = F + 1 + 1 + 1 :=
        ⟨p.rules.length - i - 3, by simp only [List.length_nil] at hlen; omega⟩
      rw [hF]
      refine ⟨i + 1 + d + 1, ?_⟩
      refine (parseStringLoop_plain_step sv true _ i { p with raw := [] } a hi hca
        ha.1.1 ha.1.2).trans ?_
      refine (hstep _ { p with raw := [] ++ [a] } rfl).trans ?_
      refine (parseStringLoop_plain_step sv true _ (i + 1 + d)
        { p with raw := [] ++ [a] ++ [0x2d] } c hi2 hcc hc.1.1 hc.1.2).trans ?_
      exact parseStringLoop_end sv true _ _ _ (by
        show p.rules.length ≤ i + 1 + d + 1
        simp only [List.length_nil] at hlen; omega)
    | cons t rest =>
      obtain ⟨F, hF⟩ : ∃ F, p.rules.length - i = F + 1 + 1 + 1 + 1 :=
        ⟨p.rules.length - i - 4, by simp only [List.length_cons] at hlen; omega⟩
      rw [hF]
      obtain ⟨hi3, hct, _⟩ := drop_cons_facts hdp
      obtain ⟨ht1, ht2⟩ := hpost t rfl
      refine ⟨skipWhiteSpace sv p.rules (i + 1 + d + 1 + 1), ?_⟩
      refine (parseStringLoop_plain_step sv true _ i { p with raw := [] } a hi hca
        ha.1.1 ha.1.2).trans ?_
      refine (hstep _ { p with raw := [] ++ [a] } rfl).trans ?_
      refine (parseStringLoop_plain_step sv true _ (i + 1 + d)
        { p with raw := [] ++ [a] ++ [0x2d] } c hi2 hcc hc.1.1 hc.1.2).trans ?_
      exact parseStringLoop_whiteSpace sv true F (i + 1 + d + 1)
        { p with raw := [] ++ [a] ++ [0x2d] ++ [c] } hi3 (by rw [hct]; exact ht1)
        (by rw [hct]; exact ht2)
  obtain ⟨k, hk⟩ := hloop
  have hres : parseString sv i true p =
      (k, checkStringLoop 3 0 { p with raw := [a, 0x2d, c] }) := by
    unfold parseString
    rw [if_neg (by rw [hF]; decide)]
    simp only []
    rw [hskip, hk]
    rfl
  rw [hres, hcheck]
  exact ⟨rfl, hok⟩

/-- the relations of a starred literal that decodes to items -/
theorem parseStarredCharacters_items (sv : Services) (strength : Int) (i : Nat) (p : Parser)
    (items : List (Nat × Option Nat))
    (hacc : ∀ h c, sv.sink h c = none)
    (hok : (parseString sv i true (resetTailoringStrings p)).2.errorCode =
      UErrorCode.U_ZERO_ERROR)
    (hraw : (parseString sv i true (resetTailoringStrings p)).2.raw = items.flatMap itemText)
    (hitems : ∀ it ∈ items, starredItem sv it) :
    (parseStarredCharacters sv strength i p).sinkCalls =
      p.sinkCalls ++ (items.flatMap itemExpansion).map
        (fun c => SinkCall.addRelation strength [] (U16_APPEND c) []) := by
  have hfr := scanFrame_parseString sv i true (resetTailoringStrings p)
  simp only [scanFrame, Prod.mk.injEq] at hfr
  obtain ⟨-, -, hpfx, -, hext, -, -, hcalls⟩ := hfr
  simp only [parseStarredCharacters]
  generalize parseString sv i true (resetTailoringStrings p) = r at *
  have hF : U_FAILURE r.2.errorCode = false := by rw [hok]; rfl
  have hloop := parseStarredLoop_items sv hacc strength items r.2.raw.length 0 (-1) r.2
    (by simpa using hraw) hitems hF (by rw [hraw])
  simp only [hF, hloop]
  simp [emitted, hpfx, hext, hcalls, resetTailoringStrings]

/-- the relations of a starred literal `a?c`, the `?` a dash in one of its spellings -/
theorem parseStarredCharacters_dash_literal (sv : Services) (strength : Int) (p : Parser)
    (i d : Nat) (a c : Nat) (dash post : List Nat)
    (hstep : ∀ (fuel : Nat) (q : Parser), q.rules = p.rules →
      parseStringLoop sv true (fuel + 1) (i + 1) q =
        parseStringLoop sv true fuel (i + 1 + d) { q with raw := q.raw ++ [0x2d] })
    (hd : p.rules.drop i = a :: (dash ++ c :: post)) (hdl : dash.length = d) (hd1 : 1 ≤ d)
    (hacc : ∀ h c, sv.sink h c = none)
    (hok : p.errorCode = UErrorCode.U_ZERO_ERROR)
    (ha : plainChar sv a ∧ starredChar sv a ∧ a < 0xfffe)
    (hc : plainChar sv c ∧ starredChar sv c ∧ c < 0xfffe) (hac : a ≤ c)
    (hpost : ∀ u, post.head? = some u → isSyntaxChar u = false ∧ sv.isWhiteSpace u = true) :
    (parseStarredCharacters sv strength i p).sinkCalls =
      p.sinkCalls ++ (List.range' a (c + 1 - a)).map
        (fun k => SinkCall.addRelation strength [] (U16_APPEND k) []) := by
  obtain ⟨hraw, hcode⟩ := parseString_dash_literal sv (resetTailoringStrings p) i d a c dash
    post hstep hd hdl hd1 hok ⟨ha.1, ha.2.1.2.1, ha.2.2⟩ ⟨hc.1, hc.2.1.2.1, hc.2.2⟩ hpost
  have h := parseStarredCharacters_items sv strength i p [(a, some c)] hacc hcode
    (by
      rw [hraw]
      have h1 := (U16_APPEND_bmp a (by omega)).1
      have h2 := (U16_APPEND_bmp c (by omega)).1
      simp [itemText, h1, h2])
    (by
      intro it hit
      simp only [List.mem_singleton] at hit
      subst hit
      exact ⟨ha.2.1, hc.2.1, hac⟩)
  rw [h]
  simp [itemExpansion]


/-- the relations that `parseStarredCharacters` adds: one whose target is the hyphen-minus
comes from a range of the decoded literal that covers it -/
theorem parseStarredCharacters_dash (sv : Services) (strength : Int) (i : Nat) (q : Parser) :
    ∃ l, (parseStarredCharacters sv strength i q).sinkCalls = q.sinkCalls ++ l ∧
      ∀ s' x y, SinkCall.addRelation s' x [0x2d] y ∈ l →
        ∃ k, rangeOverDash (parseString sv i true (resetTailoringStrings q)).2.raw k := by
  have hcalls : (parseString sv i true (resetTailoringStrings q)).2.sinkCalls = q.sinkCalls :=
    sinkCalls_parseString sv i true (resetTailoringStrings q)
  unfold parseStarredCharacters
  simp only []
  generalize parseString sv i true (resetTailoringStrings q) = r at *
  by_cases hF : U_FAILURE r.2.errorCode = true
  · rw [if_pos hF]
    exact ⟨[], by rw [hcalls]; simp, by simp⟩
  · rw [if_neg hF]
    obtain ⟨l, h, hl⟩ := parseStarredLoop_dash sv strength r.2.raw.length 0 (-1) r.2
      (fun h => absurd h (by decide))
    rw [hcalls] at h
    generalize parseStarredLoop sv strength r.2.raw.length 0 (-1) r.2 = res at *
    obtain ⟨b, x⟩ := res
    cases b
    · exact ⟨l, h, hl⟩
    · exact ⟨l, h, hl⟩

/-- C39: in a starred relation a quoted or escaped dash is a range separator like a bare
one.  With a sink that accepts every call, a state without error, and plain characters
`a ≤ c` that are NFD-inert scalar values below U+FFFE, the starred literals `a-c`, `a\-c` and
`a'-'c` (followed by the end of the text or by white space) all add the same relations: one
for each code point from `a` to `c`, in order, with the given strength and empty prefix and
extension.  And for every starred literal, whatever it is and whatever the sink does, a
relation with the target U+002D is among those added only when the decoded literal has a
range that covers U+002D: a dash with a unit below U+002D before it and a code point at or
above U+002D after it. -/
theorem starred_dash_is_separator (sv : Services) (strength : Int) (p : Parser)
    (pre post : List Nat) (a c : Nat)
    (hacc : ∀ h c, sv.sink h c = none)
    (hok : p.errorCode = UErrorCode.U_ZERO_ERROR)
    (ha : plainChar sv a ∧ starredChar sv a ∧ a < 0xfffe)
    (hc : plainChar sv c ∧ starredChar sv c ∧ c < 0xfffe) (hac : a ≤ c)
    (hpost : ∀ u, post.head? = some u → isSyntaxChar u = false ∧ sv.isWhiteSpace u = true) :
    (parseStarredCharacters sv strength pre.length
        { p with rules := pre ++ a :: 0x2d :: c :: post }).sinkCalls =
      p.sinkCalls ++ (List.range' a (c + 1 - a)).map
        (fun k => SinkCall.addRelation strength [] (U16_APPEND k) []) ∧
    (parseStarredCharacters sv strength pre.length
        { p with rules := pre ++ a :: 0x5c :: 0x2d :: c :: post }).sinkCalls =
      p.sinkCalls ++ (List.range' a (c + 1 - a)).map
        (fun k => SinkCall.addRelation strength [] (U16_APPEND k) []) ∧
    (parseStarredCharacters sv strength pre.length
        { p with rules := pre ++ a :: 0x27 :: 0x2d :: 0x27 :: c :: post }).sinkCalls =
      p.sinkCalls ++ (List.range' a (c + 1 - a)).map
        (fun k => SinkCall.addRelation strength [] (U16_APPEND k) []) ∧
    (∀ (i : Nat) (q : Parser),
      ∃ l, (parseStarredCharacters sv strength i q).sinkCalls = q.sinkCalls ++ l ∧
        ∀ s' x y, SinkCall.addRelation s' x [0x2d] y ∈ l →
          ∃ k, rangeOverDash (parseString sv i true (resetTailoringStrings q)).2.raw k) := by
  have hc27 : c ≠ 0x27 := by
    intro h
    have := hc.1.1
    rw [h] at this
    exact absurd this (by decide)
  refine ⟨?_, ?_, ?_, fun i q => parseStarredCharacters_dash sv strength i q⟩
  · refine parseStarredCharacters_dash_literal sv strength
      { p with rules := pre ++ a :: 0x2d :: c :: post } pre.length 1 a c [0x2d] post ?_
      (by simp) rfl (le_refl _) hacc hok ha hc hac hpost
    intro fuel q hq
    have hd : q.rules.drop (pre.length + 1) = 0x2d :: c :: post := by
      rw [hq]
      show (pre ++ a :: 0x2d :: c :: post).drop (pre.length + 1) = _
      rw [show pre ++ a :: 0x2d :: c :: post = (pre ++ [a]) ++ 0x2d :: c :: post by simp,
        show pre.length + 1 = (pre ++ [a]).length by simp, List.drop_left]
    obtain ⟨hi, hcd, _⟩ := drop_cons_facts hd
    exact parseStringLoop_dash_bare sv fuel (pre.length + 1) q hi hcd
  · refine parseStarredCharacters_dash_literal sv strength
      { p with rules := pre ++ a :: 0x5c :: 0x2d :: c :: post } pre.length 2 a c [0x5c, 0x2d]
      post ?_ (by simp) rfl (by decide) hacc hok ha hc hac hpost
    intro fuel q hq
    have hd : q.rules.drop (pre.length + 1) = 0x5c :: 0x2d :: c :: post := by
      rw [hq]
      show (pre ++ a :: 0x5c :: 0x2d :: c :: post).drop (pre.length + 1) = _
      rw [show pre ++ a :: 0x5c :: 0x2d :: c :: post =
          (pre ++ [a]) ++ 0x5c :: 0x2d :: c :: post by simp,
        show pre.length + 1 = (pre ++ [a]).length by simp, List.drop_left]
    exact parseStringLoop_dash_escaped sv true fuel (pre.length + 1) q (c :: post) hd
  · refine parseStarredCharacters_dash_literal sv strength
      { p with rules := pre ++ a :: 0x27 :: 0x2d :: 0x27 :: c :: post } pre.length 3 a c
      [0x27, 0x2d, 0x27] post ?_ (by simp) rfl (by decide) hacc hok ha hc hac hpost
    intro fuel q hq
    have hd : q.rules.drop (pre.length + 1) = 0x27 :: 0x2d :: 0x27 :: c :: post := by
      rw [hq]
      show (pre ++ a :: 0x27 :: 0x2d :: 0x27 :: c :: post).drop (pre.length + 1) = _
      rw [show pre ++ a :: 0x27 :: 0x2d :: 0x27 :: c :: post =
          (pre ++ [a]) ++ 0x27 :: 0x2d :: 0x27 :: c :: post by simp,
        show pre.length + 1 = (pre ++ [a]).length by simp, List.drop_left]
    exact parseStringLoop_dash_quoted sv true fuel (pre.length + 1) q (c :: post) hd
      (fun u hu => by
        simp only [List.head?_cons, Option.some.injEq] at hu
        subst hu; exact hc27)

/-- An instance of `starred_dash_is_separator`: after `&a <*`, the literals `b-d`, `b\-d`
and `b'-'d` each add the three relations for `b`, `c`, `d`; none has the target `-`. -/
theorem starred_dash_is_separator_witness :
    (parseStarredCharacters sampleServices PRIMARY 5
        { newParser sampleSettings with rules := ustr "&a <*" ++ [0x62, 0x2d, 0x64] }).sinkCalls =
      [SinkCall.addRelation PRIMARY [] [0x62] [], SinkCall.addRelation PRIMARY [] [0x63] [],
       SinkCall.addRelation PRIMARY [] [0x64] []] ∧
    (parseStarredCharacters sampleServices PRIMARY 5
        { newParser sampleSettings with
          rules := ustr "&a <*" ++ [0x62, 0x5c, 0x2d, 0x64] }).sinkCalls =
      [SinkCall.addRelation PRIMARY [] [0x62] [], SinkCall.addRelation PRIMARY [] [0x63] [],
       SinkCall.addRelation PRIMARY [] [0x64] []] ∧
    (parseStarredCharacters sampleServices PRIMARY 5
        { newParser sampleSettings with
          rules := ustr "&a <*" ++ [0x62, 0x27, 0x2d, 0x27, 0x64] }).sinkCalls =
      [SinkCall.addRelation PRIMARY [] [0x62] [], SinkCall.addRelation PRIMARY [] [0x63] [],
       SinkCall.addRelation PRIMARY [] [0x64] []] :=
  have h := starred_dash_is_separator sampleServices PRIMARY (newParser sampleSettings)
    (ustr "&a <*") [] 0x62 0x64 (fun _ _ => rfl) rfl (by decide) (by decide) (by decide)
    (by decide)
  ⟨h.1, h.2.1, h.2.2.1⟩



/-- C10: a backslash outside quoted text escapes exactly the following code point.  For a
rule text that ends with the literal `x\ey`, where `x` and `y` are plain characters (either
may be empty) and `e` is the code point after the backslash, either one code unit `u`,
whatever it is (a syntax character, white space, an apostrophe, a backslash, a dash, an
unpaired surrogate), or a surrogate pair: `parseString` returns the end of the text and
decodes `x`, then the units of `e` and nothing for the backslash, then `y`; so the pair is
consumed as two units and appended as one code point, and scanning goes on with the unit
after `e`.  One unit `u` is the code point after the backslash unless it is a lead surrogate
with a trail surrogate after it, which is the other case.  When the decoded string is
well-formed nothing else in the state changes, so no error is set. -/
theorem parseString_escape (sv : Services) (allowDash : Bool) (p : Parser)
    (pre x e y : List Nat)
    (hok : p.errorCode = UErrorCode.U_ZERO_ERROR)
    (hws : sv.isWhiteSpace 0x5c = false)
    (hrules : p.rules = pre ++ x ++ 0x5c :: e ++ y)
    (hx : ∀ u ∈ x, plainChar sv u) (hy : ∀ u ∈ y, plainChar sv u)
    (he : (∃ u, e = [u] ∧ u < 0x10000 ∧
        ¬ (U16_IS_LEAD u = true ∧ ∃ t, y.head? = some t ∧ U16_IS_TRAIL t = true)) ∨
      (∃ l t, e = [l, t] ∧ U16_IS_LEAD l = true ∧ U16_IS_TRAIL t = true)) :
    (parseString sv pre.length allowDash p).1 = p.rules.length ∧
    (parseString sv pre.length allowDash p).2.raw = x ++ e ++ y ∧
    (wellFormed16 (x ++ e ++ y) = true → (∀ u ∈ x ++ e ++ y, u < 0x10000) →
      parseString sv pre.length allowDash p =
        (p.rules.length, { p with raw := x ++ e ++ y })) := by
  have hF : U_FAILURE p.errorCode = false := by rw [hok]; rfl
  have hd : p.rules.drop pre.length = x ++ (0x5c :: (e ++ y)) := by
    rw [hrules]; simp
  have hlen : p.rules.length = pre.length + (x.length + (1 + (e.length + y.length))) := by
    rw [hrules]; simp only [List.length_append, List.length_cons]; omega
  have hd1 : p.rules.drop (pre.length + x.length) = 0x5c :: (e ++ y) :=
    drop_add_of_drop_append hd
  obtain ⟨hi1, hc1, hd2⟩ := drop_cons_facts hd1
  have hskip : skipWhiteSpace sv p.rules pre.length = pre.length := by
    apply skipWhiteSpace_stop
    intro _
    cases x with
    | nil =>
      simp only [List.length_nil, Nat.add_zero] at hc1
      rw [hc1]; exact hws
    | cons u x =>
      obtain ⟨_, hcu, _⟩ := drop_cons_facts (by simpa using hd)
      rw [hcu]; exact (hx u (by simp)).2
  have helen : 1 ≤ e.length := by
    rcases he with ⟨u, rfl, _⟩ | ⟨l, t, rfl, _⟩ <;> simp
  have hi2 : pre.length + x.length + 1 < p.rules.length := by omega
  -- the code point after the backslash
  have hcp : U16_APPEND (char32At p.rules (pre.length + x.length + 1)) = e ∧
      U16_LENGTH (char32At p.rules (pre.length + x.length + 1)) = e.length := by
    have h32 := char32At_after_backslash p.rules (pre.length + x.length) hi2 hc1
    rcases he with ⟨u, rfl, hu, hnot⟩ | ⟨l, t, rfl, hl, ht⟩
    · obtain ⟨_, hcu, hd3⟩ := drop_cons_facts (by simpa using hd2)
      have hcond : ¬ (U16_IS_LEAD (charAt p.rules (pre.length + x.length + 1)) = true ∧
          pre.length + x.length + 2 < p.rules.length ∧
          U16_IS_TRAIL (charAt p.rules (pre.length + x.length + 2)) = true) := by
        rintro ⟨h1, h2, h3⟩
        apply hnot
        rw [hcu] at h1
        refine ⟨h1, ?_⟩
        cases y with
        | nil =>
          simp only [List.length_cons, List.length_nil] at hlen
          omega
        | cons t y =>
          obtain ⟨_, hct, _⟩ := drop_cons_facts hd3
          exact ⟨t, rfl, by rw [← hct]; exact h3⟩
      rw [if_neg hcond, hcu] at h32
      rw [h32]
      exact U16_APPEND_bmp u hu
    · obtain ⟨_, hcl, hd3⟩ := drop_cons_facts (by simpa using hd2)
      obtain ⟨hi3, hct, _⟩ := drop_cons_facts hd3
      have hcond : U16_IS_LEAD (charAt p.rules (pre.length + x.length + 1)) = true ∧
          pre.length + x.length + 2 < p.rules.length ∧
          U16_IS_TRAIL (charAt p.rules (pre.length + x.length + 2)) = true :=
        ⟨by rw [hcl]; exact hl, hi3, by rw [hct]; exact ht⟩
      rw [if_pos hcond, hcl, hct] at h32
      rw [h32]
      exact U16_APPEND_supplementary l t hl ht
  have hd3 : p.rules.drop (pre.length + x.length + 1 + e.length) = y :=
    drop_add_of_drop_append hd2
  have hloop : parseStringLoop sv allowDash (p.rules.length - pre.length) pre.length
      { p with raw := [] } = (false, p.rules.length, { p with raw := x ++ e ++ y }) := by
    have hfuel : p.rules.length - pre.length = (e.length + y.length) + 1 + x.length := by
      rw [hlen, Nat.add_sub_cancel_left]
      omega
    rw [hfuel]
    refine (parseStringLoop_plain sv allowDash x (0x5c :: (e ++ y)) _ pre.length
      { p with raw := [] } hx hd).trans ?_
    refine (parseStringLoop_backslash sv allowDash _ (pre.length + x.length)
      { p with raw := [] ++ x } hi2 hc1).trans ?_
    show parseStringLoop sv allowDash (e.length + y.length)
      (pre.length + x.length + 1 + U16_LENGTH (char32At p.rules (pre.length + x.length + 1)))
      { p with raw := [] ++ x ++ U16_APPEND (char32At p.rules (pre.length + x.length + 1)) } = _
    rw [hcp.1, hcp.2]
    refine (parseStringLoop_plain sv allowDash y [] _ (pre.length + x.length + 1 + e.length)
      { p with raw := [] ++ x ++ e } hy (by simpa using hd3)).trans ?_
    refine (parseStringLoop_end sv allowDash _ _ _ (by
      show p.rules.length ≤ pre.length + x.length + 1 + e.length + y.length
      omega)).trans ?_
    have e1 : pre.length + x.length + 1 + e.length + y.length = p.rules.length := by omega
    rw [e1]
    simp
  have hne : ¬ (x ++ e ++ y).isEmpty = true := by
    intro h
    have := List.isEmpty_iff.mp h
    have := congrArg List.length this
    simp only [List.length_append, List.length_nil] at this
    omega
  have hres : parseString sv pre.length allowDash p =
      (p.rules.length,
        checkStringLoop (x ++ e ++ y).length 0 { p with raw := x ++ e ++ y }) := by
    unfold parseString
    rw [if_neg (by rw [hF]; decide)]
    simp only []
    rw [hskip, hloop]
    simp only []
    rw [if_neg hne]
  rw [hres]
  refine ⟨rfl, raw_checkStringLoop _ _ _, ?_⟩
  intro hw hu
  rw [checkStringLoop_wellFormed { p with raw := x ++ e ++ y } (x ++ e ++ y).length
    (x ++ e ++ y) 0 (by simp) hw hu (le_refl _)]

/-- Instances of `parseString_escape`: `a\<b` decodes to `a<b`, `\ ` to a space, `\'` to an
apostrophe, `\\` to a backslash, and `\` before the surrogate pair of U+1F600 decodes to
that pair, with `z` after it read as the next character. -/
theorem parseString_escape_witness :
    parseString sampleServices 0 false
        { newParser sampleSettings with rules := [0x61, 0x5c, 0x3c, 0x62] } =
      (4, { newParser sampleSettings with rules := [0x61, 0x5c, 0x3c, 0x62],
                                          raw := [0x61, 0x3c, 0x62] }) ∧
    parseString sampleServices 0 false
        { newParser sampleSettings with rules := [0x5c, 0x20] } =
      (2, { newParser sampleSettings with rules := [0x5c, 0x20], raw := [0x20] }) ∧
    parseString sampleServices 0 false
        { newParser sampleSettings with rules := [0x5c, 0x27] } =
      (2, { newParser sampleSettings with rules := [0x5c, 0x27], raw := [0x27] }) ∧
    parseString sampleServices 0 false
        { newParser sampleSettings with rules := [0x5c, 0x5c] } =
      (2, { newParser sampleSettings with rules := [0x5c, 0x5c], raw := [0x5c] }) ∧
    parseString sampleServices 0 false
        { newParser sampleSettings with rules := [0x5c, 0xd83d, 0xde00, 0x7a] } =
      (4, { newParser sampleSettings with rules := [0x5c, 0xd83d, 0xde00, 0x7a],
                                          raw := [0xd83d, 0xde00, 0x7a] }) :=
  ⟨(parseString_escape sampleServices false
      { newParser sampleSettings with rules := [0x61, 0x5c, 0x3c, 0x62] } [] [0x61] [0x3c]
      [0x62] rfl rfl rfl (by decide) (by decide)
      (Or.inl ⟨0x3c, rfl, by decide, by decide⟩)).2.2 (by decide) (by decide),
   (parseString_escape sampleServices false
      { newParser sampleSettings with rules := [0x5c, 0x20] } [] [] [0x20] []
      rfl rfl rfl (by decide) (by decide)
      (Or.inl ⟨0x20, rfl, by decide, by decide⟩)).2.2 (by decide) (by decide),
   (parseString_escape sampleServices false
      { newParser sampleSettings with rules := [0x5c, 0x27] } [] [] [0x27] []
      rfl rfl rfl (by decide) (by decide)
      (Or.inl ⟨0x27, rfl, by decide, by decide⟩)).2.2 (by decide) (by decide),
   (parseString_escape sampleServices false
      { newParser sampleSettings with rules := [0x5c, 0x5c] } [] [] [0x5c] []
      rfl rfl rfl (by decide) (by decide)
      (Or.inl ⟨0x5c, rfl, by decide, by decide⟩)).2.2 (by decide) (by decide),
   (parseString_escape sampleServices false
      { newParser sampleSettings with rules := [0x5c, 0xd83d, 0xde00, 0x7a] } [] []
      [0xd83d, 0xde00] [0x7a]
      rfl rfl rfl (by decide) (by decide)
      (Or.inr ⟨0xd83d, 0xde00, rfl, by decide, by decide⟩)).2.2 (by decide) (by decide)⟩


end CollationRuleParser

namespace IndicReordering

theorem stateTable_entries :
    ∀ row ∈ stateTable, row.length = CC_COUNT ∧ ∀ e ∈ row, -1 ≤ e ∧ e ≤ 13 := by
  decide

theorem stateTable_ground : ∀ e ∈ stateTable.headD [], 1 ≤ e := by
  decide

theorem stateTableAt_some (state : Int) (column : Nat) (h0 : 0 ≤ state) (h13 : state ≤ 13)
    (hc : column < CC_COUNT) :
    ∃ e, stateTableAt state column = some e ∧ -1 ≤ e ∧ e ≤ 13 ∧ (state = 0 → 1 ≤ e) := by
  have key : ∀ s : Fin 14, ∀ c : Fin 16,
      ∃ e, stateTableAt (s.val : Int) c.val = some e ∧ -1 ≤ e ∧ e ≤ 13 ∧
        ((s.val : Int) = 0 → 1 ≤ e) := by
    decide
  obtain ⟨n, hn⟩ := Int.eq_ofNat_of_zero_le h0
  subst hn
  have hn : n < 14 := by omega
  exact key ⟨n, hn⟩ ⟨column, hc⟩

theorem findSyllableLoop_range (getCharClass : Nat → Nat) (mask : Nat) (chars : List Nat)
    (charCount : Int) (hcount : charCount ≤ chars.length)
    (hclass : ∀ ch ∈ chars, getCharClass ch &&& mask < CC_COUNT) :
    ∀ (fuel : Nat) (cursor state : Int), 0 ≤ cursor → cursor ≤ charCount →
      0 ≤ state → state ≤ 13 → (charCount - cursor).toNat < fuel →
      ∃ r, findSyllableLoop getCharClass mask chars charCount fuel cursor state = some r ∧
        cursor ≤ r ∧ r ≤ charCount ∧ (state = 0 → cursor < charCount → cursor < r) := by
  intro fuel
  induction fuel with
  | zero => intro cursor state _ _ _ _ h; omega
  | succ fuel ih =>
    intro cursor state hc0 hcc hs0 hs13 hfuel
    rw [findSyllableLoop]
    by_cases hlt : cursor < charCount
    · rw [if_pos hlt]
      obtain ⟨n, hn⟩ := Int.eq_ofNat_of_zero_le hc0
      subst hn
      have hn : n < chars.length := by omega
      have hch : charsAt chars (n : Int) = some (chars.get ⟨n, hn⟩) := by
        simp [charsAt, List.get?_eq_get hn]
      rw [hch]
      dsimp only
      obtain ⟨e, he, he1, he13, heg⟩ := stateTableAt_some state
        (getCharClass (chars.get ⟨n, hn⟩) &&& mask) hs0 hs13
        (hclass _ (List.get_mem chars n hn))
      rw [he]
      dsimp only
      by_cases hneg : e < 0
      · rw [if_pos hneg]
        refine ⟨n, rfl, le_refl _, le_of_lt hlt, ?_⟩
        intro h0 _
        have := heg h0
        omega
      · rw [if_neg hneg]
        obtain ⟨r, hr, h1, h2, _⟩ := ih ((n : Int) + 1) e (by omega) (by omega) (by omega) he13
          (by omega)
        exact ⟨r, hr, by omega, h2, fun _ _ => by omega⟩
    · rw [if_neg hlt]
      exact ⟨cursor, rfl, le_refl _, hcc, fun _ h => absurd h hlt⟩

/-- C40: `findSyllable` makes progress and stays in range.  Every entry of `stateTable` is
between -1 and 13, so it is a row of the table or the stop value, and row 0, the ground
state, has no -1.  Hence, for a class table whose classes under the mask are columns of the
table, an array `chars` of at least `charCount` units and `0 ≤ prev < charCount`, the call
returns, no read falls outside `chars` or `stateTable`, and the result lies above `prev` and
is at most `charCount`; when `prev ≥ charCount` the result is `prev`.  So a caller that sets
`prev` to the result while `prev < charCount` ends after at most `charCount` calls. -/
theorem findSyllable_progress (getCharClass : Nat → Nat) (CF_CLASS_MASK : Nat)
    (chars : List Nat) (prev charCount : Int) (fuel : Nat)
    (hprev : prev < charCount → 0 ≤ prev ∧ charCount ≤ chars.length)
    (hclass : ∀ ch ∈ chars, getCharClass ch &&& CF_CLASS_MASK < CC_COUNT)
    (hfuel : (charCount - prev).toNat < fuel) :
    (∀ row ∈ stateTable, ∀ e ∈ row, -1 ≤ e ∧ e ≤ 13) ∧
    (∀ e ∈ stateTable.headD [], e ≠ -1) ∧
    ∃ r, findSyllable getCharClass CF_CLASS_MASK chars prev charCount fuel = some r ∧
      (prev < charCount → prev < r ∧ r ≤ charCount) ∧
      (charCount ≤ prev → r = prev) := by
  refine ⟨fun row hrow => (stateTable_entries row hrow).2,
    fun e he => by have := stateTable_ground e he; omega, ?_⟩
  by_cases hlt : prev < charCount
  · obtain ⟨h0, hcount⟩ := hprev hlt
    obtain ⟨r, hr, _, h2, h3⟩ := findSyllableLoop_range getCharClass CF_CLASS_MASK chars
      charCount hcount hclass fuel prev 0 h0 (le_of_lt hlt) (le_refl _) (by decide) hfuel
    exact ⟨r, hr, fun _ => ⟨h3 rfl hlt, h2⟩, fun h => by omega⟩
  · obtain ⟨n, rfl⟩ : ∃ n, fuel = n + 1 := ⟨fuel - 1, by omega⟩
    refine ⟨prev, ?_, fun h => absurd h hlt, fun _ => rfl⟩
    rw [findSyllable, findSyllableLoop, if_neg hlt]

/-- An instance of `findSyllable_progress`: with a class table that maps U+0915 to the
consonant class 6, U+094D to the virama class 13 and everything else to class 0, the
syllable that starts at 0 in `U+0915 U+094D U+0915 U+0041` ends at 3. -/
theorem findSyllable_progress_witness :
    findSyllable (fun ch => if ch = 0x915 then 6 else if ch = 0x94d then 13 else 0) 0xffff
      [0x915, 0x94d, 0x915, 0x41] 0 4 5 = some 3 ∧
    ∃ r, findSyllable (fun ch => if ch = 0x915 then 6 else if ch = 0x94d then 13 else 0) 0xffff
      [0x915, 0x94d, 0x915, 0x41] 0 4 5 = some r ∧
      ((0 : Int) < 4 → 0 < r ∧ r ≤ 4) ∧ ((4 : Int) ≤ 0 → r = 0) :=
  ⟨by decide,
   (findSyllable_progress (fun ch => if ch = 0x915 then 6 else if ch = 0x94d then 13 else 0)
      0xffff [0x915, 0x94d, 0x915, 0x41] 0 4 5 (fun _ => by decide) (by decide)
      (by decide)).2.2⟩

end IndicReordering

